import Mathlib

/-!
# Gate finder of CryptoMiniSat (`Solver/GateFinder.cpp`)

A shallow embedding of the gate subsystem: recognition of OR gates
(`findOrGate`, `findOrGates`), clause shortening (`shortenWithOrGate`) and
AND-gate contraction (`treatAndGate`, `treatAndGateClause`,
`findAndGateOtherCl`, `calculateSortedOcc`).

Conventions of the embedding.

* Vectors indexed by a literal (`implCache`, `watches`, `occur`, `gateOcc`,
  `gateOccEq`, `seen`, `seen2`) are total functions of the literal's integer;
  `clauseData` and `sizeSortedOcc` are total functions of their index.
* `subsumer->clauses` is a list of optional clauses (`none` is `NULL`); reading
  a `NULL` or out-of-range slot, undefined in the source, yields the empty clause.
* `subsumer->toDecrease` is a pointer to a budget counter; it is a `BudgetPtr`
  (a counter and a displacement) and the counters live in `cells`.
* Counters are unbounded naturals and integers.
* Every call that leaves the file (`unlinkClause`, `addClauseInt`,
  `linkInClause`) is recorded in `trace`, oldest first. What the solver core
  answers to `addClauseInt`, what `findSubsumed0` finds and how statistics are
  combined are parameters of the model (`Ext`).
* `unlinkClause` and `linkInClause` are modelled from the spec; the budget that
  they charge inside the subsumer is not modelled.
* The loops over `occur[...]` run over the list as it stood when the loop began.
* Assertions of the source are not executed.
-/

namespace GateFinder

/-! ## Data model -/

/-- Modelled from the spec: a literal is the integer `v<<1 | s` (the type `Lit` is declared in a
header that is not part of the sources at hand). -/
structure Lit where
  x : Nat
deriving DecidableEq, Repr

namespace Lit

/-- The method `toInt`. -/
def toInt (l : Lit) : Nat := l.x

/-- The method `var`: the variable of the literal. -/
def var (l : Lit) : Nat := l.x / 2

/-- The method `sign`: true for a negated variable. -/
def sign (l : Lit) : Bool := l.x % 2 == 1

/-- The operator `~`: toggles the sign bit. -/
def neg (l : Lit) : Lit := ⟨if l.x % 2 = 0 then l.x + 1 else l.x - 1⟩

/-- The constructor `Lit(var, sign)`. -/
def ofVar (v : Nat) (s : Bool) : Lit := ⟨2 * v + (if s then 1 else 0)⟩

end Lit

/-- Modelled from the spec: clause statistics (activity, glue, conflict number of introduction);
the class `ClauseStats` is declared outside the sources at hand. -/
structure ClauseStats where
  glue : Nat
  activity : Nat
  conflictNumIntroduced : Nat
deriving DecidableEq, Repr

/-- A clause of the arena: its literals, the learnt flag and the statistics. -/
structure Clause where
  lits : List Lit
  learnt : Bool
  stats : ClauseStats
deriving DecidableEq, Repr

/-- An entry of the implication cache: `getLit` and `getOnlyNLBin`. -/
structure LitExtra where
  lit : Lit
  onlyNLBin : Bool
deriving DecidableEq, Repr

/-- A watch-list entry: `isBinary`, `getOtherLit`, `getLearnt`. -/
structure Watched where
  isBinary : Bool
  otherLit : Lit
  learnt : Bool
deriving DecidableEq, Repr

/-- Modelled from the spec: the class `OrGate` is declared in `GateFinder.h`, which is not part of
the sources at hand. A gate holds its inputs in the order given, its output `eqLit`, and the flags
`learnt` and `removed`. -/
structure OrGate where
  lits : List Lit
  eqLit : Lit
  learnt : Bool
  removed : Bool
deriving DecidableEq, Repr

/-- Modelled from the spec: the constructor `OrGate(lits, eqLit, learnt)` of `GateFinder.h`;
a new gate is not removed. -/
def OrGate.new (lits : List Lit) (eqLit : Lit) (learnt : Bool) : OrGate :=
  ⟨lits, eqLit, learnt, false⟩

/-- Modelled from the spec: `OrGate::operator==` of `GateFinder.h` ("identical inputs", and the
same output). -/
def OrGate.same (g h : OrGate) : Bool := g.eqLit == h.eqLit && g.lits == h.lits

/-- The entry of `subsumer->clauseData` for one clause. -/
structure ClauseData where
  abst : Nat
  size : Nat
  defOfOrGate : Bool
deriving DecidableEq, Repr

/-- The budget counters of the gate finder. -/
inductive Counter where
  | numMaxGateFinder
  | numMaxShortenWithGates
  | numMaxClRemWithGates
  | numMaxCreateNewVars
deriving DecidableEq, Repr

/-- A pointer to a budget cell: the counter it was taken from and a displacement in cells. -/
structure BudgetPtr where
  base : Counter
  off : Int
deriving DecidableEq, Repr

/-- A call that leaves `GateFinder.cpp`. -/
inductive Event where
  | unlinkClause (c : Nat)
  | addClauseInt (lits : List Lit) (learnt : Bool) (stats : ClauseStats)
  | linkInClause (cl : Clause)
  | addClauseIntDefault (lits : List Lit)
  | addXorClauseInt (lits : List Lit) (rhs : Bool)
  | newVar (v : Nat)
deriving DecidableEq, Repr

/-- Modelled from the spec: the struct `NewGateData` is declared in `GateFinder.h`, which is not
part of the sources at hand. Its constructor takes the two literals, the number of clauses that
the gate would shorten and the potential, in this order; the source reads the two counts back
as `numLitRem` and `numClRem`. -/
structure NewGateData where
  lit1 : Lit
  lit2 : Lit
  numLitRem : Nat
  numClRem : Nat
deriving DecidableEq, Repr

/-- The state read and written by the gate finder: its own members, and the members of the
subsumer and of the solver core that it touches. -/
structure State where
  clauses : List (Option Clause)
  clauseData : Nat → ClauseData
  occur : Nat → List Nat
  implCache : Nat → List LitExtra
  watches : Nat → List Watched
  seen : Nat → Bool
  seen2 : Nat → Bool
  cells : BudgetPtr → Int
  toDecrease : BudgetPtr
  orGates : List OrGate
  gateOccEq : Nat → List Nat
  gateOcc : Nat → List Nat
  sizeSortedOcc : Nat → List Nat
  dontElim : Nat → Bool
  maxGateSize : Nat
  ok : Bool
  numOrGateReplaced : Nat
  gateLitsRemoved : Int
  andGateNumFound : Nat
  andGateTotalSize : Nat
  trace : List Event
  numVars : Nat
  value : Nat → Option Bool
  decisionVar : Nat → Bool
  elimed : Nat → Bool
  sumConflicts : Nat
  randCalls : Nat
  numERVars : Nat
  totalVarsAdded : Nat

/-- The empty clause, read where the source dereferences a missing clause. -/
def Clause.empty : Clause := ⟨[], false, ⟨0, 0, 0⟩⟩

/-- The clause `*subsumer->clauses[c]`. -/
def State.clauseAt (st : State) (c : Nat) : Clause :=
  ((st.clauses.getD c none).getD Clause.empty)

/-- The statement `*subsumer->toDecrease -= n`. -/
def State.charge (st : State) (n : Nat) : State :=
  { st with cells := Function.update st.cells st.toDecrease (st.cells st.toDecrease - (n : Int)) }

/-- The value `*subsumer->toDecrease`. -/
def State.budget (st : State) : Int := st.cells st.toDecrease

/-! ## Recognition: `findOrGate` -/

/-- The loop of `findOrGate` over the implication cache of `~otherLit`; it runs while `!OK`.
The pair is `(wasLearnt, OK)`. -/
def scanCache (learntGatesToo : Bool) (eqLit : Lit) : List LitExtra → Bool × Bool → Bool × Bool
  | [], acc => acc
  | e :: es, (wasLearnt, ok) =>
    if ok then (wasLearnt, ok)
    else if (learntGatesToo || e.onlyNLBin) && e.lit == eqLit then
      scanCache learntGatesToo eqLit es (wasLearnt || !e.onlyNLBin, true)
    else scanCache learntGatesToo eqLit es (wasLearnt, ok)

/-- The loop of `findOrGate` over the watch list of `otherLit`; it runs while `!OK` and looks at
binary watches only. -/
def scanWatches (learntGatesToo : Bool) (eqLit : Lit) : List Watched → Bool × Bool → Bool × Bool
  | [], acc => acc
  | w :: ws, (wasLearnt, ok) =>
    if ok then (wasLearnt, ok)
    else if !w.isBinary then scanWatches learntGatesToo eqLit ws (wasLearnt, ok)
    else if (learntGatesToo || !w.learnt) && w.otherLit == eqLit then
      scanWatches learntGatesToo eqLit ws (wasLearnt || w.learnt, true)
    else scanWatches learntGatesToo eqLit ws (wasLearnt, ok)

/-- The first loop of `findOrGate` over the literals of the clause. The result is the state (only
the budget changes), the flag `wasLearnt` and the flag `isEqual`. -/
def findOrGateLoop (eqLit : Lit) (learntGatesToo : Bool) :
    List Lit → State → Bool → State × Bool × Bool
  | [], st, wasLearnt => (st, wasLearnt, true)
  | l2 :: rest, st, wasLearnt =>
    if l2 = eqLit.neg then findOrGateLoop eqLit learntGatesToo rest st wasLearnt
    else
      let otherLit := l2
      let cache := st.implCache otherLit.neg.toInt
      let st1 := st.charge cache.length
      let r1 := scanCache learntGatesToo eqLit cache (wasLearnt, false)
      let ws := st.watches otherLit.toInt
      let st2 := st1.charge ws.length
      let r2 := scanWatches learntGatesToo eqLit ws r1
      if !r2.2 then (st2, r2.1, false)
      else findOrGateLoop eqLit learntGatesToo rest st2 r2.1

/-- The dedup loop of `findOrGate` over `gateOccEq[eqLit]`: is some posted gate the same? -/
def hasSimilar (orGates : List OrGate) (gate : OrGate) : List Nat → Bool
  | [] => false
  | i :: is =>
    if ((orGates.get? i).map (fun g => g.same gate)).getD false then true
    else hasSimilar orGates gate is

/-- The function `GateFinder::findOrGate`. -/
def findOrGate (st : State) (eqLit : Lit) (c : Nat) (learntGatesToo wasLearnt : Bool) : State :=
  let cl := st.clauseAt c
  let r := findOrGateLoop eqLit learntGatesToo cl.lits st wasLearnt
  let st1 := r.1
  if !r.2.2 then st1
  else
    let lits := cl.lits.filter (fun l2 => !(l2 == eqLit.neg))
    let gate := OrGate.new lits eqLit r.2.1
    if hasSimilar st1.orGates gate (st1.gateOccEq gate.eqLit.toInt) then st1
    else
      let st2 := st1.charge (gate.lits.length * 2)
      let id := st2.orGates.length
      let st3 : State :=
        { st2 with
          orGates := st2.orGates ++ [gate]
          clauseData := Function.update st2.clauseData c
            { st2.clauseData c with defOfOrGate := true }
          gateOccEq := Function.update st2.gateOccEq gate.eqLit.toInt
            (st2.gateOccEq gate.eqLit.toInt ++ [id]) }
      if !r.2.1 then
        { st3 with
          gateOcc := gate.lits.foldl
            (fun occ lit => Function.update occ lit.toInt (occ lit.toInt ++ [id])) st3.gateOcc }
      else st3

/-! ## Recognition: `findOrGates` -/

/-- The pre-filter loop of `findOrGates(bool)`: counts the literals with an empty cache and an
empty watch list, and stops as soon as the count exceeds one. -/
def countSizeZero (st : State) : List Lit → Nat → Nat
  | [], n => n
  | lit :: rest, n =>
    if (st.implCache lit.neg.toInt).length == 0 && (st.watches lit.toInt).length == 0 then
      if n + 1 > 1 then n + 1 else countSizeZero st rest (n + 1)
    else countSizeZero st rest n

/-- The last loop of the body of `findOrGates(bool)`: one `findOrGate` call per literal. -/
def tryAllOutputs (c : Nat) (learntGatesToo wasLearnt : Bool) : List Lit → State → State
  | [], st => st
  | l :: rest, st =>
    tryAllOutputs c learntGatesToo wasLearnt rest (findOrGate st l.neg c learntGatesToo wasLearnt)

/-- The loop of `findOrGates(bool)` over the arena, from slot `num` on. -/
def findOrGatesLoop (learntGatesToo : Bool) : List (Option Clause) → Nat → State → State
  | [], _, st => st
  | none :: rest, num, st => findOrGatesLoop learntGatesToo rest (num + 1) st
  | some cl :: rest, num, st =>
    if st.budget < 0 then st
    else if cl.lits.length > st.maxGateSize then findOrGatesLoop learntGatesToo rest (num + 1) st
    else if !learntGatesToo && cl.learnt then findOrGatesLoop learntGatesToo rest (num + 1) st
    else if countSizeZero st cl.lits 0 > 1 then findOrGatesLoop learntGatesToo rest (num + 1) st
    else
      findOrGatesLoop learntGatesToo rest (num + 1)
        (tryAllOutputs num learntGatesToo cl.learnt cl.lits st)

/-- The function `GateFinder::findOrGates(const bool learntGatesToo)`. -/
def findOrGatesWith (learntGatesToo : Bool) (st : State) : State :=
  findOrGatesLoop learntGatesToo st.clauses 0 st

/-- The function `GateFinder::clearIndexes`. -/
def clearIndexes (st : State) : State :=
  { st with
    clauseData := fun i => { st.clauseData i with defOfOrGate := false }
    orGates := []
    gateOcc := fun _ => []
    gateOccEq := fun _ => [] }

/-- The function `GateFinder::findOrGates()`; the statistics it prints are left out. -/
def findOrGates (st : State) : State :=
  let st1 := clearIndexes st
  let st2 : State :=
    { st1 with
      cells := Function.update st1.cells ⟨Counter.numMaxGateFinder, 0⟩ 100000000
      toDecrease := ⟨Counter.numMaxGateFinder, 0⟩ }
  findOrGatesWith true st2

/-! ## The subsumer and the solver core, as far as the gate applier uses them -/

/-- Modelled from the spec: the width of an abstraction signature; the constant is defined in a
header that is not part of the sources at hand. -/
def CLAUSE_ABST_SIZE : Nat := 32

/-- The bit of a variable in an abstraction signature: `1UL << (var % CLAUSE_ABST_SIZE)`. -/
def abstBit (v : Nat) : Nat := 1 <<< (v % CLAUSE_ABST_SIZE)

/-- Modelled from the spec: `calcAbstraction`, the signature with the bit of every variable of
the literals (the function is defined outside the sources at hand). -/
def calcAbstraction (ls : List Lit) : Nat :=
  ls.foldl (fun a l => a ||| abstBit l.var) 0

/-- What `addClauseInt` answers: the solver's `ok` flag after the call, the clause allocated
(`none` when the clause was absorbed) and the watch lists after the call. -/
structure AddResult where
  ok : Bool
  cl : Option Clause
  watches : Nat → List Watched

/-- What `addXorClauseInt` answers: its return value and the solver's `ok` flag after the
call. -/
structure XorResult where
  ret : Bool
  ok : Bool

/-- The collaborators whose code is not part of the sources at hand and about which the spec
fixes nothing: the answer of `addClauseInt` in a given state (with all four arguments, and with
the literals only), `ClauseStats::combineStats`, the indices returned by `findSubsumed0`
together with the budget it charges, the answer of `addXorClauseInt`, `getNumUnsetVars`, the
random source (the value of the `k`-th call of `randInt` with a given bound), `std::sort`
followed by `std::unique` on the candidates, `std::sort` with `OrGateSorter2` on the gates,
and the default-constructed `ClauseStats()`. -/
structure Ext where
  addClauseInt : State → List Lit → Bool → ClauseStats → AddResult
  combineStats : ClauseStats → ClauseStats → ClauseStats
  findSubsumed0 : State → List Lit → Nat → List Nat × Nat
  addClauseIntDefault : State → List Lit → AddResult
  addXorClauseInt : State → List Lit → Bool → XorResult
  getNumUnsetVars : State → Nat
  randInt : Nat → Nat → Nat
  sortUnique : List NewGateData → List NewGateData
  sortGates : List OrGate → List OrGate
  defaultStats : ClauseStats

/-- Modelled from the spec: `Subsumer::unlinkClause`, defined outside the sources at hand; the
slot of the clause becomes `NULL` and its index leaves every occurrence list. -/
def unlinkClause (st : State) (c : Nat) : State :=
  { st with
    clauses := st.clauses.set c none
    occur := fun n => (st.occur n).filter (fun i => !(i == c))
    trace := st.trace ++ [Event.unlinkClause c] }

/-- Modelled from the spec: `Subsumer::linkInClause`, defined outside the sources at hand; the
clause gets a fresh slot at the end of the arena, its abstraction and size are stored, and its
index enters the occurrence list of each of its literals. -/
def linkInClause (st : State) (cl : Clause) : State :=
  let idx := st.clauses.length
  { st with
    clauses := st.clauses ++ [some cl]
    clauseData := Function.update st.clauseData idx
      ⟨calcAbstraction cl.lits, cl.lits.length, false⟩
    occur := fun n => if cl.lits.any (fun l => l.toInt == n) then st.occur n ++ [idx]
      else st.occur n
    trace := st.trace ++ [Event.linkInClause cl] }

/-- The call `control->addClauseInt(lits, learnt, stats, false)`: the call is recorded, the
solver's `ok` flag and the watch lists are those of the answer. The clause returned is the
second component. -/
def addClauseInt (ext : Ext) (st : State) (lits : List Lit) (learnt : Bool)
    (stats : ClauseStats) : State × Option Clause :=
  let r := ext.addClauseInt st lits learnt stats
  ({ st with
      ok := r.ok
      watches := r.watches
      trace := st.trace ++ [Event.addClauseInt lits learnt stats] }, r.cl)

/-! ## OR-gate clause shortening: `shortenWithOrGate` -/

/-- The loop of `shortenWithOrGate` that looks for the gate's output in the clause: `none` when
no literal is on the output's variable, `some true` when the first such literal is the output
(`eqLitInside`), `some false` when it is its negation (`removedClause`). -/
def scanEqLit (eqLit : Lit) : List Lit → Option Bool
  | [] => none
  | l :: rest =>
    if eqLit.var == l.var then
      if eqLit == l then some true else some false
    else scanEqLit eqLit rest

/-- The loop of `shortenWithOrGate` that sets up the future clause: the literals that are not
inputs of the gate, and the number of literals that are. -/
def dropInputs (gateLits : List Lit) : List Lit → List Lit × Nat
  | [] => ([], 0)
  | lit :: rest =>
    let r := dropInputs gateLits rest
    if gateLits.any (fun g => g == lit) then (r.1, r.2 + 1) else (lit :: r.1, r.2)

/-- The end of the body of the loop of `shortenWithOrGate`: the old clause is unlinked, the new
literals are submitted, and the clause that comes back, if any, is linked in. The flag is false
when the solver became inconsistent and the function returns false. -/
def replaceClause (ext : Ext) (st : State) (c : Nat) (lits : List Lit) (learnt : Bool)
    (stats : ClauseStats) : State × Bool :=
  let st3 := unlinkClause st c
  let a := addClauseInt ext st3 lits learnt stats
  if !a.1.ok then (a.1, false)
  else
    match a.2 with
    | none => (a.1, true)
    | some newCl => (linkInClause a.1 newCl, true)

/-- The body of the loop of `shortenWithOrGate` for the clause index `c`. The flag is false when
the function returns false. -/
def shortenClause (ext : Ext) (gate : OrGate) (st : State) (c : Nat) : State × Bool :=
  if (st.clauseData c).defOfOrGate || (!(st.clauseAt c).learnt && gate.learnt) then (st, true)
  else
    let st1 := { st with numOrGateReplaced := st.numOrGateReplaced + 1 }
    let cl := st1.clauseAt c
    match scanEqLit gate.eqLit cl.lits with
    | some false => (unlinkClause st1 c, true)
    | found =>
      let eqLitInside := found == some true
      let r := dropInputs gate.lits cl.lits
      let lits := if eqLitInside then r.1 else r.1 ++ [gate.eqLit]
      let removed : Int := if eqLitInside then (r.2 : Int) else (r.2 : Int) - 1
      let st2 := { st1 with gateLitsRemoved := st1.gateLitsRemoved + removed }
      replaceClause ext st2 c lits cl.learnt cl.stats

/-- The loop of `shortenWithOrGate` over the clauses found by `findSubsumed0`. -/
def shortenLoop (ext : Ext) (gate : OrGate) : List Nat → State → State × Bool
  | [], st => (st, true)
  | c :: rest, st =>
    let r := shortenClause ext gate st c
    if r.2 then shortenLoop ext gate rest r.1 else (r.1, false)

/-- The function `GateFinder::shortenWithOrGate`. -/
def shortenWithOrGate (ext : Ext) (gate : OrGate) (st : State) : State × Bool :=
  let f := ext.findSubsumed0 st gate.lits (calcAbstraction gate.lits)
  shortenLoop ext gate f.1 (st.charge f.2)

/-! ## AND-gate contraction: `treatAndGate` -/

/-- The first input `gate.lits[0]`. -/
def OrGate.lit0 (g : OrGate) : Lit := g.lits.getD 0 ⟨0⟩

/-- The second input `gate.lits[1]`. -/
def OrGate.lit1 (g : OrGate) : Lit := g.lits.getD 1 ⟨0⟩

/-- Modelled from the spec: the operator `~` applied to a variable index, an unsigned 32-bit
integer (the type `Var` is declared outside the sources at hand): the bitwise complement. -/
def complVar (v : Nat) : Nat := 4294967295 - v % 4294967296

/-- The statement `subsumer->toDecrease -= n`, which moves the pointer. -/
def State.movePtr (st : State) (n : Nat) : State :=
  { st with toDecrease := ⟨st.toDecrease.base, st.toDecrease.off - (n : Int)⟩ }

/-- The inner loop of `calculateSortedOcc` over the literals of one clause: sets `seen2`, records
the bits set in `seen2Set`, and collects the abstraction. -/
def markSeen2 : List Lit → (Nat → Bool) × List Nat × Nat → (Nat → Bool) × List Nat × Nat
  | [], acc => acc
  | l :: rest, (seen2, seen2Set, abstraction) =>
    if !seen2 l.toInt then
      markSeen2 rest (Function.update seen2 l.toInt true, seen2Set ++ [l.toInt],
        abstraction ||| abstBit l.var)
    else markSeen2 rest (seen2, seen2Set, abstraction ||| abstBit l.var)

/-- The values that `calculateSortedOcc` hands back besides the state. -/
structure SortedOcc where
  st : State
  maxSize : Nat
  seen2Set : List Nat
  abstraction : Nat
  numOp : Nat

/-- The loop of `calculateSortedOcc` over `occur[~lits[1]]`. -/
def calculateSortedOccLoop (gate : OrGate) : List Nat → SortedOcc → SortedOcc
  | [], acc => acc
  | c :: rest, acc =>
    let cl := acc.st.clauseAt c
    if (acc.st.clauseData c).defOfOrGate || (!cl.learnt && gate.learnt) then
      calculateSortedOccLoop gate rest acc
    else
      let m := markSeen2 cl.lits (acc.st.seen2, acc.seen2Set, acc.abstraction)
      calculateSortedOccLoop gate rest
        { st := { acc.st with
                  sizeSortedOcc := Function.update acc.st.sizeSortedOcc cl.lits.length
                    (acc.st.sizeSortedOcc cl.lits.length ++ [c])
                  seen2 := m.1 }
          maxSize := max acc.maxSize cl.lits.length
          seen2Set := m.2.1
          abstraction := m.2.2
          numOp := acc.numOp + cl.lits.length }

/-- The function `GateFinder::calculateSortedOcc`; `maxSize` and `seen2Set` come in as the
caller initialised them. -/
def calculateSortedOcc (gate : OrGate) (st : State) (maxSize : Nat) (seen2Set : List Nat)
    (numOp : Nat) : SortedOcc :=
  let st1 := { st with sizeSortedOcc := fun _ => [] }
  let csOther := st1.occur gate.lit1.neg.toInt
  let st2 := st1.charge (csOther.length * 3)
  let r := calculateSortedOccLoop gate csOther ⟨st2, maxSize, seen2Set, 0, numOp⟩
  { r with abstraction := r.abstraction ||| abstBit gate.lit0.var }

/-- The test of `findAndGateOtherCl` on one clause: every literal other than `lit` is seen. -/
def allSeenBut (seen : Nat → Bool) (lit : Lit) (ls : List Lit) : Bool :=
  ls.all (fun l => l == lit || seen l.toInt)

/-- The loop of `findAndGateOtherCl`: the first clause of the bucket that is not a gate
definition, has the abstraction `abst2` and passes the `seen` test. -/
def findAndGateOtherClLoop (st : State) (lit : Lit) (abst2 : Nat) : List Nat → Option Nat
  | [] => none
  | c :: rest =>
    if (st.clauseData c).defOfOrGate || (st.clauseData c).abst != abst2 then
      findAndGateOtherClLoop st lit abst2 rest
    else if allSeenBut st.seen lit (st.clauseAt c).lits then some c
    else findAndGateOtherClLoop st lit abst2 rest

/-- The function `GateFinder::findAndGateOtherCl`: the state after the budget charge, and the
clause found. -/
def findAndGateOtherCl (st : State) (sizeSortedOcc : List Nat) (lit : Lit) (abst2 : Nat) :
    State × Option Nat :=
  let st1 := st.charge sizeSortedOcc.length
  (st1, findAndGateOtherClLoop st1 lit abst2 sizeSortedOcc)

/-- The function `GateFinder::treatAndGateClause`; the flag is its return value. -/
def treatAndGateClause (ext : Ext) (st : State) (other : Nat) (gate : OrGate) (cl : Clause) :
    State × Bool :=
  let st1 := { st with
    andGateNumFound := st.andGateNumFound + 1
    andGateTotalSize := st.andGateTotalSize + cl.lits.length }
  let lits := cl.lits.filter (fun l => !(l == gate.lit0.neg)) ++ [gate.eqLit.neg]
  let otherCl := st1.clauseAt other
  let st2 := st1.charge (otherCl.lits.length * 2)
  let learnt := otherCl.learnt && cl.learnt
  let stats := ext.combineStats cl.stats otherCl.stats
  let a := addClauseInt ext st2 lits learnt stats
  let st3 := match a.2 with
    | some newCl => linkInClause a.1 newCl
    | none => a.1
  if !st3.ok then (st3, false) else (st3, true)

/-- Insertion into the ordered set `clToUnlink`. -/
def setInsert (x : Nat) : List Nat → List Nat
  | [] => [x]
  | y :: ys => if x < y then x :: y :: ys else if x = y then y :: ys else y :: setInsert x ys

/-- The variables of the main loop of `treatAndGate`. -/
structure AndGateAcc where
  st : State
  foundPotential : Nat
  numOp : Nat
  clToUnlink : List Nat
  other : Option Nat

/-- The literals of a clause that `treatAndGate` marks in `seen`: all but `~lits[0]`. -/
def residual (gate : OrGate) (cl : Clause) : List Lit :=
  cl.lits.filter (fun l => !(l == gate.lit0.neg))

/-- The first test of the body of the main loop of `treatAndGate`: the clause is not a gate
definition, its stored abstraction lies within `abstraction`, its stored size is at most
`maxSize` and the bucket of its stored size is not empty. -/
def passesFilter (abstraction maxSize : Nat) (st : State) (c : Nat) : Bool :=
  !((st.clauseData c).defOfOrGate
    || ((st.clauseData c).abst ||| abstraction) != abstraction
    || decide ((st.clauseData c).size > maxSize)
    || (st.sizeSortedOcc (st.clauseData c).size).isEmpty)

/-- The loop of `treatAndGate` that computes `OK`: no literal other than `~lits[0]` is on the
complement of the variable of `lits[1]` or on the variable of `eqLit`, and each is in `seen2`. -/
def litsOk (gate : OrGate) (st : State) (cl : Clause) : Bool :=
  cl.lits.all (fun l => l == gate.lit0.neg ||
    !(l.var == complVar gate.lit1.var || l.var == gate.eqLit.var || !st.seen2 l.toInt))

/-- The loop of `treatAndGate` that sets `seen` for the literals other than `~lits[0]`. -/
def markSeen (gate : OrGate) (st : State) (cl : Clause) : State :=
  { st with seen := (residual gate cl).foldl (fun s l => Function.update s l.toInt true) st.seen }

/-- The abstraction `abst2` computed next to `seen`. -/
def abst2Of (gate : OrGate) (cl : Clause) : Nat :=
  calcAbstraction (residual gate cl) ||| abstBit gate.lit1.neg.var

/-- The loop of `treatAndGate` that clears `seen` for every literal of the clause. -/
def clearSeen (cl : Clause) (st : State) : State :=
  { st with seen := cl.lits.foldl (fun s l => Function.update s l.toInt false) st.seen }

/-- The body of the main loop of `treatAndGate` for the clause index `c` of `occur[~lits[0]]`.
The flag is false when the function returns false from inside the loop. -/
def treatAndGateBody (ext : Ext) (gate : OrGate) (reallyRemove : Bool) (abstraction maxSize : Nat)
    (acc : AndGateAcc) (c : Nat) : AndGateAcc × Bool :=
  if !passesFilter abstraction maxSize acc.st c then (acc, true)
  else
    let cl := acc.st.clauseAt c
    let numOp := acc.numOp + cl.lits.length
    if !cl.learnt && gate.learnt then ({ acc with numOp := numOp }, true)
    else if !litsOk gate acc.st cl then ({ acc with numOp := numOp }, true)
    else
      let st1 := markSeen gate acc.st cl
      let bucket := st1.sizeSortedOcc cl.lits.length
      let numOp2 := numOp + bucket.length * 5
      let f := findAndGateOtherCl st1 bucket gate.lit1.neg (abst2Of gate cl)
      match f.2 with
      | some d =>
        if reallyRemove then
          let t := treatAndGateClause ext f.1 d gate cl
          if !t.2 then
            (⟨t.1, acc.foundPotential + 1, numOp2, setInsert c (setInsert d acc.clToUnlink),
              some d⟩, false)
          else
            (⟨clearSeen cl t.1, acc.foundPotential + 1, numOp2,
              setInsert c (setInsert d acc.clToUnlink), some d⟩, true)
        else
          (⟨clearSeen cl f.1, acc.foundPotential + 1, numOp2, acc.clToUnlink, some d⟩, true)
      | none =>
        (⟨clearSeen cl f.1, acc.foundPotential, numOp2, acc.clToUnlink, acc.other⟩, true)

/-- The main loop of `treatAndGate` over `occur[~lits[0]]`, as the list stood when the loop
began. -/
def treatAndGateLoop (ext : Ext) (gate : OrGate) (reallyRemove : Bool) (abstraction maxSize : Nat) :
    List Nat → AndGateAcc → AndGateAcc × Bool
  | [], acc => (acc, true)
  | c :: rest, acc =>
    let r := treatAndGateBody ext gate reallyRemove abstraction maxSize acc c
    if r.2 then treatAndGateLoop ext gate reallyRemove abstraction maxSize rest r.1
    else (r.1, false)

/-- What `treatAndGate` hands back: the state, its return value, and the reference parameters
`foundPotential` and `numOp`. -/
structure AndGateResult where
  st : State
  ret : Bool
  foundPotential : Nat
  numOp : Nat

/-- The call of `calculateSortedOcc` in `treatAndGate`. -/
def sortedOcc (gate : OrGate) (st : State) (numOp : Nat) : SortedOcc :=
  calculateSortedOcc gate st 0 [] numOp

/-- The variables of `treatAndGate` when its main loop begins: the budget pointer has been
moved, `foundPotential` is zero and `clToUnlink` is empty. -/
def loopStart (gate : OrGate) (st : State) (numOp : Nat) : AndGateAcc :=
  let so := sortedOcc gate st numOp
  ⟨so.st.movePtr ((so.st.occur gate.lit0.neg.toInt).length * 3), 0, so.numOp, [], none⟩

/-- The main loop of `treatAndGate`, started as in `treatAndGate`, run over the clause indices
`cs`. -/
def runLoop (ext : Ext) (gate : OrGate) (reallyRemove : Bool) (st : State) (numOp : Nat)
    (cs : List Nat) : AndGateAcc × Bool :=
  treatAndGateLoop ext gate reallyRemove (sortedOcc gate st numOp).abstraction
    (sortedOcc gate st numOp).maxSize cs (loopStart gate st numOp)

/-- The step of the main loop of `treatAndGate` for the clause index `c`, after the loop has run
over the clause indices `pre`. -/
def stepAt (ext : Ext) (gate : OrGate) (reallyRemove : Bool) (st : State) (numOp : Nat)
    (pre : List Nat) (c : Nat) : AndGateAcc × Bool :=
  treatAndGateBody ext gate reallyRemove (sortedOcc gate st numOp).abstraction
    (sortedOcc gate st numOp).maxSize (runLoop ext gate reallyRemove st numOp pre).1 c

/-- The function `GateFinder::treatAndGate`. -/
def treatAndGate (ext : Ext) (gate : OrGate) (reallyRemove : Bool) (st : State)
    (foundPotential numOp : Nat) : AndGateResult :=
  if (st.occur gate.lit0.neg.toInt).isEmpty || (st.occur gate.lit1.neg.toInt).isEmpty then
    ⟨st, true, foundPotential, numOp⟩
  else
    let so := sortedOcc gate st numOp
    let cs := so.st.occur gate.lit0.neg.toInt
    let r := runLoop ext gate reallyRemove st numOp cs
    if !r.2 then ⟨r.1.st, false, r.1.foundPotential, r.1.numOp⟩
    else
      let st2 := { r.1.st with
        seen2 := so.seen2Set.foldl (fun s i => Function.update s i false) r.1.st.seen2 }
      let st3 := r.1.clToUnlink.foldl unlinkClause st2
      ⟨st3, true, r.1.foundPotential, r.1.numOp⟩

/-! ## Equivalent gates: `findEqOrGates` -/

/-- Modelled from the spec: `Lit::unsign`, the positive literal of the same variable (the class
`Lit` is declared outside the sources at hand). -/
def Lit.unsign (l : Lit) : Lit := Lit.ofVar l.var false

/-- The call `control->addXorClauseInt(tmp, RHS)`: the call is recorded and the solver's `ok`
flag is that of the answer. The second component is the value returned. -/
def addXorClauseInt (ext : Ext) (st : State) (lits : List Lit) (rhs : Bool) : State × Bool :=
  let r := ext.addXorClauseInt st lits rhs
  ({ st with ok := r.ok, trace := st.trace ++ [Event.addXorClauseInt lits rhs] }, r.ret)

/-- The loop of `findEqOrGates` over the pairs `(gates[i-1], gates[i])`. The flag is the value
returned. -/
def findEqLoop (ext : Ext) : List (OrGate × OrGate) → State → State × Bool
  | [], st => (st, true)
  | (gate1, gate2) :: rest, st =>
    if gate1.removed || gate2.removed then findEqLoop ext rest st
    else if gate1.lits == gate2.lits && gate1.eqLit.var != gate2.eqLit.var then
      let tmp := [gate1.eqLit.unsign, gate2.eqLit.unsign]
      let rhs := xor gate1.eqLit.sign gate2.eqLit.sign
      let r := addXorClauseInt ext st tmp rhs
      if !r.2 then (r.1, false) else findEqLoop ext rest r.1
    else findEqLoop ext rest st

/-- The function `GateFinder::findEqOrGates`. -/
def findEqOrGates (ext : Ext) (st : State) : State × Bool :=
  let gates := ext.sortGates st.orGates
  findEqLoop ext (gates.zip gates.tail) st

/-! ## Gate synthesis: `createNewVars` -/

/-- The function `GateFinder::newVar`, for the variable `v` that the vectors grow by: a cleared
`dontElim` bit and empty index lists for its two literals. -/
def newVar (st : State) (v : Nat) : State :=
  { st with
    dontElim := Function.update st.dontElim v false
    gateOcc := Function.update (Function.update st.gateOcc (2 * v) []) (2 * v + 1) []
    gateOccEq := Function.update (Function.update st.gateOccEq (2 * v) []) (2 * v + 1) [] }

/-- Modelled from the spec: `control->newVar()`, defined outside the sources at hand, allocates
a fresh variable: the next index is handed out, the call is recorded, and the gate finder's own
`newVar` runs for it. The second component is the variable. -/
def controlNewVar (st : State) : State × Nat :=
  (newVar { st with numVars := st.numVars + 1, trace := st.trace ++ [Event.newVar st.numVars] }
    st.numVars, st.numVars)

/-- The call `control->addClauseInt(tmp)` with the literals only. -/
def addClauseIntDefault (ext : Ext) (st : State) (lits : List Lit) : State × Option Clause :=
  let r := ext.addClauseIntDefault st lits
  ({ st with
      ok := r.ok
      watches := r.watches
      trace := st.trace ++ [Event.addClauseIntDefault lits] }, r.cl)

/-- The test of `createNewVars` on a sampled variable: it is unset, a decision variable and
not eliminated. -/
def eligible (st : State) (v : Nat) : Bool :=
  !(st.value v != none || !st.decisionVar v || st.elimed v)

/-- The variables of the sampling loop of `createNewVars`. -/
structure Sample where
  st : State
  newGates : List NewGateData
  numOp : Nat

/-- The scoring of a pair of literals in `createNewVars`: `findSubsumed0` counts the clauses the
gate would shorten, `treatAndGate` in scoring mode counts the potential, and the pair is kept
when the counts are high enough. -/
def scorePair (ext : Ext) (acc : Sample) (lit1 lit2 : Lit) : Sample :=
  let f := ext.findSubsumed0 acc.st [lit1, lit2] (calcAbstraction [lit1, lit2])
  let st1 := acc.st.charge f.2
  let r : AndGateResult :=
    if acc.numOp < 100000000 then
      treatAndGate ext (OrGate.new [lit1, lit2] (Lit.ofVar 0 false) false) false st1 0 acc.numOp
    else ⟨st1, true, 0, acc.numOp⟩
  let potential := r.foundPotential
  if potential > 5 || f.1.length > 100 || (potential > 1 && f.1.length > 50) then
    ⟨r.st, acc.newGates ++ [⟨lit1, lit2, f.1.length, potential⟩], r.numOp⟩
  else ⟨r.st, acc.newGates, r.numOp⟩

/-- The body of the sampling loop of `createNewVars`, after the budget test. The random source
is asked for the two variables and, when both are eligible, for the two signs. -/
def sampleBody (ext : Ext) (size : Nat) (acc : Sample) : Sample :=
  let var1 := ext.randInt acc.st.randCalls size
  let var2 := ext.randInt (acc.st.randCalls + 1) size
  let st1 := { acc.st with randCalls := acc.st.randCalls + 2 }
  if var1 = var2 then { acc with st := st1 }
  else if !eligible st1 var1 then { acc with st := st1 }
  else if !eligible st1 var2 then { acc with st := st1 }
  else
    let a := Lit.ofVar var1 (ext.randInt st1.randCalls 1 != 0)
    let b := Lit.ofVar var2 (ext.randInt (st1.randCalls + 1) 1 != 0)
    let st2 := { st1 with randCalls := st1.randCalls + 2 }
    if a.toInt > b.toInt then scorePair ext { acc with st := st2 } b a
    else scorePair ext { acc with st := st2 } a b

/-- The sampling loop of `createNewVars`; the first argument is the number of tries left. -/
def sampleLoop (ext : Ext) (size : Nat) : Nat → Sample → Sample
  | 0, acc => acc
  | fuel + 1, acc =>
    if acc.st.budget < 50000000 then acc
    else sampleLoop ext size fuel (sampleBody ext size acc)

/-- The body of the last loop of `createNewVars` after its test: a new variable, the gate, its
index entries and the three clauses. The result is `none` when an assertion of the source
fails. -/
def materialise (ext : Ext) (st : State) (n : NewGateData) : Option State :=
  let nv := controlNewVar st
  let st1 := { nv.1 with dontElim := Function.update nv.1.dontElim nv.2 true }
  let newLit := Lit.ofVar nv.2 false
  let gate := OrGate.new [n.lit1, n.lit2] newLit false
  let id := st1.orGates.length
  let st2 : State :=
    { st1 with
      orGates := st1.orGates ++ [gate]
      gateOccEq := Function.update st1.gateOccEq gate.eqLit.toInt
        (st1.gateOccEq gate.eqLit.toInt ++ [id]) }
  let st3 : State :=
    { st2 with
      gateOcc := gate.lits.foldl
        (fun occ lit => Function.update occ lit.toInt (occ lit.toInt ++ [id])) st2.gateOcc }
  let a1 := addClauseIntDefault ext st3 [newLit, n.lit1.neg]
  if a1.2.isSome || !a1.1.ok then none
  else
    let a2 := addClauseIntDefault ext a1.1 [newLit, n.lit2.neg]
    if a2.2.isSome || !a2.1.ok then none
    else
      let a3 := addClauseInt ext a2.1 [newLit.neg, n.lit1, n.lit2] false ext.defaultStats
      match a3.2 with
      | none => none
      | some cl =>
        if !a3.1.ok then none
        else
          let c := a3.1.clauses.length
          let st4 := linkInClause a3.1
            { cl with stats := { cl.stats with conflictNumIntroduced := a3.1.sumConflicts } }
          some { st4 with
            clauseData := Function.update st4.clauseData c
              { st4.clauseData c with defOfOrGate := true } }

/-- The test at the head of the last loop of `createNewVars` for the candidate at position `i`.
The comparison `i > (double)getNumUnsetVars() * 0.01` holds exactly when the count is below
`100 * i`: converting and multiplying are monotone and keep every integer up to `2 ^ 53`. -/
def stops (ext : Ext) (st : State) (i : Nat) (n : NewGateData) : Bool :=
  (decide (i > 50) && decide (n.numLitRem < 1000) && decide (n.numClRem < 25))
    || decide (ext.getNumUnsetVars st < 100 * i)
    || decide (i > 100)

/-- The last loop of `createNewVars`, from position `i` on; the last argument is `addedNum`. -/
def materialiseLoop (ext : Ext) : List NewGateData → Nat → State → Nat → Option (State × Nat)
  | [], _, st, addedNum => some (st, addedNum)
  | n :: rest, i, st, addedNum =>
    if stops ext st i n then some (st, addedNum)
    else
      match materialise ext st n with
      | none => none
      | some st2 =>
        materialiseLoop ext rest (i + 1) { st2 with numERVars := st2.numERVars + 1 }
          (addedNum + 1)

/-- The value `size` of `createNewVars`: `(uint32_t)control->getNumUnsetVars() - 1`. -/
def sampleSize (ext : Ext) (st : State) : Nat :=
  (ext.getNumUnsetVars st % 4294967296 + 4294967295) % 4294967296

/-- The bound on `tries` in `createNewVars`: `std::min(100000U, size*size/2)`, the product
being one of unsigned 32-bit integers. -/
def sampleCap (size : Nat) : Nat := min 100000 (size * size % 4294967296 / 2)

/-- The state and the candidates of `createNewVars` when its sampling loop ends. -/
def sampled (ext : Ext) (st : State) : Sample :=
  let st0 := { st with toDecrease := ⟨Counter.numMaxCreateNewVars, 0⟩ }
  let size := sampleSize ext st0
  sampleLoop ext size (sampleCap size) ⟨st0, [], 0⟩

/-- The ranking of `createNewVars`: the candidates sorted and deduplicated. -/
def ranking (ext : Ext) (st : State) : List NewGateData :=
  ext.sortUnique (sampled ext st).newGates

/-- The function `GateFinder::createNewVars`; the result is the state and the number of
variables added, or `none` when an assertion of the source fails. -/
def createNewVars (ext : Ext) (st : State) : Option (State × Nat) :=
  match materialiseLoop ext (ranking ext st) 0 (sampled ext st).st 0 with
  | none => none
  | some r => some ({ r.1 with totalVarsAdded := r.1.totalVarsAdded + r.2 }, r.2)

/-- The function `GateFinder::extendedResolution`; the second component is the value
returned, and the result is `none` when an assertion fails, the entry assertion `control->ok`
or one inside `createNewVars`. -/
def extendedResolution (ext : Ext) (st : State) : Option (State × Bool) :=
  if !st.ok then none
  else
    match createNewVars ext (clearIndexes st) with
    | none => none
    | some r => some (r.1, r.1.ok)

/-! ## Applying the gates: `doAllOptimisationWithGates` -/

/-- The switches of `control->conf` that `doAllOptimisationWithGates` reads. -/
structure Conf where
  doShortenWithOrGates : Bool
  doRemClWithAndGates : Bool
  doFindEqLitsWithGates : Bool

/-- The loop of the OR-gate treatment over the store. The flag is false when the function
returns false from inside the loop. -/
def shortenGatesLoop (ext : Ext) : List OrGate → State → State × Bool
  | [], st => (st, true)
  | g :: rest, st =>
    if g.removed then shortenGatesLoop ext rest st
    else if st.budget < 0 then (st, true)
    else
      let r := shortenWithOrGate ext g st
      if !r.2 then (r.1, false) else shortenGatesLoop ext rest r.1

/-- The OR-gate treatment of `doAllOptimisationWithGates`: the counters and the budget are
set up and every live gate of the store is applied once, in store order. The cumulative
statistics and the timing are left out. -/
def shortenPhase (ext : Ext) (st : State) : State × Bool :=
  let st1 : State :=
    { st with
      gateLitsRemoved := 0
      numOrGateReplaced := 0
      cells := Function.update st.cells ⟨Counter.numMaxShortenWithGates, 0⟩ 100000000
      toDecrease := ⟨Counter.numMaxShortenWithGates, 0⟩ }
  shortenGatesLoop ext st1.orGates st1

/-- The loop of the AND-gate treatment over the store; `foundPotential` and `numOp` are the
local variables handed to `treatAndGate` by reference. -/
def andGatesLoop (ext : Ext) : List OrGate → State → Nat → Nat → State × Bool
  | [], st, _, _ => (st, true)
  | g :: rest, st, foundPotential, numOp =>
    if g.removed || decide (g.lits.length > 2) then andGatesLoop ext rest st foundPotential numOp
    else if st.budget < 0 then (st, true)
    else
      let r := treatAndGate ext g true st foundPotential numOp
      if !r.ret then (r.st, false) else andGatesLoop ext rest r.st r.foundPotential r.numOp

/-- The AND-gate treatment of `doAllOptimisationWithGates`. The local `foundPotential` is not
initialised in the source; `treatAndGate` only writes it, and it starts here at 0. The
cumulative statistics and the timing are left out. -/
def andPhase (ext : Ext) (st : State) : State × Bool :=
  let st1 : State :=
    { st with
      cells := Function.update st.cells ⟨Counter.numMaxClRemWithGates, 0⟩ 100000000
      toDecrease := ⟨Counter.numMaxClRemWithGates, 0⟩
      andGateNumFound := 0
      andGateTotalSize := 0 }
  andGatesLoop ext st1.orGates st1 0 0

/-- The function `GateFinder::doAllOptimisationWithGates`; the second component is the value
returned, and the result is `none` when the assertion `control->ok` on entry fails. -/
def doAllOptimisationWithGates (ext : Ext) (conf : Conf) (st : State) : Option (State × Bool) :=
  if !st.ok then none
  else
    let r1 := if conf.doShortenWithOrGates then shortenPhase ext st else (st, true)
    if !r1.2 then some (r1.1, false)
    else
      let r2 := if conf.doRemClWithAndGates then andPhase ext r1.1 else (r1.1, true)
      if !r2.2 then some (r2.1, false)
      else if conf.doFindEqLitsWithGates then
        let r3 := findEqOrGates ext r2.1
        if !r3.2 then some (r3.1, false) else some (r3.1, true)
      else some (r2.1, true)

/-- The function `GateFinder::treatOrGates`; the second component is the value returned,
`control->ok`, and the result is `none` when an assertion `control->ok` fails. -/
def treatOrGates (ext : Ext) (conf : Conf) (st : State) : Option (State × Bool) :=
  if !st.ok then none
  else
    match doAllOptimisationWithGates ext conf
      { st with gateLitsRemoved := 0, numOrGateReplaced := 0 } with
    | none => none
    | some r => some (r.1, r.1.ok)

/-! ## Semantics of literals and clauses -/

/-- The truth value of a literal under an assignment of the variables. -/
def Lit.eval (σ : Nat → Bool) (l : Lit) : Bool := σ l.var != l.sign

/-- A sequence of literals, read as a clause, holds under `σ` when one of its literals does. -/
def satLits (σ : Nat → Bool) (ls : List Lit) : Bool := ls.any (Lit.eval σ)

/-- A clause database, as a list of clauses, entails a clause. -/
def entails (db : List (List Lit)) (ls : List Lit) : Prop :=
  ∀ σ : Nat → Bool, (∀ c ∈ db, satLits σ c = true) → satLits σ ls = true

/-- The definition of a gate, `eqLit ⇔ (OR of lits)`, holds under `σ`. -/
def OrGate.holds (σ : Nat → Bool) (g : OrGate) : Prop :=
  g.eqLit.eval σ = satLits σ g.lits

/-! ## Vocabulary of the statements about recognition -/

/-- A cache entry that `findOrGate` accepts as a witness. -/
def cacheWitness (learntGatesToo : Bool) (eqLit : Lit) (e : LitExtra) : Bool :=
  (learntGatesToo || e.onlyNLBin) && e.lit == eqLit

/-- A watch that `findOrGate` accepts as a witness. -/
def watchWitness (learntGatesToo : Bool) (eqLit : Lit) (w : Watched) : Bool :=
  w.isBinary && ((learntGatesToo || !w.learnt) && w.otherLit == eqLit)

/-- The literal `o` has an admissible witness of the binary clause `¬o ∨ eqLit`: a cache entry
under `¬o`, or a binary watch in the watch list of `o`; a learnt witness is admissible only when
`learntGatesToo` holds. -/
def hasWitness (st : State) (learntGatesToo : Bool) (eqLit o : Lit) : Prop :=
  (∃ e ∈ st.implCache o.neg.toInt,
      e.lit = eqLit ∧ (learntGatesToo = true ∨ e.onlyNLBin = true)) ∨
  (∃ w ∈ st.watches o.toInt,
      w.isBinary = true ∧ w.otherLit = eqLit ∧ (learntGatesToo = true ∨ w.learnt = false))

/-- The learnt flag of the witness accepted for `o`: the first admissible cache entry if there is
one, else the first admissible binary watch; `none` when there is no admissible witness. -/
def acceptedWitness (st : State) (learntGatesToo : Bool) (eqLit o : Lit) : Option Bool :=
  match (st.implCache o.neg.toInt).find? (cacheWitness learntGatesToo eqLit) with
  | some e => some (!e.onlyNLBin)
  | none => ((st.watches o.toInt).find? (watchWitness learntGatesToo eqLit)).map (fun w => w.learnt)

/-- Every literal of clause `c` other than `¬eqLit` has an accepted witness. -/
def allWitnessed (st : State) (eqLit : Lit) (c : Nat) (learntGatesToo : Bool) : Bool :=
  (st.clauseAt c).lits.all
    (fun o => o == eqLit.neg || (acceptedWitness st learntGatesToo eqLit o).isSome)

/-- The inputs of the gate built from clause `c` for the output `eqLit`: the literals of the clause
other than `¬eqLit`. -/
def gateInputs (st : State) (eqLit : Lit) (c : Nat) : List Lit :=
  (st.clauseAt c).lits.filter (fun l2 => !(l2 == eqLit.neg))

/-- The gate that `findOrGate` builds from clause `c` for the output `eqLit` once every input is
witnessed: learnt when `wasLearnt` holds on entry or an accepted witness is learnt. -/
def candidateGate (st : State) (eqLit : Lit) (c : Nat) (learntGatesToo wasLearnt : Bool) : OrGate :=
  OrGate.new (gateInputs st eqLit c) eqLit
    (wasLearnt || (st.clauseAt c).lits.any
      (fun o => !(o == eqLit.neg) && acceptedWitness st learntGatesToo eqLit o == some true))

/-- The state after a gate built from clause `c` is added to the store: the gate is appended, the
clause is flagged, the gate is posted in the output index and, if it is not learnt, in the input
index. -/
def State.post (st : State) (c : Nat) (gate : OrGate) : State :=
  { st with
    orGates := st.orGates ++ [gate]
    clauseData := Function.update st.clauseData c { st.clauseData c with defOfOrGate := true }
    gateOccEq := Function.update st.gateOccEq gate.eqLit.toInt
      (st.gateOccEq gate.eqLit.toInt ++ [st.orGates.length])
    gateOcc :=
      if gate.learnt then st.gateOcc
      else gate.lits.foldl
        (fun occ lit => Function.update occ lit.toInt (occ lit.toInt ++ [st.orGates.length]))
        st.gateOcc }

/-- Every gate of the store is posted in the output index at its output literal. -/
def State.posted (st : State) : Prop :=
  ∀ i g, st.orGates.get? i = some g → i ∈ st.gateOccEq g.eqLit.toInt

/-- No two entries of the store have the same inputs and the same output literal. -/
def State.noDup (st : State) : Prop :=
  ∀ i j g h, st.orGates.get? i = some g → st.orGates.get? j = some h →
    g.lits = h.lits → g.eqLit = h.eqLit → i = j

/-- The pass `findOrGates(learntGatesToo)` under a budget that never runs out: the loop of the
function with the test `*subsumer->toDecrease < 0` never firing. -/
def unlimitedLoop (learntGatesToo : Bool) : List (Option Clause) → Nat → State → State
  | [], _, st => st
  | none :: rest, num, st => unlimitedLoop learntGatesToo rest (num + 1) st
  | some cl :: rest, num, st =>
    if cl.lits.length > st.maxGateSize then unlimitedLoop learntGatesToo rest (num + 1) st
    else if !learntGatesToo && cl.learnt then unlimitedLoop learntGatesToo rest (num + 1) st
    else if countSizeZero st cl.lits 0 > 1 then unlimitedLoop learntGatesToo rest (num + 1) st
    else
      unlimitedLoop learntGatesToo rest (num + 1)
        (tryAllOutputs num learntGatesToo cl.learnt cl.lits st)

/-- The function `findOrGates(learntGatesToo)` under a budget that never runs out. -/
def findOrGatesUnlimited (learntGatesToo : Bool) (st : State) : State :=
  unlimitedLoop learntGatesToo st.clauses 0 st

/-- The state whose budget cell, the one `toDecrease` designates, holds `B`. -/
def State.withBudget (st : State) (B : Int) : State :=
  { st with cells := Function.update st.cells st.toDecrease B }

/-- The state whose budget cell is raised by `d`. -/
def State.shift (st : State) (d : Int) : State :=
  st.withBudget (st.budget + d)

/-! ## Vocabulary of the statements about the gate applier -/

/-- The events that a step from `st` to `st2` added to the trace. -/
def newEvents (st st2 : State) : List Event := st2.trace.drop st.trace.length

/-- The clause is not skipped by `shortenWithOrGate` and `treatAndGate`: it is not the
definition of a gate, and it is learnt if the gate is. -/
def notSkipped (gate : OrGate) (st : State) (c : Nat) : Prop :=
  (st.clauseData c).defOfOrGate = false ∧ ((st.clauseAt c).learnt = true ∨ gate.learnt = false)

/-- The literals of a clause that are not inputs of the gate, in their original order. -/
def nonInputs (gate : OrGate) (ls : List Lit) : List Lit :=
  ls.filter (fun l => decide (l ∉ gate.lits))

/-- The state in which `findAndGateOtherCl` searches the twin of clause `c`: `seen` is marked
and the budget is charged. -/
def searchState (gate : OrGate) (st : State) (c : Nat) : State :=
  (markSeen gate st (st.clauseAt c)).charge (st.sizeSortedOcc (st.clauseAt c).lits.length).length

/-- The twin that `findAndGateOtherCl` finds for clause `c` in the bucket of its size, if any. -/
def twinOf (gate : OrGate) (st : State) (c : Nat) : Option Nat :=
  findAndGateOtherClLoop (searchState gate st c) gate.lit1.neg (abst2Of gate (st.clauseAt c))
    (st.sizeSortedOcc (st.clauseAt c).lits.length)

/-- What the main loop of `treatAndGate` keeps true between two steps, when `seen` was all
false on entry: `seen` is all false, the arena has only grown, and the buckets are those set up
by `calculateSortedOcc`. -/
def LoopInv (gate : OrGate) (st : State) (numOp : Nat) (acc : AndGateAcc) : Prop :=
  (∀ n, acc.st.seen n = false) ∧
  (∃ extra, acc.st.clauses = st.clauses ++ extra) ∧
  acc.st.sizeSortedOcc = (sortedOcc gate st numOp).st.sizeSortedOcc

/-- The step of the main loop of `treatAndGate` for clause `c` finds a twin: the clause passes
the tests of the step and `findAndGateOtherCl` answers true. -/
def findsTwin (gate : OrGate) (abstraction maxSize : Nat) (st : State) (c : Nat) : Bool :=
  passesFilter abstraction maxSize st c && !(!(st.clauseAt c).learnt && gate.learnt) &&
    litsOk gate st (st.clauseAt c) && (twinOf gate st c).isSome

/-- The number of clauses of `cs` for which the main loop of `treatAndGate`, in scoring mode and
with the loop variables `acc`, finds a twin; each clause is examined when the loop reaches
it. -/
def twinsFound (ext : Ext) (gate : OrGate) (abstraction maxSize : Nat) :
    List Nat → AndGateAcc → Nat
  | [], _ => 0
  | c :: rest, acc =>
    (if findsTwin gate abstraction maxSize acc.st c then 1 else 0) +
      twinsFound ext gate abstraction maxSize rest
        (treatAndGateBody ext gate false abstraction maxSize acc c).1

/-- The step from state `s` to state `t` keeps clause `c`: its slot is still in the arena and
holds what it held, its entry of `clauseData` is the same, the calls recorded since `s` do not
unlink it, and its index is still in every occurrence list it was in. -/
def Kept (c : Nat) (s t : State) : Prop :=
  c < t.clauses.length ∧
  t.clauses.get? c = s.clauses.get? c ∧
  t.clauseData c = s.clauseData c ∧
  (∃ ev, t.trace = s.trace ++ ev ∧ Event.unlinkClause c ∉ ev) ∧
  (∀ n, c ∈ s.occur n → c ∈ t.occur n)

/-- The neighbours `(gates[i-1], gates[i])` of the sorted copy that `findEqOrGates` makes. -/
def neighbours (ext : Ext) (st : State) : List (OrGate × OrGate) :=
  (ext.sortGates st.orGates).zip (ext.sortGates st.orGates).tail

/-- Two neighbours are live gates with identical inputs and different output variables. -/
def eqPair (p : OrGate × OrGate) : Bool :=
  !p.1.removed && !p.2.removed && p.1.lits == p.2.lits && p.1.eqLit.var != p.2.eqLit.var

/-- The submission of the constraint `var(out1) ⊕ var(out2) = sign(out1) XOR sign(out2)` for
a pair of gates. -/
def xorEvent (p : OrGate × OrGate) : Event :=
  Event.addXorClauseInt [p.1.eqLit.unsign, p.2.eqLit.unsign] (xor p.1.eqLit.sign p.2.eqLit.sign)

/-- An XOR constraint, the exclusive or of the literals equals `rhs`, holds under `σ`. -/
def xorHolds (σ : Nat → Bool) (ls : List Lit) (rhs : Bool) : Bool :=
  ls.foldl (fun b l => xor b (l.eval σ)) false == rhs

/-- The state in which the last loop of `createNewVars`, started in `st` on the candidates
`cands`, tests the candidate at position `i`, when the candidates before it have all been
materialised. -/
def stateAt (ext : Ext) : List NewGateData → State → Nat → Option State
  | _, st, 0 => some st
  | [], _, _ + 1 => none
  | n :: rest, st, i + 1 =>
    match materialise ext st n with
    | none => none
    | some st2 => stateAt ext rest { st2 with numERVars := st2.numERVars + 1 } i

/-- The gates of the candidates `cands`, the first with the output variable `w`, the next with
`w + 1`, and so on. -/
def gatesOf : List NewGateData → Nat → List OrGate
  | [], _ => []
  | n :: rest, w => OrGate.new [n.lit1, n.lit2] (Lit.ofVar w false) false :: gatesOf rest (w + 1)

/-- The occurrence lists are those of the arena: every index listed under a literal is a slot
of the arena holding a clause with that literal. -/
def State.occurWf (st : State) : Prop :=
  ∀ (l : Lit) (i : Nat), i ∈ st.occur l.toInt →
    ∃ cl, st.clauses.get? i = some (some cl) ∧ l ∈ cl.lits

/-- The clause `cl` with index `d` has been taken up by `calculateSortedOcc`: its index is in
the bucket of its size, `maxSize` is at least its size, each of its literals is set in `seen2`
and the bit of each of its literals is in the abstraction. -/
def Recorded (x : SortedOcc) (d : Nat) (cl : Clause) : Prop :=
  d ∈ x.st.sizeSortedOcc cl.lits.length ∧
  cl.lits.length ≤ x.maxSize ∧
  (∀ l ∈ cl.lits, x.st.seen2 l.toInt = true) ∧
  (∀ l ∈ cl.lits, abstBit l.var ||| x.abstraction = x.abstraction)

/-- The loop variables of `calculateSortedOcc` after the step for a clause `c` that is not
skipped. -/
def sortedOccStep (acc : SortedOcc) (c : Nat) : SortedOcc :=
  { st := { acc.st with
            sizeSortedOcc := Function.update acc.st.sizeSortedOcc (acc.st.clauseAt c).lits.length
              (acc.st.sizeSortedOcc (acc.st.clauseAt c).lits.length ++ [c])
            seen2 := (markSeen2 (acc.st.clauseAt c).lits
              (acc.st.seen2, acc.seen2Set, acc.abstraction)).1 }
    maxSize := max acc.maxSize (acc.st.clauseAt c).lits.length
    seen2Set := (markSeen2 (acc.st.clauseAt c).lits
      (acc.st.seen2, acc.seen2Set, acc.abstraction)).2.1
    abstraction := (markSeen2 (acc.st.clauseAt c).lits
      (acc.st.seen2, acc.seen2Set, acc.abstraction)).2.2
    numOp := acc.numOp + (acc.st.clauseAt c).lits.length }

/-- The event is a call of `unlinkClause`. -/
def Event.isUnlink : Event → Bool
  | Event.unlinkClause _ => true
  | _ => false

/-- The event is a call of the four-argument `addClauseInt`. -/
def Event.isAddClause : Event → Bool
  | Event.addClauseInt _ _ _ => true
  | _ => false

/-- The step from `s` to `t` counts its shortenings: `numOrGateReplaced` grows by the number
of `unlinkClause` calls recorded; when there is none, no call at all is recorded and
`gateLitsRemoved` is what it was. -/
def ShortenCounts (s t : State) : Prop :=
  ∃ ev, t.trace = s.trace ++ ev ∧
    t.numOrGateReplaced = s.numOrGateReplaced + ev.countP Event.isUnlink ∧
    (ev.countP Event.isUnlink = 0 → ev = [] ∧ t.gateLitsRemoved = s.gateLitsRemoved)

/-- The step from `s` to `t` counts its contractions: `andGateNumFound` grows by the number of
`addClauseInt` calls recorded, and the counters of the shortening pass are what they were. -/
def AndCounts (s t : State) (ev : List Event) : Prop :=
  t.trace = s.trace ++ ev ∧
  t.andGateNumFound = s.andGateNumFound + ev.countP Event.isAddClause ∧
  t.numOrGateReplaced = s.numOrGateReplaced ∧
  t.gateLitsRemoved = s.gateLitsRemoved

/-- The submission of the XOR constraint for a pair of gates: the state after the call of
`addXorClauseInt` and its answer. -/
def submitXor (ext : Ext) (st : State) (p : OrGate × OrGate) : State × Bool :=
  addXorClauseInt ext st [p.1.eqLit.unsign, p.2.eqLit.unsign] (xor p.1.eqLit.sign p.2.eqLit.sign)

/-- The state after the constraints for the pairs `qs` have been submitted, one after the
other. -/
def submitted (ext : Ext) (qs : List (OrGate × OrGate)) (st : State) : State :=
  qs.foldl (fun s p => (submitXor ext s p).1) st

/-- The step from `s` to `t` lets the database evolve as the gate applier does: every slot of
the arena of `s` is still there and holds what it held or nothing, its entry of `clauseData` is
the same, its index is in no occurrence list that it was not in, the gate store is the same, and
the occurrence lists are those of the arena if they were. -/
def Evolves (s t : State) : Prop :=
  s.clauses.length ≤ t.clauses.length ∧
  (∀ i, i < s.clauses.length →
    t.clauses.get? i = s.clauses.get? i ∨ t.clauses.get? i = some none) ∧
  (∀ i, i < s.clauses.length → t.clauseData i = s.clauseData i) ∧
  (∀ i n, i < s.clauses.length → i ∈ t.occur n → i ∈ s.occur n) ∧
  t.orGates = s.orGates ∧
  (s.occurWf → t.occurWf)

/-- The step from `s` to `t` leaves the database, the gate store, the trace, the solver's `ok`
flag and the three counters as they were. -/
def Quiet (s t : State) : Prop :=
  t.clauses = s.clauses ∧ t.clauseData = s.clauseData ∧ t.occur = s.occur ∧
  t.orGates = s.orGates ∧ t.trace = s.trace ∧ t.ok = s.ok ∧
  t.numOrGateReplaced = s.numOrGateReplaced ∧ t.gateLitsRemoved = s.gateLitsRemoved ∧
  t.andGateNumFound = s.andGateNumFound

/-- The state in which the loop of the OR-gate treatment starts: the set-up of
`shortenPhase`. -/
def shortenStart (st : State) : State :=
  { st with
    gateLitsRemoved := 0
    numOrGateReplaced := 0
    cells := Function.update st.cells ⟨Counter.numMaxShortenWithGates, 0⟩ 100000000
    toDecrease := ⟨Counter.numMaxShortenWithGates, 0⟩ }

/-- The state in which the loop of the AND-gate treatment starts: the set-up of `andPhase`. -/
def andStart (st : State) : State :=
  { st with
    cells := Function.update st.cells ⟨Counter.numMaxClRemWithGates, 0⟩ 100000000
    toDecrease := ⟨Counter.numMaxClRemWithGates, 0⟩
    andGateNumFound := 0
    andGateTotalSize := 0 }

/-- The loop of the OR-gate treatment leaves at its budget test (`*toDecrease < 0`, the
`break`) before it has gone through the store. -/
def shortenCut (ext : Ext) : List OrGate → State → Bool
  | [], _ => false
  | g :: rest, st =>
    if g.removed then shortenCut ext rest st
    else if st.budget < 0 then true
    else
      let r := shortenWithOrGate ext g st
      if !r.2 then false else shortenCut ext rest r.1

/-- The loop of the AND-gate treatment leaves at its budget test (`*toDecrease < 0`, the
`break`) before it has gone through the store. -/
def andCut (ext : Ext) : List OrGate → State → Nat → Nat → Bool
  | [], _, _, _ => false
  | g :: rest, st, foundPotential, numOp =>
    if g.removed || decide (g.lits.length > 2) then andCut ext rest st foundPotential numOp
    else if st.budget < 0 then true
    else
      let r := treatAndGate ext g true st foundPotential numOp
      if !r.ret then false else andCut ext rest r.st r.foundPotential r.numOp

/-- A budget runs out during a run of `doAllOptimisationWithGates` with the OR-gate and the
AND-gate treatment switched on: one of the two loops over the store leaves at its budget
test. -/
def budgetOut (ext : Ext) (st : State) : Bool :=
  shortenCut ext (shortenStart st).orGates (shortenStart st) ||
    andCut ext (andStart (shortenPhase ext st).1).orGates (andStart (shortenPhase ext st).1) 0 0

/-! ## Scenarios -/

/-- The positive literal of variable `v`. -/
def pos (v : Nat) : Lit := Lit.ofVar v false

/-- The negative literal of variable `v`. -/
def ng (v : Nat) : Lit := Lit.ofVar v true

/-- A non-learnt binary watch on `other`. -/
def binWatch (other : Lit) : Watched := ⟨true, other, false⟩

/-- A state with nothing in it; the scenarios fill in the arena and the watch lists. -/
def emptyState : State :=
  { clauses := []
    clauseData := fun _ => ⟨0, 0, false⟩
    occur := fun _ => []
    implCache := fun _ => []
    watches := fun _ => []
    seen := fun _ => false
    seen2 := fun _ => false
    cells := fun _ => 0
    toDecrease := ⟨Counter.numMaxGateFinder, 0⟩
    orGates := []
    gateOccEq := fun _ => []
    gateOcc := fun _ => []
    sizeSortedOcc := fun _ => []
    dontElim := fun _ => false
    maxGateSize := 20
    ok := true
    numOrGateReplaced := 0
    gateLitsRemoved := 0
    andGateNumFound := 0
    andGateTotalSize := 0
    trace := []
    numVars := 0
    value := fun _ => none
    decisionVar := fun _ => true
    elimed := fun _ => false
    sumConflicts := 0
    randCalls := 0
    numERVars := 0
    totalVarsAdded := 0 }

/-- The long clause `¬1 ∨ 2 ∨ 3` of the first scenario. -/
def scenario1Clause : Clause := ⟨[ng 1, pos 2, pos 3], false, ⟨0, 0, 0⟩⟩

/-- The first scenario: the clauses `¬1 ∨ 2 ∨ 3`, `1 ∨ ¬2`, `1 ∨ ¬3`; the two binary clauses sit in
the watch lists of `¬1`, `2` and `3`. -/
def scenario1 : State :=
  { emptyState with
    clauses := [some scenario1Clause]
    watches := fun n =>
      if n = (ng 1).toInt then [binWatch (ng 2), binWatch (ng 3)]
      else if n = (pos 2).toInt then [binWatch (pos 1)]
      else if n = (pos 3).toInt then [binWatch (pos 1)]
      else [] }

/-- The clauses of the first scenario as a database. -/
def scenario1Db : List (List Lit) := [[ng 1, pos 2, pos 3], [pos 1, ng 2], [pos 1, ng 3]]

/-- A database with the long clauses `¬1 ∨ 2 ∨ 3` and `1 ∨ 2 ∨ 3` and the binary clauses
`1 ∨ ¬2`, `1 ∨ ¬3`, `¬1 ∨ ¬2`, `¬1 ∨ ¬3`, each binary clause in the watch lists of the negations
of its two literals. -/
def scenarioBothSigns : State :=
  { emptyState with
    clauses := [some ⟨[ng 1, pos 2, pos 3], false, ⟨0, 0, 0⟩⟩,
      some ⟨[pos 1, pos 2, pos 3], false, ⟨0, 0, 0⟩⟩]
    watches := fun n =>
      if n = (ng 1).toInt then [binWatch (ng 2), binWatch (ng 3)]
      else if n = (pos 1).toInt then [binWatch (ng 2), binWatch (ng 3)]
      else if n = (pos 2).toInt then [binWatch (pos 1), binWatch (ng 1)]
      else if n = (pos 3).toInt then [binWatch (pos 1), binWatch (ng 1)]
      else [] }

/-- Modelled from the spec: `findSubsumed0` finds the clauses of the arena that contain every
literal of `lits`; here in arena order and without a budget charge. -/
def findSubsumed0Spec (st : State) (lits : List Lit) (_abst : Nat) : List Nat × Nat :=
  ((List.range st.clauses.length).filter (fun i =>
    match st.clauses.getD i none with
    | some cl => lits.all (fun l => cl.lits.contains l)
    | none => false), 0)

/-- Modelled from the spec: the order of `OrGateSorter2`, declared in `GateFinder.h`: by inputs,
then by the variable of the output, then by its sign. -/
def gateBefore (g h : OrGate) : Bool :=
  let a := g.lits.map Lit.toInt
  let b := h.lits.map Lit.toInt
  if a = b then decide (g.eqLit.toInt ≤ h.eqLit.toInt) else decide (a ≤ b)

/-- Modelled from the spec: the sorted copy of the gates, "by inputs, output variable, output
sign"; the sort is an insertion sort. -/
def sortGatesSpec (gs : List OrGate) : List OrGate :=
  gs.insertionSort (fun g h => gateBefore g h = true)

/-- Modelled from the spec: the ranking of the candidates, "lexicographic by `(−potential,
−num_cl_removable)` so better candidates sort first". -/
def rankBefore (a b : NewGateData) : Bool :=
  if a.numClRem = b.numClRem then decide (b.numLitRem ≤ a.numLitRem)
  else decide (b.numClRem < a.numClRem)

/-- Modelled from the spec: "sort accepted candidates by descending benefit, deduplicate
adjacent equals". -/
def sortUniqueSpec (l : List NewGateData) : List NewGateData :=
  (l.insertionSort (fun a b => rankBefore a b = true)).destutter (fun a b => a ≠ b)

/-- The collaborators of the scenarios: the solver keeps a clause of three or more literals as
it is and absorbs a shorter one, never becomes inconsistent, and leaves the watch lists alone;
combined statistics are those of the first clause; every variable counts as unset, the random
source always answers 0, the candidates are ranked by potential and the gates are sorted by
inputs and output. -/
def scenarioExt : Ext :=
  { addClauseInt := fun st lits learnt stats =>
      ⟨true, if 3 ≤ lits.length then some ⟨lits, learnt, stats⟩ else none, st.watches⟩
    combineStats := fun a _ => a
    findSubsumed0 := findSubsumed0Spec
    addClauseIntDefault := fun st _ => ⟨true, none, st.watches⟩
    addXorClauseInt := fun _ _ _ => ⟨true, true⟩
    getNumUnsetVars := fun st => st.numVars
    randInt := fun _ _ => 0
    sortUnique := sortUniqueSpec
    sortGates := sortGatesSpec
    defaultStats := ⟨0, 0, 0⟩ }

/-- The state whose arena holds the given clauses, linked in, and nothing else. -/
def stateOf (cls : List Clause) : State :=
  { cls.foldl linkInClause emptyState with trace := [] }

/-- A non-learnt clause with the given literals. -/
def clauseOf (ls : List Lit) : Clause := ⟨ls, false, ⟨0, 0, 0⟩⟩

/-- The gate `1 ⇔ (2 ∨ 3)` of the scenarios. -/
def gate123 : OrGate := OrGate.new [pos 2, pos 3] (pos 1) false

/-- The assignment that makes every variable true. -/
def allTrue : Nat → Bool := fun _ => true

/-- The second scenario: the arena holds the clause `1 ∨ 2 ∨ 3 ∨ 4`. -/
def scenario2 : State := stateOf [clauseOf [pos 1, pos 2, pos 3, pos 4]]

/-- The third scenario: the arena holds the clause `¬1 ∨ 2 ∨ 3 ∨ 4`. -/
def scenario3 : State := stateOf [clauseOf [ng 1, pos 2, pos 3, pos 4]]

/-- The fourth scenario: the arena holds the clauses `¬2 ∨ 4 ∨ 5` and `¬3 ∨ 4 ∨ 5`. -/
def scenario4 : State := stateOf [clauseOf [ng 2, pos 4, pos 5], clauseOf [ng 3, pos 4, pos 5]]

/-- The fourth scenario with its first clause, `¬2 ∨ 4 ∨ 5`, flagged as the definition of a
gate. -/
def scenarioDefinition : State :=
  { scenario4 with
    clauseData := Function.update scenario4.clauseData 0
      { scenario4.clauseData 0 with defOfOrGate := true } }

/-- The gate `1 ⇔ (2 ∨ 3)`, learnt. -/
def learntGate123 : OrGate := OrGate.new [pos 2, pos 3] (pos 1) true

/-- An arena with the non-learnt clause `¬2 ∨ 4 ∨ 5` and the learnt clause `¬3 ∨ 4 ∨ 5`. -/
def scenarioMixed : State :=
  stateOf [clauseOf [ng 2, pos 4, pos 5], ⟨[ng 3, pos 4, pos 5], true, ⟨0, 0, 0⟩⟩]

/-- Collaborators for which every clause submitted through the four-argument `addClauseInt`
makes the solver inconsistent: the answer is `ok = false` and no clause. -/
def refusingExt : Ext :=
  { scenarioExt with addClauseInt := fun st _ _ _ => ⟨false, none, st.watches⟩ }

/-- The spec's equivalence scenario: the gates `5 ⇔ (2 ∨ 3)` and `6 ⇔ (2 ∨ 3)` are in the
store. -/
def scenarioTwoGates : State :=
  { emptyState with
    orGates := [OrGate.new [pos 2, pos 3] (pos 6) false, OrGate.new [pos 2, pos 3] (pos 5) false] }

/-- A store with the gates `5 ⇔ (2 ∨ 3)`, `6 ⇔ (2 ∨ 3)` and `7 ⇔ (2 ∨ 3)`. -/
def scenarioThreeGates : State :=
  { emptyState with
    orGates := [OrGate.new [pos 2, pos 3] (pos 5) false, OrGate.new [pos 2, pos 3] (pos 6) false,
      OrGate.new [pos 2, pos 3] (pos 7) false] }

/-- Collaborators for which the equivalence registry refuses every constraint:
`addXorClauseInt` returns false and the solver is inconsistent. -/
def refusingXorExt : Ext :=
  { scenarioExt with addXorClauseInt := fun _ _ _ => ⟨false, false⟩ }

/-- Collaborators of the synthesis scenario: those of the other scenarios, with a random source
that answers 1 to the first call, 2 to the second and 0 to every later call. -/
def samplingExt : Ext :=
  { scenarioExt with randInt := fun k _ => if k = 0 then 1 else if k = 1 then 2 else 0 }

/-- The synthesis scenario: a solver with the variables 0 to 7, all unset, a budget of `10 ^ 8`
in every cell, and for each of six pairs of literals `x, y` the clauses `¬1 ∨ x ∨ y` and
`¬2 ∨ x ∨ y`. -/
def scenarioSynthesis : State :=
  { stateOf [clauseOf [ng 1, pos 3, pos 4], clauseOf [ng 2, pos 3, pos 4],
      clauseOf [ng 1, pos 3, pos 5], clauseOf [ng 2, pos 3, pos 5],
      clauseOf [ng 1, pos 3, pos 6], clauseOf [ng 2, pos 3, pos 6],
      clauseOf [ng 1, pos 3, pos 7], clauseOf [ng 2, pos 3, pos 7],
      clauseOf [ng 1, pos 4, pos 5], clauseOf [ng 2, pos 4, pos 5],
      clauseOf [ng 1, pos 4, pos 6], clauseOf [ng 2, pos 4, pos 6]] with
    numVars := 8
    cells := fun _ => 100000000 }

/-- Collaborators for which the solver has 65537 unset variables. -/
def wideExt : Ext := { scenarioExt with getNumUnsetVars := fun _ => 65537 }

/-- An arena with the clause `¬2 ∨ 3 ∨ 4`, which holds the second input of the gate
`1 ⇔ (2 ∨ 3)`, and the clause `¬3 ∨ 3 ∨ 4`. -/
def scenarioSecondInput : State :=
  stateOf [clauseOf [ng 2, pos 3, pos 4], clauseOf [ng 3, pos 3, pos 4]]


/-- The configuration with the three applications switched on. -/
def allOn : Conf := ⟨true, true, true⟩

/-- A database with the long clauses `¬1 ∨ 2 ∨ 3`, `¬3 ∨ 4 ∨ 5` and `2 ∨ 4 ∨ 5 ∨ 6`, linked in,
and the binary clauses `1 ∨ ¬2`, `1 ∨ ¬3`, `3 ∨ ¬4`, `3 ∨ ¬5`, each in the watch lists of the
negations of its two literals: the definitions of the gates `1 ⇔ (2 ∨ 3)` and `3 ⇔ (4 ∨ 5)`,
and one more clause. -/
def scenarioChainDb : State :=
  { stateOf [clauseOf [ng 1, pos 2, pos 3], clauseOf [ng 3, pos 4, pos 5],
      clauseOf [pos 2, pos 4, pos 5, pos 6]] with
    watches := fun n =>
      if n = (ng 1).toInt then [binWatch (ng 2), binWatch (ng 3)]
      else if n = (pos 2).toInt then [binWatch (pos 1)]
      else if n = (pos 3).toInt then [binWatch (pos 1)]
      else if n = (ng 3).toInt then [binWatch (ng 4), binWatch (ng 5)]
      else if n = (pos 4).toInt then [binWatch (pos 3)]
      else if n = (pos 5).toInt then [binWatch (pos 3)]
      else [] }

/-- The state after `findOrGates()` on the database `scenarioChainDb`. -/
def scenarioChain : State := findOrGates scenarioChainDb

/-- An arena with the clauses `¬2 ∨ 3 ∨ 4` and `¬3 ∨ 4 ∨ 5`: for the gate `1 ⇔ (2 ∨ 3)` the
first clause holds, besides `¬2`, a literal on the variable of the second input. -/
def scenarioBlocked : State :=
  stateOf [clauseOf [ng 2, pos 3, pos 4], clauseOf [ng 3, pos 4, pos 5]]

/-- Collaborators of the scenario with two candidates: those of the other scenarios, with a
random source that draws the variables 1 and 2 in the first round, 3 and 4 in the second, all
with the positive sign. -/
def twoPairsExt : Ext :=
  { scenarioExt with
    randInt := fun k _ => if k = 0 then 1 else if k = 1 then 2 else if k = 4 then 3
      else if k = 5 then 4 else 0 }

/-- A solver with 99 variables, all unset, a budget of `50000040` in every cell, and the
clauses `¬1 ∨ x ∨ y` and `¬2 ∨ x ∨ y` for six pairs of literals `x, y`, `¬3 ∨ x ∨ y` and
`¬4 ∨ x ∨ y` for seven. -/
def scenarioNinetyNine : State :=
  { stateOf [clauseOf [ng 1, pos 5, pos 6], clauseOf [ng 2, pos 5, pos 6],
      clauseOf [ng 1, pos 5, pos 7], clauseOf [ng 2, pos 5, pos 7],
      clauseOf [ng 1, pos 5, pos 8], clauseOf [ng 2, pos 5, pos 8],
      clauseOf [ng 1, pos 6, pos 7], clauseOf [ng 2, pos 6, pos 7],
      clauseOf [ng 1, pos 6, pos 8], clauseOf [ng 2, pos 6, pos 8],
      clauseOf [ng 1, pos 7, pos 8], clauseOf [ng 2, pos 7, pos 8],
      clauseOf [ng 3, pos 5, pos 6], clauseOf [ng 4, pos 5, pos 6],
      clauseOf [ng 3, pos 5, pos 7], clauseOf [ng 4, pos 5, pos 7],
      clauseOf [ng 3, pos 5, pos 8], clauseOf [ng 4, pos 5, pos 8],
      clauseOf [ng 3, pos 6, pos 7], clauseOf [ng 4, pos 6, pos 7],
      clauseOf [ng 3, pos 6, pos 8], clauseOf [ng 4, pos 6, pos 8],
      clauseOf [ng 3, pos 7, pos 8], clauseOf [ng 4, pos 7, pos 8],
      clauseOf [ng 3, pos 5, pos 9], clauseOf [ng 4, pos 5, pos 9]] with
    numVars := 99
    cells := fun _ => 50000040 }

/-- The first scenario with the long clause written `2 ∨ ¬1 ∨ 3` and the watch list of `¬1` in
the other order. -/
def scenarioMiddle : State :=
  { emptyState with
    clauses := [some ⟨[pos 2, ng 1, pos 3], false, ⟨0, 0, 0⟩⟩]
    watches := fun n =>
      if n = (ng 1).toInt then [binWatch (ng 3), binWatch (ng 2)]
      else if n = (pos 2).toInt then [binWatch (pos 1)]
      else if n = (pos 3).toInt then [binWatch (pos 1)]
      else [] }

/-- A database with the definition of the gate `1 ⇔ (2 ∨ 3)` (the clause `¬1 ∨ 2 ∨ 3`, and the
binary clauses `1 ∨ ¬2`, `1 ∨ ¬3` in the watch lists), the clause `2 ∨ 3 ∨ 4 ∨ 5`, which
holds both inputs, and the clauses `¬2 ∨ 6 ∨ 7` and `¬3 ∨ 6 ∨ 7`. -/
def scenarioSettledDb : State :=
  { stateOf [clauseOf [ng 1, pos 2, pos 3], clauseOf [pos 2, pos 3, pos 4, pos 5],
      clauseOf [ng 2, pos 6, pos 7], clauseOf [ng 3, pos 6, pos 7]] with
    watches := fun n =>
      if n = (ng 1).toInt then [binWatch (ng 2), binWatch (ng 3)]
      else if n = (pos 2).toInt then [binWatch (pos 1)]
      else if n = (pos 3).toInt then [binWatch (pos 1)]
      else [] }

/-- The state after `findOrGates()` on the database `scenarioSettledDb`. -/
def scenarioSettled : State := findOrGates scenarioSettledDb

/-- A database with the definitions of the gates `1 ⇔ (2 ∨ 3)` and `3 ⇔ (4 ∨ 5)` (the long
clauses `¬1 ∨ 2 ∨ 3` and `¬3 ∨ 4 ∨ 5`, and the four binary clauses in the watch lists) and
the clauses `¬2 ∨ 6 ∨ 7`, `¬4 ∨ 6 ∨ 7` and `¬5 ∨ 6 ∨ 7`; every budget cell holds `10 ^ 8`. -/
def scenarioTwinChainDb : State :=
  { stateOf [clauseOf [ng 1, pos 2, pos 3], clauseOf [ng 3, pos 4, pos 5],
      clauseOf [ng 2, pos 6, pos 7], clauseOf [ng 4, pos 6, pos 7],
      clauseOf [ng 5, pos 6, pos 7]] with
    cells := fun _ => 100000000
    watches := fun n =>
      if n = (ng 1).toInt then [binWatch (ng 2), binWatch (ng 3)]
      else if n = (pos 2).toInt then [binWatch (pos 1)]
      else if n = (pos 3).toInt then [binWatch (pos 1)]
      else if n = (ng 3).toInt then [binWatch (ng 4), binWatch (ng 5)]
      else if n = (pos 4).toInt then [binWatch (pos 3)]
      else if n = (pos 5).toInt then [binWatch (pos 3)]
      else [] }

/-- The state after `findOrGates()` on the database `scenarioTwinChainDb`. -/
def scenarioTwinChain : State := findOrGates scenarioTwinChainDb

/-! ## Theorems -/

/-! ### Literals -/

theorem Lit.neg_neg (l : Lit) : l.neg.neg = l := by
  cases l with
  | mk x =>
    simp only [Lit.neg, Lit.mk.injEq]
    split_ifs <;> omega

theorem Lit.neg_ne (l : Lit) : l.neg ≠ l := by
  cases l with
  | mk x =>
    simp only [Lit.neg, ne_eq, Lit.mk.injEq]
    split_ifs <;> omega

theorem Lit.var_neg (l : Lit) : l.neg.var = l.var := by
  cases l with
  | mk x =>
    simp only [Lit.neg, Lit.var]
    split_ifs <;> omega

theorem Lit.sign_neg (l : Lit) : l.neg.sign = !l.sign := by
  cases l with
  | mk x =>
    simp only [Lit.neg, Lit.sign]
    split_ifs with h
    · have h1 : (x + 1) % 2 = 1 := by omega
      simp [h, h1]
    · have h1 : (x - 1) % 2 = 0 := by omega
      have h2 : x % 2 = 1 := by omega
      simp [h1, h2]

theorem Lit.eval_neg (σ : Nat → Bool) (l : Lit) : l.neg.eval σ = !(l.eval σ) := by
  simp only [Lit.eval, Lit.var_neg, Lit.sign_neg]
  cases σ l.var <;> cases l.sign <;> rfl

theorem Lit.toInt_inj {a b : Lit} (h : a.toInt = b.toInt) : a = b := by
  cases a; cases b; simpa [Lit.toInt] using h

theorem Lit.neg_inj {a b : Lit} (h : a.neg = b.neg) : a = b := by
  rw [← Lit.neg_neg a, h, Lit.neg_neg]

theorem Lit.ne_of_var_ne {a b : Lit} (h : a.var ≠ b.var) : a ≠ b := by
  intro e; exact h (by rw [e])

/-! ### The budget -/

theorem State.charge_charge (st : State) (a b : Nat) :
    (st.charge a).charge b = st.charge (a + b) := by
  simp only [State.charge, Function.update_same, Function.update_idem]
  congr 2
  push_cast
  ring_nf

theorem State.charge_zero (st : State) : st.charge 0 = st := by
  simp [State.charge]


/-! ### The witness scans of `findOrGate` -/

theorem scanCache_done (b : Bool) (eq : Lit) (es : List LitExtra) (wl : Bool) :
    scanCache b eq es (wl, true) = (wl, true) := by
  cases es <;> simp [scanCache]

theorem scanCache_spec (b : Bool) (eq : Lit) (es : List LitExtra) (wl : Bool) :
    scanCache b eq es (wl, false) =
      match es.find? (cacheWitness b eq) with
      | some e => (wl || !e.onlyNLBin, true)
      | none => (wl, false) := by
  induction es with
  | nil => simp [scanCache]
  | cons e es ih =>
    by_cases h : cacheWitness b eq e = true
    · have h2 := h
      simp only [cacheWitness] at h2
      simp [scanCache, List.find?, h, h2, scanCache_done]
    · have h2 := h
      simp only [cacheWitness] at h2
      simp only [scanCache, List.find?, h, h2, ih]
      simp

theorem scanWatches_done (b : Bool) (eq : Lit) (ws : List Watched) (wl : Bool) :
    scanWatches b eq ws (wl, true) = (wl, true) := by
  cases ws <;> simp [scanWatches]

theorem scanWatches_spec (b : Bool) (eq : Lit) (ws : List Watched) (wl : Bool) :
    scanWatches b eq ws (wl, false) =
      match ws.find? (watchWitness b eq) with
      | some w => (wl || w.learnt, true)
      | none => (wl, false) := by
  induction ws with
  | nil => simp [scanWatches]
  | cons w ws ih =>
    by_cases hb : w.isBinary = true
    · by_cases h : ((b || !w.learnt) && w.otherLit == eq) = true
      · have h3 : watchWitness b eq w = true := by simp [watchWitness, hb, h]
        simp [scanWatches, List.find?, h3, hb, h, scanWatches_done]
      · have h3 : watchWitness b eq w = false := by
          simp only [watchWitness, hb, Bool.true_and]; simpa using h
        simp only [scanWatches, List.find?, h3, hb, h, ih]
        simp
    · have h3 : watchWitness b eq w = false := by simp [watchWitness, hb]
      simp only [scanWatches, List.find?, h3, hb, ih]
      simp

/-- Both scans together: the flag `OK` says whether a witness was accepted, and `wasLearnt`
gains the learnt flag of the accepted witness. -/
theorem scans_spec (st : State) (b : Bool) (eq o : Lit) (wl : Bool) :
    scanWatches b eq (st.watches o.toInt)
        (scanCache b eq (st.implCache o.neg.toInt) (wl, false)) =
      match acceptedWitness st b eq o with
      | some lrn => (wl || lrn, true)
      | none => (wl, false) := by
  rw [scanCache_spec]
  unfold acceptedWitness
  cases hc : (st.implCache o.neg.toInt).find? (cacheWitness b eq) with
  | some e => simp [scanWatches_done]
  | none =>
    simp only [scanWatches_spec]
    cases hw : (st.watches o.toInt).find? (watchWitness b eq) with
    | some w => simp
    | none => simp


/-! ### The loop of `findOrGate` -/

theorem acceptedWitness_charge (st : State) (n : Nat) (b : Bool) (eq o : Lit) :
    acceptedWitness (st.charge n) b eq o = acceptedWitness st b eq o := rfl

/-- The literal loop of `findOrGate` only charges the budget; `isEqual` says that every literal
other than `¬eqLit` has an accepted witness, and then `wasLearnt` has gained the learnt flags of
the accepted witnesses. -/
theorem findOrGateLoop_spec (eq : Lit) (b : Bool) (ls : List Lit) :
    ∀ (st : State) (wl : Bool),
      (∃ n, (findOrGateLoop eq b ls st wl).1 = st.charge n) ∧
      (findOrGateLoop eq b ls st wl).2.2 =
        ls.all (fun o => o == eq.neg || (acceptedWitness st b eq o).isSome) ∧
      ((findOrGateLoop eq b ls st wl).2.2 = true →
        (findOrGateLoop eq b ls st wl).2.1 =
          (wl || ls.any (fun o => !(o == eq.neg) && acceptedWitness st b eq o == some true))) := by
  induction ls with
  | nil =>
    intro st wl
    exact ⟨⟨0, by simp [findOrGateLoop, State.charge_zero]⟩, by simp [findOrGateLoop],
      by simp [findOrGateLoop]⟩
  | cons l rest ih =>
    intro st wl
    by_cases hl : l = eq.neg
    · have := ih st wl
      simp only [findOrGateLoop, hl, if_true]
      simpa using this
    · have hs := scans_spec st b eq l wl
      cases ha : acceptedWitness st b eq l with
      | none =>
        rw [ha] at hs
        simp only [findOrGateLoop, hl, if_false]
        simp only [Lit.toInt] at hs ⊢
        rw [hs]
        refine ⟨⟨_, State.charge_charge _ _ _⟩, ?_, ?_⟩
        · simp [hl, ha]
        · simp
      | some lrn =>
        rw [ha] at hs
        have := ih ((st.charge (st.implCache l.neg.toInt).length).charge
          (st.watches l.toInt).length) (wl || lrn)
        simp only [State.charge_charge, acceptedWitness_charge] at this
        obtain ⟨⟨n, h1⟩, h2, h3⟩ := this
        simp only [findOrGateLoop, hl, if_false]
        simp only [Lit.toInt] at hs h1 h2 h3 ⊢
        rw [hs]
        simp only [State.charge_charge, Bool.not_true, Bool.false_eq_true, if_false]
        refine ⟨⟨_, h1⟩, ?_, ?_⟩
        · rw [h2]; simp [hl, ha]
        · intro h
          rw [h3 h]
          cases lrn <;> simp [hl, ha, Bool.or_assoc]


/-- One call of `findOrGate` either only charges the budget, or charges it and posts the
candidate gate; it posts exactly when every input is witnessed and no posted gate is the same. -/
theorem findOrGate_eq (st : State) (eq : Lit) (c : Nat) (b wl : Bool) :
    ∃ n, findOrGate st eq c b wl =
      if allWitnessed st eq c b = true ∧
          hasSimilar st.orGates (candidateGate st eq c b wl) (st.gateOccEq eq.toInt) = false
      then (st.charge n).post c (candidateGate st eq c b wl)
      else st.charge n := by
  obtain ⟨⟨n, h1⟩, h2, h3⟩ := findOrGateLoop_spec eq b (st.clauseAt c).lits st wl
  by_cases hw : allWitnessed st eq c b = true
  · have h2t : (findOrGateLoop eq b (st.clauseAt c).lits st wl).2.2 = true := by
      rw [h2]; exact hw
    have h3t := h3 h2t
    by_cases hs : hasSimilar st.orGates (candidateGate st eq c b wl) (st.gateOccEq eq.toInt) = true
    · refine ⟨n, ?_⟩
      have : ¬ (allWitnessed st eq c b = true ∧
          hasSimilar st.orGates (candidateGate st eq c b wl) (st.gateOccEq eq.toInt) = false) := by
        simp [hs]
      rw [if_neg this]
      unfold findOrGate
      simp only [h2t, h3t, h1, Bool.not_true, Bool.false_eq_true, if_false]
      have hs2 : hasSimilar (st.charge n).orGates (candidateGate st eq c b wl)
          ((st.charge n).gateOccEq eq.toInt) = true := hs
      simp only [candidateGate, gateInputs, OrGate.new] at hs2
      simp only [OrGate.new, hs2, if_true]
    · simp only [Bool.not_eq_true] at hs
      refine ⟨n + (candidateGate st eq c b wl).lits.length * 2, ?_⟩
      rw [if_pos ⟨hw, hs⟩]
      unfold findOrGate
      simp only [h2t, h3t, h1, Bool.not_true, Bool.false_eq_true, if_false]
      have hs2 : hasSimilar (st.charge n).orGates (candidateGate st eq c b wl)
          ((st.charge n).gateOccEq eq.toInt) = false := hs
      simp only [candidateGate, gateInputs, OrGate.new] at hs2
      simp only [OrGate.new, hs2, Bool.false_eq_true, if_false]
      simp only [State.charge_charge, candidateGate, gateInputs, OrGate.new, State.post]
      cases hg : (wl || (st.clauseAt c).lits.any
        (fun o => !(o == eq.neg) && acceptedWitness st b eq o == some true)) <;> simp
  · refine ⟨n, ?_⟩
    have : ¬ (allWitnessed st eq c b = true ∧
        hasSimilar st.orGates (candidateGate st eq c b wl) (st.gateOccEq eq.toInt) = false) := by
      simp [hw]
    rw [if_neg this]
    have h2f : (findOrGateLoop eq b (st.clauseAt c).lits st wl).2.2 = false := by
      rw [h2]; simpa [allWitnessed] using hw
    unfold findOrGate
    simp only [h2f, h1, Bool.not_false, if_true]


theorem hasSimilar_iff (gs : List OrGate) (gate : OrGate) (is : List Nat) :
    hasSimilar gs gate is = true ↔
      ∃ i ∈ is, ∃ g, gs.get? i = some g ∧ g.eqLit = gate.eqLit ∧ g.lits = gate.lits := by
  induction is with
  | nil => simp [hasSimilar]
  | cons i is ih =>
    simp only [hasSimilar, List.mem_cons, exists_eq_or_imp]
    cases hg : gs.get? i with
    | none => simp [ih]
    | some g =>
      by_cases hsame : g.same gate = true
      · have := hsame
        simp only [OrGate.same, Bool.and_eq_true, beq_iff_eq] at this
        simp [hsame, this]
      · have := hsame
        simp only [OrGate.same, Bool.and_eq_true, beq_iff_eq] at this
        simp only [Bool.not_eq_true] at hsame
        simp only [hsame, Option.map, Option.getD, Bool.false_eq_true, if_false, ih]
        constructor
        · intro h; exact Or.inr h
        · rintro (⟨g2, h1, h2, h3⟩ | h)
          · simp only [Option.some.injEq] at h1
            subst h1
            exact absurd ⟨h2, h3⟩ this
          · exact h

theorem mem_gateInputs {st : State} {eq : Lit} {c : Nat} {l : Lit} :
    l ∈ gateInputs st eq c ↔ l ∈ (st.clauseAt c).lits ∧ l ≠ eq.neg := by
  simp [gateInputs]

theorem clauseAt_of_get {st : State} {c : Nat} {cl : Clause}
    (h : st.clauses.get? c = some (some cl)) : st.clauseAt c = cl := by
  simp only [State.clauseAt, List.getD_eq_getElem?_getD]
  simp only [List.get?_eq_getElem?] at h
  simp [h]

theorem acceptedWitness_isSome {st : State} {b : Bool} {eq o : Lit}
    (h : (acceptedWitness st b eq o).isSome = true) : hasWitness st b eq o := by
  unfold acceptedWitness at h
  cases hc : (st.implCache o.neg.toInt).find? (cacheWitness b eq) with
  | some e =>
    left
    have hm := List.mem_of_find?_eq_some hc
    have hp := List.find?_some hc
    simp only [cacheWitness, Bool.and_eq_true, Bool.or_eq_true, beq_iff_eq] at hp
    exact ⟨e, hm, hp.2, hp.1⟩
  | none =>
    rw [hc] at h
    simp only [Option.isSome_map'] at h
    cases hw : (st.watches o.toInt).find? (watchWitness b eq) with
    | none => simp [hw] at h
    | some w =>
      right
      have hm := List.mem_of_find?_eq_some hw
      have hp := List.find?_some hw
      simp only [watchWitness, Bool.and_eq_true, Bool.or_eq_true, beq_iff_eq,
        Bool.not_eq_true'] at hp
      exact ⟨w, hm, hp.1, hp.2.2, hp.2.1⟩

theorem hasWitness_isSome {st : State} {b : Bool} {eq o : Lit}
    (h : hasWitness st b eq o) : (acceptedWitness st b eq o).isSome = true := by
  unfold acceptedWitness
  cases hc : (st.implCache o.neg.toInt).find? (cacheWitness b eq) with
  | some e => simp
  | none =>
    simp only [Option.isSome_map']
    rcases h with ⟨e, hm, h1, h2⟩ | ⟨w, hm, h1, h2, h3⟩
    · have := List.find?_eq_none.mp hc e hm
      simp only [cacheWitness, h1, beq_self_eq_true, Bool.and_true, Bool.or_eq_true] at this
      exact absurd h2 this
    · cases hw : (st.watches o.toInt).find? (watchWitness b eq) with
      | some w => simp
      | none =>
        have := List.find?_eq_none.mp hw w hm
        simp only [watchWitness, h1, h2, beq_self_eq_true, Bool.and_true, Bool.true_and,
          Bool.or_eq_true, Bool.not_eq_true'] at this
        exact absurd h3 this

theorem allWitnessed_iff {st : State} {eq : Lit} {c : Nat} {b : Bool} :
    allWitnessed st eq c b = true ↔
      ∀ o ∈ (st.clauseAt c).lits, o ≠ eq.neg → hasWitness st b eq o := by
  simp only [allWitnessed, List.all_eq_true, Bool.or_eq_true, beq_iff_eq]
  constructor
  · intro h o ho hne
    rcases h o ho with h1 | h1
    · exact absurd h1 hne
    · exact acceptedWitness_isSome h1
  · intro h o ho
    by_cases hne : o = eq.neg
    · exact Or.inl hne
    · exact Or.inr (hasWitness_isSome (h o ho hne))


/-! ### Soundness of recognition -/

theorem satLits_cons (σ : Nat → Bool) (l : Lit) (ls : List Lit) :
    satLits σ (l :: ls) = (l.eval σ || satLits σ ls) := by
  simp [satLits]

theorem satLits_iff (σ : Nat → Bool) (ls : List Lit) :
    satLits σ ls = true ↔ ∃ l ∈ ls, l.eval σ = true := by
  simp [satLits]

/-- A gate is appended only in the posting case, and then it is the candidate gate. -/
theorem findOrGate_appended {st : State} {eq : Lit} {c : Nat} {b wl : Bool} {g : OrGate}
    (hg : (findOrGate st eq c b wl).orGates = st.orGates ++ [g]) :
    allWitnessed st eq c b = true ∧
      hasSimilar st.orGates (candidateGate st eq c b wl) (st.gateOccEq eq.toInt) = false ∧
      g = candidateGate st eq c b wl := by
  obtain ⟨n, h⟩ := findOrGate_eq st eq c b wl
  rw [h] at hg
  split_ifs at hg with hc
  · refine ⟨hc.1, hc.2, ?_⟩
    simp only [State.post, State.charge, List.append_cancel_left_eq, List.cons.injEq,
      and_true] at hg
    exact hg.symm
  · simp [State.charge] at hg

/-- C1. Gate soundness: if every cache entry `x` under `¬o` and every binary watch with other
literal `x` in the watch list of `o` stands for a clause `¬o ∨ x` entailed by the database, and
the clauses of the arena are entailed by the database, then for every gate that `findOrGate`
appends from the clause `C` the database entails the long clause `¬eqLit ∨ inputs` and, for
every input `ℓ`, the binary clause `eqLit ∨ ¬ℓ`; the long clause has the literals of `C`. -/
theorem findOrGate_gate_entailed (db : List (List Lit)) (st : State) (eqLit : Lit) (c : Nat)
    (C : Clause) (learntGatesToo wasLearnt : Bool) (g : OrGate)
    (hC : st.clauses.get? c = some (some C))
    (hArena : ∀ cl, some cl ∈ st.clauses → entails db cl.lits)
    (hCache : ∀ (o : Lit) (e : LitExtra),
      e ∈ st.implCache o.neg.toInt → entails db [o.neg, e.lit])
    (hWatch : ∀ (o : Lit) (w : Watched),
      w ∈ st.watches o.toInt → w.isBinary = true → entails db [o.neg, w.otherLit])
    (hg : (findOrGate st eqLit c learntGatesToo wasLearnt).orGates = st.orGates ++ [g]) :
    g.eqLit = eqLit ∧
    entails db (g.eqLit.neg :: g.lits) ∧
    (∀ l ∈ g.lits, entails db [g.eqLit, l.neg]) ∧
    (eqLit.neg ∈ C.lits → ∀ l, l ∈ g.eqLit.neg :: g.lits ↔ l ∈ C.lits) := by
  obtain ⟨hall, _, hgeq⟩ := findOrGate_appended hg
  have hcl := clauseAt_of_get hC
  have hlits : g.lits = gateInputs st eqLit c := by rw [hgeq]; rfl
  have heq : g.eqLit = eqLit := by rw [hgeq]; rfl
  have hmem : some C ∈ st.clauses := List.get?_mem hC
  refine ⟨heq, ?_, ?_, ?_⟩
  · intro σ hσ
    have hsat := hArena C hmem σ hσ
    obtain ⟨l, hl, hev⟩ := (satLits_iff σ _).mp hsat
    rw [satLits_iff]
    by_cases hne : l = eqLit.neg
    · exact ⟨l, by simp [heq, hne], hev⟩
    · refine ⟨l, List.mem_cons_of_mem _ ?_, hev⟩
      rw [hlits]
      exact mem_gateInputs.mpr ⟨by rw [hcl]; exact hl, hne⟩
  · intro l hl σ hσ
    rw [hlits] at hl
    obtain ⟨hl1, hl2⟩ := mem_gateInputs.mp hl
    have hw := allWitnessed_iff.mp hall l hl1 hl2
    rw [heq]
    rcases hw with ⟨e, he, h1, _⟩ | ⟨w, hw, h1, h2, _⟩
    · have := hCache l e he σ hσ
      rw [h1] at this
      simpa [satLits, Bool.or_comm] using this
    · have := hWatch l w hw h1 σ hσ
      rw [h2] at this
      simpa [satLits, Bool.or_comm] using this
  · intro hin l
    rw [hlits, heq, List.mem_cons, mem_gateInputs, hcl]
    constructor
    · rintro (h | h)
      · rw [h]; exact hin
      · exact h.1
    · intro h
      by_cases hne : l = eqLit.neg
      · exact Or.inl hne
      · exact Or.inr ⟨h, hne⟩

theorem findOrGate_gate_entailed_witness :
    (findOrGate scenario1 (pos 1) 0 true false).orGates =
        scenario1.orGates ++ [OrGate.new [pos 2, pos 3] (pos 1) false] ∧
      entails scenario1Db [ng 1, pos 2, pos 3] ∧
      (∀ l ∈ [pos 2, pos 3], entails scenario1Db [pos 1, l.neg]) := by
  have hg : (findOrGate scenario1 (pos 1) 0 true false).orGates =
      scenario1.orGates ++ [OrGate.new [pos 2, pos 3] (pos 1) false] := by decide
  have h := findOrGate_gate_entailed scenario1Db scenario1 (pos 1) 0 scenario1Clause true false
    (OrGate.new [pos 2, pos 3] (pos 1) false) (by decide)
    (by
      intro cl hcl σ hσ
      have : cl = scenario1Clause := by simpa [scenario1] using hcl
      subst this
      exact hσ _ (by simp [scenario1Db, scenario1Clause]))
    (by intro o e he; simp [scenario1, emptyState] at he)
    (by
      intro o w hw _ σ hσ
      simp only [scenario1] at hw
      split_ifs at hw with h1 h2 h3
      · have ho : o = ng 1 := Lit.toInt_inj h1
        subst ho
        simp only [List.mem_cons, List.mem_singleton, List.not_mem_nil, or_false] at hw
        rcases hw with hw | hw
        · subst hw; exact hσ [pos 1, ng 2] (by simp [scenario1Db])
        · subst hw; exact hσ [pos 1, ng 3] (by simp [scenario1Db])
      · have ho : o = pos 2 := Lit.toInt_inj h2
        subst ho
        simp only [List.mem_singleton] at hw
        subst hw
        have := hσ [pos 1, ng 2] (by simp [scenario1Db])
        simpa [satLits, Bool.or_comm] using this
      · have ho : o = pos 3 := Lit.toInt_inj h3
        subst ho
        simp only [List.mem_singleton] at hw
        subst hw
        have := hσ [pos 1, ng 3] (by simp [scenario1Db])
        simpa [satLits, Bool.or_comm] using this
      · simp at hw)
    hg
  exact ⟨hg, h.2.1, h.2.2.1⟩


/-! ### Recognition needs a witness for every input -/

/-- C6. Recognition requires a witness for every input: `findOrGate` changes the gate store only
if every literal `o` of the clause other than `¬eqLit` has an admissible witness of the binary
clause `¬o ∨ eqLit` (a cache entry under `¬o`, or a binary watch in the watch list of `o`, a
learnt one only when `learntGatesToo` holds); if some such `o` has none, the call leaves the
state as it was but for a charge on the budget counter, so that the gate store, both reverse
indexes, the `defOfOrGate` flags and the clause database are unchanged. -/
theorem findOrGate_needs_witnesses (st : State) (eqLit : Lit) (c : Nat)
    (learntGatesToo wasLearnt : Bool) :
    ((findOrGate st eqLit c learntGatesToo wasLearnt).orGates ≠ st.orGates →
      ∀ o ∈ (st.clauseAt c).lits, o ≠ eqLit.neg → hasWitness st learntGatesToo eqLit o) ∧
    ((∃ o ∈ (st.clauseAt c).lits, o ≠ eqLit.neg ∧ ¬ hasWitness st learntGatesToo eqLit o) →
      (∃ n : Nat, findOrGate st eqLit c learntGatesToo wasLearnt = st.charge n) ∧
      (findOrGate st eqLit c learntGatesToo wasLearnt).orGates = st.orGates ∧
      (findOrGate st eqLit c learntGatesToo wasLearnt).gateOccEq = st.gateOccEq ∧
      (findOrGate st eqLit c learntGatesToo wasLearnt).gateOcc = st.gateOcc ∧
      (findOrGate st eqLit c learntGatesToo wasLearnt).clauseData = st.clauseData ∧
      (findOrGate st eqLit c learntGatesToo wasLearnt).clauses = st.clauses ∧
      (findOrGate st eqLit c learntGatesToo wasLearnt).watches = st.watches ∧
      (findOrGate st eqLit c learntGatesToo wasLearnt).implCache = st.implCache ∧
      (findOrGate st eqLit c learntGatesToo wasLearnt).budget ≤ st.budget) := by
  obtain ⟨n, h⟩ := findOrGate_eq st eqLit c learntGatesToo wasLearnt
  constructor
  · intro hne
    by_cases hall : allWitnessed st eqLit c learntGatesToo = true
    · exact allWitnessed_iff.mp hall
    · rw [h, if_neg (fun hc => hall hc.1)] at hne
      exact absurd rfl hne
  · rintro ⟨o, ho, hne, hnw⟩
    have hall : ¬ allWitnessed st eqLit c learntGatesToo = true :=
      fun hall => hnw (allWitnessed_iff.mp hall o ho hne)
    rw [if_neg (fun hc => hall hc.1)] at h
    rw [h]
    refine ⟨⟨n, rfl⟩, rfl, rfl, rfl, rfl, rfl, rfl, rfl, ?_⟩
    simp only [State.budget, State.charge, Function.update_same]
    omega


/-! ### Induction over the loops of `findOrGates` -/

/-- A reflexive and transitive relation between states that every `findOrGate` call respects is
respected by the loop over the literals of a clause. -/
theorem tryAllOutputs_induct (R : State → State → Prop) (hrefl : ∀ s, R s s)
    (htrans : ∀ a b c, R a b → R b c → R a c) (c : Nat) (b wl : Bool)
    (hstep : ∀ st eq, R st (findOrGate st eq c b wl)) (ls : List Lit) :
    ∀ st, R st (tryAllOutputs c b wl ls st) := by
  induction ls with
  | nil => intro st; exact hrefl st
  | cons l rest ih =>
    intro st
    exact htrans _ _ _ (hstep st l.neg) (ih _)

/-- A reflexive and transitive relation between states that every `findOrGate` call respects is
respected by `findOrGates(learntGatesToo)`; when learnt gates are not allowed only calls with
`wasLearnt = false` are made. -/
theorem findOrGatesLoop_induct (R : State → State → Prop) (hrefl : ∀ s, R s s)
    (htrans : ∀ a b c, R a b → R b c → R a c) (b : Bool)
    (hstep : ∀ st eq c wl, (b = false → wl = false) → R st (findOrGate st eq c b wl))
    (cls : List (Option Clause)) :
    ∀ num st, R st (findOrGatesLoop b cls num st) := by
  induction cls with
  | nil => intro num st; exact hrefl st
  | cons ocl rest ih =>
    intro num st
    cases ocl with
    | none => exact ih _ _
    | some cl =>
      simp only [findOrGatesLoop]
      split_ifs with h1 h2 h3 h4
      · exact hrefl st
      · exact ih _ _
      · exact ih _ _
      · exact ih _ _
      · refine htrans _ _ _ ?_ (ih _ _)
        refine tryAllOutputs_induct R hrefl htrans num b cl.learnt ?_ cl.lits st
        intro st2 eq
        refine hstep st2 eq num cl.learnt ?_
        intro hb
        subst hb
        simpa using h3

/-! ### The learnt flag of a discovered gate -/

theorem acceptedWitness_nonlearnt (st : State) (eq o : Lit) :
    acceptedWitness st false eq o ≠ some true := by
  unfold acceptedWitness
  cases hc : (st.implCache o.neg.toInt).find? (cacheWitness false eq) with
  | some e =>
    have hp := List.find?_some hc
    simp only [cacheWitness, Bool.false_or, Bool.and_eq_true, beq_iff_eq] at hp
    simp [hp.1]
  | none =>
    cases hw : (st.watches o.toInt).find? (watchWitness false eq) with
    | none => simp
    | some w =>
      have hp := List.find?_some hw
      simp only [watchWitness, Bool.false_or, Bool.and_eq_true, beq_iff_eq,
        Bool.not_eq_true'] at hp
      simp [hp.2.1]

theorem candidateGate_nonlearnt (st : State) (eq : Lit) (c : Nat) :
    (candidateGate st eq c false false).learnt = false := by
  simp only [candidateGate, OrGate.new, Bool.false_or, List.any_eq_false, Bool.and_eq_true,
    Bool.not_eq_true', beq_eq_false_iff_ne, ne_eq, beq_iff_eq, not_and]
  intro o _ _
  exact acceptedWitness_nonlearnt st eq o

/-- One `findOrGate` call appends to the gate store nothing, or the candidate gate. -/
theorem findOrGate_grows (st : State) (eq : Lit) (c : Nat) (b wl : Bool) :
    (findOrGate st eq c b wl).orGates = st.orGates ∨
    (findOrGate st eq c b wl).orGates = st.orGates ++ [candidateGate st eq c b wl] := by
  obtain ⟨n, h⟩ := findOrGate_eq st eq c b wl
  rw [h]
  split_ifs
  · right; rfl
  · left; rfl

theorem candidateGate_learnt_eq (st : State) (eq : Lit) (c : Nat) (b wl : Bool) :
    (candidateGate st eq c b wl).learnt =
      (wl || (candidateGate st eq c b wl).lits.any
        (fun o => acceptedWitness st b eq o == some true)) := by
  simp only [candidateGate, OrGate.new, gateInputs, List.any_filter]

/-- C8. Learnt flag of a discovered gate: a gate appended by `findOrGate` from clause `C` is
learnt exactly when `C` is learnt or the witness accepted for some input is learnt; so a gate
flagged non-learnt comes from a non-learnt clause and non-learnt witnesses only, and
`findOrGates(false)` appends only non-learnt gates. -/
theorem findOrGate_learnt_flag (st : State) (eqLit : Lit) (c : Nat) (learntGatesToo : Bool) :
    (∀ g, (findOrGate st eqLit c learntGatesToo (st.clauseAt c).learnt).orGates
          = st.orGates ++ [g] →
      g.learnt = ((st.clauseAt c).learnt ||
          g.lits.any (fun o => acceptedWitness st learntGatesToo eqLit o == some true)) ∧
      (g.learnt = false → (st.clauseAt c).learnt = false ∧
          ∀ o ∈ g.lits, acceptedWitness st learntGatesToo eqLit o = some false)) ∧
    (∃ new, (findOrGatesWith false st).orGates = st.orGates ++ new ∧
      ∀ g ∈ new, g.learnt = false) := by
  constructor
  · intro g hg
    obtain ⟨hall, _, hgeq⟩ := findOrGate_appended hg
    have hl := candidateGate_learnt_eq st eqLit c learntGatesToo (st.clauseAt c).learnt
    rw [← hgeq] at hl
    refine ⟨hl, ?_⟩
    intro hf
    rw [hf] at hl
    have hl2 := hl.symm
    simp only [Bool.or_eq_false_iff, List.any_eq_false, beq_iff_eq] at hl2
    refine ⟨hl2.1, ?_⟩
    intro o ho
    have hne := hl2.2 o ho
    have hmem : o ∈ gateInputs st eqLit c := by
      have : g.lits = gateInputs st eqLit c := by rw [hgeq]; rfl
      rw [← this]; exact ho
    obtain ⟨h1, h2⟩ := mem_gateInputs.mp hmem
    have hsome := hasWitness_isSome (allWitnessed_iff.mp hall o h1 h2)
    cases ha : acceptedWitness st learntGatesToo eqLit o with
    | none => simp [ha] at hsome
    | some v =>
      cases v
      · rfl
      · exact absurd ha hne
  · refine findOrGatesLoop_induct
      (fun s t => ∃ new, t.orGates = s.orGates ++ new ∧ ∀ g ∈ new, g.learnt = false)
      ?_ ?_ false ?_ st.clauses 0 st
    · intro s; exact ⟨[], by simp, by simp⟩
    · rintro a b c ⟨n1, h1, h2⟩ ⟨n2, h3, h4⟩
      refine ⟨n1 ++ n2, by rw [h3, h1, List.append_assoc], ?_⟩
      intro g hg
      rcases List.mem_append.mp hg with h | h
      · exact h2 g h
      · exact h4 g h
    · intro s eq c wl hwl
      rw [hwl rfl]
      rcases findOrGate_grows s eq c false false with h | h
      · exact ⟨[], by simp [h], by simp⟩
      · refine ⟨_, h, ?_⟩
        intro g hg
        simp only [List.mem_singleton] at hg
        rw [hg]
        exact candidateGate_nonlearnt s eq c


/-! ### Deduplication -/

theorem findOrGate_posted (st : State) (eq : Lit) (c : Nat) (b wl : Bool) (h : st.posted) :
    (findOrGate st eq c b wl).posted := by
  obtain ⟨n, he⟩ := findOrGate_eq st eq c b wl
  rw [he]
  split_ifs with hc
  · intro i g hg
    simp only [State.post, State.charge] at hg ⊢
    have heq : (candidateGate st eq c b wl).eqLit = eq := rfl
    rw [heq]
    by_cases hi : i < st.orGates.length
    · rw [List.get?_eq_getElem?, List.getElem?_append_left hi] at hg
      have := h i g (by rw [List.get?_eq_getElem?]; exact hg)
      by_cases hk : g.eqLit.toInt = eq.toInt
      · rw [hk, Function.update_same]
        rw [hk] at this
        exact List.mem_append_left _ this
      · rw [Function.update_noteq hk]
        exact this
    · have hlen : i < (st.orGates ++ [candidateGate st eq c b wl]).length := by
        rw [List.get?_eq_getElem?] at hg
        exact (List.getElem?_eq_some_iff.mp hg).1
      simp only [List.length_append, List.length_singleton] at hlen
      have hi2 : i = st.orGates.length := by omega
      subst hi2
      rw [List.get?_eq_getElem?] at hg
      simp only [List.getElem?_concat_length, Option.some.injEq] at hg
      subst hg
      rw [heq, Function.update_same]
      simp
  · exact h

theorem findOrGate_noDup (st : State) (eq : Lit) (c : Nat) (b wl : Bool) (hp : st.posted)
    (h : st.noDup) : (findOrGate st eq c b wl).noDup := by
  obtain ⟨n, he⟩ := findOrGate_eq st eq c b wl
  rw [he]
  split_ifs with hc
  · have hsim := hc.2
    have hno : ∀ i g, st.orGates.get? i = some g →
        g.lits = (candidateGate st eq c b wl).lits →
        g.eqLit = (candidateGate st eq c b wl).eqLit → False := by
      intro i g hg h1 h2
      have hpost := hp i g hg
      have heq : (candidateGate st eq c b wl).eqLit = eq := rfl
      rw [h2, heq] at hpost
      have : hasSimilar st.orGates (candidateGate st eq c b wl) (st.gateOccEq eq.toInt) = true :=
        (hasSimilar_iff _ _ _).mpr ⟨i, hpost, g, hg, h2, h1⟩
      rw [hsim] at this
      exact Bool.false_ne_true this
    have key : ∀ i g, (st.orGates ++ [candidateGate st eq c b wl]).get? i = some g →
        (i < st.orGates.length ∧ st.orGates.get? i = some g) ∨
        (i = st.orGates.length ∧ g = candidateGate st eq c b wl) := by
      intro i g hg
      rw [List.get?_eq_getElem?] at hg
      by_cases hi : i < st.orGates.length
      · left
        rw [List.getElem?_append_left hi] at hg
        exact ⟨hi, by rw [List.get?_eq_getElem?]; exact hg⟩
      · right
        have hlen := (List.getElem?_eq_some_iff.mp hg).1
        simp only [List.length_append, List.length_singleton] at hlen
        have hi2 : i = st.orGates.length := by omega
        subst hi2
        simp only [List.getElem?_concat_length, Option.some.injEq] at hg
        exact ⟨rfl, hg.symm⟩
    intro i j g g2 hg hg2 h1 h2
    simp only [State.post, State.charge] at hg hg2
    rcases key i g hg with ⟨_, hgi⟩ | ⟨hi, hgi⟩
    · rcases key j g2 hg2 with ⟨_, hgj⟩ | ⟨hj, hgj⟩
      · exact h i j g g2 hgi hgj h1 h2
      · subst hgj
        exact (hno i g hgi h1 h2).elim
    · rcases key j g2 hg2 with ⟨_, hgj⟩ | ⟨hj, hgj⟩
      · subst hgi
        exact (hno j g2 hgj h1.symm h2.symm).elim
      · rw [hi, hj]
  · exact h

/-- After `findOrGates()` every gate is posted at its output literal and the store has no two
entries with the same inputs and output literal. -/
theorem findOrGates_dedup (st : State) :
    (findOrGates st).posted ∧ (findOrGates st).noDup := by
  unfold findOrGates findOrGatesWith
  refine findOrGatesLoop_induct (fun s t => (s.posted ∧ s.noDup) → (t.posted ∧ t.noDup))
    (fun _ h => h) (fun _ _ _ h1 h2 h => h2 (h1 h)) true ?_ _ 0 _ ?_
  · intro s eq c wl _ h
    exact ⟨findOrGate_posted s eq c true wl h.1, findOrGate_noDup s eq c true wl h.1 h.2⟩
  · constructor
    · intro i g hg
      simp [clearIndexes] at hg
    · intro i j g h hg
      simp [clearIndexes] at hg

theorem countP_le_one_of_unique {α : Type} (p : α → Bool) (l : List α)
    (h : ∀ i j a b, l.get? i = some a → l.get? j = some b → p a = true → p b = true → i = j) :
    l.countP p ≤ 1 := by
  induction l with
  | nil => simp
  | cons x xs ih =>
    have ih2 := ih (by
      intro i j a b ha hb pa pb
      have := h (i + 1) (j + 1) a b (by simpa using ha) (by simpa using hb) pa pb
      omega)
    by_cases hx : p x = true
    · have hz : xs.countP p = 0 := by
        rw [List.countP_eq_zero]
        intro a ha pa
        obtain ⟨n, hn⟩ := List.get?_of_mem ha
        have := h 0 (n + 1) x a (by simp) (by simpa using hn) hx pa
        omega
      rw [List.countP_cons_of_pos _ _ hx, hz]
    · rw [List.countP_cons_of_neg _ _ hx]
      exact ih2

/-- C9. Dedup: after `findOrGates()` the gate store holds, for every input sequence `I` and
output literal `o`, at most one gate with inputs `I` and output `o`; and `findOrGate` returns
without inserting whenever a gate with the same inputs and output is posted in the output index
of `eqLit`. -/
theorem findOrGates_at_most_one (st : State) :
    (∀ (I : List Lit) (o : Lit),
      (findOrGates st).orGates.countP (fun g => decide (g.lits = I ∧ g.eqLit = o)) ≤ 1) ∧
    (∀ (s : State) (eqLit : Lit) (c : Nat) (learntGatesToo wasLearnt : Bool),
      (∃ i ∈ s.gateOccEq eqLit.toInt, ∃ g, s.orGates.get? i = some g ∧
          g.lits = gateInputs s eqLit c ∧ g.eqLit = eqLit) →
      (findOrGate s eqLit c learntGatesToo wasLearnt).orGates = s.orGates) := by
  constructor
  · intro I o
    apply countP_le_one_of_unique
    intro i j a b ha hb pa pb
    simp only [decide_eq_true_eq] at pa pb
    exact (findOrGates_dedup st).2 i j a b ha hb (by rw [pa.1, pb.1]) (by rw [pa.2, pb.2])
  · rintro s eqLit c b wl ⟨i, hi, g, hg, h1, h2⟩
    obtain ⟨n, he⟩ := findOrGate_eq s eqLit c b wl
    have : hasSimilar s.orGates (candidateGate s eqLit c b wl) (s.gateOccEq eqLit.toInt) = true :=
      (hasSimilar_iff _ _ _).mpr ⟨i, hi, g, hg, h2, h1⟩
    rw [he, if_neg (by simp [this])]
    rfl

/-- C10, as amended. After `findOrGates()`, two entries of the gate store with the same inputs
and the same output literal are one entry. -/
theorem findOrGates_same_literal_unique (st : State) (i j : Nat) (g1 g2 : OrGate)
    (h1 : (findOrGates st).orGates.get? i = some g1)
    (h2 : (findOrGates st).orGates.get? j = some g2)
    (hl : g1.lits = g2.lits) (ho : g1.eqLit = g2.eqLit) :
    i = j ∧ g1 = g2 := by
  have hij := (findOrGates_dedup st).2 i j g1 g2 h1 h2 hl ho
  subst hij
  rw [h1] at h2
  exact ⟨rfl, Option.some.inj h2⟩

theorem findOrGates_same_literal_unique_witness :
    (findOrGates scenario1).orGates.get? 0 = some (OrGate.new [pos 2, pos 3] (pos 1) false) ∧
    (0 = 0 ∧ OrGate.new [pos 2, pos 3] (pos 1) false = OrGate.new [pos 2, pos 3] (pos 1) false) :=
  ⟨by decide, findOrGates_same_literal_unique scenario1 0 0 _ _ (by decide) (by decide) rfl rfl⟩


/-- C10, as stated, fails: on a database with the long clauses `¬1 ∨ 2 ∨ 3` and `1 ∨ 2 ∨ 3` and
the four binary clauses between `±1` and `¬2`, `¬3`, `findOrGates()` stores two gates with the
same inputs whose outputs are the two literals of variable 1. -/
theorem findOrGates_same_variable_counterexample :
    ¬ (∀ g1 ∈ (findOrGates scenarioBothSigns).orGates,
        ∀ g2 ∈ (findOrGates scenarioBothSigns).orGates,
          g1.lits = g2.lits → g1.eqLit.var = g2.eqLit.var → g1 = g2) := by
  intro h
  have hs : (findOrGates scenarioBothSigns).orGates =
      [OrGate.new [pos 2, pos 3] (pos 1) false, OrGate.new [pos 2, pos 3] (ng 1) false] := by
    simp [findOrGates, clearIndexes, findOrGatesWith, findOrGatesLoop, tryAllOutputs, findOrGate,
      findOrGateLoop, scanCache, scanWatches, hasSimilar, countSizeZero, scenarioBothSigns,
      emptyState, State.charge, State.budget, State.clauseAt, pos, ng, Lit.ofVar, Lit.neg,
      Lit.toInt, binWatch, OrGate.new, OrGate.same]
  have := h (OrGate.new [pos 2, pos 3] (pos 1) false) (by rw [hs]; simp)
    (OrGate.new [pos 2, pos 3] (ng 1) false) (by rw [hs]; simp) rfl (by decide)
  exact absurd this (by decide)



/-! ### Recognition of an encoded gate -/

theorem countSizeZero_of_watched (st : State) (ls : List Lit) (n : Nat)
    (h : ∀ l ∈ ls, st.watches l.toInt ≠ []) : countSizeZero st ls n = n := by
  induction ls with
  | nil => rfl
  | cons l rest ih =>
    have hl := h l (List.mem_cons_self _ _)
    have : ((st.watches l.toInt).length == 0) = false := by
      cases hw : st.watches l.toInt with
      | nil => exact absurd hw hl
      | cons _ _ => rfl
    simp only [countSizeZero, this, Bool.and_false, Bool.false_eq_true, if_false]
    exact ih (fun x hx => h x (List.mem_cons_of_mem _ hx))

theorem tryAllOutputs_charge (c : Nat) (b wl : Bool) (s : State) (ls : List Lit)
    (h : ∀ l ∈ ls, ∀ n, ∃ m, findOrGate (s.charge n) l.neg c b wl = s.charge m) :
    ∀ n, ∃ m, tryAllOutputs c b wl ls (s.charge n) = s.charge m := by
  induction ls with
  | nil => intro n; exact ⟨n, rfl⟩
  | cons l rest ih =>
    intro n
    obtain ⟨m, hm⟩ := h l (List.mem_cons_self _ _) n
    simp only [tryAllOutputs, hm]
    exact ih (fun x hx => h x (List.mem_cons_of_mem _ hx)) m

theorem exists_other_input (ins : List Lit) (hk : 2 ≤ ins.length) (hnd : ins.Nodup) (i : Lit) :
    ∃ m ∈ ins, m ≠ i := by
  match ins, hk, hnd with
  | a :: b :: rest, _, hnd =>
    have hab : a ≠ b := by
      intro e
      rw [List.nodup_cons] at hnd
      exact hnd.1 (by rw [e]; exact List.mem_cons_self _ _)
    by_cases hi : a = i
    · exact ⟨b, by simp, fun e => hab (by rw [hi, e])⟩
    · exact ⟨a, by simp, hi⟩


/-- With an empty cache and the watch list `[o]` for an input, the accepted witness for the
output `o` is that non-learnt watch. -/
theorem acceptedWitness_encoded (s : State) (b : Bool) (o i : Lit)
    (hcache : s.implCache i.neg.toInt = []) (hw : s.watches i.toInt = [binWatch o]) :
    acceptedWitness s b o i = some false := by
  simp [acceptedWitness, hcache, hw, watchWitness, binWatch, List.find?]

/-- With an empty cache and the watch list `[o]` for an input, there is no witness for an output
other than `o`. -/
theorem not_hasWitness_encoded (s : State) (b : Bool) (o eq m : Lit) (hne : o ≠ eq)
    (hcache : s.implCache m.neg.toInt = []) (hw : s.watches m.toInt = [binWatch o]) :
    ¬ hasWitness s b eq m := by
  rintro (⟨e, he, _⟩ | ⟨w, hw2, _, h2, _⟩)
  · rw [hcache] at he; simp at he
  · rw [hw] at hw2
    simp only [List.mem_singleton] at hw2
    subst hw2
    exact hne h2

theorem tryAllOutputs_append (c : Nat) (b wl : Bool) (l1 l2 : List Lit) :
    ∀ s, tryAllOutputs c b wl (l1 ++ l2) s =
      tryAllOutputs c b wl l2 (tryAllOutputs c b wl l1 s) := by
  induction l1 with
  | nil => intro s; rfl
  | cons l rest ih =>
    intro s
    simp only [List.cons_append, tryAllOutputs]
    exact ih _

/-- C7. Recognition of an encoded gate: if the arena holds exactly one clause, with the literals
`¬o, i1, …, ik` in any order, `k ≥ 2`, over `k+1` distinct variables and `k+1 ≤ maxGateSize`,
the watch lists hold the non-learnt binary clauses `o ∨ ¬ij` (in the list of each `ij`, and in
the list of `¬o` in any order) and the implication cache is empty, then after `findOrGates()`
the gate store holds exactly one gate, with the inputs `i1..ik` (in the order of the clause)
and the output `o`, and its id 0 is the only entry of the output index, posted at the literal
`o`. -/
theorem findOrGates_encoded_gate (st : State) (o : Lit) (ins : List Lit) (cl : Clause)
    (hk : 2 ≤ ins.length)
    (hvars : ((o :: ins).map Lit.var).Nodup)
    (hsize : ins.length + 1 ≤ st.maxGateSize)
    (hcl : st.clauses = [some cl])
    (hlits : cl.lits.Perm (o.neg :: ins))
    (hcache : ∀ n, st.implCache n = [])
    (hwIn : ∀ i ∈ ins, st.watches i.toInt = [binWatch o])
    (hwOut : (st.watches o.neg.toInt).Perm (ins.map (fun i => binWatch i.neg))) :
    (findOrGates st).orGates =
      [OrGate.new (cl.lits.filter (fun l => !(l == o.neg))) o cl.learnt] ∧
    (cl.lits.filter (fun l => !(l == o.neg))).Perm ins ∧
    (findOrGates st).gateOccEq o.toInt = [0] ∧
    (∀ n, n ≠ o.toInt → (findOrGates st).gateOccEq n = []) := by
  -- consequences of the distinctness of the variables
  have hnd : ins.Nodup := by
    have := (List.nodup_cons.mp hvars).2
    exact List.Nodup.of_map _ this
  have hvo : ∀ i ∈ ins, i.var ≠ o.var := by
    intro i hi e
    exact (List.nodup_cons.mp hvars).1 (by rw [← e]; exact List.mem_map_of_mem _ hi)
  have hio : ∀ i ∈ ins, i ≠ o.neg := by
    intro i hi e
    exact hvo i hi (by rw [e, Lit.var_neg])
  have hndL : (o.neg :: ins).Nodup := List.nodup_cons.mpr ⟨fun h => hio _ h rfl, hnd⟩
  have hLnd : cl.lits.Nodup := hlits.nodup_iff.mpr hndL
  have hmem : ∀ l, l ∈ cl.lits ↔ l = o.neg ∨ l ∈ ins := by
    intro l
    rw [hlits.mem_iff]
    simp
  have hlen : cl.lits.length = ins.length + 1 := by
    rw [hlits.length_eq]; rfl
  have hfilter : (cl.lits.filter (fun l => !(l == o.neg))).Perm ins := by
    have h := hlits.filter (fun l => !(l == o.neg))
    rw [List.filter_cons_of_neg (by simp)] at h
    have e : ins.filter (fun l => !(l == o.neg)) = ins := by
      rw [List.filter_eq_self]
      intro i hi
      simpa using hio i hi
    rw [e] at h
    exact h
  obtain ⟨pre, post, hsplit⟩ := List.append_of_mem ((hmem o.neg).mpr (Or.inl rfl))
  have hmid : o.neg ∉ pre ++ post := by
    have := hLnd
    rw [hsplit, List.nodup_middle] at this
    exact (List.nodup_cons.mp this).1
  have hpre : ∀ l ∈ pre, l ∈ ins := by
    intro l hl
    have hl2 : l ∈ cl.lits := by
      rw [hsplit]
      exact List.mem_append_left _ hl
    rcases (hmem l).mp hl2 with h | h
    · exact absurd (by rw [← h]; exact List.mem_append_left _ hl) hmid
    · exact h
  have hpost : ∀ l ∈ post, l ∈ ins := by
    intro l hl
    have hl2 : l ∈ cl.lits := by
      rw [hsplit]
      exact List.mem_append_right _ (List.mem_cons_of_mem _ hl)
    rcases (hmem l).mp hl2 with h | h
    · exact absurd (by rw [← h]; exact List.mem_append_right _ hl) hmid
    · exact h
  -- the state in which the loop starts
  obtain ⟨s0, hs0, hc0, hi0, hw0, hm0, hg0, hq0, hb0⟩ :
      ∃ s0 : State, findOrGates st = findOrGatesLoop true s0.clauses 0 s0 ∧
        s0.clauses = st.clauses ∧ s0.implCache = st.implCache ∧ s0.watches = st.watches ∧
        s0.maxGateSize = st.maxGateSize ∧ s0.orGates = [] ∧ s0.gateOccEq = (fun _ => []) ∧
        s0.budget = 100000000 :=
    ⟨_, rfl, rfl, rfl, rfl, rfl, rfl, rfl, by simp [State.budget]⟩
  have hat : s0.clauseAt 0 = cl := by
    simp [State.clauseAt, hc0, hcl]
  -- the witnesses in a state with the same arena, cache and watch lists
  have hacc : ∀ s : State, s.implCache = st.implCache → s.watches = st.watches →
      ∀ x ∈ ins, acceptedWitness s true o x = some false := by
    intro s h1 h2 x hx
    exact acceptedWitness_encoded s true o x (by rw [h1]; exact hcache _)
      (by rw [h2]; exact hwIn x hx)
  -- every output hypothesis other than `o` is rejected
  have hrej : ∀ s : State, s.clauseAt 0 = cl → s.implCache = st.implCache →
      s.watches = st.watches → ∀ i ∈ ins, ∀ n, ∃ m,
        findOrGate (s.charge n) i.neg 0 true cl.learnt = s.charge m := by
    intro s hsat hsi hsw i hi n
    obtain ⟨m, hm⟩ := findOrGate_eq (s.charge n) i.neg 0 true cl.learnt
    have hnot : ¬ allWitnessed (s.charge n) i.neg 0 true = true := by
      rw [allWitnessed_iff]
      intro hw
      obtain ⟨x, hx, hxi⟩ := exists_other_input ins hk hnd i
      have hxat : x ∈ ((s.charge n).clauseAt 0).lits := by
        have : (s.charge n).clauseAt 0 = s.clauseAt 0 := rfl
        rw [this, hsat]
        exact (hmem x).mpr (Or.inr hx)
      refine not_hasWitness_encoded _ true o i.neg x ?_ ?_ ?_
        (hw x hxat (by rw [Lit.neg_neg]; exact hxi))
      · intro e
        exact hvo i hi (by rw [e, Lit.var_neg])
      · show s.implCache x.neg.toInt = []
        rw [hsi]; exact hcache _
      · show s.watches x.toInt = [binWatch o]
        rw [hsw]; exact hwIn x hx
    rw [if_neg (fun h => hnot h.1)] at hm
    exact ⟨n + m, by rw [hm, State.charge_charge]⟩
  -- the literals before `¬o`
  obtain ⟨n0, h0⟩ := tryAllOutputs_charge 0 true cl.learnt s0 pre
    (fun l hl n => hrej s0 hat hi0 hw0 l (hpre l hl) n) 0
  rw [State.charge_zero] at h0
  -- the output hypothesis `o` is accepted
  have hall : allWitnessed (s0.charge n0) o 0 true = true := by
    rw [allWitnessed_iff]
    intro x hx hne
    have hx2 : x ∈ cl.lits := by
      have : (s0.charge n0).clauseAt 0 = s0.clauseAt 0 := rfl
      rw [this, hat] at hx
      exact hx
    rcases (hmem x).mp hx2 with h | h
    · exact absurd h hne
    · apply acceptedWitness_isSome
      rw [hacc (s0.charge n0) hi0 hw0 x h]
      rfl
  have hin : gateInputs (s0.charge n0) o 0 = cl.lits.filter (fun l => !(l == o.neg)) := by
    have : (s0.charge n0).clauseAt 0 = s0.clauseAt 0 := rfl
    simp only [gateInputs, this, hat]
  have hcand : candidateGate (s0.charge n0) o 0 true cl.learnt =
      OrGate.new (cl.lits.filter (fun l => !(l == o.neg))) o cl.learnt := by
    have hcat : (s0.charge n0).clauseAt 0 = cl := hat
    simp only [candidateGate, hin, hcat]
    congr 1
    have : cl.lits.any
        (fun x => !(x == o.neg) && acceptedWitness (s0.charge n0) true o x == some true)
          = false := by
      rw [List.any_eq_false]
      intro x hx
      rcases (hmem x).mp hx with h | h
      · simp [h]
      · rw [hacc (s0.charge n0) hi0 hw0 x h]
        simp
    rw [this, Bool.or_false]
  obtain ⟨n1, h1⟩ := findOrGate_eq (s0.charge n0) o 0 true cl.learnt
  rw [if_pos ⟨hall, by show hasSimilar s0.orGates _ (s0.gateOccEq _) = false; rw [hq0]; rfl⟩,
    hcand] at h1
  -- the literals after `¬o`
  obtain ⟨m, hm⟩ := tryAllOutputs_charge 0 true cl.learnt
    (((s0.charge n0).charge n1).post 0
      (OrGate.new (cl.lits.filter (fun l => !(l == o.neg))) o cl.learnt)) post
    (fun l hl n => hrej (((s0.charge n0).charge n1).post 0
      (OrGate.new (cl.lits.filter (fun l => !(l == o.neg))) o cl.learnt))
      hat hi0 hw0 l (hpost l hl) n) 0
  rw [State.charge_zero] at hm
  -- the loop over the arena
  have hwatched : ∀ l ∈ cl.lits, s0.watches l.toInt ≠ [] := by
    intro l hl
    rw [hw0]
    rcases (hmem l).mp hl with h | h
    · rw [h]
      intro e
      have := hwOut.length_eq
      rw [e] at this
      simp only [List.length_map, List.length_nil] at this
      omega
    · rw [hwIn l h]; simp
  have hfinal : findOrGates st = ((((s0.charge n0).charge n1).post 0
      (OrGate.new (cl.lits.filter (fun l => !(l == o.neg))) o cl.learnt)).charge m) := by
    rw [hs0, hc0, hcl]
    simp only [findOrGatesLoop]
    rw [if_neg (by rw [hb0]; decide)]
    rw [if_neg (by rw [hlen, hm0]; omega)]
    rw [if_neg (by simp)]
    rw [countSizeZero_of_watched s0 _ 0 hwatched]
    rw [if_neg (by decide)]
    have htry : tryAllOutputs 0 true cl.learnt cl.lits s0 =
        ((((s0.charge n0).charge n1).post 0
          (OrGate.new (cl.lits.filter (fun l => !(l == o.neg))) o cl.learnt)).charge m) := by
      have e : tryAllOutputs 0 true cl.learnt (pre ++ o.neg :: post) s0 =
          tryAllOutputs 0 true cl.learnt post
            (findOrGate (tryAllOutputs 0 true cl.learnt pre s0) o.neg.neg 0 true cl.learnt) := by
        rw [tryAllOutputs_append]
        rfl
      rw [← hsplit] at e
      rw [e, h0, Lit.neg_neg, h1, hm]
    rw [htry]
  rw [hfinal]
  refine ⟨?_, hfilter, ?_, ?_⟩
  · show s0.orGates ++ [OrGate.new _ o cl.learnt] = [OrGate.new _ o cl.learnt]
    rw [hg0]; rfl
  · show Function.update s0.gateOccEq o.toInt (s0.gateOccEq o.toInt ++ [s0.orGates.length])
      o.toInt = [0]
    rw [Function.update_same, hq0, hg0]; rfl
  · intro n hn
    show Function.update s0.gateOccEq o.toInt (s0.gateOccEq o.toInt ++ [s0.orGates.length])
      n = []
    rw [Function.update_noteq hn, hq0]

/-- The spec's scenario, with the clause written `¬1 ∨ 2 ∨ 3` and written `2 ∨ ¬1 ∨ 3`: in both
the store ends up with the gate `1 ⇔ (2 ∨ 3)` alone, posted at the literal `1`. -/
theorem findOrGates_encoded_gate_witness :
    ((findOrGates scenario1).orGates = [OrGate.new [pos 2, pos 3] (pos 1) false] ∧
      (findOrGates scenario1).gateOccEq (pos 1).toInt = [0] ∧
      (∀ n, n ≠ (pos 1).toInt → (findOrGates scenario1).gateOccEq n = [])) ∧
    ((findOrGates scenarioMiddle).orGates = [OrGate.new [pos 2, pos 3] (pos 1) false] ∧
      (findOrGates scenarioMiddle).gateOccEq (pos 1).toInt = [0] ∧
      (∀ n, n ≠ (pos 1).toInt → (findOrGates scenarioMiddle).gateOccEq n = [])) := by
  have hw : ∀ s : State, s.watches = scenario1.watches ∨ s.watches = scenarioMiddle.watches →
      ∀ i ∈ [pos 2, pos 3], s.watches i.toInt = [binWatch (pos 1)] := by
    intro s hs i hi
    simp only [List.mem_cons, List.mem_singleton, List.not_mem_nil, or_false] at hi
    rcases hs with hs | hs <;> rw [hs] <;> rcases hi with hi | hi <;> subst hi <;> rfl
  have h1 := findOrGates_encoded_gate scenario1 (pos 1) [pos 2, pos 3]
    ⟨[ng 1, pos 2, pos 3], false, ⟨0, 0, 0⟩⟩
    (by decide) (by decide) (by decide) rfl (List.Perm.refl _) (fun _ => rfl)
    (hw scenario1 (Or.inl rfl)) (List.Perm.refl _)
  have h2 := findOrGates_encoded_gate scenarioMiddle (pos 1) [pos 2, pos 3]
    ⟨[pos 2, ng 1, pos 3], false, ⟨0, 0, 0⟩⟩
    (by decide) (by decide) (by decide) rfl (List.Perm.swap _ _ _) (fun _ => rfl)
    (hw scenarioMiddle (Or.inr rfl)) (List.Perm.swap _ _ _)
  exact ⟨⟨h1.1, h1.2.2⟩, ⟨h2.1, h2.2.2⟩⟩

theorem findOrGates_at_most_one_witness :
    (findOrGate (findOrGate scenario1 (pos 1) 0 true false) (pos 1) 0 true false).orGates =
      (findOrGate scenario1 (pos 1) 0 true false).orGates :=
  (findOrGates_at_most_one scenario1).2 (findOrGate scenario1 (pos 1) 0 true false) (pos 1) 0
    true false
    ⟨0, by decide, OrGate.new [pos 2, pos 3] (pos 1) false, by decide, by decide, rfl⟩


/-! ### Clause shortening -/

theorem Lit.var_eq_iff (l e : Lit) : l.var = e.var ↔ l = e ∨ l = e.neg := by
  cases l with
  | mk x =>
    cases e with
    | mk y =>
      simp only [Lit.var, Lit.neg, Lit.mk.injEq]
      split_ifs <;> omega

theorem scanEqLit_none {e : Lit} {ls : List Lit} :
    scanEqLit e ls = none ↔ e ∉ ls ∧ e.neg ∉ ls := by
  induction ls with
  | nil => simp [scanEqLit]
  | cons l rest ih =>
    simp only [scanEqLit, beq_iff_eq, List.mem_cons, not_or]
    by_cases hv : e.var = l.var
    · have := (Lit.var_eq_iff l e).mp hv.symm
      simp only [hv, if_true]
      split_ifs with h
      · simp [h]
      · rcases this with h2 | h2
        · exact absurd h2.symm h
        · simp [h2]
    · have h1 : ¬ e = l := fun h => hv (by rw [h])
      have h2 : ¬ e.neg = l := fun h => hv (by rw [← h, Lit.var_neg])
      simp only [hv, if_false, ih, h1, h2, not_false_eq_true, true_and]

theorem scanEqLit_true {e : Lit} {ls : List Lit} (h : scanEqLit e ls = some true) : e ∈ ls := by
  induction ls with
  | nil => simp [scanEqLit] at h
  | cons l rest ih =>
    simp only [scanEqLit, beq_iff_eq] at h
    by_cases h1 : e.var = l.var
    · by_cases h2 : e = l
      · simp [h2]
      · simp [h1, h2] at h
    · simp only [h1, if_false] at h
      exact List.mem_cons_of_mem _ (ih h)

theorem scanEqLit_false {e : Lit} {ls : List Lit} (h : scanEqLit e ls = some false) :
    e.neg ∈ ls := by
  induction ls with
  | nil => simp [scanEqLit] at h
  | cons l rest ih =>
    simp only [scanEqLit, beq_iff_eq] at h
    by_cases h1 : e.var = l.var
    · by_cases h2 : e = l
      · simp [h1, h2] at h
      · rcases (Lit.var_eq_iff l e).mp h1.symm with h3 | h3
        · exact absurd h3.symm h2
        · simp [h3]
    · simp only [h1, if_false] at h
      exact List.mem_cons_of_mem _ (ih h)

theorem dropInputs_fst (gate : OrGate) (ls : List Lit) :
    (dropInputs gate.lits ls).1 = nonInputs gate ls := by
  induction ls with
  | nil => rfl
  | cons l rest ih =>
    simp only [dropInputs, nonInputs, List.filter_cons] at ih ⊢
    by_cases h : l ∈ gate.lits
    · have : gate.lits.any (fun g => g == l) = true := by
        simp only [List.any_eq_true, beq_iff_eq]; exact ⟨l, h, rfl⟩
      simp [this, h, ih]
    · have : gate.lits.any (fun g => g == l) = false := by
        simp only [List.any_eq_false, beq_iff_eq]
        intro x hx e; exact h (e ▸ hx)
      simp [this, h, ih]

theorem replaceClause_trace (ext : Ext) (st : State) (c : Nat) (lits : List Lit) (learnt : Bool)
    (stats : ClauseStats) :
    ∃ tail, (tail = [] ∨ ∃ cl, tail = [Event.linkInClause cl]) ∧
      (replaceClause ext st c lits learnt stats).1.trace =
        st.trace ++ Event.unlinkClause c :: Event.addClauseInt lits learnt stats :: tail := by
  unfold replaceClause
  simp only []
  by_cases hok : (addClauseInt ext (unlinkClause st c) lits learnt stats).1.ok = true
  · simp only [hok, Bool.not_true, Bool.false_eq_true, if_false]
    cases hr : (addClauseInt ext (unlinkClause st c) lits learnt stats).2 with
    | none => exact ⟨[], Or.inl rfl, by simp [addClauseInt, unlinkClause]⟩
    | some ncl =>
      exact ⟨[Event.linkInClause ncl], Or.inr ⟨ncl, rfl⟩,
        by simp [addClauseInt, unlinkClause, linkInClause]⟩
  · simp only [Bool.not_eq_true] at hok
    simp only [hok, Bool.not_false, if_true]
    exact ⟨[], Or.inl rfl, by simp [addClauseInt, unlinkClause]⟩

/-- The trace of one step of `shortenWithOrGate` on a clause that is not skipped: the clause is
unlinked; unless the first literal on the output's variable is the negated output, the
non-inputs (followed by the output when it is not in the clause) are submitted with the
clause's learnt flag and statistics, and the clause that comes back, if any, is linked in. -/
theorem shortenClause_trace (ext : Ext) (gate : OrGate) (st : State) (c : Nat)
    (hskip : notSkipped gate st c) :
    ∃ tail, (tail = [] ∨ ∃ cl, tail = [Event.linkInClause cl]) ∧
      (shortenClause ext gate st c).1.trace = st.trace ++
        (if scanEqLit gate.eqLit (st.clauseAt c).lits = some false then [Event.unlinkClause c]
         else Event.unlinkClause c ::
          Event.addClauseInt
            (nonInputs gate (st.clauseAt c).lits ++
              (if scanEqLit gate.eqLit (st.clauseAt c).lits = some true then []
               else [gate.eqLit]))
            (st.clauseAt c).learnt (st.clauseAt c).stats :: tail) := by
  have hs : ((st.clauseData c).defOfOrGate || (!(st.clauseAt c).learnt && gate.learnt)) = false := by
    rcases hskip with ⟨h1, h2 | h2⟩ <;> simp [h1, h2]
  have hcl : ∀ n : Nat, State.clauseAt { st with numOrGateReplaced := n } c = st.clauseAt c :=
    fun _ => rfl
  unfold shortenClause
  simp only [hs, Bool.false_eq_true, if_false, hcl]
  cases hscan : scanEqLit gate.eqLit (st.clauseAt c).lits with
  | none =>
    obtain ⟨tail, ht, he⟩ := replaceClause_trace ext
      { st with
        numOrGateReplaced := st.numOrGateReplaced + 1
        gateLitsRemoved := st.gateLitsRemoved +
          ((dropInputs gate.lits (st.clauseAt c).lits).2 - 1) } c
      (nonInputs gate (st.clauseAt c).lits ++ [gate.eqLit])
      (st.clauseAt c).learnt (st.clauseAt c).stats
    refine ⟨tail, ht, ?_⟩
    simpa [dropInputs_fst] using he
  | some b =>
    cases b with
    | false => exact ⟨[], Or.inl rfl, by simp [unlinkClause]⟩
    | true =>
      obtain ⟨tail, ht, he⟩ := replaceClause_trace ext
        { st with
          numOrGateReplaced := st.numOrGateReplaced + 1
          gateLitsRemoved := st.gateLitsRemoved +
            (dropInputs gate.lits (st.clauseAt c).lits).2 } c
        (nonInputs gate (st.clauseAt c).lits)
        (st.clauseAt c).learnt (st.clauseAt c).stats
      refine ⟨tail, ht, ?_⟩
      simpa [dropInputs_fst] using he


/-- C4. Shortening case analysis for a clause `C` that is not skipped and, being no tautology,
does not hold both the output of the gate and its negation: (a) if the output is in `C`, the
clause is unlinked and the literals of `C` that are not inputs are submitted, in their
original order;
(b) if the negated output is in `C`, the clause is unlinked and nothing is submitted; (c)
otherwise the clause is unlinked and the non-inputs followed by the output are submitted. In
(a) and (c) the submission carries the learnt flag and the statistics of `C`, and the only
further event is the linking of the clause that the solver hands back. -/
theorem shortenClause_cases (ext : Ext) (gate : OrGate) (st : State) (c : Nat)
    (hskip : notSkipped gate st c)
    (hnt : ¬ (gate.eqLit ∈ (st.clauseAt c).lits ∧ gate.eqLit.neg ∈ (st.clauseAt c).lits)) :
    (gate.eqLit ∈ (st.clauseAt c).lits →
      ∃ tail, (tail = [] ∨ ∃ cl, tail = [Event.linkInClause cl]) ∧
        (shortenClause ext gate st c).1.trace = st.trace ++
          Event.unlinkClause c ::
          Event.addClauseInt (nonInputs gate (st.clauseAt c).lits)
            (st.clauseAt c).learnt (st.clauseAt c).stats :: tail) ∧
    (gate.eqLit.neg ∈ (st.clauseAt c).lits →
      (shortenClause ext gate st c).1.trace = st.trace ++ [Event.unlinkClause c]) ∧
    (gate.eqLit ∉ (st.clauseAt c).lits → gate.eqLit.neg ∉ (st.clauseAt c).lits →
      ∃ tail, (tail = [] ∨ ∃ cl, tail = [Event.linkInClause cl]) ∧
        (shortenClause ext gate st c).1.trace = st.trace ++
          Event.unlinkClause c ::
          Event.addClauseInt (nonInputs gate (st.clauseAt c).lits ++ [gate.eqLit])
            (st.clauseAt c).learnt (st.clauseAt c).stats :: tail) := by
  obtain ⟨tail, ht, he⟩ := shortenClause_trace ext gate st c hskip
  refine ⟨?_, ?_, ?_⟩
  · intro hin
    have h1 : scanEqLit gate.eqLit (st.clauseAt c).lits = some true := by
      cases hs : scanEqLit gate.eqLit (st.clauseAt c).lits with
      | none => exact absurd hin (scanEqLit_none.mp hs).1
      | some b =>
        cases b with
        | true => rfl
        | false => exact absurd ⟨hin, scanEqLit_false hs⟩ hnt
    refine ⟨tail, ht, ?_⟩
    rw [he, h1]
    simp
  · intro hin
    have h1 : scanEqLit gate.eqLit (st.clauseAt c).lits = some false := by
      cases hs : scanEqLit gate.eqLit (st.clauseAt c).lits with
      | none => exact absurd hin (scanEqLit_none.mp hs).2
      | some b =>
        cases b with
        | false => rfl
        | true => exact absurd ⟨scanEqLit_true hs, hin⟩ hnt
    rw [he, h1]
    simp
  · intro h1 h2
    have h3 : scanEqLit gate.eqLit (st.clauseAt c).lits = none := scanEqLit_none.mpr ⟨h1, h2⟩
    refine ⟨tail, ht, ?_⟩
    rw [he, h3]
    simp


theorem shortenClause_cases_witness :
    (∃ tail, (tail = [] ∨ ∃ cl, tail = [Event.linkInClause cl]) ∧
      (shortenClause scenarioExt gate123 scenario2 0).1.trace = scenario2.trace ++
        Event.unlinkClause 0 ::
        Event.addClauseInt [pos 1, pos 4] false ⟨0, 0, 0⟩ :: tail) ∧
    (shortenClause scenarioExt gate123 scenario3 0).1.trace =
      scenario3.trace ++ [Event.unlinkClause 0] :=
  ⟨(shortenClause_cases scenarioExt gate123 scenario2 0 ⟨rfl, Or.inr rfl⟩ (by decide)).1
      (by decide),
    (shortenClause_cases scenarioExt gate123 scenario3 0 ⟨rfl, Or.inr rfl⟩ (by decide)).2.1
      (by decide)⟩

theorem mem_nonInputs {gate : OrGate} {ls : List Lit} {l : Lit} :
    l ∈ nonInputs gate ls ↔ l ∈ ls ∧ l ∉ gate.lits := by
  simp [nonInputs]

theorem newEvents_append (st st2 : State) (ev : List Event) (h : st2.trace = st.trace ++ ev) :
    newEvents st st2 = ev := by
  simp [newEvents, h]

/-- The gate that `findOrGate` builds from a clause for the output `¬l` has its output among
its inputs only if the clause holds `¬l`: from a clause that holds `l`, it is a gate of a
clause with a literal and its negation. -/
theorem candidateGate_output_not_input (st : State) (l : Lit) (c : Nat) (b wl : Bool)
    (hclean : l.neg ∉ (st.clauseAt c).lits) :
    (candidateGate st l.neg c b wl).eqLit ∉ (candidateGate st l.neg c b wl).lits := by
  intro h
  have h2 : l.neg ∈ gateInputs st l.neg c := h
  exact hclean (mem_gateInputs.mp h2).1

/-- C2. Shortening preserves equivalence, for a gate whose output literal is not one of its
inputs, as is every gate built from a clause that holds no literal together with its negation
(`candidateGate_output_not_input`): for a clause `C` that contains all inputs and is not
skipped, every assignment that satisfies the definition `eqLit ⇔ (OR of lits)` of the gate
satisfies `C` if and only if it satisfies the replacement handed to `addClauseInt`; and when
the step submits no replacement, every such assignment satisfies `C`. -/
theorem shortenClause_equivalent (ext : Ext) (gate : OrGate) (st : State) (c : Nat)
    (σ : Nat → Bool)
    (hskip : notSkipped gate st c)
    (hsub : ∀ l ∈ gate.lits, l ∈ (st.clauseAt c).lits)
    (hout : gate.eqLit ∉ gate.lits)
    (hσ : gate.holds σ) :
    (∀ L lrn sts, Event.addClauseInt L lrn sts ∈ newEvents st (shortenClause ext gate st c).1 →
      (satLits σ (st.clauseAt c).lits = true ↔ satLits σ L = true)) ∧
    ((∀ L lrn sts, Event.addClauseInt L lrn sts ∉ newEvents st (shortenClause ext gate st c).1) →
      satLits σ (st.clauseAt c).lits = true) := by
  obtain ⟨tail, ht, he⟩ := shortenClause_trace ext gate st c hskip
  have hne := newEvents_append st _ _ he
  have hgate : gate.eqLit.eval σ = true ↔ ∃ l ∈ gate.lits, l.eval σ = true := by
    unfold OrGate.holds at hσ
    rw [hσ, satLits_iff]
  cases hs : scanEqLit gate.eqLit (st.clauseAt c).lits with
  | none =>
    rw [hs] at hne
    simp only [reduceCtorEq, if_false] at hne
    constructor
    · intro L lrn sts hmem
      rw [hne] at hmem
      have hL : L = nonInputs gate (st.clauseAt c).lits ++ [gate.eqLit] := by
        rcases ht with ht | ⟨cl, ht⟩ <;> subst ht <;> simp at hmem <;> exact hmem.1
      subst hL
      simp only [satLits_iff, List.mem_append, List.mem_singleton, mem_nonInputs]
      constructor
      · rintro ⟨l, hl, hv⟩
        by_cases hin : l ∈ gate.lits
        · exact ⟨gate.eqLit, Or.inr rfl, hgate.mpr ⟨l, hin, hv⟩⟩
        · exact ⟨l, Or.inl ⟨hl, hin⟩, hv⟩
      · rintro ⟨l, hl | hl, hv⟩
        · exact ⟨l, hl.1, hv⟩
        · subst hl
          obtain ⟨x, hx, hxv⟩ := hgate.mp hv
          exact ⟨x, hsub x hx, hxv⟩
    · intro hno
      refine absurd ?_ (hno (nonInputs gate (st.clauseAt c).lits ++ [gate.eqLit])
        (st.clauseAt c).learnt (st.clauseAt c).stats)
      rw [hne]; simp
  | some b =>
    cases b with
    | true =>
      rw [hs] at hne
      simp only [reduceCtorEq, if_false, if_true, List.append_nil] at hne
      constructor
      · intro L lrn sts hmem
        rw [hne] at hmem
        have hL : L = nonInputs gate (st.clauseAt c).lits := by
          rcases ht with ht | ⟨cl, ht⟩ <;> subst ht <;> simp at hmem <;> exact hmem.1
        subst hL
        simp only [satLits_iff, mem_nonInputs]
        constructor
        · rintro ⟨l, hl, hv⟩
          by_cases hin : l ∈ gate.lits
          · exact ⟨gate.eqLit, ⟨scanEqLit_true hs, hout⟩, hgate.mpr ⟨l, hin, hv⟩⟩
          · exact ⟨l, ⟨hl, hin⟩, hv⟩
        · rintro ⟨l, hl, hv⟩
          exact ⟨l, hl.1, hv⟩
      · intro hno
        refine absurd ?_ (hno (nonInputs gate (st.clauseAt c).lits)
          (st.clauseAt c).learnt (st.clauseAt c).stats)
        rw [hne]; simp
    | false =>
      have hmem := scanEqLit_false hs
      have hsat : satLits σ (st.clauseAt c).lits = true := by
        rw [satLits_iff]
        cases hv : gate.eqLit.eval σ with
        | true =>
          obtain ⟨x, hx, hxv⟩ := hgate.mp hv
          exact ⟨x, hsub x hx, hxv⟩
        | false => exact ⟨gate.eqLit.neg, hmem, by rw [Lit.eval_neg, hv]; rfl⟩
      constructor
      · intro L lrn sts hm
        rw [hne, hs] at hm
        simp at hm
      · intro _
        exact hsat

theorem shortenClause_equivalent_witness :
    satLits allTrue (scenario2.clauseAt 0).lits = true ↔ satLits allTrue [pos 1, pos 4] = true :=
  (shortenClause_equivalent scenarioExt gate123 scenario2 0 allTrue ⟨rfl, Or.inr rfl⟩
    (by decide) (by decide) (by unfold OrGate.holds; decide)).1 [pos 1, pos 4] false ⟨0, 0, 0⟩
    (by decide)

/-! ### AND-gate contraction: one contraction -/

/-- What `treatAndGateClause` does to the state: it submits the literals of the clause other
than `~lits[0]`, followed by `~eqLit`, with the conjunction of the learnt flags and the combined
statistics, links in the clause handed back, counts the contraction, and leaves `seen`, the
buckets and the old slots of the arena alone. -/
theorem treatAndGateClause_spec (ext : Ext) (st : State) (d : Nat) (gate : OrGate) (cl : Clause) :
    (∃ tail, (tail = [] ∨ ∃ ncl, tail = [Event.linkInClause ncl]) ∧
      (treatAndGateClause ext st d gate cl).1.trace = st.trace ++
        Event.addClauseInt (residual gate cl ++ [gate.eqLit.neg])
          ((st.clauseAt d).learnt && cl.learnt)
          (ext.combineStats cl.stats (st.clauseAt d).stats) :: tail) ∧
    (treatAndGateClause ext st d gate cl).1.andGateNumFound = st.andGateNumFound + 1 ∧
    (treatAndGateClause ext st d gate cl).1.andGateTotalSize =
      st.andGateTotalSize + cl.lits.length ∧
    (treatAndGateClause ext st d gate cl).1.seen = st.seen ∧
    (treatAndGateClause ext st d gate cl).1.sizeSortedOcc = st.sizeSortedOcc ∧
    (∃ extra, (treatAndGateClause ext st d gate cl).1.clauses = st.clauses ++ extra) := by
  unfold treatAndGateClause
  simp only [addClauseInt]
  cases hr : (ext.addClauseInt _ _ _ _).cl with
  | none =>
    simp only []
    split_ifs
    all_goals
      refine ⟨⟨[], Or.inl rfl, ?_⟩, rfl, rfl, rfl, rfl, ⟨[], by simp [State.charge]⟩⟩
      simp [State.charge, residual, State.clauseAt]
  | some ncl =>
    simp only []
    split_ifs
    all_goals
      refine ⟨⟨[Event.linkInClause ncl], Or.inr ⟨ncl, rfl⟩, ?_⟩, rfl, rfl, rfl, rfl,
        ⟨[some ncl], by simp [State.charge, linkInClause]⟩⟩
      simp [State.charge, residual, State.clauseAt, linkInClause]


/-- A step of the main loop of `treatAndGate` with `reallyRemove` that counts a twin has passed
every test, has found the twin `d` in the bucket of the size of the clause, and has called
`treatAndGateClause` for it; `seen` is cleared when that call returns true. -/
theorem treatAndGateBody_found (ext : Ext) (gate : OrGate) (abstraction maxSize : Nat)
    (acc : AndGateAcc) (c : Nat)
    (h : (treatAndGateBody ext gate true abstraction maxSize acc c).1.foundPotential =
      acc.foundPotential + 1) :
    ∃ d, twinOf gate acc.st c = some d ∧
      passesFilter abstraction maxSize acc.st c = true ∧
      litsOk gate acc.st (acc.st.clauseAt c) = true ∧
      ((acc.st.clauseAt c).learnt = true ∨ gate.learnt = false) ∧
      (treatAndGateBody ext gate true abstraction maxSize acc c).1.other = some d ∧
      (treatAndGateBody ext gate true abstraction maxSize acc c).1.clToUnlink =
        setInsert c (setInsert d acc.clToUnlink) ∧
      (treatAndGateBody ext gate true abstraction maxSize acc c).2 =
        (treatAndGateClause ext (searchState gate acc.st c) d gate (acc.st.clauseAt c)).2 ∧
      (treatAndGateBody ext gate true abstraction maxSize acc c).1.st =
        (if (treatAndGateClause ext (searchState gate acc.st c) d gate (acc.st.clauseAt c)).2
         then clearSeen (acc.st.clauseAt c)
          (treatAndGateClause ext (searchState gate acc.st c) d gate (acc.st.clauseAt c)).1
         else (treatAndGateClause ext (searchState gate acc.st c) d gate (acc.st.clauseAt c)).1) := by
  have hf : (findAndGateOtherCl (markSeen gate acc.st (acc.st.clauseAt c))
      ((markSeen gate acc.st (acc.st.clauseAt c)).sizeSortedOcc
        (acc.st.clauseAt c).lits.length) gate.lit1.neg
      (abst2Of gate (acc.st.clauseAt c))) =
      (searchState gate acc.st c, twinOf gate acc.st c) := rfl
  have h1 : passesFilter abstraction maxSize acc.st c = true := by
    by_contra hn
    simp only [Bool.not_eq_true] at hn
    simp only [treatAndGateBody, hn, Bool.not_false, if_true] at h
    omega
  have h2 : (!(acc.st.clauseAt c).learnt && gate.learnt) = false := by
    by_contra hn
    simp only [Bool.not_eq_false] at hn
    simp only [treatAndGateBody, h1, hn, Bool.not_true, Bool.false_eq_true, if_false,
      if_true] at h
    omega
  have h3 : litsOk gate acc.st (acc.st.clauseAt c) = true := by
    by_contra hn
    simp only [Bool.not_eq_true] at hn
    simp only [treatAndGateBody, h1, h2, hn, Bool.not_true, Bool.not_false, Bool.false_eq_true,
      if_false, if_true] at h
    omega
  have hl : (acc.st.clauseAt c).learnt = true ∨ gate.learnt = false := by
    cases hx : (acc.st.clauseAt c).learnt
    · right
      simpa [hx] using h2
    · left; rfl
  cases ht : twinOf gate acc.st c with
  | none =>
    simp only [treatAndGateBody, h1, h2, h3, hf, ht, Bool.not_true, Bool.false_eq_true,
      if_false] at h
    omega
  | some d =>
    refine ⟨d, rfl, h1, h3, hl, ?_⟩
    simp only [treatAndGateBody, h1, h2, h3, hf, ht, Bool.not_true, Bool.false_eq_true,
      if_false, if_true]
    cases hc : (treatAndGateClause ext (searchState gate acc.st c) d gate
      (acc.st.clauseAt c)).2 <;> simp


/-! ### AND-gate contraction: the main loop -/

theorem treatAndGateLoop_append (ext : Ext) (gate : OrGate) (rr : Bool) (ab ms : Nat)
    (pre post : List Nat) :
    ∀ acc, treatAndGateLoop ext gate rr ab ms (pre ++ post) acc =
      if (treatAndGateLoop ext gate rr ab ms pre acc).2 then
        treatAndGateLoop ext gate rr ab ms post (treatAndGateLoop ext gate rr ab ms pre acc).1
      else treatAndGateLoop ext gate rr ab ms pre acc := by
  induction pre with
  | nil => intro acc; simp [treatAndGateLoop]
  | cons c rest ih =>
    intro acc
    simp only [List.cons_append, treatAndGateLoop]
    by_cases h : (treatAndGateBody ext gate rr ab ms acc c).2 = true
    · simp only [h, if_true]
      exact ih _
    · simp [h]

/-- The loop run over `pre ++ c :: post` is the loop run over `pre`, then the step for `c`,
then the loop over `post`, as long as no step returns false. -/
theorem runLoop_split (ext : Ext) (gate : OrGate) (rr : Bool) (st : State) (numOp : Nat)
    (pre post : List Nat) (c : Nat) (hpre : (runLoop ext gate rr st numOp pre).2 = true) :
    runLoop ext gate rr st numOp (pre ++ c :: post) =
      if (stepAt ext gate rr st numOp pre c).2 then
        treatAndGateLoop ext gate rr (sortedOcc gate st numOp).abstraction
          (sortedOcc gate st numOp).maxSize post (stepAt ext gate rr st numOp pre c).1
      else ((stepAt ext gate rr st numOp pre c).1, false) := by
  unfold runLoop at hpre ⊢
  rw [treatAndGateLoop_append, hpre]
  simp only [if_true, treatAndGateLoop, stepAt, runLoop]

theorem mem_setInsert {x y : Nat} {l : List Nat} : x ∈ setInsert y l ↔ x = y ∨ x ∈ l := by
  induction l with
  | nil => simp [setInsert]
  | cons z zs ih =>
    simp only [setInsert]
    split_ifs with h1 h2
    · simp
    · subst h2; simp
    · simp only [List.mem_cons, ih]
      tauto

theorem treatAndGateBody_clToUnlink (ext : Ext) (gate : OrGate) (rr : Bool) (ab ms : Nat)
    (acc : AndGateAcc) (c x : Nat) (hx : x ∈ acc.clToUnlink) :
    x ∈ (treatAndGateBody ext gate rr ab ms acc c).1.clToUnlink := by
  unfold treatAndGateBody
  simp only []
  repeat' split
  all_goals
    first
    | exact hx
    | exact mem_setInsert.mpr (Or.inr (mem_setInsert.mpr (Or.inr hx)))

theorem treatAndGateLoop_clToUnlink (ext : Ext) (gate : OrGate) (rr : Bool) (ab ms : Nat)
    (cs : List Nat) (x : Nat) :
    ∀ acc, x ∈ acc.clToUnlink → x ∈ (treatAndGateLoop ext gate rr ab ms cs acc).1.clToUnlink := by
  induction cs with
  | nil => intro acc hx; exact hx
  | cons c rest ih =>
    intro acc hx
    have hb := treatAndGateBody_clToUnlink ext gate rr ab ms acc c x hx
    simp only [treatAndGateLoop]
    split_ifs
    · exact ih _ hb
    · exact hb

theorem unlinkClause_getD (st : State) (c i : Nat) (h : st.clauses.getD i none = none) :
    (unlinkClause st c).clauses.getD i none = none := by
  simp only [unlinkClause, List.getD_eq_getElem?_getD, List.getElem?_set] at h ⊢
  split_ifs
  · rfl
  · rfl
  · exact h

theorem unlinkClause_getD_self (st : State) (c : Nat) :
    (unlinkClause st c).clauses.getD c none = none := by
  simp only [unlinkClause, List.getD_eq_getElem?_getD, List.getElem?_set]
  by_cases h : c < st.clauses.length
  · simp [h]
  · simp [h]

/-- After the loop that unlinks the clauses of `clToUnlink`, each of them has an empty slot and
an `unlinkClause` event. -/
theorem foldl_unlinkClause (l : List Nat) :
    ∀ st : State,
      (∀ i, st.clauses.getD i none = none → (l.foldl unlinkClause st).clauses.getD i none = none) ∧
      (∀ e ∈ st.trace, e ∈ (l.foldl unlinkClause st).trace) ∧
      (∀ i ∈ l, (l.foldl unlinkClause st).clauses.getD i none = none ∧
        Event.unlinkClause i ∈ (l.foldl unlinkClause st).trace) := by
  induction l with
  | nil => intro st; simp
  | cons c rest ih =>
    intro st
    obtain ⟨h1, h2, h3⟩ := ih (unlinkClause st c)
    simp only [List.foldl_cons]
    refine ⟨fun i hi => h1 i (unlinkClause_getD st c i hi), ?_, ?_⟩
    · intro e he
      exact h2 e (by simp [unlinkClause, he])
    · intro i hi
      simp only [List.mem_cons] at hi
      rcases hi with hi | hi
      · subst hi
        exact ⟨h1 i (unlinkClause_getD_self st i), h2 _ (by simp [unlinkClause])⟩
      · exact h3 i hi


/-- The loop of `calculateSortedOcc` changes the buckets and `seen2` only. -/
theorem calculateSortedOccLoop_frame (gate : OrGate) (cs : List Nat) :
    ∀ acc : SortedOcc, ∃ sso s2,
      (calculateSortedOccLoop gate cs acc).st =
        { acc.st with sizeSortedOcc := sso, seen2 := s2 } := by
  induction cs with
  | nil => intro acc; exact ⟨_, _, rfl⟩
  | cons c rest ih =>
    intro acc
    simp only [calculateSortedOccLoop]
    split_ifs
    · exact ih acc
    · obtain ⟨sso, s2, h⟩ := ih
        { st := { acc.st with
                  sizeSortedOcc := Function.update acc.st.sizeSortedOcc
                    (acc.st.clauseAt c).lits.length
                    (acc.st.sizeSortedOcc (acc.st.clauseAt c).lits.length ++ [c])
                  seen2 := (markSeen2 (acc.st.clauseAt c).lits
                    (acc.st.seen2, acc.seen2Set, acc.abstraction)).1 }
          maxSize := max acc.maxSize (acc.st.clauseAt c).lits.length
          seen2Set := (markSeen2 (acc.st.clauseAt c).lits
            (acc.st.seen2, acc.seen2Set, acc.abstraction)).2.1
          abstraction := (markSeen2 (acc.st.clauseAt c).lits
            (acc.st.seen2, acc.seen2Set, acc.abstraction)).2.2
          numOp := acc.numOp + (acc.st.clauseAt c).lits.length }
      exact ⟨sso, s2, h⟩

/-- The function `calculateSortedOcc` changes the buckets, `seen2` and the budget only. -/
theorem sortedOcc_frame (gate : OrGate) (st : State) (numOp : Nat) :
    ∃ sso s2 cells,
      (sortedOcc gate st numOp).st =
        { st with sizeSortedOcc := sso, seen2 := s2, cells := cells } := by
  unfold sortedOcc calculateSortedOcc
  simp only []
  obtain ⟨sso, s2, h⟩ := calculateSortedOccLoop_frame gate (st.occur gate.lit1.neg.toInt)
    ⟨State.charge { st with sizeSortedOcc := fun _ => [] }
      ((st.occur gate.lit1.neg.toInt).length * 3), 0, [], 0, numOp⟩
  exact ⟨sso, s2, _, h⟩

theorem sortedOcc_occur (gate : OrGate) (st : State) (numOp : Nat) (n : Nat) :
    (sortedOcc gate st numOp).st.occur n = st.occur n := by
  obtain ⟨sso, s2, cells, h⟩ := sortedOcc_frame gate st numOp
  rw [h]


/-- C5. AND-gate contraction postcondition: take a gate with first input `a`, second input `b`
and output `w`, and a clause index `c` of `occur[¬a]` that the main loop of `treatAndGate`
(with `reallyRemove`) reaches and for which it finds a twin. Then the twin `D` is the clause
found by `findAndGateOtherCl`, the step submits to `addClauseInt` the literals of `C` other than
`¬a`, in order, followed by `¬w`, with `learnt = C.learnt ∧ D.learnt` and
`stats = combineStats(C.stats, D.stats)`; `andGateNumFound` grows by 1 and `andGateTotalSize` by
the size of `C`; and if the call of `treatAndGate` returns true, both `C` and `D` have been
unlinked. -/
theorem treatAndGate_contraction (ext : Ext) (gate : OrGate) (st : State)
    (foundPotential numOp : Nat) (pre post : List Nat) (c : Nat)
    (hocc : st.occur gate.lit1.neg.toInt ≠ [])
    (hcs : st.occur gate.lit0.neg.toInt = pre ++ c :: post)
    (hpre : (runLoop ext gate true st numOp pre).2 = true)
    (hfound : (stepAt ext gate true st numOp pre c).1.foundPotential =
      (runLoop ext gate true st numOp pre).1.foundPotential + 1) :
    ∃ d tail,
      twinOf gate (runLoop ext gate true st numOp pre).1.st c = some d ∧
      (tail = [] ∨ ∃ ncl, tail = [Event.linkInClause ncl]) ∧
      (stepAt ext gate true st numOp pre c).1.st.trace =
        (runLoop ext gate true st numOp pre).1.st.trace ++
          Event.addClauseInt
            (((runLoop ext gate true st numOp pre).1.st.clauseAt c).lits.filter
                (fun l => decide (l ≠ gate.lit0.neg)) ++ [gate.eqLit.neg])
            (((runLoop ext gate true st numOp pre).1.st.clauseAt c).learnt &&
              ((runLoop ext gate true st numOp pre).1.st.clauseAt d).learnt)
            (ext.combineStats ((runLoop ext gate true st numOp pre).1.st.clauseAt c).stats
              ((runLoop ext gate true st numOp pre).1.st.clauseAt d).stats) :: tail ∧
      (stepAt ext gate true st numOp pre c).1.st.andGateNumFound =
        (runLoop ext gate true st numOp pre).1.st.andGateNumFound + 1 ∧
      (stepAt ext gate true st numOp pre c).1.st.andGateTotalSize =
        (runLoop ext gate true st numOp pre).1.st.andGateTotalSize +
          ((runLoop ext gate true st numOp pre).1.st.clauseAt c).lits.length ∧
      ((treatAndGate ext gate true st foundPotential numOp).ret = true →
        (treatAndGate ext gate true st foundPotential numOp).st.clauses.getD c none = none ∧
        (treatAndGate ext gate true st foundPotential numOp).st.clauses.getD d none = none ∧
        Event.unlinkClause c ∈ (treatAndGate ext gate true st foundPotential numOp).st.trace ∧
        Event.unlinkClause d ∈ (treatAndGate ext gate true st foundPotential numOp).st.trace) := by
  obtain ⟨d, htwin, _, _, _, _, hcl, hflag, hst⟩ := treatAndGateBody_found ext gate
    (sortedOcc gate st numOp).abstraction (sortedOcc gate st numOp).maxSize
    (runLoop ext gate true st numOp pre).1 c hfound
  obtain ⟨⟨tail, htail, htr⟩, hnum, hsize, _, _, _⟩ := treatAndGateClause_spec ext
    (searchState gate (runLoop ext gate true st numOp pre).1.st c) d gate
    ((runLoop ext gate true st numOp pre).1.st.clauseAt c)
  have hst2 : (stepAt ext gate true st numOp pre c).1.st =
      (if (treatAndGateClause ext (searchState gate (runLoop ext gate true st numOp pre).1.st c)
            d gate ((runLoop ext gate true st numOp pre).1.st.clauseAt c)).2
       then clearSeen ((runLoop ext gate true st numOp pre).1.st.clauseAt c)
        (treatAndGateClause ext (searchState gate (runLoop ext gate true st numOp pre).1.st c)
            d gate ((runLoop ext gate true st numOp pre).1.st.clauseAt c)).1
       else (treatAndGateClause ext (searchState gate (runLoop ext gate true st numOp pre).1.st c)
            d gate ((runLoop ext gate true st numOp pre).1.st.clauseAt c)).1) := hst
  have hfilter : ((runLoop ext gate true st numOp pre).1.st.clauseAt c).lits.filter
      (fun l => decide (l ≠ gate.lit0.neg)) =
      residual gate ((runLoop ext gate true st numOp pre).1.st.clauseAt c) := by
    unfold residual
    congr 1
    funext l
    by_cases h : l = gate.lit0.neg <;> simp [h]
  refine ⟨d, tail, htwin, htail, ?_, ?_, ?_, ?_⟩
  · rw [hst2, hfilter, Bool.and_comm]
    split_ifs
    · exact htr
    · exact htr
  · rw [hst2]
    split_ifs
    · exact hnum
    · exact hnum
  · rw [hst2]
    split_ifs
    · exact hsize
    · exact hsize
  · intro hret
    have hne : ((st.occur gate.lit0.neg.toInt).isEmpty ||
        (st.occur gate.lit1.neg.toInt).isEmpty) = false := by
      rw [hcs]
      cases h : st.occur gate.lit1.neg.toInt with
      | nil => exact absurd h hocc
      | cons _ _ => cases pre <;> rfl
    have hso : (sortedOcc gate st numOp).st.occur gate.lit0.neg.toInt = pre ++ c :: post := by
      rw [← hcs]
      exact sortedOcc_occur gate st numOp _
    have hsplit := runLoop_split ext gate true st numOp pre post c hpre
    unfold treatAndGate at hret ⊢
    simp only [hne, Bool.false_eq_true, if_false, hso] at hret ⊢
    by_cases hr : (runLoop ext gate true st numOp (pre ++ c :: post)).2 = true
    · simp only [hr, Bool.not_true, Bool.false_eq_true, if_false]
      have hstep : (stepAt ext gate true st numOp pre c).2 = true := by
        by_contra hn
        rw [hsplit, if_neg hn] at hr
        exact Bool.false_ne_true hr
      rw [hsplit, if_pos hstep]
      have hc : c ∈ (stepAt ext gate true st numOp pre c).1.clToUnlink := by
        have : (stepAt ext gate true st numOp pre c).1.clToUnlink = _ := hcl
        rw [this]
        exact mem_setInsert.mpr (Or.inl rfl)
      have hd : d ∈ (stepAt ext gate true st numOp pre c).1.clToUnlink := by
        have : (stepAt ext gate true st numOp pre c).1.clToUnlink = _ := hcl
        rw [this]
        exact mem_setInsert.mpr (Or.inr (mem_setInsert.mpr (Or.inl rfl)))
      have hc2 := treatAndGateLoop_clToUnlink ext gate true (sortedOcc gate st numOp).abstraction
        (sortedOcc gate st numOp).maxSize post c _ hc
      have hd2 := treatAndGateLoop_clToUnlink ext gate true (sortedOcc gate st numOp).abstraction
        (sortedOcc gate st numOp).maxSize post d _ hd
      obtain ⟨_, _, h3⟩ := foldl_unlinkClause
        (treatAndGateLoop ext gate true (sortedOcc gate st numOp).abstraction
          (sortedOcc gate st numOp).maxSize post (stepAt ext gate true st numOp pre c).1).1.clToUnlink
        { (treatAndGateLoop ext gate true (sortedOcc gate st numOp).abstraction
          (sortedOcc gate st numOp).maxSize post (stepAt ext gate true st numOp pre c).1).1.st with
          seen2 := (sortedOcc gate st numOp).seen2Set.foldl
            (fun s i => Function.update s i false)
            (treatAndGateLoop ext gate true (sortedOcc gate st numOp).abstraction
              (sortedOcc gate st numOp).maxSize post
              (stepAt ext gate true st numOp pre c).1).1.st.seen2 }
      exact ⟨(h3 c hc2).1, (h3 d hd2).1, (h3 c hc2).2, (h3 d hd2).2⟩
    · simp only [Bool.not_eq_true] at hr
      simp [hr] at hret


theorem treatAndGate_contraction_witness :
    scenario4.occur gate123.lit0.neg.toInt = [] ++ 0 :: [] ∧
    (∃ tail, (stepAt scenarioExt gate123 true scenario4 0 [] 0).1.st.trace =
      (runLoop scenarioExt gate123 true scenario4 0 []).1.st.trace ++
        Event.addClauseInt [pos 4, pos 5, ng 1] false ⟨0, 0, 0⟩ :: tail) ∧
    (stepAt scenarioExt gate123 true scenario4 0 [] 0).1.st.andGateNumFound =
      (runLoop scenarioExt gate123 true scenario4 0 []).1.st.andGateNumFound + 1 ∧
    Event.unlinkClause 0 ∈ (treatAndGate scenarioExt gate123 true scenario4 0 0).st.trace ∧
    Event.unlinkClause 1 ∈ (treatAndGate scenarioExt gate123 true scenario4 0 0).st.trace := by
  have h1 : scenario4.occur gate123.lit1.neg.toInt ≠ [] := by decide
  have h2 : scenario4.occur gate123.lit0.neg.toInt = [] ++ 0 :: [] := by decide
  have h3 : (runLoop scenarioExt gate123 true scenario4 0 []).2 = true := rfl
  have h4 : (stepAt scenarioExt gate123 true scenario4 0 [] 0).1.foundPotential =
      (runLoop scenarioExt gate123 true scenario4 0 []).1.foundPotential + 1 := by decide
  have hret : (treatAndGate scenarioExt gate123 true scenario4 0 0).ret = true := by decide
  have htw : twinOf gate123 (runLoop scenarioExt gate123 true scenario4 0 []).1.st 0 = some 1 := by
    decide
  obtain ⟨d, tail, hd, _, htr, hn, _, hu⟩ :=
    treatAndGate_contraction scenarioExt gate123 scenario4 0 0 [] [] 0 h1 h2 h3 h4
  rw [htw] at hd
  have hd1 : d = 1 := (Option.some.inj hd).symm
  subst hd1
  exact ⟨h2, ⟨tail, htr⟩, hn, (hu hret).2.2.1, (hu hret).2.2.2⟩


/-! ### AND-gate contraction: the scratch bitmap `seen` -/

theorem foldl_mark (ls : List Lit) (v : Bool) :
    ∀ (s : Nat → Bool) (n : Nat),
      (ls.foldl (fun s l => Function.update s l.toInt v) s) n =
        if ∃ l ∈ ls, l.toInt = n then v else s n := by
  induction ls with
  | nil => intro s n; simp
  | cons l rest ih =>
    intro s n
    simp only [List.foldl_cons, ih, List.mem_cons, exists_eq_or_imp]
    by_cases h1 : ∃ x ∈ rest, x.toInt = n
    · simp [h1]
    · by_cases h2 : l.toInt = n
      · subst h2
        simp [h1]
      · simp [h1, h2, Function.update_noteq (Ne.symm h2)]

theorem mem_residual {gate : OrGate} {cl : Clause} {l : Lit} :
    l ∈ residual gate cl ↔ l ∈ cl.lits ∧ l ≠ gate.lit0.neg := by
  simp [residual]

/-- With `seen` all false before, the search state has exactly the residual literals seen. -/
theorem searchState_seen (gate : OrGate) (st : State) (c : Nat)
    (hseen : ∀ n, st.seen n = false) (l : Lit) :
    (searchState gate st c).seen l.toInt = true ↔ l ∈ residual gate (st.clauseAt c) := by
  show ((residual gate (st.clauseAt c)).foldl (fun s l => Function.update s l.toInt true)
    st.seen) l.toInt = true ↔ _
  rw [foldl_mark, hseen]
  constructor
  · intro h
    split_ifs at h with h1
    obtain ⟨x, hx, hxe⟩ := h1
    rw [← Lit.toInt_inj hxe]; exact hx
  · intro h
    rw [if_pos ⟨l, h, rfl⟩]

/-- Clearing `seen` for the literals of the clause after marking its residual literals gives
back an all-false `seen`. -/
theorem clearSeen_seen (gate : OrGate) (cl : Clause) (st s2 : State)
    (hseen : ∀ n, st.seen n = false) (h2 : s2.seen = (markSeen gate st cl).seen) (n : Nat) :
    (clearSeen cl s2).seen n = false := by
  show (cl.lits.foldl (fun s l => Function.update s l.toInt false) s2.seen) n = false
  rw [foldl_mark, h2]
  split_ifs with h
  · rfl
  · show ((residual gate cl).foldl (fun s l => Function.update s l.toInt true) st.seen) n = false
    rw [foldl_mark, hseen]
    split_ifs with h3
    · obtain ⟨x, hx, hxe⟩ := h3
      exact absurd ⟨x, (mem_residual.mp hx).1, hxe⟩ h
    · rfl

/-! ### AND-gate contraction: the buckets -/

theorem calculateSortedOccLoop_buckets (gate : OrGate) (cls : List (Option Clause))
    (P : Nat → Prop) (cs : List Nat) :
    ∀ acc : SortedOcc, acc.st.clauses = cls → (∀ c ∈ cs, P c) →
      (∀ k d, d ∈ acc.st.sizeSortedOcc k → P d ∧ (acc.st.clauseAt d).lits.length = k) →
      ∀ k d, d ∈ (calculateSortedOccLoop gate cs acc).st.sizeSortedOcc k →
        P d ∧ (acc.st.clauseAt d).lits.length = k := by
  induction cs with
  | nil => intro acc _ _ h; exact h
  | cons c rest ih =>
    intro acc hcls hP h
    simp only [calculateSortedOccLoop]
    split_ifs
    · exact ih acc hcls (fun x hx => hP x (List.mem_cons_of_mem _ hx)) h
    · refine ih _ hcls (fun x hx => hP x (List.mem_cons_of_mem _ hx)) ?_
      intro k d hd
      simp only at hd
      by_cases hk : k = (acc.st.clauseAt c).lits.length
      · subst hk
        rw [Function.update_same] at hd
        rcases List.mem_append.mp hd with h1 | h1
        · exact h _ d h1
        · simp only [List.mem_singleton] at h1
          subst h1
          exact ⟨hP d (List.mem_cons_self _ _), rfl⟩
      · rw [Function.update_noteq hk] at hd
        exact h k d hd

/-- Every clause index in the bucket `k` after `calculateSortedOcc` comes from `occur[~lits[1]]`
and its clause has `k` literals. -/
theorem sortedOcc_buckets (gate : OrGate) (st : State) (numOp : Nat) (k d : Nat)
    (hd : d ∈ (sortedOcc gate st numOp).st.sizeSortedOcc k) :
    d ∈ st.occur gate.lit1.neg.toInt ∧ (st.clauseAt d).lits.length = k := by
  unfold sortedOcc calculateSortedOcc at hd
  simp only [] at hd
  exact calculateSortedOccLoop_buckets gate st.clauses
    (fun i => i ∈ st.occur gate.lit1.neg.toInt) (st.occur gate.lit1.neg.toInt)
    ⟨State.charge { st with sizeSortedOcc := fun _ => [] }
      ((st.occur gate.lit1.neg.toInt).length * 3), 0, [], 0, numOp⟩ rfl (fun _ h => h)
    (by intro k d h; simp [State.charge] at h) k d hd

theorem findAndGateOtherClLoop_some (st : State) (lit : Lit) (abst2 : Nat) (bucket : List Nat)
    (d : Nat) (h : findAndGateOtherClLoop st lit abst2 bucket = some d) :
    d ∈ bucket ∧ (st.clauseData d).defOfOrGate = false ∧ (st.clauseData d).abst = abst2 ∧
      allSeenBut st.seen lit (st.clauseAt d).lits = true := by
  induction bucket with
  | nil => simp [findAndGateOtherClLoop] at h
  | cons c rest ih =>
    simp only [findAndGateOtherClLoop] at h
    by_cases h1 : ((st.clauseData c).defOfOrGate || (st.clauseData c).abst != abst2) = true
    · simp only [h1, if_true] at h
      obtain ⟨a, b⟩ := ih h
      exact ⟨List.mem_cons_of_mem _ a, b⟩
    · simp only [h1, if_false] at h
      by_cases h2 : allSeenBut st.seen lit (st.clauseAt c).lits = true
      · simp only [h2, if_true, Bool.false_eq_true, if_false, Option.some.injEq] at h
        subst h
        simp only [Bool.or_eq_true, bne_iff_ne, ne_eq, not_or, Bool.not_eq_true,
          Decidable.not_not] at h1
        exact ⟨List.mem_cons_self _ _, h1.1, h1.2, h2⟩
      · simp only [h2, if_false] at h
        obtain ⟨a, b⟩ := ih h
        exact ⟨List.mem_cons_of_mem _ a, b⟩


/-! ### AND-gate contraction: what the loop keeps true -/

/-- The state after a step of the main loop that does not return false: unchanged, or `seen`
cleared after a search, or `seen` cleared after a contraction. -/
theorem treatAndGateBody_state (ext : Ext) (gate : OrGate) (rr : Bool) (ab ms : Nat)
    (acc : AndGateAcc) (c : Nat) (hflag : (treatAndGateBody ext gate rr ab ms acc c).2 = true) :
    (treatAndGateBody ext gate rr ab ms acc c).1.st = acc.st ∨
    (treatAndGateBody ext gate rr ab ms acc c).1.st =
      clearSeen (acc.st.clauseAt c) (searchState gate acc.st c) ∨
    ∃ d, (treatAndGateBody ext gate rr ab ms acc c).1.st =
      clearSeen (acc.st.clauseAt c)
        (treatAndGateClause ext (searchState gate acc.st c) d gate (acc.st.clauseAt c)).1 := by
  have hf : (findAndGateOtherCl (markSeen gate acc.st (acc.st.clauseAt c))
      ((markSeen gate acc.st (acc.st.clauseAt c)).sizeSortedOcc
        (acc.st.clauseAt c).lits.length) gate.lit1.neg
      (abst2Of gate (acc.st.clauseAt c))) =
      (searchState gate acc.st c, twinOf gate acc.st c) := rfl
  unfold treatAndGateBody at hflag ⊢
  simp only [hf] at hflag ⊢
  by_cases h1 : (!passesFilter ab ms acc.st c) = true
  · simp only [h1, if_true]; simp
  · simp only [h1, if_false] at hflag ⊢
    by_cases h2 : (!(acc.st.clauseAt c).learnt && gate.learnt) = true
    · simp only [h2, if_true]; exact Or.inl rfl
    · simp only [h2, if_false] at hflag ⊢
      by_cases h3 : (!litsOk gate acc.st (acc.st.clauseAt c)) = true
      · simp only [h3, if_true]; exact Or.inl rfl
      · simp only [h3, if_false] at hflag ⊢
        cases ht : twinOf gate acc.st c with
        | none => exact Or.inr (Or.inl rfl)
        | some d =>
          simp only [ht] at hflag ⊢
          cases rr with
          | false => exact Or.inr (Or.inl rfl)
          | true =>
            simp only [if_true] at hflag ⊢
            by_cases h4 : (treatAndGateClause ext (searchState gate acc.st c) d gate
              (acc.st.clauseAt c)).2 = true
            · simp only [h4, Bool.not_true, Bool.false_eq_true, if_false]
              exact Or.inr (Or.inr ⟨d, rfl⟩)
            · simp only [Bool.not_eq_true] at h4
              simp [h4] at hflag

theorem treatAndGateBody_inv (ext : Ext) (gate : OrGate) (rr : Bool) (ab ms : Nat)
    (st : State) (numOp : Nat) (acc : AndGateAcc) (c : Nat)
    (hinv : LoopInv gate st numOp acc)
    (hflag : (treatAndGateBody ext gate rr ab ms acc c).2 = true) :
    LoopInv gate st numOp (treatAndGateBody ext gate rr ab ms acc c).1 := by
  obtain ⟨hseen, ⟨extra, hcl⟩, hsso⟩ := hinv
  rcases treatAndGateBody_state ext gate rr ab ms acc c hflag with h | h | ⟨d, h⟩
  · unfold LoopInv
    rw [h]
    exact ⟨hseen, ⟨extra, hcl⟩, hsso⟩
  · unfold LoopInv
    rw [h]
    exact ⟨clearSeen_seen gate _ acc.st _ hseen rfl, ⟨extra, hcl⟩, hsso⟩
  · obtain ⟨_, _, _, hs, hb, ⟨extra2, hc2⟩⟩ := treatAndGateClause_spec ext
      (searchState gate acc.st c) d gate (acc.st.clauseAt c)
    unfold LoopInv
    rw [h]
    refine ⟨clearSeen_seen gate _ acc.st _ hseen hs, ⟨extra ++ extra2, ?_⟩, ?_⟩
    · show (treatAndGateClause ext (searchState gate acc.st c) d gate
        (acc.st.clauseAt c)).1.clauses = _
      rw [hc2]
      show acc.st.clauses ++ extra2 = _
      rw [hcl, List.append_assoc]
    · show (treatAndGateClause ext (searchState gate acc.st c) d gate
        (acc.st.clauseAt c)).1.sizeSortedOcc = _
      rw [hb]
      exact hsso

theorem treatAndGateLoop_inv (ext : Ext) (gate : OrGate) (rr : Bool) (ab ms : Nat)
    (st : State) (numOp : Nat) (cs : List Nat) :
    ∀ acc, LoopInv gate st numOp acc → (treatAndGateLoop ext gate rr ab ms cs acc).2 = true →
      LoopInv gate st numOp (treatAndGateLoop ext gate rr ab ms cs acc).1 := by
  induction cs with
  | nil => intro acc h _; exact h
  | cons c rest ih =>
    intro acc hinv hflag
    simp only [treatAndGateLoop] at hflag ⊢
    by_cases hb : (treatAndGateBody ext gate rr ab ms acc c).2 = true
    · simp only [hb, if_true] at hflag ⊢
      exact ih _ (treatAndGateBody_inv ext gate rr ab ms st numOp acc c hinv hb) hflag
    · simp [hb] at hflag

/-- When `seen` is all false on entry of `treatAndGate`, the invariant of the main loop holds
before every step that the loop reaches. -/
theorem runLoop_inv (ext : Ext) (gate : OrGate) (rr : Bool) (st : State) (numOp : Nat)
    (pre : List Nat) (hseen : ∀ n, st.seen n = false)
    (hpre : (runLoop ext gate rr st numOp pre).2 = true) :
    LoopInv gate st numOp (runLoop ext gate rr st numOp pre).1 := by
  refine treatAndGateLoop_inv ext gate rr _ _ st numOp pre _ ?_ hpre
  obtain ⟨sso, s2, cells, h⟩ := sortedOcc_frame gate st numOp
  refine ⟨?_, ⟨[], ?_⟩, rfl⟩
  · intro n
    show (sortedOcc gate st numOp).st.seen n = false
    rw [h]; exact hseen n
  · show (sortedOcc gate st numOp).st.clauses = _
    rw [h]; simp


/-! ### AND-gate contraction: soundness -/

/-- Two duplicate-free sequences of the same length, one with `a`, the other with `b`, such
that every element of the second other than `b` is an element of the first other than `a`,
have the same elements once `a` and `b` are left out. -/
theorem twin_residual_eq (C D : List Lit) (a b : Lit) (hC : C.Nodup) (hD : D.Nodup)
    (haC : a ∈ C) (hbD : b ∈ D) (hlen : D.length = C.length)
    (hsub : ∀ l ∈ D, l = b ∨ (l ∈ C ∧ l ≠ a)) :
    ∀ l, (l ∈ D ∧ l ≠ b) ↔ (l ∈ C ∧ l ≠ a) := by
  have hsubset : D.erase b ⊆ C.erase a := by
    intro l hl
    obtain ⟨h1, h2⟩ := (List.Nodup.mem_erase_iff hD).mp hl
    rcases hsub l h2 with h | h
    · exact absurd h h1
    · exact (List.Nodup.mem_erase_iff hC).mpr ⟨h.2, h.1⟩
  have hperm : (D.erase b).Perm (C.erase a) := by
    apply List.Subperm.perm_of_length_le (List.subperm_of_subset (hD.erase b) hsubset)
    rw [List.length_erase_of_mem haC, List.length_erase_of_mem hbD, hlen]
  intro l
  have := hperm.mem_iff (a := l)
  rw [List.Nodup.mem_erase_iff hD, List.Nodup.mem_erase_iff hC] at this
  constructor
  · intro h
    have := this.mp ⟨h.2, h.1⟩
    exact ⟨this.2, this.1⟩
  · intro h
    have := this.mpr ⟨h.2, h.1⟩
    exact ⟨this.2, this.1⟩

/-- Under the definition `w ⇔ (a ∨ b)`, the clauses `¬a ∨ X` and `¬b ∨ X` together are
equivalent to `X ∨ ¬w`. -/
theorem contraction_equiv (σ : Nat → Bool) (gate : OrGate) (a b : Lit) (C D : List Lit)
    (hg : gate.lits = [a, b]) (hσ : gate.holds σ) (haC : a.neg ∈ C) (hbD : b.neg ∈ D)
    (hset : ∀ l, (l ∈ D ∧ l ≠ b.neg) ↔ (l ∈ C ∧ l ≠ a.neg)) :
    (satLits σ C = true ∧ satLits σ D = true) ↔
      satLits σ (C.filter (fun l => decide (l ≠ a.neg)) ++ [gate.eqLit.neg]) = true := by
  have hw : gate.eqLit.eval σ = (a.eval σ || b.eval σ) := by
    unfold OrGate.holds at hσ
    rw [hσ, hg]
    simp [satLits]
  simp only [satLits_iff, List.mem_append, List.mem_filter, List.mem_singleton,
    decide_eq_true_eq]
  constructor
  · rintro ⟨⟨l, hl, hlv⟩, ⟨m, hm, hmv⟩⟩
    by_cases h1 : l = a.neg
    · by_cases h2 : m = b.neg
      · refine ⟨gate.eqLit.neg, Or.inr rfl, ?_⟩
        subst h1 h2
        rw [Lit.eval_neg] at hlv hmv ⊢
        rw [hw]
        cases ha : a.eval σ <;> cases hb : b.eval σ <;> simp_all
      · exact ⟨m, Or.inl ((hset m).mp ⟨hm, h2⟩), hmv⟩
    · exact ⟨l, Or.inl ⟨hl, h1⟩, hlv⟩
  · rintro ⟨l, hl | hl, hlv⟩
    · exact ⟨⟨l, hl.1, hlv⟩, ⟨l, ((hset l).mpr hl).1, hlv⟩⟩
    · subst hl
      rw [Lit.eval_neg, hw] at hlv
      have ha : a.eval σ = false := by cases h : a.eval σ <;> simp_all
      have hb : b.eval σ = false := by cases h : b.eval σ <;> simp_all
      exact ⟨⟨a.neg, haC, by rw [Lit.eval_neg, ha]; rfl⟩,
        ⟨b.neg, hbD, by rw [Lit.eval_neg, hb]; rfl⟩⟩

theorem clauseAt_append {st s2 : State} {i : Nat} {cl : Clause} {extra : List (Option Clause)}
    (h : st.clauses.get? i = some (some cl)) (h2 : s2.clauses = st.clauses ++ extra) :
    s2.clauseAt i = cl := by
  apply clauseAt_of_get
  rw [h2, List.get?_eq_getElem?] at *
  have hlt : i < st.clauses.length := (List.getElem?_eq_some_iff.mp h).1
  rw [List.getElem?_append_left hlt]
  exact h


/-- C3. AND-gate contraction is sound, the occurrence lists being those of the arena: take a
gate `w ⇔ (a ∨ b)`, a state in which `seen` is all false, every clause has pairwise distinct
literals and every index listed in `occur[ℓ]` is a clause of the arena that contains `ℓ`, and
a clause index `c` of `occur[¬a]` that the main loop of `treatAndGate` (with `reallyRemove`)
reaches and for which it finds a twin `d`. Then `d` is listed in `occur[¬b]`,
the literals of `D` other than `¬b` are the literals of `C` other than `¬a`, the step submits
these literals followed by `¬w`, and under the definition of the gate `C ∧ D` is equivalent to
the submitted clause. -/
theorem treatAndGate_contraction_sound (ext : Ext) (gate : OrGate) (a b : Lit) (st : State)
    (numOp : Nat) (pre post : List Nat) (c : Nat) (σ : Nat → Bool)
    (hg : gate.lits = [a, b])
    (hseen : ∀ n, st.seen n = false)
    (hnodup : ∀ cl, some cl ∈ st.clauses → cl.lits.Nodup)
    (hoccur : ∀ (l : Lit) (i : Nat), i ∈ st.occur l.toInt →
      ∃ cl, st.clauses.get? i = some (some cl) ∧ l ∈ cl.lits)
    (hcs : st.occur a.neg.toInt = pre ++ c :: post)
    (hpre : (runLoop ext gate true st numOp pre).2 = true)
    (hfound : (stepAt ext gate true st numOp pre c).1.foundPotential =
      (runLoop ext gate true st numOp pre).1.foundPotential + 1) :
    ∃ d, twinOf gate (runLoop ext gate true st numOp pre).1.st c = some d ∧
      d ∈ st.occur b.neg.toInt ∧
      (runLoop ext gate true st numOp pre).1.st.clauseAt c = st.clauseAt c ∧
      (runLoop ext gate true st numOp pre).1.st.clauseAt d = st.clauseAt d ∧
      (∀ l, l ∈ (st.clauseAt d).lits.filter (fun l => decide (l ≠ b.neg)) ↔
        l ∈ (st.clauseAt c).lits.filter (fun l => decide (l ≠ a.neg))) ∧
      (∃ lrn sts tail, (stepAt ext gate true st numOp pre c).1.st.trace =
        (runLoop ext gate true st numOp pre).1.st.trace ++
          Event.addClauseInt
            ((st.clauseAt c).lits.filter (fun l => decide (l ≠ a.neg)) ++ [gate.eqLit.neg])
            lrn sts :: tail) ∧
      (gate.holds σ →
        ((satLits σ (st.clauseAt c).lits = true ∧ satLits σ (st.clauseAt d).lits = true) ↔
          satLits σ ((st.clauseAt c).lits.filter (fun l => decide (l ≠ a.neg)) ++
            [gate.eqLit.neg]) = true)) := by
  have h0 : gate.lit0 = a := by simp [OrGate.lit0, hg]
  have h1 : gate.lit1 = b := by simp [OrGate.lit1, hg]
  obtain ⟨hinvSeen, ⟨extra, hinvCl⟩, hinvSso⟩ := runLoop_inv ext gate true st numOp pre hseen hpre
  obtain ⟨d, htwin, _, _, _, _, _, _, hst⟩ := treatAndGateBody_found ext gate
    (sortedOcc gate st numOp).abstraction (sortedOcc gate st numOp).maxSize
    (runLoop ext gate true st numOp pre).1 c hfound
  -- the clause C
  obtain ⟨clC, hgetC, haC⟩ := hoccur a.neg c (by rw [hcs]; simp)
  have hCacc : (runLoop ext gate true st numOp pre).1.st.clauseAt c = clC :=
    clauseAt_append hgetC hinvCl
  have hCst : st.clauseAt c = clC := clauseAt_of_get hgetC
  -- the twin D
  have hfind := findAndGateOtherClLoop_some _ _ _ _ d htwin
  obtain ⟨hdb, _, _, hall⟩ := hfind
  rw [hinvSso] at hdb
  obtain ⟨hdocc, hdlen⟩ := sortedOcc_buckets gate st numOp _ d hdb
  rw [h1] at hdocc
  obtain ⟨clD, hgetD, hbD⟩ := hoccur b.neg d hdocc
  have hDacc : (runLoop ext gate true st numOp pre).1.st.clauseAt d = clD :=
    clauseAt_append hgetD hinvCl
  have hDst : st.clauseAt d = clD := clauseAt_of_get hgetD
  rw [hDst, hCacc] at hdlen
  -- every literal of D other than ¬b is a literal of C other than ¬a
  have hsub : ∀ l ∈ clD.lits, l = b.neg ∨ (l ∈ clC.lits ∧ l ≠ a.neg) := by
    intro l hl
    have hall2 : allSeenBut (searchState gate (runLoop ext gate true st numOp pre).1.st c).seen
        gate.lit1.neg clD.lits = true := by
      have : (searchState gate (runLoop ext gate true st numOp pre).1.st c).clauseAt d =
          (runLoop ext gate true st numOp pre).1.st.clauseAt d := rfl
      rw [this, hDacc] at hall
      exact hall
    simp only [allSeenBut, List.all_eq_true, Bool.or_eq_true, beq_iff_eq] at hall2
    rcases hall2 l hl with h | h
    · left; rw [h, h1]
    · right
      have := (searchState_seen gate _ c hinvSeen l).mp h
      rw [hCacc, mem_residual, h0] at this
      exact this
  have hset := twin_residual_eq clC.lits clD.lits a.neg b.neg
    (hnodup clC (List.get?_mem hgetC)) (hnodup clD (List.get?_mem hgetD)) haC hbD hdlen hsub
  refine ⟨d, htwin, hdocc, by rw [hCacc, hCst], by rw [hDacc, hDst], ?_, ?_, ?_⟩
  · intro l
    rw [hDst, hCst]
    simp only [List.mem_filter, decide_eq_true_eq]
    exact hset l
  · obtain ⟨⟨tail, _, htr⟩, _⟩ := treatAndGateClause_spec ext
      (searchState gate (runLoop ext gate true st numOp pre).1.st c) d gate
      ((runLoop ext gate true st numOp pre).1.st.clauseAt c)
    have hres : residual gate ((runLoop ext gate true st numOp pre).1.st.clauseAt c) =
        (st.clauseAt c).lits.filter (fun l => decide (l ≠ a.neg)) := by
      rw [hCacc, hCst]
      unfold residual
      rw [h0]
      congr 1
      funext l
      by_cases h : l = a.neg <;> simp [h]
    rw [hres] at htr
    have hst2 : (stepAt ext gate true st numOp pre c).1.st = _ := hst
    refine ⟨((searchState gate (runLoop ext gate true st numOp pre).1.st c).clauseAt d).learnt &&
        ((runLoop ext gate true st numOp pre).1.st.clauseAt c).learnt,
      ext.combineStats ((runLoop ext gate true st numOp pre).1.st.clauseAt c).stats
        ((searchState gate (runLoop ext gate true st numOp pre).1.st c).clauseAt d).stats,
      tail, ?_⟩
    rw [hst2]
    split_ifs
    · exact htr
    · exact htr
  · intro hσ
    rw [hCst, hDst]
    exact contraction_equiv σ gate a b clC.lits clD.lits hg hσ haC hbD hset


/-! ### States built by linking clauses in -/

theorem linkInClause_occurWf (st : State) (cl : Clause) (h : st.occurWf) :
    (linkInClause st cl).occurWf := by
  intro l i hi
  simp only [linkInClause] at hi ⊢
  have hold : i ∈ st.occur l.toInt →
      ∃ c2, (st.clauses ++ [some cl]).get? i = some (some c2) ∧ l ∈ c2.lits := by
    intro h2
    obtain ⟨c2, hg, hl⟩ := h l i h2
    refine ⟨c2, ?_, hl⟩
    rw [List.get?_eq_getElem?] at hg ⊢
    rw [List.getElem?_append_left (List.getElem?_eq_some_iff.mp hg).1]
    exact hg
  split_ifs at hi with hany
  · rcases List.mem_append.mp hi with h2 | h2
    · exact hold h2
    · simp only [List.mem_singleton] at h2
      subst h2
      refine ⟨cl, by simp [List.get?_eq_getElem?], ?_⟩
      simp only [List.any_eq_true, beq_iff_eq] at hany
      obtain ⟨x, hx, hxe⟩ := hany
      rw [← Lit.toInt_inj hxe]; exact hx
  · exact hold hi

theorem foldl_linkInClause_occurWf (cls : List Clause) :
    ∀ st : State, st.occurWf → (cls.foldl linkInClause st).occurWf := by
  induction cls with
  | nil => intro st h; exact h
  | cons c rest ih => intro st h; exact ih _ (linkInClause_occurWf st c h)

theorem foldl_linkInClause_clauses (cls : List Clause) :
    ∀ st : State, (cls.foldl linkInClause st).clauses = st.clauses ++ cls.map some := by
  induction cls with
  | nil => intro st; simp
  | cons c rest ih => intro st; simp [ih, linkInClause]

theorem foldl_linkInClause_seen (cls : List Clause) :
    ∀ st : State, (cls.foldl linkInClause st).seen = st.seen := by
  induction cls with
  | nil => intro st; rfl
  | cons c rest ih => intro st; simp [ih, linkInClause]

/-- A state built by `stateOf` has the occurrence lists of its arena. -/
theorem stateOf_occurWf (cls : List Clause) : (stateOf cls).occurWf := by
  have := foldl_linkInClause_occurWf cls emptyState (by intro l i hi; simp [emptyState] at hi)
  exact this

theorem stateOf_clauses (cls : List Clause) : (stateOf cls).clauses = cls.map some := by
  show (cls.foldl linkInClause emptyState).clauses = _
  rw [foldl_linkInClause_clauses]
  rfl

theorem stateOf_seen (cls : List Clause) (n : Nat) : (stateOf cls).seen n = false := by
  show (cls.foldl linkInClause emptyState).seen n = _
  rw [foldl_linkInClause_seen]
  rfl

theorem treatAndGate_contraction_sound_witness :
    twinOf gate123 (runLoop scenarioExt gate123 true scenario4 0 []).1.st 0 = some 1 ∧
    ((satLits allTrue (scenario4.clauseAt 0).lits = true ∧
        satLits allTrue (scenario4.clauseAt 1).lits = true) ↔
      satLits allTrue ((scenario4.clauseAt 0).lits.filter (fun l => decide (l ≠ (pos 2).neg)) ++
        [gate123.eqLit.neg]) = true) := by
  have htw : twinOf gate123 (runLoop scenarioExt gate123 true scenario4 0 []).1.st 0 = some 1 := by
    decide
  obtain ⟨d, hd, _, _, _, _, _, hsem⟩ :=
    treatAndGate_contraction_sound scenarioExt gate123 (pos 2) (pos 3) scenario4 0 [] [] 0 allTrue
      rfl (stateOf_seen _)
      (by
        intro cl hcl
        rw [scenario4, stateOf_clauses] at hcl
        simp only [List.map_cons, List.map_nil, List.mem_cons, Option.some.injEq,
          List.not_mem_nil, or_false] at hcl
        rcases hcl with h | h <;> subst h <;> decide)
      (stateOf_occurWf _)
      (by decide) rfl (by decide)
  rw [htw] at hd
  have hd1 : d = 1 := (Option.some.inj hd).symm
  subst hd1
  exact ⟨htw, hsem (by unfold OrGate.holds; decide)⟩


/-! ### Further instances on the first scenario -/

theorem findOrGate_needs_witnesses_witness :
    ∃ n : Nat, findOrGate scenario1 (ng 2) 0 true false = scenario1.charge n :=
  ((findOrGate_needs_witnesses scenario1 (ng 2) 0 true false).2
    ⟨pos 3, by decide, by decide, by unfold hasWitness; decide⟩).1

theorem findOrGate_learnt_flag_witness :
    (OrGate.new [pos 2, pos 3] (pos 1) false).learnt =
      ((scenario1.clauseAt 0).learnt ||
        (OrGate.new [pos 2, pos 3] (pos 1) false).lits.any
          (fun o => acceptedWitness scenario1 true (pos 1) o == some true)) :=
  ((findOrGate_learnt_flag scenario1 (pos 1) 0 true).1
    (OrGate.new [pos 2, pos 3] (pos 1) false) (by decide)).1

/-! ### `findOrGates` twice in a row -/

/-- A call of `findOrGate` writes the gate store, the two indexes, the `defOfOrGate` flags and
the budget cell that `toDecrease` points to, and nothing else. -/
theorem findOrGate_frame (st : State) (eq : Lit) (c : Nat) (b wl : Bool) :
    ∃ (og : List OrGate) (goe go : Nat → List Nat) (flags : Nat → Bool) (v : Int), findOrGate st eq c b wl =
      { st with
        orGates := og, gateOccEq := goe, gateOcc := go
        clauseData := fun i => { st.clauseData i with defOfOrGate := flags i }
        cells := Function.update st.cells st.toDecrease v } := by
  obtain ⟨n, h⟩ := findOrGate_eq st eq c b wl
  rw [h]
  split_ifs
  · refine ⟨((st.charge n).post c (candidateGate st eq c b wl)).orGates,
      ((st.charge n).post c (candidateGate st eq c b wl)).gateOccEq,
      ((st.charge n).post c (candidateGate st eq c b wl)).gateOcc,
      Function.update (fun i => (st.clauseData i).defOfOrGate) c true,
      st.cells st.toDecrease - (n : Int), ?_⟩
    simp only [State.post, State.charge]
    congr 1
    funext i
    by_cases hi : i = c
    · subst hi; simp
    · simp [hi]
  · exact ⟨st.orGates, st.gateOccEq, st.gateOcc, fun i => (st.clauseData i).defOfOrGate, _, rfl⟩

/-- The loop of `findOrGates(bool)` writes the gate store, the two indexes, the `defOfOrGate`
flags and the budget cell that `toDecrease` points to, and nothing else. -/
theorem findOrGatesLoop_frame (b : Bool) (cls : List (Option Clause)) (num : Nat) (st : State) :
    ∃ (og : List OrGate) (goe go : Nat → List Nat) (flags : Nat → Bool) (v : Int), findOrGatesLoop b cls num st =
      { st with
        orGates := og, gateOccEq := goe, gateOcc := go
        clauseData := fun i => { st.clauseData i with defOfOrGate := flags i }
        cells := Function.update st.cells st.toDecrease v } := by
  refine findOrGatesLoop_induct
    (fun s t => ∃ (og : List OrGate) (goe go : Nat → List Nat) (flags : Nat → Bool) (v : Int), t =
      { s with
        orGates := og, gateOccEq := goe, gateOcc := go
        clauseData := fun i => { s.clauseData i with defOfOrGate := flags i }
        cells := Function.update s.cells s.toDecrease v }) ?_ ?_ b ?_ cls num st
  · intro s
    exact ⟨s.orGates, s.gateOccEq, s.gateOcc, fun i => (s.clauseData i).defOfOrGate,
      s.cells s.toDecrease, by simp⟩
  · rintro a b c ⟨og, goe, go, fl, v, h1⟩ ⟨og2, goe2, go2, fl2, v2, h2⟩
    refine ⟨og2, goe2, go2, fl2, v2, ?_⟩
    rw [h2, h1]
    simp
  · intro s eq c wl _
    exact findOrGate_frame s eq c b wl

/-- C20. `findOrGates()` is idempotent on an unchanged database: it changes no clause, no entry
of the implication cache and no watch list, and a second call right after the first ends in
the very state the first call ended in, so the gate store, the reverse indexes and the
`defOfOrGate` flags are those of a single call, whatever the gate store held before. -/
theorem findOrGates_idempotent (st : State) :
    (findOrGates st).clauses = st.clauses ∧
    (findOrGates st).implCache = st.implCache ∧
    (findOrGates st).watches = st.watches ∧
    findOrGates (findOrGates st) = findOrGates st := by
  obtain ⟨og, goe, go, fl, v, h⟩ := findOrGatesLoop_frame true st.clauses 0
    { clearIndexes st with
      cells := Function.update (clearIndexes st).cells ⟨Counter.numMaxGateFinder, 0⟩ 100000000
      toDecrease := ⟨Counter.numMaxGateFinder, 0⟩ }
  have hF : findOrGates st = _ := h
  refine ⟨by rw [hF]; rfl, by rw [hF]; rfl, by rw [hF]; rfl, ?_⟩
  have hreset : ({ clearIndexes (findOrGates st) with
      cells := Function.update (clearIndexes (findOrGates st)).cells
        ⟨Counter.numMaxGateFinder, 0⟩ 100000000
      toDecrease := ⟨Counter.numMaxGateFinder, 0⟩ } : State) =
      { clearIndexes st with
        cells := Function.update (clearIndexes st).cells ⟨Counter.numMaxGateFinder, 0⟩ 100000000
        toDecrease := ⟨Counter.numMaxGateFinder, 0⟩ } := by
    rw [hF]
    simp [clearIndexes]
  have h2 : findOrGates (findOrGates st) = findOrGatesLoop true (findOrGates st).clauses 0
      { clearIndexes (findOrGates st) with
        cells := Function.update (clearIndexes (findOrGates st)).cells
          ⟨Counter.numMaxGateFinder, 0⟩ 100000000
        toDecrease := ⟨Counter.numMaxGateFinder, 0⟩ } := rfl
  rw [h2, hreset]
  have hc : (findOrGates st).clauses = st.clauses := by rw [hF]; rfl
  rw [hc]
  rfl

/-! ### AND-gate contraction in scoring mode -/

/-- A step of the main loop in scoring mode never returns false, leaves `clToUnlink` alone,
counts the clause when it finds a twin for it, and changes `seen` and the budget only. -/
theorem treatAndGateBody_dry (ext : Ext) (gate : OrGate) (ab ms : Nat) (acc : AndGateAcc)
    (c : Nat) :
    (treatAndGateBody ext gate false ab ms acc c).2 = true ∧
    (treatAndGateBody ext gate false ab ms acc c).1.clToUnlink = acc.clToUnlink ∧
    (treatAndGateBody ext gate false ab ms acc c).1.foundPotential =
      acc.foundPotential + (if findsTwin gate ab ms acc.st c then 1 else 0) ∧
    ∃ (sn : Nat → Bool) (ce : BudgetPtr → Int),
      (treatAndGateBody ext gate false ab ms acc c).1.st = { acc.st with seen := sn, cells := ce } := by
  have hf : (findAndGateOtherCl (markSeen gate acc.st (acc.st.clauseAt c))
      ((markSeen gate acc.st (acc.st.clauseAt c)).sizeSortedOcc
        (acc.st.clauseAt c).lits.length) gate.lit1.neg
      (abst2Of gate (acc.st.clauseAt c))) =
      (searchState gate acc.st c, twinOf gate acc.st c) := rfl
  unfold treatAndGateBody findsTwin
  simp only [hf]
  by_cases h1 : passesFilter ab ms acc.st c = true
  · simp only [h1, Bool.not_true, Bool.false_eq_true, if_false, Bool.true_and]
    by_cases h2 : (!(acc.st.clauseAt c).learnt && gate.learnt) = true
    · simp only [h2, if_true, Bool.not_true, Bool.false_and, Bool.false_eq_true, if_false]
      exact ⟨by simp, by simp, by simp, acc.st.seen, acc.st.cells, rfl⟩
    · simp only [h2, if_false, Bool.not_eq_true] at h2 ⊢
      simp only [h2, Bool.not_false, Bool.true_and]
      by_cases h3 : litsOk gate acc.st (acc.st.clauseAt c) = true
      · simp only [h3, Bool.not_true, Bool.false_eq_true, if_false, Bool.true_and]
        cases ht : twinOf gate acc.st c with
        | none =>
          simp only [Option.isSome_none, Bool.false_eq_true, if_false]
          exact ⟨by simp, by simp, by simp, _, _, rfl⟩
        | some d =>
          simp only [Option.isSome_some, if_true, Bool.false_eq_true, if_false]
          exact ⟨by simp, by simp, by simp, _, _, rfl⟩
      · simp only [Bool.not_eq_true] at h3
        simp only [h3, Bool.not_false, if_true, Bool.false_and, Bool.false_eq_true, if_false]
        exact ⟨by simp, by simp, by simp, acc.st.seen, acc.st.cells, rfl⟩
  · simp only [Bool.not_eq_true] at h1
    simp only [h1, Bool.not_false, if_true, Bool.false_and, Bool.false_eq_true, if_false]
    exact ⟨by simp, by simp, by simp, acc.st.seen, acc.st.cells, rfl⟩

/-- The main loop in scoring mode runs to its end, leaves `clToUnlink` alone, adds to
`foundPotential` the number of clauses for which it finds a twin, and changes `seen` and the
budget only. -/
theorem treatAndGateLoop_dry (ext : Ext) (gate : OrGate) (ab ms : Nat) (cs : List Nat) :
    ∀ acc : AndGateAcc,
      (treatAndGateLoop ext gate false ab ms cs acc).2 = true ∧
      (treatAndGateLoop ext gate false ab ms cs acc).1.clToUnlink = acc.clToUnlink ∧
      (treatAndGateLoop ext gate false ab ms cs acc).1.foundPotential =
        acc.foundPotential + twinsFound ext gate ab ms cs acc ∧
      ∃ (sn : Nat → Bool) (ce : BudgetPtr → Int),
        (treatAndGateLoop ext gate false ab ms cs acc).1.st =
          { acc.st with seen := sn, cells := ce } := by
  induction cs with
  | nil =>
    intro acc
    exact ⟨rfl, rfl, rfl, acc.st.seen, acc.st.cells, rfl⟩
  | cons c rest ih =>
    intro acc
    obtain ⟨hb1, hb2, hb3, sn, ce, hb4⟩ := treatAndGateBody_dry ext gate ab ms acc c
    obtain ⟨hi1, hi2, hi3, sn2, ce2, hi4⟩ := ih (treatAndGateBody ext gate false ab ms acc c).1
    simp only [treatAndGateLoop, hb1, if_true, twinsFound]
    refine ⟨hi1, hi2.trans hb2, ?_, sn2, ce2, ?_⟩
    · rw [hi3, hb3]; omega
    · rw [hi4, hb4]

/-- C19. Scoring mode is a dry run: for every 2-input gate, `treatAndGate` with
`reallyRemove = false` returns true, records no call (it submits no clause and unlinks none),
leaves the clause arena, the occurrence lists, the gate store, `andGateNumFound` and
`andGateTotalSize` unchanged, and, when both `occur[¬a]` and `occur[¬b]` are non-empty, sets
`foundPotential` to the number of clauses of `occur[¬a]` for which the main loop finds a twin,
whatever `foundPotential` held on entry. -/
theorem treatAndGate_dry_run (ext : Ext) (gate : OrGate) (st : State)
    (foundPotential numOp : Nat) (_h2 : gate.lits.length = 2) :
    (treatAndGate ext gate false st foundPotential numOp).ret = true ∧
    (treatAndGate ext gate false st foundPotential numOp).st.trace = st.trace ∧
    (treatAndGate ext gate false st foundPotential numOp).st.clauses = st.clauses ∧
    (treatAndGate ext gate false st foundPotential numOp).st.occur = st.occur ∧
    (treatAndGate ext gate false st foundPotential numOp).st.orGates = st.orGates ∧
    (treatAndGate ext gate false st foundPotential numOp).st.andGateNumFound =
      st.andGateNumFound ∧
    (treatAndGate ext gate false st foundPotential numOp).st.andGateTotalSize =
      st.andGateTotalSize ∧
    (st.occur gate.lit0.neg.toInt ≠ [] → st.occur gate.lit1.neg.toInt ≠ [] →
      (treatAndGate ext gate false st foundPotential numOp).foundPotential =
        twinsFound ext gate (sortedOcc gate st numOp).abstraction
          (sortedOcc gate st numOp).maxSize (st.occur gate.lit0.neg.toInt)
          (loopStart gate st numOp)) := by
  by_cases he : ((st.occur gate.lit0.neg.toInt).isEmpty ||
      (st.occur gate.lit1.neg.toInt).isEmpty) = true
  · simp only [treatAndGate, he, if_true]
    refine ⟨trivial, trivial, trivial, trivial, trivial, trivial, trivial, ?_⟩
    intro ha hb
    simp only [Bool.or_eq_true, List.isEmpty_iff] at he
    rcases he with he | he
    · exact absurd he ha
    · exact absurd he hb
  · obtain ⟨sso, s2, cells, hso⟩ := sortedOcc_frame gate st numOp
    obtain ⟨hl1, hl2, hl3, sn, ce, hl4⟩ := treatAndGateLoop_dry ext gate
      (sortedOcc gate st numOp).abstraction (sortedOcc gate st numOp).maxSize
      ((sortedOcc gate st numOp).st.occur gate.lit0.neg.toInt) (loopStart gate st numOp)
    have hocc : (sortedOcc gate st numOp).st.occur gate.lit0.neg.toInt =
        st.occur gate.lit0.neg.toInt := sortedOcc_occur gate st numOp _
    have hstart : (loopStart gate st numOp).st =
        (sortedOcc gate st numOp).st.movePtr
          (((sortedOcc gate st numOp).st.occur gate.lit0.neg.toInt).length * 3) := rfl
    have hcl : (loopStart gate st numOp).clToUnlink = [] := rfl
    have hfp : (loopStart gate st numOp).foundPotential = 0 := rfl
    simp only [treatAndGate, he, if_false, runLoop, hl1, Bool.not_true, Bool.false_eq_true]
    rw [hl2, hcl, hl4, hstart, hso]
    refine ⟨trivial, rfl, rfl, rfl, rfl, rfl, rfl, ?_⟩
    intro _ _
    rw [hocc, hfp, Nat.zero_add] at hl3
    exact hl3

/-- The clauses `¬2 ∨ 4 ∨ 5` and `¬3 ∨ 4 ∨ 5` score one twin for the gate `1 ⇔ (2 ∨ 3)`, a
value of 7 in `foundPotential` on entry is overwritten, and nothing is submitted. -/
theorem treatAndGate_dry_run_witness :
    gate123.lits.length = 2 ∧
    (treatAndGate scenarioExt gate123 false scenario4 7 0).foundPotential = 1 ∧
    (treatAndGate scenarioExt gate123 false scenario4 7 0).st.trace = scenario4.trace ∧
    (treatAndGate scenarioExt gate123 false scenario4 7 0).st.clauses = scenario4.clauses := by
  have h := treatAndGate_dry_run scenarioExt gate123 scenario4 7 0 (by decide)
  have hc : twinsFound scenarioExt gate123 (sortedOcc gate123 scenario4 0).abstraction
      (sortedOcc gate123 scenario4 0).maxSize (scenario4.occur gate123.lit0.neg.toInt)
      (loopStart gate123 scenario4 0) = 1 := by decide
  refine ⟨by decide, ?_, h.2.1, h.2.2.1⟩
  rw [h.2.2.2.2.2.2.2 (by decide) (by decide), hc]

/-! ### Clauses that the gate applier keeps -/

theorem Kept.refl {c : Nat} {s : State} (hc : c < s.clauses.length) : Kept c s s :=
  ⟨hc, rfl, rfl, ⟨[], by simp, by simp⟩, fun _ h => h⟩

theorem Kept.trans {c : Nat} {a b d : State} (h1 : Kept c a b) (h2 : Kept c b d) :
    Kept c a d := by
  obtain ⟨_, g1, d1, ⟨ev1, t1, n1⟩, o1⟩ := h1
  obtain ⟨l2, g2, d2, ⟨ev2, t2, n2⟩, o2⟩ := h2
  refine ⟨l2, g2.trans g1, d2.trans d1, ⟨ev1 ++ ev2, ?_, ?_⟩, fun n h => o2 n (o1 n h)⟩
  · rw [t2, t1, List.append_assoc]
  · simp only [List.mem_append, not_or]
    exact ⟨n1, n2⟩

/-- A step that leaves the arena, `clauseData` and the occurrence lists alone and records no
unlinking of `c` keeps `c`. -/
theorem Kept.of_frame {c : Nat} {s t : State} (hc : c < s.clauses.length)
    (h1 : t.clauses = s.clauses) (h2 : t.clauseData = s.clauseData) (h4 : t.occur = s.occur)
    (h3 : ∃ ev, t.trace = s.trace ++ ev ∧ Event.unlinkClause c ∉ ev) : Kept c s t :=
  ⟨by rw [h1]; exact hc, by rw [h1], by rw [h2], h3, fun n h => by rw [h4]; exact h⟩

theorem Kept.length {c : Nat} {s t : State} (h : Kept c s t) : c < t.clauses.length := h.1

theorem Kept.clauseAt {c : Nat} {s t : State} (h : Kept c s t) : t.clauseAt c = s.clauseAt c := by
  have := h.2.1
  simp only [State.clauseAt, List.getD_eq_getElem?_getD]
  rw [List.get?_eq_getElem?, List.get?_eq_getElem?] at this
  rw [this]

theorem Kept.notSkipped {c : Nat} {s t : State} (gate : OrGate) (h : Kept c s t)
    (hp : ¬ notSkipped gate s c) : ¬ notSkipped gate t c := by
  unfold GateFinder.notSkipped at hp ⊢
  rw [h.clauseAt, h.2.2.1]
  exact hp

theorem kept_unlinkClause {c x : Nat} {s : State} (hc : c < s.clauses.length) (hx : x ≠ c) :
    Kept c s (unlinkClause s x) := by
  refine ⟨by simpa [unlinkClause] using hc, ?_, rfl, ⟨[Event.unlinkClause x], rfl, ?_⟩, ?_⟩
  · simp only [unlinkClause, List.get?_eq_getElem?]
    rw [List.getElem?_set_ne hx]
  · simp only [List.mem_singleton, Event.unlinkClause.injEq]
    exact fun h => hx h.symm
  · intro n h
    simp only [unlinkClause, List.mem_filter, Bool.not_eq_true', beq_eq_false_iff_ne, ne_eq]
    exact ⟨h, fun e => hx e.symm⟩

theorem kept_linkInClause {c : Nat} {s : State} (cl : Clause) (hc : c < s.clauses.length) :
    Kept c s (linkInClause s cl) := by
  refine ⟨by simp only [linkInClause, List.length_append]; omega, ?_, ?_,
    ⟨[Event.linkInClause cl], rfl, by simp⟩, ?_⟩
  · simp only [linkInClause, List.get?_eq_getElem?]
    rw [List.getElem?_append_left hc]
  · simp only [linkInClause]
    rw [Function.update_noteq (Nat.ne_of_lt hc)]
  · intro n h
    simp only [linkInClause]
    split_ifs
    · exact List.mem_append_left _ h
    · exact h

theorem kept_addClauseInt {c : Nat} {s : State} (ext : Ext) (lits : List Lit) (learnt : Bool)
    (stats : ClauseStats) (hc : c < s.clauses.length) :
    Kept c s (addClauseInt ext s lits learnt stats).1 :=
  Kept.of_frame hc rfl rfl rfl ⟨[Event.addClauseInt lits learnt stats], rfl, by simp⟩

theorem kept_foldl_unlinkClause {c : Nat} (l : List Nat) (hl : c ∉ l) :
    ∀ s : State, c < s.clauses.length → Kept c s (l.foldl unlinkClause s) := by
  induction l with
  | nil => intro s hc; exact Kept.refl hc
  | cons x rest ih =>
    intro s hc
    simp only [List.mem_cons, not_or] at hl
    have h1 : Kept c s (unlinkClause s x) := kept_unlinkClause hc (fun e => hl.1 e.symm)
    exact h1.trans (ih hl.2 _ h1.length)

/-! ### Clauses that `shortenWithOrGate` keeps -/

theorem replaceClause_kept {c x : Nat} {s0 : State} (ext : Ext) (s : State) (lits : List Lit)
    (learnt : Bool) (stats : ClauseStats) (h0 : Kept c s0 s) (hx : x ≠ c) :
    Kept c s0 (replaceClause ext s x lits learnt stats).1 := by
  have h1 : Kept c s (unlinkClause s x) := kept_unlinkClause h0.length hx
  have h2 : Kept c (unlinkClause s x) (addClauseInt ext (unlinkClause s x) lits learnt stats).1 :=
    kept_addClauseInt ext lits learnt stats h1.length
  unfold replaceClause
  simp only []
  split_ifs
  · exact h0.trans (h1.trans h2)
  · split
    · exact h0.trans (h1.trans h2)
    · exact h0.trans ((h1.trans h2).trans (kept_linkInClause _ h2.length))

/-- A step of `shortenWithOrGate` keeps every clause that the skip test protects. -/
theorem shortenClause_kept {c : Nat} (ext : Ext) (gate : OrGate) (s : State) (x : Nat)
    (hc : c < s.clauses.length) (hp : ¬ notSkipped gate s c) :
    Kept c s (shortenClause ext gate s x).1 := by
  unfold shortenClause
  by_cases hskip : ((s.clauseData x).defOfOrGate || (!(s.clauseAt x).learnt && gate.learnt)) = true
  · rw [if_pos hskip]
    exact Kept.refl hc
  · rw [if_neg hskip]
    have hx : x ≠ c := by
      intro e
      subst e
      apply hp
      simp only [Bool.or_eq_true, Bool.and_eq_true, Bool.not_eq_true', not_or, not_and,
        Bool.not_eq_true] at hskip
      refine ⟨hskip.1, ?_⟩
      cases hl : (s.clauseAt x).learnt
      · exact Or.inr (hskip.2 hl)
      · exact Or.inl rfl
    have h0 : Kept c s { s with numOrGateReplaced := s.numOrGateReplaced + 1 } :=
      Kept.of_frame hc rfl rfl rfl ⟨[], by simp, by simp⟩
    simp only []
    split
    · exact h0.trans (kept_unlinkClause h0.length hx)
    · exact replaceClause_kept ext _ _ _ _
        (Kept.of_frame hc rfl rfl rfl ⟨[], by simp, by simp⟩) hx

theorem shortenLoop_kept {c : Nat} (ext : Ext) (gate : OrGate) (l : List Nat) :
    ∀ s : State, c < s.clauses.length → ¬ notSkipped gate s c →
      Kept c s (shortenLoop ext gate l s).1 := by
  induction l with
  | nil => intro s hc _; exact Kept.refl hc
  | cons x rest ih =>
    intro s hc hp
    have h1 := shortenClause_kept ext gate s x hc hp
    simp only [shortenLoop]
    split_ifs
    · exact h1.trans (ih _ h1.length (h1.notSkipped gate hp))
    · exact h1

/-- The function `shortenWithOrGate` keeps every clause that the skip test protects: the
definition of a gate, and a non-learnt clause when the gate is learnt. -/
theorem shortenWithOrGate_kept {c : Nat} (ext : Ext) (gate : OrGate) (s : State)
    (hc : c < s.clauses.length) (hp : ¬ notSkipped gate s c) :
    Kept c s (shortenWithOrGate ext gate s).1 := by
  unfold shortenWithOrGate
  have h0 : Kept c s (s.charge (ext.findSubsumed0 s gate.lits (calcAbstraction gate.lits)).2) :=
    Kept.of_frame hc rfl rfl rfl ⟨[], by simp [State.charge], by simp⟩
  exact h0.trans (shortenLoop_kept ext gate _ _ h0.length (h0.notSkipped gate hp))

/-! ### Clauses that `treatAndGate` keeps -/

/-- Every clause index that `calculateSortedOcc` puts in a bucket passed its skip test. -/
theorem calculateSortedOccLoop_notSkipped (gate : OrGate) (st : State) (cs : List Nat) :
    ∀ acc : SortedOcc, acc.st.clauses = st.clauses → acc.st.clauseData = st.clauseData →
      (∀ k d, d ∈ acc.st.sizeSortedOcc k → notSkipped gate st d) →
      ∀ k d, d ∈ (calculateSortedOccLoop gate cs acc).st.sizeSortedOcc k →
        notSkipped gate st d := by
  induction cs with
  | nil => intro acc _ _ h; exact h
  | cons c rest ih =>
    intro acc hcls hcd h
    simp only [calculateSortedOccLoop]
    by_cases hskip : ((acc.st.clauseData c).defOfOrGate ||
        (!(acc.st.clauseAt c).learnt && gate.learnt)) = true
    · rw [if_pos hskip]
      exact ih acc hcls hcd h
    · rw [if_neg hskip]
      refine ih _ hcls hcd ?_
      intro k d hd
      simp only at hd
      by_cases hk : k = (acc.st.clauseAt c).lits.length
      · subst hk
        rw [Function.update_same] at hd
        rcases List.mem_append.mp hd with h1 | h1
        · exact h _ d h1
        · simp only [List.mem_singleton] at h1
          subst h1
          have hca : acc.st.clauseAt d = st.clauseAt d := by
            simp only [State.clauseAt, hcls]
          rw [hcd, hca] at hskip
          simp only [Bool.or_eq_true, Bool.and_eq_true, Bool.not_eq_true', not_or, not_and,
            Bool.not_eq_true] at hskip
          refine ⟨hskip.1, ?_⟩
          cases hl : (st.clauseAt d).learnt
          · exact Or.inr (hskip.2 hl)
          · exact Or.inl rfl
      · rw [Function.update_noteq hk] at hd
        exact h k d hd

theorem sortedOcc_notSkipped (gate : OrGate) (st : State) (numOp : Nat) (k d : Nat)
    (hd : d ∈ (sortedOcc gate st numOp).st.sizeSortedOcc k) : notSkipped gate st d := by
  unfold sortedOcc calculateSortedOcc at hd
  simp only [] at hd
  exact calculateSortedOccLoop_notSkipped gate st (st.occur gate.lit1.neg.toInt)
    ⟨State.charge { st with sizeSortedOcc := fun _ => [] }
      ((st.occur gate.lit1.neg.toInt).length * 3), 0, [], 0, numOp⟩ rfl rfl
    (by intro k d h; simp [State.charge] at h) k d hd

theorem treatAndGateClause_kept {c : Nat} {s0 : State} (ext : Ext) (s : State) (d : Nat)
    (gate : OrGate) (cl : Clause) (h0 : Kept c s0 s) :
    Kept c s0 (treatAndGateClause ext s d gate cl).1 := by
  have h1 : Kept c s0 (State.charge { s with
      andGateNumFound := s.andGateNumFound + 1
      andGateTotalSize := s.andGateTotalSize + cl.lits.length }
      ((s.clauseAt d).lits.length * 2)) :=
    h0.trans (Kept.of_frame h0.length rfl rfl rfl ⟨[], by simp [State.charge], by simp⟩)
  have h2 := h1.trans (kept_addClauseInt ext
    (cl.lits.filter (fun l => !(l == gate.lit0.neg)) ++ [gate.eqLit.neg])
    ((s.clauseAt d).learnt && cl.learnt) (ext.combineStats cl.stats (s.clauseAt d).stats)
    h1.length)
  unfold treatAndGateClause
  simp only [addClauseInt] at h2 ⊢
  cases hr : (ext.addClauseInt _ _ _ _).cl with
  | none =>
    simp only []
    split_ifs <;> exact h2
  | some ncl =>
    simp only []
    split_ifs <;> exact h2.trans (kept_linkInClause _ h2.length)

/-- What the main loop of `treatAndGate` keeps true of a clause `c` that the skip test
protects: the clause is kept, it is not marked for unlinking, and the buckets are those set up
by `calculateSortedOcc`. -/
theorem treatAndGateBody_kept {c : Nat} (ext : Ext) (gate : OrGate) (rr : Bool) (ab ms : Nat)
    (st : State) (numOp : Nat) (acc : AndGateAcc) (x : Nat)
    (hp : ¬ notSkipped gate st c) (hk : Kept c st acc.st) (hn : c ∉ acc.clToUnlink)
    (hb : acc.st.sizeSortedOcc = (sortedOcc gate st numOp).st.sizeSortedOcc) :
    Kept c st (treatAndGateBody ext gate rr ab ms acc x).1.st ∧
    c ∉ (treatAndGateBody ext gate rr ab ms acc x).1.clToUnlink ∧
    (treatAndGateBody ext gate rr ab ms acc x).1.st.sizeSortedOcc =
      (sortedOcc gate st numOp).st.sizeSortedOcc := by
  have hf : (findAndGateOtherCl (markSeen gate acc.st (acc.st.clauseAt x))
      ((markSeen gate acc.st (acc.st.clauseAt x)).sizeSortedOcc
        (acc.st.clauseAt x).lits.length) gate.lit1.neg
      (abst2Of gate (acc.st.clauseAt x))) =
      (searchState gate acc.st x, twinOf gate acc.st x) := rfl
  have hs : Kept c st (searchState gate acc.st x) :=
    hk.trans (Kept.of_frame hk.length rfl rfl rfl
      ⟨[], by simp [searchState, markSeen, State.charge], by simp⟩)
  unfold treatAndGateBody
  simp only [hf]
  by_cases h1 : (!passesFilter ab ms acc.st x) = true
  · rw [if_pos h1]
    exact ⟨hk, hn, hb⟩
  · rw [if_neg h1]
    by_cases h2 : (!(acc.st.clauseAt x).learnt && gate.learnt) = true
    · rw [if_pos h2]
      exact ⟨hk, hn, hb⟩
    · rw [if_neg h2]
      by_cases h3 : (!litsOk gate acc.st (acc.st.clauseAt x)) = true
      · rw [if_pos h3]
        exact ⟨hk, hn, hb⟩
      · rw [if_neg h3]
        cases ht : twinOf gate acc.st x with
        | none =>
          exact ⟨hs.trans (Kept.of_frame hs.length rfl rfl rfl ⟨[], by simp [clearSeen], by simp⟩),
            hn, hb⟩
        | some d =>
          simp only []
          cases rr with
          | false =>
            exact ⟨hs.trans (Kept.of_frame hs.length rfl rfl rfl
              ⟨[], by simp [clearSeen], by simp⟩), hn, hb⟩
          | true =>
            have hxc : x ≠ c := by
              intro e
              subst e
              apply hk.notSkipped gate hp
              simp only [passesFilter, Bool.not_not, Bool.or_eq_true, not_or, Bool.not_eq_true,
                Bool.not_eq_true', Bool.not_eq_false] at h1
              simp only [Bool.and_eq_true, Bool.not_eq_true', not_and, Bool.not_eq_true] at h2
              refine ⟨?_, ?_⟩
              · have := h1
                simp only [Bool.not_eq_eq_eq_not, Bool.not_true, Bool.or_eq_false_iff] at this
                exact this.1.1.1
              · cases hl : (acc.st.clauseAt x).learnt
                · exact Or.inr (h2 hl)
                · exact Or.inl rfl
            have hdc : d ≠ c := by
              intro e
              subst e
              apply hp
              have hmem := (findAndGateOtherClLoop_some _ _ _ _ _ ht).1
              have hmem2 : d ∈ acc.st.sizeSortedOcc (acc.st.clauseAt x).lits.length := hmem
              rw [hb] at hmem2
              exact sortedOcc_notSkipped gate st numOp _ _ hmem2
            have hins : c ∉ setInsert x (setInsert d acc.clToUnlink) := by
              simp only [mem_setInsert, not_or]
              exact ⟨fun e => hxc e.symm, fun e => hdc e.symm, hn⟩
            have hkc := treatAndGateClause_kept ext (searchState gate acc.st x) d gate
              (acc.st.clauseAt x) hs
            obtain ⟨_, _, _, _, hbb, _⟩ := treatAndGateClause_spec ext
              (searchState gate acc.st x) d gate (acc.st.clauseAt x)
            simp only [if_true]
            split_ifs
            · exact ⟨hkc, hins, hbb.trans hb⟩
            · exact ⟨hkc.trans (Kept.of_frame hkc.length rfl rfl rfl
                ⟨[], by simp [clearSeen], by simp⟩), hins, hbb.trans hb⟩

theorem treatAndGateLoop_kept {c : Nat} (ext : Ext) (gate : OrGate) (rr : Bool) (ab ms : Nat)
    (st : State) (numOp : Nat) (hp : ¬ notSkipped gate st c) (cs : List Nat) :
    ∀ acc : AndGateAcc, Kept c st acc.st → c ∉ acc.clToUnlink →
      acc.st.sizeSortedOcc = (sortedOcc gate st numOp).st.sizeSortedOcc →
      Kept c st (treatAndGateLoop ext gate rr ab ms cs acc).1.st ∧
      c ∉ (treatAndGateLoop ext gate rr ab ms cs acc).1.clToUnlink := by
  induction cs with
  | nil => intro acc hk hn _; exact ⟨hk, hn⟩
  | cons x rest ih =>
    intro acc hk hn hb
    obtain ⟨h1, h2, h3⟩ := treatAndGateBody_kept ext gate rr ab ms st numOp acc x hp hk hn hb
    simp only [treatAndGateLoop]
    split_ifs
    · exact ih _ h1 h2 h3
    · exact ⟨h1, h2⟩

/-- The function `treatAndGate` keeps every clause that the skip test protects: the definition
of a gate, and a non-learnt clause when the gate is learnt. -/
theorem treatAndGate_kept {c : Nat} (ext : Ext) (gate : OrGate) (rr : Bool) (st : State)
    (fp numOp : Nat) (hc : c < st.clauses.length) (hp : ¬ notSkipped gate st c) :
    Kept c st (treatAndGate ext gate rr st fp numOp).st := by
  obtain ⟨sso, s2, cells, hso⟩ := sortedOcc_frame gate st numOp
  have hstart : (loopStart gate st numOp).st = (sortedOcc gate st numOp).st.movePtr
      (((sortedOcc gate st numOp).st.occur gate.lit0.neg.toInt).length * 3) := rfl
  have h0 : Kept c st (loopStart gate st numOp).st := by
    rw [hstart, hso]
    exact Kept.of_frame hc rfl rfl rfl ⟨[], by simp [State.movePtr], by simp⟩
  have hb0 : (loopStart gate st numOp).st.sizeSortedOcc =
      (sortedOcc gate st numOp).st.sizeSortedOcc := rfl
  have hn0 : c ∉ (loopStart gate st numOp).clToUnlink := by
    simp [loopStart]
  obtain ⟨hk, hn⟩ := treatAndGateLoop_kept ext gate rr (sortedOcc gate st numOp).abstraction
    (sortedOcc gate st numOp).maxSize st numOp hp
    ((sortedOcc gate st numOp).st.occur gate.lit0.neg.toInt) (loopStart gate st numOp) h0 hn0 hb0
  unfold treatAndGate
  simp only []
  split_ifs
  · exact Kept.refl hc
  · exact hk
  · have h2 : Kept c st
        { (runLoop ext gate rr st numOp
            ((sortedOcc gate st numOp).st.occur gate.lit0.neg.toInt)).1.st with
          seen2 := (sortedOcc gate st numOp).seen2Set.foldl
            (fun s i => Function.update s i false)
            (runLoop ext gate rr st numOp
              ((sortedOcc gate st numOp).st.occur gate.lit0.neg.toInt)).1.st.seen2 } :=
      Kept.trans hk (Kept.of_frame hk.length rfl rfl rfl
        ⟨[], (List.append_nil _).symm, by simp⟩)
    exact h2.trans (kept_foldl_unlinkClause _ hn _ h2.length)

/-! ### Shielded clauses -/

theorem Kept.events {c : Nat} {s t : State} (h : Kept c s t) :
    Event.unlinkClause c ∉ newEvents s t := by
  obtain ⟨ev, h1, h2⟩ := h.2.2.2.1
  rw [newEvents_append s t ev h1]
  exact h2

/-- C12. Gate definitions are shielded: for every gate and every clause index `c` of the arena
with `defOfOrGate[c] = true` on entry, neither `shortenWithOrGate` nor `treatAndGate` (with
either value of `reallyRemove`) unlinks clause `c`, neither as the scanned clause nor as the
twin; its slot holds on return what it held on entry, and it is still flagged. -/
theorem defOfOrGate_clause_shielded (ext : Ext) (gate : OrGate) (st : State) (c : Nat)
    (reallyRemove : Bool) (foundPotential numOp : Nat)
    (hc : c < st.clauses.length) (hdef : (st.clauseData c).defOfOrGate = true) :
    (Event.unlinkClause c ∉ newEvents st (shortenWithOrGate ext gate st).1 ∧
      (shortenWithOrGate ext gate st).1.clauses.get? c = st.clauses.get? c ∧
      ((shortenWithOrGate ext gate st).1.clauseData c).defOfOrGate = true) ∧
    (Event.unlinkClause c ∉
        newEvents st (treatAndGate ext gate reallyRemove st foundPotential numOp).st ∧
      (treatAndGate ext gate reallyRemove st foundPotential numOp).st.clauses.get? c =
        st.clauses.get? c ∧
      ((treatAndGate ext gate reallyRemove st foundPotential numOp).st.clauseData c).defOfOrGate
        = true) := by
  have hp : ¬ notSkipped gate st c := by
    intro h
    rw [h.1] at hdef
    exact Bool.false_ne_true hdef
  have h1 := shortenWithOrGate_kept ext gate st hc hp
  have h2 := treatAndGate_kept ext gate reallyRemove st foundPotential numOp hc hp
  refine ⟨⟨h1.events, h1.2.1, ?_⟩, ⟨h2.events, h2.2.1, ?_⟩⟩
  · rw [h1.2.2.1]; exact hdef
  · rw [h2.2.2.1]; exact hdef

/-- With its first clause flagged, the pair `¬2 ∨ 4 ∨ 5`, `¬3 ∨ 4 ∨ 5` is left alone by the
gate `1 ⇔ (2 ∨ 3)`. -/
theorem defOfOrGate_clause_shielded_witness :
    (Event.unlinkClause 0 ∉
        newEvents scenarioDefinition (shortenWithOrGate scenarioExt gate123 scenarioDefinition).1 ∧
      (shortenWithOrGate scenarioExt gate123 scenarioDefinition).1.clauses.get? 0 =
        scenarioDefinition.clauses.get? 0 ∧
      ((shortenWithOrGate scenarioExt gate123 scenarioDefinition).1.clauseData 0).defOfOrGate
        = true) ∧
    (Event.unlinkClause 0 ∉
        newEvents scenarioDefinition
          (treatAndGate scenarioExt gate123 true scenarioDefinition 0 0).st ∧
      (treatAndGate scenarioExt gate123 true scenarioDefinition 0 0).st.clauses.get? 0 =
        scenarioDefinition.clauses.get? 0 ∧
      ((treatAndGate scenarioExt gate123 true scenarioDefinition 0 0).st.clauseData 0).defOfOrGate
        = true) :=
  defOfOrGate_clause_shielded scenarioExt gate123 scenarioDefinition 0 true 0 0
    (by decide) (by decide)

/-- C13. A learnt gate never touches a non-learnt clause: for every gate with `learnt = true`
and every non-learnt clause of the arena, with index `c`, neither `shortenWithOrGate` nor
`treatAndGate` (with either value of `reallyRemove`) unlinks clause `c`; on return its slot
holds the same clause and its index is in every occurrence list it was in. So every clause that
is unlinked, replaced or contracted has its learnt flag set. -/
theorem learnt_gate_keeps_nonlearnt_clause (ext : Ext) (gate : OrGate) (st : State) (c : Nat)
    (cl : Clause) (reallyRemove : Bool) (foundPotential numOp : Nat)
    (hg : gate.learnt = true) (hcl : st.clauses.get? c = some (some cl))
    (hnl : cl.learnt = false) :
    (Event.unlinkClause c ∉ newEvents st (shortenWithOrGate ext gate st).1 ∧
      (shortenWithOrGate ext gate st).1.clauses.get? c = some (some cl) ∧
      ∀ n, c ∈ st.occur n → c ∈ (shortenWithOrGate ext gate st).1.occur n) ∧
    (Event.unlinkClause c ∉
        newEvents st (treatAndGate ext gate reallyRemove st foundPotential numOp).st ∧
      (treatAndGate ext gate reallyRemove st foundPotential numOp).st.clauses.get? c =
        some (some cl) ∧
      ∀ n, c ∈ st.occur n →
        c ∈ (treatAndGate ext gate reallyRemove st foundPotential numOp).st.occur n) := by
  have hc : c < st.clauses.length := by
    by_contra hge
    rw [List.get?_eq_none.mpr (Nat.le_of_not_lt hge)] at hcl
    exact Option.noConfusion hcl
  have hp : ¬ notSkipped gate st c := by
    intro h
    unfold notSkipped at h
    rw [clauseAt_of_get hcl, hnl, hg] at h
    rcases h.2 with h | h
    · exact Bool.false_ne_true h
    · exact Bool.false_ne_true h.symm
  have h1 := shortenWithOrGate_kept ext gate st hc hp
  have h2 := treatAndGate_kept ext gate reallyRemove st foundPotential numOp hc hp
  refine ⟨⟨h1.events, ?_, h1.2.2.2.2⟩, ⟨h2.events, ?_, h2.2.2.2.2⟩⟩
  · rw [h1.2.1]; exact hcl
  · rw [h2.2.1]; exact hcl

/-- The non-learnt clause `¬2 ∨ 4 ∨ 5` is left alone by the learnt gate `1 ⇔ (2 ∨ 3)`, although
its twin `¬3 ∨ 4 ∨ 5` is in the arena. -/
theorem learnt_gate_keeps_nonlearnt_clause_witness :
    (Event.unlinkClause 0 ∉ newEvents scenario4 (shortenWithOrGate scenarioExt learntGate123
        scenario4).1 ∧
      (shortenWithOrGate scenarioExt learntGate123 scenario4).1.clauses.get? 0 =
        some (some (clauseOf [ng 2, pos 4, pos 5])) ∧
      ∀ n, 0 ∈ scenario4.occur n →
        0 ∈ (shortenWithOrGate scenarioExt learntGate123 scenario4).1.occur n) ∧
    (Event.unlinkClause 0 ∉
        newEvents scenario4 (treatAndGate scenarioExt learntGate123 true scenario4 0 0).st ∧
      (treatAndGate scenarioExt learntGate123 true scenario4 0 0).st.clauses.get? 0 =
        some (some (clauseOf [ng 2, pos 4, pos 5])) ∧
      ∀ n, 0 ∈ scenario4.occur n →
        0 ∈ (treatAndGate scenarioExt learntGate123 true scenario4 0 0).st.occur n) :=
  learnt_gate_keeps_nonlearnt_clause scenarioExt learntGate123 scenario4 0
    (clauseOf [ng 2, pos 4, pos 5]) true 0 0 rfl (by decide) rfl

/-! ### The learnt flags in AND-gate contraction -/

/-- While the main loop of `treatAndGate` has not returned false, the arena has only grown and
the buckets are those set up by `calculateSortedOcc`. -/
theorem treatAndGateLoop_arena (ext : Ext) (gate : OrGate) (rr : Bool) (ab ms : Nat)
    (st : State) (numOp : Nat) (cs : List Nat) :
    ∀ acc : AndGateAcc, (∃ extra, acc.st.clauses = st.clauses ++ extra) →
      acc.st.sizeSortedOcc = (sortedOcc gate st numOp).st.sizeSortedOcc →
      (treatAndGateLoop ext gate rr ab ms cs acc).2 = true →
      (∃ extra, (treatAndGateLoop ext gate rr ab ms cs acc).1.st.clauses = st.clauses ++ extra) ∧
      (treatAndGateLoop ext gate rr ab ms cs acc).1.st.sizeSortedOcc =
        (sortedOcc gate st numOp).st.sizeSortedOcc := by
  induction cs with
  | nil => intro acc h1 h2 _; exact ⟨h1, h2⟩
  | cons c rest ih =>
    intro acc hcl hsso hflag
    simp only [treatAndGateLoop] at hflag ⊢
    by_cases hb : (treatAndGateBody ext gate rr ab ms acc c).2 = true
    · simp only [hb, if_true] at hflag ⊢
      obtain ⟨extra, hcl⟩ := hcl
      refine ih _ ?_ ?_ hflag
      · rcases treatAndGateBody_state ext gate rr ab ms acc c hb with h | h | ⟨d, h⟩
        · rw [h]; exact ⟨extra, hcl⟩
        · rw [h]; exact ⟨extra, hcl⟩
        · obtain ⟨_, _, _, _, _, ⟨extra2, hc2⟩⟩ := treatAndGateClause_spec ext
            (searchState gate acc.st c) d gate (acc.st.clauseAt c)
          rw [h]
          refine ⟨extra ++ extra2, ?_⟩
          show (treatAndGateClause ext (searchState gate acc.st c) d gate
            (acc.st.clauseAt c)).1.clauses = _
          rw [hc2]
          show acc.st.clauses ++ extra2 = _
          rw [hcl, List.append_assoc]
      · rcases treatAndGateBody_state ext gate rr ab ms acc c hb with h | h | ⟨d, h⟩
        · rw [h]; exact hsso
        · rw [h]; exact hsso
        · obtain ⟨_, _, _, _, hbk, _⟩ := treatAndGateClause_spec ext
            (searchState gate acc.st c) d gate (acc.st.clauseAt c)
          rw [h]
          show (treatAndGateClause ext (searchState gate acc.st c) d gate
            (acc.st.clauseAt c)).1.sizeSortedOcc = _
          rw [hbk]
          exact hsso
    · simp [hb] at hflag

theorem runLoop_arena (ext : Ext) (gate : OrGate) (rr : Bool) (st : State) (numOp : Nat)
    (pre : List Nat) (hpre : (runLoop ext gate rr st numOp pre).2 = true) :
    (∃ extra, (runLoop ext gate rr st numOp pre).1.st.clauses = st.clauses ++ extra) ∧
    (runLoop ext gate rr st numOp pre).1.st.sizeSortedOcc =
      (sortedOcc gate st numOp).st.sizeSortedOcc := by
  refine treatAndGateLoop_arena ext gate rr _ _ st numOp pre _ ⟨[], ?_⟩ rfl hpre
  obtain ⟨sso, s2, cells, h⟩ := sortedOcc_frame gate st numOp
  show (sortedOcc gate st numOp).st.clauses = _
  rw [h]; simp

/-- C14, as amended. Take a clause index `c` of `occur[¬a]` that the main loop of `treatAndGate`
(with `reallyRemove`) reaches and for which it finds a twin `d`. If one of the two clauses is
non-learnt, then the gate is non-learnt and the clause submitted in their place is non-learnt.
(The two clauses need not both be non-learnt.) -/
theorem treatAndGate_contraction_learnt (ext : Ext) (gate : OrGate) (st : State)
    (numOp : Nat) (pre post : List Nat) (c : Nat)
    (_hcs : st.occur gate.lit0.neg.toInt = pre ++ c :: post)
    (hpre : (runLoop ext gate true st numOp pre).2 = true)
    (hfound : (stepAt ext gate true st numOp pre c).1.foundPotential =
      (runLoop ext gate true st numOp pre).1.foundPotential + 1) :
    ∃ d, twinOf gate (runLoop ext gate true st numOp pre).1.st c = some d ∧
      (((runLoop ext gate true st numOp pre).1.st.clauseAt c).learnt = false ∨
        ((runLoop ext gate true st numOp pre).1.st.clauseAt d).learnt = false →
       gate.learnt = false ∧
       ∃ tail, (stepAt ext gate true st numOp pre c).1.st.trace =
        (runLoop ext gate true st numOp pre).1.st.trace ++
          Event.addClauseInt
            (residual gate ((runLoop ext gate true st numOp pre).1.st.clauseAt c) ++
              [gate.eqLit.neg]) false
            (ext.combineStats ((runLoop ext gate true st numOp pre).1.st.clauseAt c).stats
              ((runLoop ext gate true st numOp pre).1.st.clauseAt d).stats) :: tail) := by
  obtain ⟨d, htwin, _, _, hcl, _, _, _, hst⟩ := treatAndGateBody_found ext gate
    (sortedOcc gate st numOp).abstraction (sortedOcc gate st numOp).maxSize
    (runLoop ext gate true st numOp pre).1 c hfound
  obtain ⟨⟨tail, _, htr⟩, _⟩ := treatAndGateClause_spec ext
    (searchState gate (runLoop ext gate true st numOp pre).1.st c) d gate
    ((runLoop ext gate true st numOp pre).1.st.clauseAt c)
  obtain ⟨⟨extra, harena⟩, hsso⟩ := runLoop_arena ext gate true st numOp pre hpre
  have hst2 : (stepAt ext gate true st numOp pre c).1.st =
      (if (treatAndGateClause ext (searchState gate (runLoop ext gate true st numOp pre).1.st c)
            d gate ((runLoop ext gate true st numOp pre).1.st.clauseAt c)).2
       then clearSeen ((runLoop ext gate true st numOp pre).1.st.clauseAt c)
        (treatAndGateClause ext (searchState gate (runLoop ext gate true st numOp pre).1.st c)
            d gate ((runLoop ext gate true st numOp pre).1.st.clauseAt c)).1
       else (treatAndGateClause ext (searchState gate (runLoop ext gate true st numOp pre).1.st c)
            d gate ((runLoop ext gate true st numOp pre).1.st.clauseAt c)).1) := hst
  have hmem : d ∈ (runLoop ext gate true st numOp pre).1.st.sizeSortedOcc
      ((runLoop ext gate true st numOp pre).1.st.clauseAt c).lits.length :=
    (findAndGateOtherClLoop_some _ _ _ _ _ htwin).1
  rw [hsso] at hmem
  have hd := (sortedOcc_notSkipped gate st numOp _ _ hmem).2
  refine ⟨d, htwin, ?_⟩
  intro hone
  have hg : gate.learnt = false := by
    cases hgl : gate.learnt with
    | false => rfl
    | true =>
      exfalso
      rw [hgl] at hcl hd
      have hC : ((runLoop ext gate true st numOp pre).1.st.clauseAt c).learnt = true := by
        rcases hcl with h | h
        · exact h
        · exact absurd h (by decide)
      have hD0 : (st.clauseAt d).learnt = true := by
        rcases hd with h | h
        · exact h
        · exact absurd h (by decide)
      have hD : ((runLoop ext gate true st numOp pre).1.st.clauseAt d).learnt = true := by
        cases hget : st.clauses.get? d with
        | none =>
          have : st.clauseAt d = Clause.empty := by
            simp only [State.clauseAt, List.getD_eq_getElem?_getD]
            rw [List.get?_eq_getElem?] at hget
            rw [hget]; rfl
          rw [this] at hD0
          exact absurd hD0 (by decide)
        | some o =>
          cases o with
          | none =>
            have : st.clauseAt d = Clause.empty := by
              simp only [State.clauseAt, List.getD_eq_getElem?_getD]
              rw [List.get?_eq_getElem?] at hget
              rw [hget]; rfl
            rw [this] at hD0
            exact absurd hD0 (by decide)
          | some cl =>
            rw [clauseAt_append hget harena]
            rw [clauseAt_of_get hget] at hD0
            exact hD0
      rcases hone with h | h
      · rw [hC] at h; exact Bool.noConfusion h
      · rw [hD] at h; exact Bool.noConfusion h
  refine ⟨hg, tail, ?_⟩
  have hflagl : (((searchState gate (runLoop ext gate true st numOp pre).1.st c).clauseAt d).learnt
      && ((runLoop ext gate true st numOp pre).1.st.clauseAt c).learnt) = false := by
    have e : (searchState gate (runLoop ext gate true st numOp pre).1.st c).clauseAt d =
        (runLoop ext gate true st numOp pre).1.st.clauseAt d := rfl
    rw [e]
    rcases hone with h | h
    · rw [h]; simp
    · rw [h]; simp
  rw [hflagl] at htr
  have e2 : (searchState gate (runLoop ext gate true st numOp pre).1.st c).clauseAt d =
      (runLoop ext gate true st numOp pre).1.st.clauseAt d := rfl
  rw [e2] at htr
  rw [hst2]
  split_ifs
  · exact htr
  · exact htr

/-- The non-learnt pair `¬2 ∨ 4 ∨ 5`, `¬3 ∨ 4 ∨ 5` is contracted through the non-learnt gate
`1 ⇔ (2 ∨ 3)` into the non-learnt clause `4 ∨ 5 ∨ ¬1`. -/
theorem treatAndGate_contraction_learnt_witness :
    scenario4.occur gate123.lit0.neg.toInt = [] ++ 0 :: [] ∧
    gate123.learnt = false ∧
    ∃ tail, (stepAt scenarioExt gate123 true scenario4 0 [] 0).1.st.trace =
      (runLoop scenarioExt gate123 true scenario4 0 []).1.st.trace ++
        Event.addClauseInt [pos 4, pos 5, ng 1] false ⟨0, 0, 0⟩ :: tail := by
  have h2 : scenario4.occur gate123.lit0.neg.toInt = [] ++ 0 :: [] := by decide
  have h3 : (runLoop scenarioExt gate123 true scenario4 0 []).2 = true := rfl
  have h4 : (stepAt scenarioExt gate123 true scenario4 0 [] 0).1.foundPotential =
      (runLoop scenarioExt gate123 true scenario4 0 []).1.foundPotential + 1 := by decide
  have htw : twinOf gate123 (runLoop scenarioExt gate123 true scenario4 0 []).1.st 0 = some 1 := by
    decide
  obtain ⟨d, hd, hall⟩ :=
    treatAndGate_contraction_learnt scenarioExt gate123 scenario4 0 [] [] 0 h2 h3 h4
  rw [htw] at hd
  have hd1 : d = 1 := (Option.some.inj hd).symm
  subst hd1
  obtain ⟨hg, tail, ht⟩ := hall (Or.inl (by decide))
  exact ⟨h2, hg, tail, ht⟩

/-- C14, as stated, fails for a non-learnt clause with a learnt twin. The arena holds the
non-learnt clause `C = ¬2 ∨ 4 ∨ 5` and the learnt clause `D = ¬3 ∨ 4 ∨ 5`; for the non-learnt
gate `1 ⇔ (2 ∨ 3)`, `treatAndGate` with `reallyRemove` finds `D` as the twin of `C`, submits
`4 ∨ 5 ∨ ¬1` as a non-learnt clause and unlinks both, although `D` is learnt. -/
theorem treatAndGate_learnt_twin_counterexample :
    (scenarioMixed.clauseAt 0).learnt = false ∧ (scenarioMixed.clauseAt 1).learnt = true ∧
    gate123.learnt = false ∧
    twinOf gate123 (runLoop scenarioExt gate123 true scenarioMixed 0 []).1.st 0 = some 1 ∧
    (treatAndGate scenarioExt gate123 true scenarioMixed 0 0).st.trace =
      [Event.addClauseInt [pos 4, pos 5, ng 1] false ⟨0, 0, 0⟩,
        Event.linkInClause ⟨[pos 4, pos 5, ng 1], false, ⟨0, 0, 0⟩⟩,
        Event.unlinkClause 0, Event.unlinkClause 1] := by
  refine ⟨by decide, by decide, by decide, by decide, by decide⟩

/-! ### The scratch bitmaps on the failing path -/

/-- C18 at a failing input. The arena holds `¬2 ∨ 4 ∨ 5` and `¬3 ∨ 4 ∨ 5`, `seen` and `seen2`
are all false, and the solver becomes inconsistent when the contracted clause is submitted.
Then `treatAndGate` for the gate `1 ⇔ (2 ∨ 3)` returns false with the bits of the literals `4`
and `5` still set in `seen`, and the bits of `¬3`, `4` and `5` still set in `seen2`. -/
theorem treatAndGate_scratch_left_set :
    (∀ n, scenario4.seen n = false) ∧ (∀ n, scenario4.seen2 n = false) ∧
    (treatAndGate refusingExt gate123 true scenario4 0 0).ret = false ∧
    (treatAndGate refusingExt gate123 true scenario4 0 0).st.seen (pos 4).toInt = true ∧
    (treatAndGate refusingExt gate123 true scenario4 0 0).st.seen (pos 5).toInt = true ∧
    (treatAndGate refusingExt gate123 true scenario4 0 0).st.seen2 (ng 3).toInt = true ∧
    (treatAndGate refusingExt gate123 true scenario4 0 0).st.seen2 (pos 4).toInt = true ∧
    (treatAndGate refusingExt gate123 true scenario4 0 0).st.seen2 (pos 5).toInt = true := by
  refine ⟨stateOf_seen _, ?_, by decide, by decide, by decide, by decide, by decide, by decide⟩
  intro n
  simp [scenario4, stateOf, linkInClause, emptyState]

/-! ### Equivalent gates -/

theorem Lit.var_ofVar (v : Nat) (s : Bool) : (Lit.ofVar v s).var = v := by
  cases s <;> simp [Lit.ofVar, Lit.var]
  omega

theorem Lit.sign_ofVar (v : Nat) (s : Bool) : (Lit.ofVar v s).sign = s := by
  cases s <;> simp [Lit.ofVar, Lit.sign]
  omega

theorem Lit.eval_unsign (σ : Nat → Bool) (l : Lit) : l.unsign.eval σ = σ l.var := by
  simp [Lit.unsign, Lit.eval, Lit.var_ofVar, Lit.sign_ofVar]

/-- The calls that the loop of `findEqOrGates` records: one per qualifying pair, in order, up
to the first refusal; all of them when the loop returns true. -/
theorem findEqLoop_events (ext : Ext) (ps : List (OrGate × OrGate)) :
    ∀ st : State,
      (∃ k, (findEqLoop ext ps st).1.trace =
        st.trace ++ ((ps.filter eqPair).map xorEvent).take k) ∧
      ((findEqLoop ext ps st).2 = true →
        (findEqLoop ext ps st).1.trace = st.trace ++ (ps.filter eqPair).map xorEvent) := by
  induction ps with
  | nil =>
    intro st
    exact ⟨⟨0, by simp [findEqLoop]⟩, fun _ => by simp [findEqLoop]⟩
  | cons p rest ih =>
    intro st
    obtain ⟨g1, g2⟩ := p
    by_cases hrem : (g1.removed || g2.removed) = true
    · have hq : eqPair (g1, g2) = false := by
        simp only [Bool.or_eq_true] at hrem
        rcases hrem with h | h <;> simp [eqPair, h]
      simp only [findEqLoop, hrem, if_true, List.filter_cons, hq, Bool.false_eq_true, if_false]
      exact ih st
    · by_cases hc : (g1.lits == g2.lits && g1.eqLit.var != g2.eqLit.var) = true
      · have hq : eqPair (g1, g2) = true := by
          simp only [Bool.or_eq_true, not_or, Bool.not_eq_true] at hrem
          simp only [Bool.and_eq_true] at hc
          simp [eqPair, hrem.1, hrem.2, hc.1, hc.2]
        simp only [findEqLoop, hrem, hc, if_true, Bool.false_eq_true, if_false, List.filter_cons,
          hq, List.map_cons]
        by_cases hret : (addXorClauseInt ext st [g1.eqLit.unsign, g2.eqLit.unsign]
            (xor g1.eqLit.sign g2.eqLit.sign)).2 = true
        · simp only [hret, Bool.not_true, Bool.false_eq_true, if_false]
          obtain ⟨⟨k, hk⟩, hall⟩ := ih (addXorClauseInt ext st [g1.eqLit.unsign, g2.eqLit.unsign]
            (xor g1.eqLit.sign g2.eqLit.sign)).1
          have htr : (addXorClauseInt ext st [g1.eqLit.unsign, g2.eqLit.unsign]
              (xor g1.eqLit.sign g2.eqLit.sign)).1.trace = st.trace ++ [xorEvent (g1, g2)] := rfl
          refine ⟨⟨k + 1, ?_⟩, ?_⟩
          · rw [hk, htr]; simp
          · intro h
            rw [hall h, htr]; simp
        · simp only [Bool.not_eq_true] at hret
          simp only [hret, Bool.not_false, if_true]
          refine ⟨⟨1, ?_⟩, ?_⟩
          · simp [addXorClauseInt, xorEvent]
          · intro h; exact absurd h (by decide)
      · have hq : eqPair (g1, g2) = false := by
          simp only [Bool.not_eq_true] at hc
          simp only [eqPair, Bool.and_assoc, hc, Bool.and_false]
        simp only [findEqLoop, hrem, hc, Bool.false_eq_true, if_false, List.filter_cons, hq]
        exact ih st

theorem submitted_trace (ext : Ext) (qs : List (OrGate × OrGate)) :
    ∀ st : State, (submitted ext qs st).trace = st.trace ++ qs.map xorEvent := by
  induction qs with
  | nil => intro st; simp [submitted]
  | cons p rest ih =>
    intro st
    have h := ih (submitXor ext st p).1
    have htr : (submitXor ext st p).1.trace = st.trace ++ [xorEvent p] := rfl
    show (submitted ext rest (submitXor ext st p).1).trace = _
    rw [h, htr]
    simp

/-- The loop of `findEqOrGates`, pair by pair: it submits the constraint of each qualifying
pair in turn, goes on after an accepted submission, and returns false right after the first
refused one; when every submission is accepted it returns true. -/
theorem findEqLoop_run (ext : Ext) (ps : List (OrGate × OrGate)) :
    ∀ st : State,
      ((∀ j p, (ps.filter eqPair).get? j = some p →
          (submitXor ext (submitted ext ((ps.filter eqPair).take j) st) p).2 = true) →
        findEqLoop ext ps st = (submitted ext (ps.filter eqPair) st, true)) ∧
      (∀ k p, (ps.filter eqPair).get? k = some p →
        (∀ j q, j < k → (ps.filter eqPair).get? j = some q →
          (submitXor ext (submitted ext ((ps.filter eqPair).take j) st) q).2 = true) →
        (submitXor ext (submitted ext ((ps.filter eqPair).take k) st) p).2 = false →
        findEqLoop ext ps st =
          (submitted ext ((ps.filter eqPair).take (k + 1)) st, false)) := by
  induction ps with
  | nil =>
    intro st
    refine ⟨fun _ => rfl, ?_⟩
    intro k p hp
    simp at hp
  | cons p0 rest ih =>
    intro st
    obtain ⟨g1, g2⟩ := p0
    have hskip : eqPair (g1, g2) = false →
        findEqLoop ext ((g1, g2) :: rest) st = findEqLoop ext rest st := by
      intro hq
      by_cases hrem : (g1.removed || g2.removed) = true
      · simp only [findEqLoop, hrem, if_true]
      · have hc : ¬ (g1.lits == g2.lits && g1.eqLit.var != g2.eqLit.var) = true := by
          intro hc
          simp only [Bool.or_eq_true, not_or, Bool.not_eq_true] at hrem
          simp only [Bool.and_eq_true] at hc
          simp [eqPair, hrem.1, hrem.2, hc.1, hc.2] at hq
        simp only [findEqLoop, hrem, hc, Bool.false_eq_true, if_false]
    have hstep : eqPair (g1, g2) = true →
        findEqLoop ext ((g1, g2) :: rest) st =
          if (submitXor ext st (g1, g2)).2 = true
          then findEqLoop ext rest (submitXor ext st (g1, g2)).1
          else ((submitXor ext st (g1, g2)).1, false) := by
      intro hq
      have hrem : ¬ (g1.removed || g2.removed) = true := by
        intro hrem
        simp only [Bool.or_eq_true] at hrem
        rcases hrem with h | h <;> simp [eqPair, h] at hq
      have hc : (g1.lits == g2.lits && g1.eqLit.var != g2.eqLit.var) = true := by
        simp only [eqPair, Bool.and_eq_true] at hq
        simp [hq.1.2, hq.2]
      simp only [findEqLoop, hrem, hc, if_true, Bool.false_eq_true, if_false, submitXor]
      by_cases hret : (addXorClauseInt ext st [g1.eqLit.unsign, g2.eqLit.unsign]
          (xor g1.eqLit.sign g2.eqLit.sign)).2 = true
      · simp [hret]
      · simp [hret]
    by_cases hq : eqPair (g1, g2) = true
    · have hf : ((g1, g2) :: rest).filter eqPair = (g1, g2) :: rest.filter eqPair := by
        simp [List.filter_cons, hq]
      rw [hf, hstep hq]
      obtain ⟨iha, ihb⟩ := ih (submitXor ext st (g1, g2)).1
      refine ⟨?_, ?_⟩
      · intro hall
        have h0 : (submitXor ext st (g1, g2)).2 = true := hall 0 (g1, g2) rfl
        rw [if_pos h0]
        exact iha (fun j p hp => hall (j + 1) p hp)
      · intro k p hp hbefore hrefused
        cases k with
        | zero =>
          simp only [List.get?_cons_zero, Option.some.injEq] at hp
          subst hp
          have h0 : ¬ (submitXor ext st (g1, g2)).2 = true := by
            have : (submitXor ext st (g1, g2)).2 = false := hrefused
            simp [this]
          rw [if_neg h0]
          rfl
        | succ k =>
          have h0 : (submitXor ext st (g1, g2)).2 = true := hbefore 0 (g1, g2) (by omega) rfl
          rw [if_pos h0]
          exact ihb k p hp (fun j q hj hq2 => hbefore (j + 1) q (by omega) hq2) hrefused
    · simp only [Bool.not_eq_true] at hq
      have hf : ((g1, g2) :: rest).filter eqPair = rest.filter eqPair := by
        simp [List.filter_cons, hq]
      rw [hf, hskip hq]
      exact ih st

/-- C15, as amended. `findEqOrGates` goes through the pairs of neighbours of the sorted copy
and submits an XOR constraint for a pair exactly when both gates are live, their inputs are
identical and their output variables differ, as long as no submission is refused: the calls it
records are, in order, those for the qualifying pairs up to the first refusal, and all of them
when it returns true. It goes on while the submissions are accepted: when each is accepted in
the state in which it is made, the function returns true; when the submission for the
qualifying pair at position `k` is the first one refused, the function returns false with
exactly the calls for the positions `0` to `k`. The constraint submitted for a pair,
`var(out1) ⊕ var(out2) = sign(out1) XOR sign(out2)`, holds under an assignment if and only if
`out1` and `out2` have the same truth value. -/
theorem findEqOrGates_submits (ext : Ext) (st : State) :
    (∃ k, newEvents st (findEqOrGates ext st).1 =
      (((neighbours ext st).filter eqPair).map xorEvent).take k) ∧
    ((findEqOrGates ext st).2 = true →
      newEvents st (findEqOrGates ext st).1 = ((neighbours ext st).filter eqPair).map xorEvent) ∧
    (∀ (g1 g2 : OrGate) (σ : Nat → Bool),
      xorHolds σ [g1.eqLit.unsign, g2.eqLit.unsign] (xor g1.eqLit.sign g2.eqLit.sign) = true ↔
        g1.eqLit.eval σ = g2.eqLit.eval σ) ∧
    ((∀ j p, ((neighbours ext st).filter eqPair).get? j = some p →
        (submitXor ext (submitted ext (((neighbours ext st).filter eqPair).take j) st) p).2
          = true) →
      (findEqOrGates ext st).2 = true ∧
      (findEqOrGates ext st).1 = submitted ext ((neighbours ext st).filter eqPair) st ∧
      newEvents st (findEqOrGates ext st).1 =
        ((neighbours ext st).filter eqPair).map xorEvent) ∧
    (∀ k p, ((neighbours ext st).filter eqPair).get? k = some p →
      (∀ j q, j < k → ((neighbours ext st).filter eqPair).get? j = some q →
        (submitXor ext (submitted ext (((neighbours ext st).filter eqPair).take j) st) q).2
          = true) →
      (submitXor ext (submitted ext (((neighbours ext st).filter eqPair).take k) st) p).2
        = false →
      (findEqOrGates ext st).2 = false ∧
      (findEqOrGates ext st).1 =
        submitted ext (((neighbours ext st).filter eqPair).take (k + 1)) st ∧
      newEvents st (findEqOrGates ext st).1 =
        (((neighbours ext st).filter eqPair).take (k + 1)).map xorEvent) := by
  obtain ⟨⟨k, hk⟩, hall⟩ := findEqLoop_events ext (neighbours ext st) st
  obtain ⟨hrunA, hrunB⟩ := findEqLoop_run ext (neighbours ext st) st
  refine ⟨⟨k, ?_⟩, ?_, ?_, ?_, ?_⟩
  · exact newEvents_append st _ _ hk
  · intro h
    exact newEvents_append st _ _ (hall h)
  · intro g1 g2 σ
    simp only [xorHolds, List.foldl_cons, List.foldl_nil, Lit.eval_unsign]
    unfold Lit.eval
    generalize σ g1.eqLit.var = a
    generalize σ g2.eqLit.var = b
    generalize g1.eqLit.sign = s
    generalize g2.eqLit.sign = t
    revert a b s t
    decide
  · intro hacc
    have he : findEqOrGates ext st =
        (submitted ext ((neighbours ext st).filter eqPair) st, true) := hrunA hacc
    rw [he]
    exact ⟨rfl, rfl, newEvents_append st _ _ (submitted_trace ext _ st)⟩
  · intro k p hp hbefore hrefused
    have he : findEqOrGates ext st =
        (submitted ext (((neighbours ext st).filter eqPair).take (k + 1)) st, false) :=
      hrunB k p hp hbefore hrefused
    rw [he]
    exact ⟨rfl, rfl, newEvents_append st _ _ (submitted_trace ext _ st)⟩

/-- The spec's equivalence scenario: with the gates `5 ⇔ (2 ∨ 3)` and `6 ⇔ (2 ∨ 3)` in the
store, `findEqOrGates` returns true and submits `5 ⊕ 6 = 0`, and nothing else. -/
theorem findEqOrGates_submits_witness :
    (findEqOrGates scenarioExt scenarioTwoGates).2 = true ∧
    newEvents scenarioTwoGates (findEqOrGates scenarioExt scenarioTwoGates).1 =
      [Event.addXorClauseInt [pos 5, pos 6] false] := by
  have h : (findEqOrGates scenarioExt scenarioTwoGates).2 = true := by decide
  refine ⟨h, ?_⟩
  rw [(findEqOrGates_submits scenarioExt scenarioTwoGates).2.1 h]
  decide

/-- C15, as stated, fails once a submission is refused. The store holds the gates
`5 ⇔ (2 ∨ 3)`, `6 ⇔ (2 ∨ 3)` and `7 ⇔ (2 ∨ 3)` and the registry refuses the first constraint.
The gates with outputs 6 and 7 are neighbours in the sorted copy, both live, with identical
inputs and different output variables, and no constraint is submitted for them: the only call
is the one for the outputs 5 and 6. -/
theorem findEqOrGates_refused_counterexample :
    (OrGate.new [pos 2, pos 3] (pos 6) false, OrGate.new [pos 2, pos 3] (pos 7) false) ∈
      neighbours refusingXorExt scenarioThreeGates ∧
    eqPair (OrGate.new [pos 2, pos 3] (pos 6) false, OrGate.new [pos 2, pos 3] (pos 7) false)
      = true ∧
    newEvents scenarioThreeGates (findEqOrGates refusingXorExt scenarioThreeGates).1 =
      [Event.addXorClauseInt [pos 5, pos 6] false] ∧
    xorEvent (OrGate.new [pos 2, pos 3] (pos 6) false, OrGate.new [pos 2, pos 3] (pos 7) false) ∉
      newEvents scenarioThreeGates (findEqOrGates refusingXorExt scenarioThreeGates).1 := by
  refine ⟨by decide, by decide, by decide, by decide⟩

/-! ### Gate synthesis: one new gate -/

/-- What `materialise` does when no assertion fails: the calls it records, the clause it links
in, and the fields of the gate finder it writes. -/
theorem materialise_spec (ext : Ext) (st st2 : State) (n : NewGateData)
    (h : materialise ext st n = some st2) :
    ∃ cl : Clause,
      st2.trace = st.trace ++
        [Event.newVar st.numVars,
         Event.addClauseIntDefault [Lit.ofVar st.numVars false, n.lit1.neg],
         Event.addClauseIntDefault [Lit.ofVar st.numVars false, n.lit2.neg],
         Event.addClauseInt [(Lit.ofVar st.numVars false).neg, n.lit1, n.lit2] false
           ext.defaultStats,
         Event.linkInClause cl] ∧
      cl.stats.conflictNumIntroduced = st.sumConflicts ∧
      st2.clauses = st.clauses ++ [some cl] ∧
      (st2.clauseData st.clauses.length).defOfOrGate = true ∧
      st2.orGates = st.orGates ++ [OrGate.new [n.lit1, n.lit2] (Lit.ofVar st.numVars false) false] ∧
      st.orGates.length ∈ st2.gateOccEq (Lit.ofVar st.numVars false).toInt ∧
      st.orGates.length ∈ st2.gateOcc n.lit1.toInt ∧
      st.orGates.length ∈ st2.gateOcc n.lit2.toInt ∧
      st2.dontElim = Function.update st.dontElim st.numVars true ∧
      st2.numVars = st.numVars + 1 ∧
      st2.ok = true := by
  unfold materialise at h
  simp only [] at h
  split at h
  · exact absurd h (by simp)
  split at h
  · exact absurd h (by simp)
  split at h
  · exact absurd h (by simp)
  rename_i cl hcl
  split at h
  · exact absurd h (by simp)
  rename_i hok1 hok2 hok3
  simp only [Option.some.injEq] at h
  subst h
  refine ⟨{ cl with stats := { cl.stats with conflictNumIntroduced := st.sumConflicts } },
    ?_, rfl, ?_, ?_, ?_, ?_, ?_, ?_, ?_, ?_, ?_⟩
  · simp [linkInClause, addClauseInt, addClauseIntDefault, controlNewVar, newVar]
  · simp [linkInClause, addClauseInt, addClauseIntDefault, controlNewVar, newVar]
  · simp [linkInClause, addClauseInt, addClauseIntDefault, controlNewVar, newVar]
  · simp [linkInClause, addClauseInt, addClauseIntDefault, controlNewVar, newVar]
  · simp [linkInClause, addClauseInt, addClauseIntDefault, controlNewVar, newVar, OrGate.new]
  · simp only [linkInClause, addClauseInt, addClauseIntDefault, controlNewVar, newVar,
      OrGate.new, List.foldl_cons, List.foldl_nil]
    by_cases e : n.lit1.toInt = n.lit2.toInt
    · rw [e]; simp
    · rw [Function.update_noteq e]; simp
  · simp [linkInClause, addClauseInt, addClauseIntDefault, controlNewVar, newVar, OrGate.new]
  · simp [linkInClause, addClauseInt, addClauseIntDefault, controlNewVar, newVar]
  · simp [linkInClause, addClauseInt, addClauseIntDefault, controlNewVar, newVar]
  · simpa [linkInClause, addClauseInt, addClauseIntDefault, controlNewVar, newVar] using hok3

theorem Lit.eval_update_of_ne (σ : Nat → Bool) (w : Nat) (b : Bool) (l : Lit) (h : l.var ≠ w) :
    l.eval (Function.update σ w b) = l.eval σ := by
  simp only [Lit.eval, Function.update_noteq h]

theorem Lit.eval_ofVar_update (σ : Nat → Bool) (w : Nat) (b : Bool) :
    (Lit.ofVar w false).eval (Function.update σ w b) = b := by
  have hv : (Lit.ofVar w false).var = w := Lit.var_ofVar w false
  have hs : (Lit.ofVar w false).sign = false := Lit.sign_ofVar w false
  unfold Lit.eval
  rw [hv, hs, Function.update_same]
  cases b <;> rfl

/-- One materialisation is a definitional extension: the step allocates the variable `w`,
submits the three clauses `w ∨ ¬lit1`, `w ∨ ¬lit2` and `¬w ∨ lit1 ∨ lit2`, and links in the
long clause, which it flags `defOfOrGate`. The three clauses together are equivalent to
`w ⇔ (lit1 ∨ lit2)`, and when `w` is not the variable of `lit1` or `lit2` every assignment
extends by exactly one value of `w`. The store gains the gate with inputs `[lit1, lit2]`,
output the positive literal of `w` and `learnt = false`, posted in the output index at `w` and
in the input index at `lit1` and `lit2`, and `dontElim[w]` is set. -/
theorem materialise_extension (ext : Ext) (st st2 : State) (n : NewGateData)
    (hfresh1 : n.lit1.var ≠ st.numVars) (hfresh2 : n.lit2.var ≠ st.numVars)
    (h : materialise ext st n = some st2) :
    (∃ cl : Clause,
      newEvents st st2 =
        [Event.newVar st.numVars,
         Event.addClauseIntDefault [Lit.ofVar st.numVars false, n.lit1.neg],
         Event.addClauseIntDefault [Lit.ofVar st.numVars false, n.lit2.neg],
         Event.addClauseInt [(Lit.ofVar st.numVars false).neg, n.lit1, n.lit2] false
           ext.defaultStats,
         Event.linkInClause cl] ∧
      st2.clauses = st.clauses ++ [some cl] ∧
      (st2.clauseData st.clauses.length).defOfOrGate = true) ∧
    (∀ σ : Nat → Bool,
      (satLits σ [Lit.ofVar st.numVars false, n.lit1.neg] = true ∧
        satLits σ [Lit.ofVar st.numVars false, n.lit2.neg] = true ∧
        satLits σ [(Lit.ofVar st.numVars false).neg, n.lit1, n.lit2] = true) ↔
      OrGate.holds σ (OrGate.new [n.lit1, n.lit2] (Lit.ofVar st.numVars false) false)) ∧
    (∀ σ : Nat → Bool, ∃! b : Bool,
      satLits (Function.update σ st.numVars b) [Lit.ofVar st.numVars false, n.lit1.neg] = true ∧
      satLits (Function.update σ st.numVars b) [Lit.ofVar st.numVars false, n.lit2.neg] = true ∧
      satLits (Function.update σ st.numVars b)
        [(Lit.ofVar st.numVars false).neg, n.lit1, n.lit2] = true) ∧
    st2.orGates =
      st.orGates ++ [OrGate.new [n.lit1, n.lit2] (Lit.ofVar st.numVars false) false] ∧
    st.orGates.length ∈ st2.gateOccEq (Lit.ofVar st.numVars false).toInt ∧
    st.orGates.length ∈ st2.gateOcc n.lit1.toInt ∧
    st.orGates.length ∈ st2.gateOcc n.lit2.toInt ∧
    st2.dontElim st.numVars = true := by
  obtain ⟨cl, htr, _, hcl, hdef, hog, he, h1, h2, hde, _, _⟩ := materialise_spec ext st st2 n h
  refine ⟨⟨cl, newEvents_append st st2 _ htr, hcl, hdef⟩, ?_, ?_, hog, he, h1, h2, ?_⟩
  · intro σ
    simp only [OrGate.holds, OrGate.new, satLits, List.any_cons, List.any_nil, Bool.or_false,
      Lit.eval_neg]
    generalize (Lit.ofVar st.numVars false).eval σ = w
    generalize n.lit1.eval σ = x
    generalize n.lit2.eval σ = y
    revert w x y
    decide
  · intro σ
    simp only [satLits, List.any_cons, List.any_nil, Bool.or_false, Lit.eval_neg,
      Lit.eval_ofVar_update, Lit.eval_update_of_ne σ _ _ _ hfresh1,
      Lit.eval_update_of_ne σ _ _ _ hfresh2]
    generalize n.lit1.eval σ = x
    generalize n.lit2.eval σ = y
    refine ⟨x || y, ?_, ?_⟩
    · revert x y; decide
    · intro b
      revert x y b; decide
  · rw [hde]; simp

/-! ### Gate synthesis: the materialisation loop -/

/-- The last loop of `createNewVars` materialises a prefix of the candidates: the first `k`
pass the test at the head of the loop, each in the state that the loop has reached, the
candidate at position `k`, if there is one, fails it, and the store gains the gates of the
first `k` candidates. -/
theorem materialiseLoop_spec (ext : Ext) (cands : List NewGateData) :
    ∀ (i0 : Nat) (st : State) (a0 : Nat) (st2 : State) (a : Nat),
      materialiseLoop ext cands i0 st a0 = some (st2, a) →
      ∃ k, k ≤ cands.length ∧ a = a0 + k ∧
        (∀ j, j < k → ∃ s n, stateAt ext cands st j = some s ∧ cands.get? j = some n ∧
          stops ext s (i0 + j) n = false) ∧
        stateAt ext cands st k = some st2 ∧
        (k < cands.length → ∃ n, cands.get? k = some n ∧ stops ext st2 (i0 + k) n = true) ∧
        st2.orGates = st.orGates ++ gatesOf (cands.take k) st.numVars ∧
        (∀ v, st.dontElim v = true → st2.dontElim v = true) ∧
        (∀ g ∈ gatesOf (cands.take k) st.numVars, st2.dontElim g.eqLit.var = true) := by
  induction cands with
  | nil =>
    intro i0 st a0 st2 a h
    simp only [materialiseLoop, Option.some.injEq, Prod.mk.injEq] at h
    obtain ⟨h1, h2⟩ := h
    subst h1 h2
    refine ⟨0, Nat.le_refl _, rfl, ?_, rfl, ?_, by simp [gatesOf], fun _ h => h, by simp [gatesOf]⟩
    · intro j hj; omega
    · intro hk; simp at hk
  | cons n rest ih =>
    intro i0 st a0 st2 a h
    by_cases hs : stops ext st i0 n = true
    · simp only [materialiseLoop, hs, if_true, Option.some.injEq, Prod.mk.injEq] at h
      obtain ⟨h1, h2⟩ := h
      subst h1 h2
      refine ⟨0, Nat.zero_le _, rfl, ?_, rfl, ?_, by simp [gatesOf], fun _ h => h,
        by simp [gatesOf]⟩
      · intro j hj; omega
      · intro _
        exact ⟨n, rfl, by simpa using hs⟩
    · simp only [materialiseLoop, hs, if_false] at h
      cases hm : materialise ext st n with
      | none => simp [hm] at h
      | some st1 =>
        simp only [hm] at h
        obtain ⟨k, hk, ha, hall, hst, hstop, hog, hde, hnew⟩ := ih _ _ _ _ _ h
        obtain ⟨cl, _, _, _, _, hog1, _, _, _, hde1, hnv1, _⟩ := materialise_spec ext st st1 n hm
        have hog1b : ({ st1 with numERVars := st1.numERVars + 1 } : State).orGates =
            st.orGates ++ [OrGate.new [n.lit1, n.lit2] (Lit.ofVar st.numVars false) false] := hog1
        have hnv1b : ({ st1 with numERVars := st1.numERVars + 1 } : State).numVars =
            st.numVars + 1 := hnv1
        have hde1b : ({ st1 with numERVars := st1.numERVars + 1 } : State).dontElim =
            Function.update st.dontElim st.numVars true := hde1
        refine ⟨k + 1, by simpa using hk, by omega, ?_, ?_, ?_, ?_, ?_, ?_⟩
        · intro j hj
          cases j with
          | zero =>
            exact ⟨st, n, rfl, rfl, by simpa using hs⟩
          | succ j' =>
            obtain ⟨s, m, h1, h2, h3⟩ := hall j' (by omega)
            refine ⟨s, m, ?_, ?_, ?_⟩
            · simp only [stateAt, hm]; exact h1
            · simpa using h2
            · have e : i0 + (j' + 1) = i0 + 1 + j' := by omega
              rw [e]; exact h3
        · simp only [stateAt, hm]; exact hst
        · intro hlt
          obtain ⟨m, h1, h2⟩ := hstop (by simpa using hlt)
          refine ⟨m, by simpa using h1, ?_⟩
          have e : i0 + (k + 1) = i0 + 1 + k := by omega
          rw [e]; exact h2
        · rw [hog, hog1b, hnv1b]
          simp [gatesOf]
        · intro v hv
          apply hde
          rw [hde1b]
          by_cases e : v = st.numVars
          · subst e; simp
          · rw [Function.update_noteq e]; exact hv
        · intro g hg
          simp only [List.take_succ_cons, gatesOf, List.mem_cons] at hg
          rcases hg with hg | hg
          · subst hg
            apply hde
            have e : (OrGate.new [n.lit1, n.lit2] (Lit.ofVar st.numVars false) false).eqLit.var =
                st.numVars := Lit.var_ofVar _ _
            rw [hde1b, e, Function.update_same]
          · rw [hnv1b] at hnew
            exact hnew g hg

/-- C17, as amended. Materialisation limits: when `createNewVars` returns the count `added`, it
has materialised the candidates at the positions `0` to `added - 1` of the sorted, deduplicated
ranking and no other, the store has gained their gates, and each materialised position `i` has
passed the test made in the state the loop had reached: `i ≤ 100`, `i` is at most 1% of the
number of unset variables read then, and `i > 50` implies `num_cl_removable ≥ 1000` or
`potential ≥ 25`. Hence the count is at most 101 and at most `⌊0.01 · N⌋ + 1`, where `N` is the
number of unset variables read at the test of the last candidate materialised; and when the
number read at the test of position `i` is at most `u + i`, as when each new variable adds one
to the `u` unset variables of the entry, the count is at most `⌊u / 99⌋ + 1`. -/
theorem createNewVars_limits (ext : Ext) (st st2 : State) (added : Nat)
    (h : createNewVars ext st = some (st2, added)) :
    added ≤ (ranking ext st).length ∧
    st2.orGates = (sampled ext st).st.orGates ++
      gatesOf ((ranking ext st).take added) (sampled ext st).st.numVars ∧
    (∀ i, i < added → ∃ s n,
      stateAt ext (ranking ext st) (sampled ext st).st i = some s ∧
      (ranking ext st).get? i = some n ∧
      i ≤ 100 ∧ 100 * i ≤ ext.getNumUnsetVars s ∧
      (i > 50 → n.numLitRem ≥ 1000 ∨ n.numClRem ≥ 25)) ∧
    added ≤ 101 ∧
    (0 < added → ∃ s, stateAt ext (ranking ext st) (sampled ext st).st (added - 1) = some s ∧
      added ≤ ext.getNumUnsetVars s / 100 + 1) ∧
    (∀ u, (∀ i s, stateAt ext (ranking ext st) (sampled ext st).st i = some s →
        ext.getNumUnsetVars s ≤ u + i) → added ≤ u / 99 + 1) := by
  unfold createNewVars at h
  cases hm : materialiseLoop ext (ranking ext st) 0 (sampled ext st).st 0 with
  | none => simp [hm] at h
  | some r =>
    obtain ⟨s2, a⟩ := r
    simp only [hm, Option.some.injEq, Prod.mk.injEq] at h
    obtain ⟨h1, h2⟩ := h
    subst h2
    obtain ⟨k, hk, ha, hall, _, _, hog, _, _⟩ := materialiseLoop_spec ext _ _ _ _ _ _ hm
    simp only [Nat.zero_add] at ha hall
    subst ha
    have hpos : ∀ i, i < a → ∃ s n,
        stateAt ext (ranking ext st) (sampled ext st).st i = some s ∧
        (ranking ext st).get? i = some n ∧
        i ≤ 100 ∧ 100 * i ≤ ext.getNumUnsetVars s ∧
        (i > 50 → n.numLitRem ≥ 1000 ∨ n.numClRem ≥ 25) := by
      intro i hi
      obtain ⟨s, n, hs, hn, hstop⟩ := hall i hi
      simp only [stops, Bool.or_eq_false_iff, Bool.and_eq_false_iff, decide_eq_false_iff_not,
        Nat.not_lt] at hstop
      refine ⟨s, n, hs, hn, by omega, hstop.1.2, ?_⟩
      intro h50
      rcases hstop.1.1 with (h | h) | h
      · omega
      · exact Or.inl h
      · exact Or.inr h
    refine ⟨hk, ?_, hpos, ?_, ?_, ?_⟩
    · rw [← h1]; exact hog
    · cases a with
      | zero => omega
      | succ a' =>
        obtain ⟨_, _, _, _, h100, _, _⟩ := hpos a' (by omega)
        omega
    · intro hpos0
      cases a with
      | zero => omega
      | succ a' =>
        obtain ⟨s, _, hs, _, _, hu, _⟩ := hpos a' (by omega)
        refine ⟨s, hs, ?_⟩
        have : a' ≤ ext.getNumUnsetVars s / 100 :=
          (Nat.le_div_iff_mul_le (by decide)).mpr (by omega)
        omega
    · intro u hu
      cases a with
      | zero => omega
      | succ a' =>
        obtain ⟨s, _, hs, _, _, h100, _⟩ := hpos a' (by omega)
        have := hu a' s hs
        have : a' ≤ u / 99 := (Nat.le_div_iff_mul_le (by decide)).mpr (by omega)
        omega

/-! ### Gate synthesis: the sampling loop and `dontElim` -/

/-- In scoring mode `treatAndGate` writes the scratch bitmaps, the buckets, the budget and the
budget pointer, and nothing else. -/
theorem treatAndGate_dry_frame (ext : Ext) (gate : OrGate) (st : State) (fp numOp : Nat) :
    ∃ (sn sn2 : Nat → Bool) (ce : BudgetPtr → Int) (sso : Nat → List Nat) (td : BudgetPtr),
      (treatAndGate ext gate false st fp numOp).st =
        { st with seen := sn, seen2 := sn2, cells := ce, sizeSortedOcc := sso, toDecrease := td } := by
  by_cases he : ((st.occur gate.lit0.neg.toInt).isEmpty ||
      (st.occur gate.lit1.neg.toInt).isEmpty) = true
  · simp only [treatAndGate, he, if_true]
    exact ⟨st.seen, st.seen2, st.cells, st.sizeSortedOcc, st.toDecrease, rfl⟩
  · obtain ⟨sso, s2, cells, hso⟩ := sortedOcc_frame gate st numOp
    obtain ⟨hl1, hl2, _, sn, ce, hl4⟩ := treatAndGateLoop_dry ext gate
      (sortedOcc gate st numOp).abstraction (sortedOcc gate st numOp).maxSize
      ((sortedOcc gate st numOp).st.occur gate.lit0.neg.toInt) (loopStart gate st numOp)
    have hstart : (loopStart gate st numOp).st =
        (sortedOcc gate st numOp).st.movePtr
          (((sortedOcc gate st numOp).st.occur gate.lit0.neg.toInt).length * 3) := rfl
    have hcl : (loopStart gate st numOp).clToUnlink = [] := rfl
    simp only [treatAndGate, he, if_false, runLoop, hl1, Bool.not_true, Bool.false_eq_true]
    rw [hl2, hcl, hl4, hstart, hso]
    exact ⟨_, _, _, _, _, rfl⟩

/-- A round of the sampling loop of `createNewVars` writes the scratch bitmaps, the buckets,
the budget, the budget pointer and the count of random draws, and nothing else. -/
theorem sampleBody_frame (ext : Ext) (size : Nat) (acc : Sample) :
    ∃ (sn sn2 : Nat → Bool) (ce : BudgetPtr → Int) (sso : Nat → List Nat) (td : BudgetPtr)
      (rc : Nat),
      (sampleBody ext size acc).st =
        { acc.st with seen := sn, seen2 := sn2, cells := ce, sizeSortedOcc := sso,
                      toDecrease := td, randCalls := rc } := by
  have key : ∀ (s : State) (ng : List NewGateData) (no : Nat) (a b : Lit),
      ∃ (sn sn2 : Nat → Bool) (ce : BudgetPtr → Int) (sso : Nat → List Nat) (td : BudgetPtr),
        (scorePair ext ⟨s, ng, no⟩ a b).st =
          { s with seen := sn, seen2 := sn2, cells := ce, sizeSortedOcc := sso,
                   toDecrease := td } := by
    intro s ng no a b
    unfold scorePair
    simp only []
    by_cases hno : no < 100000000
    · obtain ⟨sn, sn2, ce, sso, td, h⟩ := treatAndGate_dry_frame ext
        (OrGate.new [a, b] (Lit.ofVar 0 false) false)
        (s.charge (ext.findSubsumed0 s [a, b] (calcAbstraction [a, b])).2) 0 no
      simp only [hno, if_true]
      split_ifs
      · exact ⟨sn, sn2, ce, sso, td, by rw [h]; rfl⟩
      · exact ⟨sn, sn2, ce, sso, td, by rw [h]; rfl⟩
    · simp only [hno, if_false]
      split_ifs
      · exact ⟨_, _, _, _, _, rfl⟩
      · exact ⟨_, _, _, _, _, rfl⟩
  unfold sampleBody
  simp only []
  split_ifs
  · exact ⟨_, _, _, _, _, _, rfl⟩
  · exact ⟨_, _, _, _, _, _, rfl⟩
  · exact ⟨_, _, _, _, _, _, rfl⟩
  · obtain ⟨sn, sn2, ce, sso, td, h⟩ := key
      { acc.st with randCalls := acc.st.randCalls + 2 + 2 } acc.newGates acc.numOp
      (Lit.ofVar (ext.randInt (acc.st.randCalls + 1) size)
        (ext.randInt (acc.st.randCalls + 2 + 1) 1 != 0))
      (Lit.ofVar (ext.randInt acc.st.randCalls size)
        (ext.randInt (acc.st.randCalls + 2) 1 != 0))
    exact ⟨sn, sn2, ce, sso, td, _, h⟩
  · obtain ⟨sn, sn2, ce, sso, td, h⟩ := key
      { acc.st with randCalls := acc.st.randCalls + 2 + 2 } acc.newGates acc.numOp
      (Lit.ofVar (ext.randInt acc.st.randCalls size)
        (ext.randInt (acc.st.randCalls + 2) 1 != 0))
      (Lit.ofVar (ext.randInt (acc.st.randCalls + 1) size)
        (ext.randInt (acc.st.randCalls + 2 + 1) 1 != 0))
    exact ⟨sn, sn2, ce, sso, td, _, h⟩

theorem sampleLoop_frame (ext : Ext) (size : Nat) (fuel : Nat) :
    ∀ acc : Sample,
      ∃ (sn sn2 : Nat → Bool) (ce : BudgetPtr → Int) (sso : Nat → List Nat) (td : BudgetPtr)
        (rc : Nat),
        (sampleLoop ext size fuel acc).st =
          { acc.st with seen := sn, seen2 := sn2, cells := ce, sizeSortedOcc := sso,
                        toDecrease := td, randCalls := rc } := by
  induction fuel with
  | zero =>
    intro acc
    exact ⟨acc.st.seen, acc.st.seen2, acc.st.cells, acc.st.sizeSortedOcc, acc.st.toDecrease,
      acc.st.randCalls, rfl⟩
  | succ f ih =>
    intro acc
    simp only [sampleLoop]
    split_ifs
    · exact ⟨acc.st.seen, acc.st.seen2, acc.st.cells, acc.st.sizeSortedOcc, acc.st.toDecrease,
        acc.st.randCalls, rfl⟩
    · obtain ⟨sn, sn2, ce, sso, td, rc, h1⟩ := sampleBody_frame ext size acc
      obtain ⟨sn', sn2', ce', sso', td', rc', h2⟩ := ih (sampleBody ext size acc)
      exact ⟨sn', sn2', ce', sso', td', rc', by rw [h2, h1]⟩

/-- The sampling loop of `createNewVars` leaves the gate store, `dontElim` and the number of
variables alone. -/
theorem sampled_frame (ext : Ext) (st : State) :
    (sampled ext st).st.orGates = st.orGates ∧ (sampled ext st).st.dontElim = st.dontElim ∧
    (sampled ext st).st.numVars = st.numVars := by
  obtain ⟨sn, sn2, ce, sso, td, rc, h⟩ := sampleLoop_frame ext
    (sampleSize ext { st with toDecrease := ⟨Counter.numMaxCreateNewVars, 0⟩ })
    (min 100000 (sampleSize ext { st with toDecrease := ⟨Counter.numMaxCreateNewVars, 0⟩ } *
      sampleSize ext { st with toDecrease := ⟨Counter.numMaxCreateNewVars, 0⟩ } % 4294967296 / 2))
    ⟨{ st with toDecrease := ⟨Counter.numMaxCreateNewVars, 0⟩ }, [], 0⟩
  have hs : (sampled ext st).st = _ := h
  rw [hs]
  exact ⟨rfl, rfl, rfl⟩

/-! ### Which gates have `dontElim` -/

theorem findOrGates_dontElim (st : State) : (findOrGates st).dontElim = st.dontElim := by
  obtain ⟨og, goe, go, fl, v, h⟩ := findOrGatesLoop_frame true st.clauses 0
    { clearIndexes st with
      cells := Function.update (clearIndexes st).cells ⟨Counter.numMaxGateFinder, 0⟩ 100000000
      toDecrease := ⟨Counter.numMaxGateFinder, 0⟩ }
  have hF : findOrGates st = _ := h
  rw [hF]
  rfl

/-- What `createNewVars` does to the gate store and to `dontElim`: the store gains the gates of
the materialised candidates, each of which gets its `dontElim` bit, and no bit is cleared. -/
theorem createNewVars_store (ext : Ext) (st st2 : State) (added : Nat)
    (h : createNewVars ext st = some (st2, added)) :
    ∃ new : List OrGate, st2.orGates = st.orGates ++ new ∧
      (∀ g ∈ new, st2.dontElim g.eqLit.var = true) ∧
      (∀ v, st.dontElim v = true → st2.dontElim v = true) := by
  unfold createNewVars at h
  cases hm : materialiseLoop ext (ranking ext st) 0 (sampled ext st).st 0 with
  | none => simp [hm] at h
  | some r =>
    obtain ⟨s2, a⟩ := r
    simp only [hm, Option.some.injEq, Prod.mk.injEq] at h
    obtain ⟨h1, _⟩ := h
    obtain ⟨k, _, _, _, _, _, hog, hde, hnew⟩ := materialiseLoop_spec ext _ _ _ _ _ _ hm
    obtain ⟨f1, f2, _⟩ := sampled_frame ext st
    rw [f1] at hog
    rw [f2] at hde
    subst h1
    exact ⟨_, hog, hnew, hde⟩

/-- C11, as amended. After `createNewVars`, every gate that the call added to the store has
`dontElim[g.eqLit.var()] = true` and no `dontElim` bit that was set has been cleared; after
`extendedResolution`, which empties the store first, every gate in the store has it.
`findOrGates` does not write `dontElim`: after it a gate's output variable has the bit exactly
when it had it before the call. -/
theorem createNewVars_dontElim (ext : Ext) (st st2 : State) (added : Nat)
    (h : createNewVars ext st = some (st2, added)) :
    (∃ new : List OrGate, st2.orGates = st.orGates ++ new ∧
      (∀ g ∈ new, st2.dontElim g.eqLit.var = true) ∧
      (∀ v, st.dontElim v = true → st2.dontElim v = true)) ∧
    (∀ (st0 st3 : State) (ret : Bool), extendedResolution ext st0 = some (st3, ret) →
      ∀ g ∈ st3.orGates, st3.dontElim g.eqLit.var = true) ∧
    (∀ s : State, (findOrGates s).dontElim = s.dontElim) := by
  refine ⟨createNewVars_store ext st st2 added h, ?_, findOrGates_dontElim⟩
  intro st0 st3 ret he
  unfold extendedResolution at he
  by_cases hok : (!st0.ok) = true
  · rw [if_pos hok] at he
    exact Option.noConfusion he
  · rw [if_neg hok] at he
    cases hc : createNewVars ext (clearIndexes st0) with
    | none => simp [hc] at he
    | some r =>
      obtain ⟨s3, a⟩ := r
      simp only [hc, Option.some.injEq, Prod.mk.injEq] at he
      obtain ⟨e1, _⟩ := he
      subst e1
      obtain ⟨new, hog, hnew, _⟩ := createNewVars_store ext (clearIndexes st0) s3 a hc
      intro g hg
      rw [hog] at hg
      simp only [clearIndexes, List.nil_append] at hg
      exact hnew g hg

/-- In the synthesis scenario `createNewVars` adds the gate `8 ⇔ (1 ∨ 2)` and sets
`dontElim[8]`. -/
theorem createNewVars_dontElim_witness :
    ∃ st2, createNewVars samplingExt scenarioSynthesis = some (st2, 1) ∧
      st2.orGates = [OrGate.new [pos 1, pos 2] (pos 8) false] ∧
      ∀ g ∈ st2.orGates, st2.dontElim g.eqLit.var = true := by
  have h1 : (createNewVars samplingExt scenarioSynthesis).isSome = true := by decide!
  have h2 : (createNewVars samplingExt scenarioSynthesis).map (fun r => r.2) = some 1 := by
    decide!
  have h3 : (createNewVars samplingExt scenarioSynthesis).map (fun r => r.1.orGates) =
      some [OrGate.new [pos 1, pos 2] (pos 8) false] := by decide!
  obtain ⟨r, hr⟩ := Option.isSome_iff_exists.mp h1
  rw [hr] at h2 h3
  simp only [Option.map_some', Option.some.injEq] at h2 h3
  have hr2 : createNewVars samplingExt scenarioSynthesis = some (r.1, 1) := by rw [hr, ← h2]
  obtain ⟨⟨new, hog, hnew, _⟩, _, _⟩ :=
    createNewVars_dontElim samplingExt scenarioSynthesis r.1 1 hr2
  refine ⟨r.1, hr2, h3, ?_⟩
  intro g hg
  rw [hog] at hg
  have he : scenarioSynthesis.orGates = [] := by decide!
  rw [he, List.nil_append] at hg
  exact hnew g hg

/-- C11, as stated, fails for `findOrGates`. In the first scenario (the clauses `¬1 ∨ 2 ∨ 3`,
`1 ∨ ¬2`, `1 ∨ ¬3`) `findOrGates` stores the gate `1 ⇔ (2 ∨ 3)`, and `dontElim[1]` is false
after the call. -/
theorem findOrGates_dontElim_counterexample :
    OrGate.new [pos 2, pos 3] (pos 1) false ∈ (findOrGates scenario1).orGates ∧
    (findOrGates scenario1).dontElim (OrGate.new [pos 2, pos 3] (pos 1) false).eqLit.var
      = false := by
  refine ⟨by decide!, by decide!⟩

/-! ### The scratch bitmaps on the path that returns true -/

theorem markSeen2_recorded (ls : List Lit) :
    ∀ (s : Nat → Bool) (set : List Nat) (ab : Nat), (∀ n, s n = true → n ∈ set) →
      ∀ n, (markSeen2 ls (s, set, ab)).1 n = true → n ∈ (markSeen2 ls (s, set, ab)).2.1 := by
  induction ls with
  | nil => intro s set ab h; exact h
  | cons l rest ih =>
    intro s set ab h
    simp only [markSeen2]
    split_ifs
    · apply ih
      intro n hn
      by_cases e : n = l.toInt
      · subst e; simp
      · rw [Function.update_noteq e] at hn
        exact List.mem_append_left _ (h n hn)
    · exact ih _ _ _ h

theorem calculateSortedOccLoop_recorded (gate : OrGate) (cs : List Nat) :
    ∀ acc : SortedOcc, (∀ n, acc.st.seen2 n = true → n ∈ acc.seen2Set) →
      ∀ n, (calculateSortedOccLoop gate cs acc).st.seen2 n = true →
        n ∈ (calculateSortedOccLoop gate cs acc).seen2Set := by
  induction cs with
  | nil => intro acc h; exact h
  | cons c rest ih =>
    intro acc h
    simp only [calculateSortedOccLoop]
    split_ifs
    · exact ih acc h
    · apply ih
      exact markSeen2_recorded _ _ _ _ h

/-- When `seen2` is all false on entry, every bit that `calculateSortedOcc` sets in `seen2` is
recorded in `seen2Set`. -/
theorem sortedOcc_recorded (gate : OrGate) (st : State) (numOp : Nat)
    (h : ∀ n, st.seen2 n = false) :
    ∀ n, (sortedOcc gate st numOp).st.seen2 n = true → n ∈ (sortedOcc gate st numOp).seen2Set := by
  unfold sortedOcc calculateSortedOcc
  simp only []
  apply calculateSortedOccLoop_recorded
  intro n hn
  have : st.seen2 n = true := hn
  rw [h n] at this
  exact Bool.noConfusion this

theorem treatAndGateClause_seen2 (ext : Ext) (st : State) (d : Nat) (gate : OrGate)
    (cl : Clause) : (treatAndGateClause ext st d gate cl).1.seen2 = st.seen2 := by
  unfold treatAndGateClause
  simp only [addClauseInt]
  cases hr : (ext.addClauseInt _ _ _ _).cl with
  | none =>
    simp only []
    split_ifs <;> rfl
  | some ncl =>
    simp only []
    split_ifs <;> rfl

theorem treatAndGateLoop_seen2 (ext : Ext) (gate : OrGate) (rr : Bool) (ab ms : Nat)
    (cs : List Nat) :
    ∀ acc : AndGateAcc, (treatAndGateLoop ext gate rr ab ms cs acc).2 = true →
      (treatAndGateLoop ext gate rr ab ms cs acc).1.st.seen2 = acc.st.seen2 := by
  induction cs with
  | nil => intro acc _; rfl
  | cons c rest ih =>
    intro acc hflag
    simp only [treatAndGateLoop] at hflag ⊢
    by_cases hb : (treatAndGateBody ext gate rr ab ms acc c).2 = true
    · simp only [hb, if_true] at hflag ⊢
      rw [ih _ hflag]
      rcases treatAndGateBody_state ext gate rr ab ms acc c hb with h | h | ⟨d, h⟩
      · rw [h]
      · rw [h]; rfl
      · rw [h]
        exact treatAndGateClause_seen2 ext (searchState gate acc.st c) d gate (acc.st.clauseAt c)
    · simp [hb] at hflag

theorem foldl_clear (l : List Nat) :
    ∀ (s : Nat → Bool) (n : Nat),
      (l.foldl (fun s i => Function.update s i false) s) n = if n ∈ l then false else s n := by
  induction l with
  | nil => intro s n; simp
  | cons i rest ih =>
    intro s n
    simp only [List.foldl_cons, ih, List.mem_cons]
    by_cases h1 : n ∈ rest
    · simp [h1]
    · by_cases h2 : n = i
      · subst h2; simp
      · simp [h1, h2, Function.update_noteq h2]

theorem foldl_unlinkClause_scratch (l : List Nat) :
    ∀ st : State, (l.foldl unlinkClause st).seen = st.seen ∧
      (l.foldl unlinkClause st).seen2 = st.seen2 := by
  induction l with
  | nil => intro st; exact ⟨rfl, rfl⟩
  | cons c rest ih =>
    intro st
    simp only [List.foldl_cons]
    exact ih (unlinkClause st c)

/-- On the path that returns true the scratch bitmaps are restored: when `seen` and `seen2` are
all false on entry and `treatAndGate` returns true, both are all false on return. -/
theorem treatAndGate_scratch_clean (ext : Ext) (gate : OrGate) (rr : Bool) (st : State)
    (fp numOp : Nat) (hseen : ∀ n, st.seen n = false) (hseen2 : ∀ n, st.seen2 n = false)
    (hret : (treatAndGate ext gate rr st fp numOp).ret = true) :
    (∀ n, (treatAndGate ext gate rr st fp numOp).st.seen n = false) ∧
    (∀ n, (treatAndGate ext gate rr st fp numOp).st.seen2 n = false) := by
  unfold treatAndGate at hret ⊢
  simp only [] at hret ⊢
  split_ifs at hret ⊢ with he hr
  · exact ⟨hseen, hseen2⟩
  · simp only [Bool.not_eq_true, Bool.not_eq_false'] at hr
    obtain ⟨hinv, _, _⟩ := runLoop_inv ext gate rr st numOp
      ((sortedOcc gate st numOp).st.occur gate.lit0.neg.toInt) hseen hr
    have hs2 := treatAndGateLoop_seen2 ext gate rr (sortedOcc gate st numOp).abstraction
      (sortedOcc gate st numOp).maxSize ((sortedOcc gate st numOp).st.occur gate.lit0.neg.toInt)
      (loopStart gate st numOp) hr
    have hrec := sortedOcc_recorded gate st numOp hseen2
    obtain ⟨f1, f2⟩ := foldl_unlinkClause_scratch
      (runLoop ext gate rr st numOp
        ((sortedOcc gate st numOp).st.occur gate.lit0.neg.toInt)).1.clToUnlink
      { (runLoop ext gate rr st numOp
          ((sortedOcc gate st numOp).st.occur gate.lit0.neg.toInt)).1.st with
        seen2 := (sortedOcc gate st numOp).seen2Set.foldl
          (fun s i => Function.update s i false)
          (runLoop ext gate rr st numOp
            ((sortedOcc gate st numOp).st.occur gate.lit0.neg.toInt)).1.st.seen2 }
    refine ⟨?_, ?_⟩
    · intro n
      rw [f1]
      exact hinv n
    · intro n
      rw [f2]
      simp only [foldl_clear]
      split_ifs with hm
      · rfl
      · have e : (runLoop ext gate rr st numOp
            ((sortedOcc gate st numOp).st.occur gate.lit0.neg.toInt)).1.st.seen2 =
            (sortedOcc gate st numOp).st.seen2 := hs2
        rw [e]
        cases hv : (sortedOcc gate st numOp).st.seen2 n with
        | false => rfl
        | true => exact absurd (hrec n hv) hm

/-! ### Gate synthesis: every materialised candidate -/

theorem stateAt_zero (ext : Ext) (cands : List NewGateData) (st : State) :
    stateAt ext cands st 0 = some st := by
  cases cands <;> rfl

/-- The state in which the loop tests position `j + 1` is the one that materialising the
candidate at position `j` has produced. -/
theorem stateAt_step (ext : Ext) (j : Nat) :
    ∀ (cands : List NewGateData) (st t : State), stateAt ext cands st (j + 1) = some t →
      ∃ s n s', stateAt ext cands st j = some s ∧ cands.get? j = some n ∧
        materialise ext s n = some s' ∧ t = { s' with numERVars := s'.numERVars + 1 } := by
  induction j with
  | zero =>
    intro cands st t h
    cases cands with
    | nil => simp [stateAt] at h
    | cons n rest =>
      simp only [stateAt] at h
      cases hm : materialise ext st n with
      | none => simp [hm] at h
      | some s' =>
        simp only [hm, Option.some.injEq] at h
        exact ⟨st, n, s', rfl, rfl, hm, h.symm⟩
  | succ j ih =>
    intro cands st t h
    cases cands with
    | nil => simp [stateAt] at h
    | cons n rest =>
      simp only [stateAt] at h
      cases hm : materialise ext st n with
      | none => simp [hm] at h
      | some s1 =>
        simp only [hm] at h
        obtain ⟨s, m, s', h1, h2, h3, h4⟩ := ih rest _ t h
        refine ⟨s, m, s', ?_, ?_, h3, h4⟩
        · simp only [stateAt, hm]; exact h1
        · simpa using h2

/-- Every position below the count that `createNewVars` returns has been materialised: the
body of the loop has run for its candidate, in the state the loop had reached, with no
assertion failing. -/
theorem createNewVars_positions (ext : Ext) (st st2 : State) (added : Nat)
    (h : createNewVars ext st = some (st2, added)) (i : Nat) (hi : i < added) :
    ∃ s n s', stateAt ext (ranking ext st) (sampled ext st).st i = some s ∧
      (ranking ext st).get? i = some n ∧ materialise ext s n = some s' := by
  unfold createNewVars at h
  cases hm : materialiseLoop ext (ranking ext st) 0 (sampled ext st).st 0 with
  | none => simp [hm] at h
  | some r =>
    obtain ⟨s2, a⟩ := r
    simp only [hm, Option.some.injEq, Prod.mk.injEq] at h
    obtain ⟨_, h2⟩ := h
    subst h2
    obtain ⟨k, _, ha, hall, hst, _⟩ := materialiseLoop_spec ext _ _ _ _ _ _ hm
    simp only [Nat.zero_add] at ha
    subst ha
    have hnext : ∃ t, stateAt ext (ranking ext st) (sampled ext st).st (i + 1) = some t := by
      by_cases hlt : i + 1 < a
      · obtain ⟨s, _, hs, _⟩ := hall (i + 1) hlt
        exact ⟨s, hs⟩
      · have e : i + 1 = a := by omega
        rw [e]
        exact ⟨s2, hst⟩
    obtain ⟨t, ht⟩ := hnext
    obtain ⟨s, n, s', h1, h2, h3, _⟩ := stateAt_step ext i _ _ _ ht
    exact ⟨s, n, s', h1, h2, h3⟩

/-- C16. Synthesis is a definitional extension: for every candidate `(lit1, lit2)` that
`createNewVars` materialises, at position `i` of the ranking and with the fresh variable `w`,
the step allocates `w`, submits the three clauses `w ∨ ¬lit1`, `w ∨ ¬lit2` and
`¬w ∨ lit1 ∨ lit2`, and links in the long clause, which it flags `defOfOrGate`. The three
clauses together are equivalent to `w ⇔ (lit1 ∨ lit2)`, and, `w` being fresh, every assignment
extends by exactly one value of `w`. The store gains the gate with inputs `[lit1, lit2]`, output
the positive literal of `w` and `learnt = false`, posted in the output index at `w` and in the
input index at `lit1` and `lit2`, and `dontElim[w]` is set. -/
theorem createNewVars_definitional_extension (ext : Ext) (st st2 : State) (added : Nat)
    (i : Nat) (h : createNewVars ext st = some (st2, added)) (hi : i < added) :
    ∃ (s s' : State) (n : NewGateData),
      stateAt ext (ranking ext st) (sampled ext st).st i = some s ∧
      (ranking ext st).get? i = some n ∧
      materialise ext s n = some s' ∧
      (∃ cl : Clause,
        newEvents s s' =
          [Event.newVar s.numVars,
           Event.addClauseIntDefault [Lit.ofVar s.numVars false, n.lit1.neg],
           Event.addClauseIntDefault [Lit.ofVar s.numVars false, n.lit2.neg],
           Event.addClauseInt [(Lit.ofVar s.numVars false).neg, n.lit1, n.lit2] false
             ext.defaultStats,
           Event.linkInClause cl] ∧
        s'.clauses = s.clauses ++ [some cl] ∧
        (s'.clauseData s.clauses.length).defOfOrGate = true) ∧
      (∀ σ : Nat → Bool,
        (satLits σ [Lit.ofVar s.numVars false, n.lit1.neg] = true ∧
          satLits σ [Lit.ofVar s.numVars false, n.lit2.neg] = true ∧
          satLits σ [(Lit.ofVar s.numVars false).neg, n.lit1, n.lit2] = true) ↔
        OrGate.holds σ (OrGate.new [n.lit1, n.lit2] (Lit.ofVar s.numVars false) false)) ∧
      (n.lit1.var ≠ s.numVars → n.lit2.var ≠ s.numVars →
        ∀ σ : Nat → Bool, ∃! b : Bool,
          satLits (Function.update σ s.numVars b) [Lit.ofVar s.numVars false, n.lit1.neg]
            = true ∧
          satLits (Function.update σ s.numVars b) [Lit.ofVar s.numVars false, n.lit2.neg]
            = true ∧
          satLits (Function.update σ s.numVars b)
            [(Lit.ofVar s.numVars false).neg, n.lit1, n.lit2] = true) ∧
      s'.orGates =
        s.orGates ++ [OrGate.new [n.lit1, n.lit2] (Lit.ofVar s.numVars false) false] ∧
      s.orGates.length ∈ s'.gateOccEq (Lit.ofVar s.numVars false).toInt ∧
      s.orGates.length ∈ s'.gateOcc n.lit1.toInt ∧
      s.orGates.length ∈ s'.gateOcc n.lit2.toInt ∧
      s'.dontElim s.numVars = true := by
  obtain ⟨s, n, s', h1, h2, h3⟩ := createNewVars_positions ext st st2 added h i hi
  obtain ⟨cl, htr, _, hcl, hdef, hog, he, g1, g2, hde, _, _⟩ := materialise_spec ext s s' n h3
  refine ⟨s, s', n, h1, h2, h3, ⟨cl, newEvents_append s s' _ htr, hcl, hdef⟩, ?_, ?_, hog, he,
    g1, g2, ?_⟩
  · intro σ
    simp only [OrGate.holds, OrGate.new, satLits, List.any_cons, List.any_nil, Bool.or_false,
      Lit.eval_neg]
    generalize (Lit.ofVar s.numVars false).eval σ = w
    generalize n.lit1.eval σ = x
    generalize n.lit2.eval σ = y
    revert w x y
    decide
  · intro hfresh1 hfresh2 σ
    exact (materialise_extension ext s s' n hfresh1 hfresh2 h3).2.2.1 σ
  · rw [hde]; simp

/-- In the synthesis scenario the candidate `(1, 2)` at position 0 is materialised with the
fresh variable 8: the clauses `8 ∨ ¬1`, `8 ∨ ¬2` and `¬8 ∨ 1 ∨ 2` are submitted, the gate
`8 ⇔ (1 ∨ 2)` enters the store and `dontElim[8]` is set. -/
theorem createNewVars_definitional_extension_witness :
    ∃ (st2 s' : State) (cl : Clause),
      createNewVars samplingExt scenarioSynthesis = some (st2, 1) ∧
      newEvents (sampled samplingExt scenarioSynthesis).st s' =
        [Event.newVar 8, Event.addClauseIntDefault [pos 8, ng 1],
         Event.addClauseIntDefault [pos 8, ng 2],
         Event.addClauseInt [ng 8, pos 1, pos 2] false ⟨0, 0, 0⟩, Event.linkInClause cl] ∧
      s'.orGates = [OrGate.new [pos 1, pos 2] (pos 8) false] ∧
      s'.dontElim 8 = true ∧
      (∀ σ : Nat → Bool, ∃! b : Bool,
        satLits (Function.update σ 8 b) [pos 8, ng 1] = true ∧
        satLits (Function.update σ 8 b) [pos 8, ng 2] = true ∧
        satLits (Function.update σ 8 b) [ng 8, pos 1, pos 2] = true) := by
  have h1 : (createNewVars samplingExt scenarioSynthesis).isSome = true := by decide!
  have h2 : (createNewVars samplingExt scenarioSynthesis).map (fun r => r.2) = some 1 := by
    decide!
  obtain ⟨r, hr⟩ := Option.isSome_iff_exists.mp h1
  rw [hr] at h2
  simp only [Option.map_some', Option.some.injEq] at h2
  have hr2 : createNewVars samplingExt scenarioSynthesis = some (r.1, 1) := by rw [hr, ← h2]
  obtain ⟨s, s', n, hs, hn, _, ⟨cl, hev, _, _⟩, _, huniq, hog, _, _, _, hde⟩ :=
    createNewVars_definitional_extension samplingExt scenarioSynthesis r.1 1 0 hr2 (by decide)
  rw [stateAt_zero, Option.some.injEq] at hs
  subst hs
  have hrank : ranking samplingExt scenarioSynthesis = [⟨pos 1, pos 2, 0, 6⟩] := by decide!
  rw [hrank] at hn
  simp only [List.get?_cons_zero, Option.some.injEq] at hn
  subst hn
  have hnv : (sampled samplingExt scenarioSynthesis).st.numVars = 8 := by decide!
  have hg0 : (sampled samplingExt scenarioSynthesis).st.orGates = [] := by decide!
  rw [hnv] at hev huniq hog hde
  rw [hg0] at hog
  exact ⟨r.1, s', cl, hr2, hev, hog, hde, huniq (by decide) (by decide)⟩

/-! ### The bound on the number of samples -/

/-- Below `2 ^ 16` the 32-bit product does not wrap: the bound on `tries` is
`min(100000, ⌊size² / 2⌋)`. -/
theorem sampleCap_small (size : Nat) (h : size < 65536) :
    sampleCap size = min 100000 (size * size / 2) := by
  unfold sampleCap
  have : size * size < 4294967296 := by nlinarith
  rw [Nat.mod_eq_of_lt this]

/-- C29 at a failing input. With `u = 65537` unset variables `size` is `65536`, the 32-bit
product `size * size` wraps to 0, and the bound on `tries` that `createNewVars` computes is 0,
not `min(100000, ⌊65536² / 2⌋) = 100000`: the sampling loop makes no try at all. -/
theorem sampleCap_wraps :
    sampleSize wideExt emptyState = 65536 ∧
    sampleCap (sampleSize wideExt emptyState) = 0 ∧
    min 100000 (65536 * 65536 / 2) = 100000 ∧
    (∀ st : State, (sampled wideExt st).newGates = []) := by
  refine ⟨by decide, by decide, by decide, ?_⟩
  intro st
  have h1 : sampleSize wideExt { st with toDecrease := ⟨Counter.numMaxCreateNewVars, 0⟩ }
      = 65536 := by
    show (65537 % 4294967296 + 4294967295) % 4294967296 = 65536
    norm_num
  have h : sampleCap (sampleSize wideExt { st with toDecrease := ⟨Counter.numMaxCreateNewVars, 0⟩ })
      = 0 := by rw [h1]; decide
  unfold sampled
  simp only [h, sampleLoop]

/-! ### The budget pointer in `treatAndGate` -/

/-- C27 at a failing input. The arena holds `¬2 ∨ 4 ∨ 5` and `¬3 ∨ 4 ∨ 5`, so that for the
gate `1 ⇔ (2 ∨ 3)` both `occur[¬a]` and `occur[¬b]` have one entry and the scan should cost at
least 6. On return from `treatAndGate` the counter that `toDecrease` designated on entry has
been lowered by 3 only, and `toDecrease` designates another cell, three cells before it. -/
theorem treatAndGate_pointer_moved :
    (scenario4.occur gate123.lit0.neg.toInt).length = 1 ∧
    (scenario4.occur gate123.lit1.neg.toInt).length = 1 ∧
    (treatAndGate scenarioExt gate123 false scenario4 0 0).st.cells scenario4.toDecrease =
      scenario4.cells scenario4.toDecrease - 3 ∧
    (treatAndGate scenarioExt gate123 false scenario4 0 0).st.toDecrease =
      ⟨scenario4.toDecrease.base, scenario4.toDecrease.off - 3⟩ ∧
    (treatAndGate scenarioExt gate123 false scenario4 0 0).st.toDecrease ≠
      scenario4.toDecrease := by
  refine ⟨by decide!, by decide!, by decide!, by decide!, by decide!⟩

/-! ### The test on the second input in `treatAndGate` -/

/-- The test on the second input, on an arena with a clause that holds a literal and its
negation. The arena holds `C = ¬2 ∨ 3 ∨ 4` and `D = ¬3 ∨ 3 ∨ 4`. For the
gate `1 ⇔ (2 ∨ 3)` the clause `C` of `occur[¬a]` holds, besides `¬a`, the literal `3` on the
variable of `b`; `treatAndGate` counts it, submits `3 ∨ 4 ∨ ¬1` and unlinks `C` and `D`. The
test that should block `C` compares the variable of each literal with the complement of the
variable index of `b`. -/
theorem treatAndGate_second_input_not_blocked :
    scenarioSecondInput.occur gate123.lit0.neg.toInt = [0] ∧
    (scenarioSecondInput.clauseAt 0).lits = [ng 2, pos 3, pos 4] ∧
    (pos 3).var = gate123.lit1.var ∧
    complVar gate123.lit1.var = 4294967292 ∧
    (treatAndGate scenarioExt gate123 true scenarioSecondInput 0 0).foundPotential = 1 ∧
    (treatAndGate scenarioExt gate123 true scenarioSecondInput 0 0).st.trace =
      [Event.addClauseInt [pos 3, pos 4, ng 1] false ⟨0, 0, 0⟩,
        Event.linkInClause ⟨[pos 3, pos 4, ng 1], false, ⟨0, 0, 0⟩⟩,
        Event.unlinkClause 0, Event.unlinkClause 1] := by
  refine ⟨by decide!, by decide!, by decide!, by decide!, by decide!, by decide!⟩

/-- The function `calculateSortedOcc` charges `3·|occur[¬b]|` to the cell that `toDecrease`
designates and leaves the pointer alone. -/
theorem sortedOcc_budget (gate : OrGate) (st : State) (numOp : Nat) :
    (sortedOcc gate st numOp).st.toDecrease = st.toDecrease ∧
    (sortedOcc gate st numOp).st.cells =
      Function.update st.cells st.toDecrease
        (st.cells st.toDecrease - (((st.occur gate.lit1.neg.toInt).length * 3 : Nat) : Int)) := by
  unfold sortedOcc calculateSortedOcc
  simp only []
  obtain ⟨sso, s2, h⟩ := calculateSortedOccLoop_frame gate (st.occur gate.lit1.neg.toInt)
    ⟨State.charge { st with sizeSortedOcc := fun _ => [] }
      ((st.occur gate.lit1.neg.toInt).length * 3), 0, [], 0, numOp⟩
  rw [h]
  exact ⟨rfl, rfl⟩

theorem treatAndGateClause_budget (ext : Ext) (st : State) (d : Nat) (gate : OrGate)
    (cl : Clause) :
    (treatAndGateClause ext st d gate cl).1.toDecrease = st.toDecrease ∧
    ∀ p, p ≠ st.toDecrease → (treatAndGateClause ext st d gate cl).1.cells p = st.cells p := by
  unfold treatAndGateClause
  simp only [addClauseInt]
  cases hr : (ext.addClauseInt _ _ _ _).cl with
  | none =>
    simp only []
    split_ifs
    all_goals
      refine ⟨rfl, ?_⟩
      intro p hp
      simp [State.charge, Function.update_noteq hp]
  | some ncl =>
    simp only []
    split_ifs
    all_goals
      refine ⟨rfl, ?_⟩
      intro p hp
      simp [State.charge, linkInClause, Function.update_noteq hp]

/-- A step of the main loop of `treatAndGate` leaves the budget pointer alone and writes no
cell but the one it designates. -/
theorem treatAndGateBody_budget (ext : Ext) (gate : OrGate) (rr : Bool) (ab ms : Nat)
    (acc : AndGateAcc) (x : Nat) :
    (treatAndGateBody ext gate rr ab ms acc x).1.st.toDecrease = acc.st.toDecrease ∧
    ∀ p, p ≠ acc.st.toDecrease →
      (treatAndGateBody ext gate rr ab ms acc x).1.st.cells p = acc.st.cells p := by
  have hf : (findAndGateOtherCl (markSeen gate acc.st (acc.st.clauseAt x))
      ((markSeen gate acc.st (acc.st.clauseAt x)).sizeSortedOcc
        (acc.st.clauseAt x).lits.length) gate.lit1.neg
      (abst2Of gate (acc.st.clauseAt x))) =
      (searchState gate acc.st x, twinOf gate acc.st x) := rfl
  have hs : (searchState gate acc.st x).toDecrease = acc.st.toDecrease ∧
      ∀ p, p ≠ acc.st.toDecrease → (searchState gate acc.st x).cells p = acc.st.cells p := by
    refine ⟨rfl, ?_⟩
    intro p hp
    simp [searchState, markSeen, State.charge, Function.update_noteq hp]
  unfold treatAndGateBody
  simp only [hf]
  by_cases h1 : (!passesFilter ab ms acc.st x) = true
  · rw [if_pos h1]
    exact ⟨rfl, fun _ _ => rfl⟩
  · rw [if_neg h1]
    by_cases h2 : (!(acc.st.clauseAt x).learnt && gate.learnt) = true
    · rw [if_pos h2]
      exact ⟨rfl, fun _ _ => rfl⟩
    · rw [if_neg h2]
      by_cases h3 : (!litsOk gate acc.st (acc.st.clauseAt x)) = true
      · rw [if_pos h3]
        exact ⟨rfl, fun _ _ => rfl⟩
      · rw [if_neg h3]
        cases ht : twinOf gate acc.st x with
        | none => exact hs
        | some d =>
          simp only []
          cases rr with
          | false => exact hs
          | true =>
            obtain ⟨c1, c2⟩ := treatAndGateClause_budget ext (searchState gate acc.st x) d gate
              (acc.st.clauseAt x)
            have c1' := c1.trans hs.1
            have c2' : ∀ p, p ≠ acc.st.toDecrease →
                (treatAndGateClause ext (searchState gate acc.st x) d gate
                  (acc.st.clauseAt x)).1.cells p = acc.st.cells p := by
              intro p hp
              rw [c2 p (by rw [hs.1]; exact hp)]
              exact hs.2 p hp
            simp only [if_true]
            split_ifs
            · exact ⟨c1', c2'⟩
            · exact ⟨c1', c2'⟩

theorem treatAndGateLoop_budget (ext : Ext) (gate : OrGate) (rr : Bool) (ab ms : Nat)
    (cs : List Nat) :
    ∀ acc : AndGateAcc,
      (treatAndGateLoop ext gate rr ab ms cs acc).1.st.toDecrease = acc.st.toDecrease ∧
      ∀ p, p ≠ acc.st.toDecrease →
        (treatAndGateLoop ext gate rr ab ms cs acc).1.st.cells p = acc.st.cells p := by
  induction cs with
  | nil => intro acc; exact ⟨rfl, fun _ _ => rfl⟩
  | cons x rest ih =>
    intro acc
    obtain ⟨b1, b2⟩ := treatAndGateBody_budget ext gate rr ab ms acc x
    simp only [treatAndGateLoop]
    split_ifs
    · obtain ⟨i1, i2⟩ := ih (treatAndGateBody ext gate rr ab ms acc x).1
      refine ⟨i1.trans b1, ?_⟩
      intro p hp
      rw [i2 p (by rw [b1]; exact hp)]
      exact b2 p hp
    · exact ⟨b1, b2⟩

theorem foldl_unlinkClause_budget (l : List Nat) :
    ∀ st : State, (l.foldl unlinkClause st).toDecrease = st.toDecrease ∧
      (l.foldl unlinkClause st).cells = st.cells := by
  induction l with
  | nil => intro st; exact ⟨rfl, rfl⟩
  | cons c rest ih =>
    intro st
    simp only [List.foldl_cons]
    exact ih (unlinkClause st c)

/-- What `treatAndGate` does to the budget when both occurrence lists are non-empty: the
pointer `toDecrease` is moved back by `3·|occur[¬a]|` cells, and the counter that it
designated on entry is lowered by `3·|occur[¬b]|`, no more. -/
theorem treatAndGate_budget (ext : Ext) (gate : OrGate) (rr : Bool) (st : State)
    (fp numOp : Nat) (ha : st.occur gate.lit0.neg.toInt ≠ [])
    (hb : st.occur gate.lit1.neg.toInt ≠ []) :
    (treatAndGate ext gate rr st fp numOp).st.toDecrease =
      ⟨st.toDecrease.base,
        st.toDecrease.off - (((st.occur gate.lit0.neg.toInt).length * 3 : Nat) : Int)⟩ ∧
    (treatAndGate ext gate rr st fp numOp).st.cells st.toDecrease =
      st.cells st.toDecrease - (((st.occur gate.lit1.neg.toInt).length * 3 : Nat) : Int) := by
  obtain ⟨so1, so2⟩ := sortedOcc_budget gate st numOp
  have hocc : (sortedOcc gate st numOp).st.occur gate.lit0.neg.toInt =
      st.occur gate.lit0.neg.toInt := sortedOcc_occur gate st numOp _
  have hstart1 : (loopStart gate st numOp).st.toDecrease =
      ⟨st.toDecrease.base,
        st.toDecrease.off - (((st.occur gate.lit0.neg.toInt).length * 3 : Nat) : Int)⟩ := by
    show BudgetPtr.mk (sortedOcc gate st numOp).st.toDecrease.base
      ((sortedOcc gate st numOp).st.toDecrease.off -
        ((((sortedOcc gate st numOp).st.occur gate.lit0.neg.toInt).length * 3 : Nat) : Int)) = _
    rw [so1, hocc]
  have hstart2 : (loopStart gate st numOp).st.cells = (sortedOcc gate st numOp).st.cells := rfl
  have hne : st.toDecrease ≠ (loopStart gate st numOp).st.toDecrease := by
    rw [hstart1]
    intro e
    have e2 := congrArg BudgetPtr.off e
    simp only at e2
    have hpos : 0 < (st.occur gate.lit0.neg.toInt).length := List.length_pos.mpr ha
    omega
  obtain ⟨l1, l2⟩ := treatAndGateLoop_budget ext gate rr (sortedOcc gate st numOp).abstraction
    (sortedOcc gate st numOp).maxSize ((sortedOcc gate st numOp).st.occur gate.lit0.neg.toInt)
    (loopStart gate st numOp)
  have hcell : (treatAndGateLoop ext gate rr (sortedOcc gate st numOp).abstraction
      (sortedOcc gate st numOp).maxSize ((sortedOcc gate st numOp).st.occur gate.lit0.neg.toInt)
      (loopStart gate st numOp)).1.st.cells st.toDecrease =
      st.cells st.toDecrease - (((st.occur gate.lit1.neg.toInt).length * 3 : Nat) : Int) := by
    rw [l2 _ hne, hstart2, so2, Function.update_same]
  have he : ¬ (((st.occur gate.lit0.neg.toInt).isEmpty ||
      (st.occur gate.lit1.neg.toInt).isEmpty) = true) := by
    simp [List.isEmpty_iff, ha, hb]
  unfold treatAndGate
  rw [if_neg he]
  simp only [runLoop]
  split_ifs
  · exact ⟨l1.trans hstart1, hcell⟩
  · obtain ⟨f1, f2⟩ := foldl_unlinkClause_budget
      (treatAndGateLoop ext gate rr (sortedOcc gate st numOp).abstraction
        (sortedOcc gate st numOp).maxSize
        ((sortedOcc gate st numOp).st.occur gate.lit0.neg.toInt)
        (loopStart gate st numOp)).1.clToUnlink
      { (treatAndGateLoop ext gate rr (sortedOcc gate st numOp).abstraction
          (sortedOcc gate st numOp).maxSize
          ((sortedOcc gate st numOp).st.occur gate.lit0.neg.toInt)
          (loopStart gate st numOp)).1.st with
        seen2 := (sortedOcc gate st numOp).seen2Set.foldl
          (fun s i => Function.update s i false)
          (treatAndGateLoop ext gate rr (sortedOcc gate st numOp).abstraction
            (sortedOcc gate st numOp).maxSize
            ((sortedOcc gate st numOp).st.occur gate.lit0.neg.toInt)
            (loopStart gate st numOp)).1.st.seen2 }
    exact ⟨f1.trans (l1.trans hstart1), (congrFun f2 _).trans hcell⟩

/-! ### The pre-filter of `findOrGates` -/

theorem State.shift_charge (s : State) (d : Int) (n : Nat) :
    (s.shift d).charge n = (s.charge n).shift d := by
  simp only [State.shift, State.withBudget, State.charge, State.budget, Function.update_same,
    Function.update_idem]
  congr 2
  ring_nf

theorem findOrGateLoop_shift (eq : Lit) (b : Bool) (d : Int) (ls : List Lit) :
    ∀ (s : State) (wl : Bool), findOrGateLoop eq b ls (s.shift d) wl =
      ((findOrGateLoop eq b ls s wl).1.shift d, (findOrGateLoop eq b ls s wl).2) := by
  induction ls with
  | nil => intro s wl; rfl
  | cons l rest ih =>
    intro s wl
    simp only [findOrGateLoop]
    by_cases h : l = eq.neg
    · rw [if_pos h, if_pos h]
      exact ih s wl
    · rw [if_neg h, if_neg h]
      have e1 : (s.shift d).implCache = s.implCache := rfl
      have e2 : (s.shift d).watches = s.watches := rfl
      simp only [e1, e2, State.shift_charge]
      split_ifs with h2
      · rfl
      · exact ih _ _

theorem findOrGate_shift (s : State) (d : Int) (eq : Lit) (c : Nat) (b wl : Bool) :
    findOrGate (s.shift d) eq c b wl = (findOrGate s eq c b wl).shift d := by
  unfold findOrGate
  have e1 : (s.shift d).clauseAt c = s.clauseAt c := rfl
  have e2 : ∀ X : State, (X.shift d).orGates = X.orGates := fun _ => rfl
  have e3 : ∀ X : State, (X.shift d).gateOccEq = X.gateOccEq := fun _ => rfl
  simp only [e1, findOrGateLoop_shift, e2, e3]
  split_ifs with h1 h2 h3
  · rfl
  · rfl
  · rw [State.shift_charge]; rfl
  · rw [State.shift_charge]; rfl

theorem tryAllOutputs_shift (c : Nat) (b wl : Bool) (d : Int) (ls : List Lit) :
    ∀ s : State, tryAllOutputs c b wl ls (s.shift d) = (tryAllOutputs c b wl ls s).shift d := by
  induction ls with
  | nil => intro s; rfl
  | cons l rest ih =>
    intro s
    simp only [tryAllOutputs]
    rw [findOrGate_shift]
    exact ih _

theorem countSizeZero_shift (s : State) (d : Int) (ls : List Lit) :
    ∀ n, countSizeZero (s.shift d) ls n = countSizeZero s ls n := by
  induction ls with
  | nil => intro n; rfl
  | cons l rest ih =>
    intro n
    simp only [countSizeZero]
    have e1 : (s.shift d).implCache = s.implCache := rfl
    have e2 : (s.shift d).watches = s.watches := rfl
    simp only [e1, e2, ih]

theorem unlimitedLoop_shift (b : Bool) (d : Int) (cls : List (Option Clause)) :
    ∀ (num : Nat) (s : State),
      unlimitedLoop b cls num (s.shift d) = (unlimitedLoop b cls num s).shift d := by
  induction cls with
  | nil => intro num s; rfl
  | cons ocl rest ih =>
    intro num s
    cases ocl with
    | none => exact ih _ _
    | some cl =>
      simp only [unlimitedLoop]
      have e1 : (s.shift d).maxGateSize = s.maxGateSize := rfl
      simp only [e1, countSizeZero_shift, tryAllOutputs_shift]
      split_ifs
      · exact ih _ _
      · exact ih _ _
      · exact ih _ _
      · exact ih _ _

/-- One call of `findOrGate` never raises the budget. -/
theorem findOrGate_budget_le (s : State) (eq : Lit) (c : Nat) (b wl : Bool) :
    (findOrGate s eq c b wl).toDecrease = s.toDecrease ∧
    (findOrGate s eq c b wl).budget ≤ s.budget := by
  obtain ⟨n, h⟩ := findOrGate_eq s eq c b wl
  rw [h]
  split_ifs
  · refine ⟨rfl, ?_⟩
    show (Function.update s.cells s.toDecrease (s.cells s.toDecrease - (n : Int))) s.toDecrease
      ≤ s.cells s.toDecrease
    rw [Function.update_same]
    omega
  · refine ⟨rfl, ?_⟩
    show (Function.update s.cells s.toDecrease (s.cells s.toDecrease - (n : Int))) s.toDecrease
      ≤ s.cells s.toDecrease
    rw [Function.update_same]
    omega

theorem tryAllOutputs_budget_le (c : Nat) (b wl : Bool) (ls : List Lit) (s : State) :
    (tryAllOutputs c b wl ls s).toDecrease = s.toDecrease ∧
    (tryAllOutputs c b wl ls s).budget ≤ s.budget := by
  refine tryAllOutputs_induct (fun s t => t.toDecrease = s.toDecrease ∧ t.budget ≤ s.budget)
    ?_ ?_ c b wl ?_ ls s
  · intro s; exact ⟨rfl, le_refl _⟩
  · rintro a b c ⟨h1, h2⟩ ⟨h3, h4⟩
    exact ⟨h3.trans h1, le_trans h4 h2⟩
  · intro s eq
    exact findOrGate_budget_le s eq c b wl

theorem unlimitedLoop_budget_le (b : Bool) (cls : List (Option Clause)) :
    ∀ (num : Nat) (s : State),
      (unlimitedLoop b cls num s).toDecrease = s.toDecrease ∧
      (unlimitedLoop b cls num s).budget ≤ s.budget := by
  induction cls with
  | nil => intro num s; exact ⟨rfl, le_refl _⟩
  | cons ocl rest ih =>
    intro num s
    cases ocl with
    | none => exact ih _ _
    | some cl =>
      simp only [unlimitedLoop]
      split_ifs
      · exact ih _ _
      · exact ih _ _
      · exact ih _ _
      · obtain ⟨h1, h2⟩ := ih (num + 1) (tryAllOutputs num b cl.learnt cl.lits s)
        obtain ⟨h3, h4⟩ := tryAllOutputs_budget_le num b cl.learnt cl.lits s
        exact ⟨h1.trans h3, le_trans h2 h4⟩

/-- When the budget is still not negative at the end of the unlimited pass, the pass of the
source is that pass. -/
theorem findOrGatesLoop_eq_unlimited (b : Bool) (cls : List (Option Clause)) :
    ∀ (num : Nat) (s : State), 0 ≤ (unlimitedLoop b cls num s).budget →
      findOrGatesLoop b cls num s = unlimitedLoop b cls num s := by
  induction cls with
  | nil => intro num s _; rfl
  | cons ocl rest ih =>
    intro num s h
    cases ocl with
    | none => exact ih _ _ h
    | some cl =>
      have hb : ¬ s.budget < 0 := by
        have := (unlimitedLoop_budget_le b (some cl :: rest) num s).2
        omega
      simp only [findOrGatesLoop, unlimitedLoop] at h ⊢
      rw [if_neg hb]
      split_ifs at h ⊢
      · exact ih _ _ h
      · exact ih _ _ h
      · exact ih _ _ h
      · exact ih _ _ h

/-- The unlimited pass only appends to the gate store. -/
theorem unlimitedLoop_grows (b : Bool) (cls : List (Option Clause)) :
    ∀ (num : Nat) (s : State), ∃ new, (unlimitedLoop b cls num s).orGates = s.orGates ++ new := by
  induction cls with
  | nil => intro num s; exact ⟨[], by simp [unlimitedLoop]⟩
  | cons ocl rest ih =>
    intro num s
    cases ocl with
    | none => exact ih _ _
    | some cl =>
      simp only [unlimitedLoop]
      split_ifs
      · exact ih _ _
      · exact ih _ _
      · exact ih _ _
      · obtain ⟨n2, h2⟩ := ih (num + 1) (tryAllOutputs num b cl.learnt cl.lits s)
        have h1 : ∃ n1, (tryAllOutputs num b cl.learnt cl.lits s).orGates = s.orGates ++ n1 := by
          refine tryAllOutputs_induct (fun s t => ∃ n1, t.orGates = s.orGates ++ n1)
            ?_ ?_ num b cl.learnt ?_ cl.lits s
          · intro s; exact ⟨[], by simp⟩
          · rintro a b c ⟨x, hx⟩ ⟨y, hy⟩
            exact ⟨x ++ y, by rw [hy, hx, List.append_assoc]⟩
          · intro s eq
            rcases findOrGate_grows s eq num b cl.learnt with h | h
            · exact ⟨[], by rw [h]; simp⟩
            · exact ⟨_, h⟩
        obtain ⟨n1, h1⟩ := h1
        exact ⟨n1 ++ n2, by rw [h2, h1, List.append_assoc]⟩

/-- What the pass of the source appends is a prefix of what the unlimited pass appends from the
same state. -/
theorem findOrGatesLoop_prefix (b : Bool) (cls : List (Option Clause)) :
    ∀ (num : Nat) (s : State), ∃ new rest,
      (findOrGatesLoop b cls num s).orGates = s.orGates ++ new ∧
      (unlimitedLoop b cls num s).orGates = s.orGates ++ (new ++ rest) := by
  induction cls with
  | nil => intro num s; exact ⟨[], [], by simp [findOrGatesLoop], by simp [unlimitedLoop]⟩
  | cons ocl rest ih =>
    intro num s
    cases ocl with
    | none => exact ih _ _
    | some cl =>
      by_cases hb : s.budget < 0
      · obtain ⟨new, h⟩ := unlimitedLoop_grows b (some cl :: rest) num s
        refine ⟨[], new, ?_, ?_⟩
        · simp only [findOrGatesLoop]
          rw [if_pos hb]
          simp
        · rw [h]; simp
      · simp only [findOrGatesLoop, unlimitedLoop]
        rw [if_neg hb]
        split_ifs
        · exact ih _ _
        · exact ih _ _
        · exact ih _ _
        · obtain ⟨n2, r2, h2, h3⟩ := ih (num + 1) (tryAllOutputs num b cl.learnt cl.lits s)
          have h1 : ∃ n1, (tryAllOutputs num b cl.learnt cl.lits s).orGates = s.orGates ++ n1 := by
            refine tryAllOutputs_induct (fun s t => ∃ n1, t.orGates = s.orGates ++ n1)
              ?_ ?_ num b cl.learnt ?_ cl.lits s
            · intro s; exact ⟨[], by simp⟩
            · rintro a b c ⟨x, hx⟩ ⟨y, hy⟩
              exact ⟨x ++ y, by rw [hy, hx, List.append_assoc]⟩
            · intro s eq
              rcases findOrGate_grows s eq num b cl.learnt with h | h
              · exact ⟨[], by rw [h]; simp⟩
              · exact ⟨_, h⟩
          obtain ⟨n1, h1⟩ := h1
          refine ⟨n1 ++ n2, r2, ?_, ?_⟩
          · rw [h2, h1, List.append_assoc]
          · rw [h3, h1]; simp

/-- Every gate that the pass appends is posted in the output index. -/
theorem findOrGatesLoop_new_posted (b : Bool) (cls : List (Option Clause)) (num : Nat)
    (s : State) :
    (∃ new, (findOrGatesLoop b cls num s).orGates = s.orGates ++ new) ∧
    (∀ k i, i ∈ s.gateOccEq k → i ∈ (findOrGatesLoop b cls num s).gateOccEq k) ∧
    (∀ i g, s.orGates.length ≤ i → (findOrGatesLoop b cls num s).orGates.get? i = some g →
      i ∈ (findOrGatesLoop b cls num s).gateOccEq g.eqLit.toInt) := by
  refine findOrGatesLoop_induct
    (fun s t => (∃ new, t.orGates = s.orGates ++ new) ∧
      (∀ k i, i ∈ s.gateOccEq k → i ∈ t.gateOccEq k) ∧
      (∀ i g, s.orGates.length ≤ i → t.orGates.get? i = some g →
        i ∈ t.gateOccEq g.eqLit.toInt)) ?_ ?_ b ?_ cls num s
  · intro s
    refine ⟨⟨[], by simp⟩, fun _ _ h => h, ?_⟩
    intro i g hi hg
    rw [List.get?_eq_getElem?] at hg
    have := (List.getElem?_eq_some_iff.mp hg).1
    omega
  · rintro a b c ⟨⟨x, hx⟩, m1, p1⟩ ⟨⟨y, hy⟩, m2, p2⟩
    refine ⟨⟨x ++ y, by rw [hy, hx, List.append_assoc]⟩, fun k i h => m2 k i (m1 k i h), ?_⟩
    intro i g hi hg
    by_cases hlt : i < b.orGates.length
    · rw [hy, List.get?_eq_getElem?, List.getElem?_append_left hlt] at hg
      exact m2 _ _ (p1 i g hi (by rw [List.get?_eq_getElem?]; exact hg))
    · exact p2 i g (by omega) hg
  · intro s eq c wl _
    obtain ⟨n, he⟩ := findOrGate_eq s eq c b wl
    rw [he]
    split_ifs with hc
    · refine ⟨⟨[candidateGate s eq c b wl], rfl⟩, ?_, ?_⟩
      · intro k i h
        simp only [State.post, State.charge]
        have heq : (candidateGate s eq c b wl).eqLit = eq := rfl
        rw [heq]
        by_cases hk : k = eq.toInt
        · rw [hk, Function.update_same]
          rw [hk] at h
          exact List.mem_append_left _ h
        · rw [Function.update_noteq hk]
          exact h
      · intro i g hi hg
        simp only [State.post, State.charge] at hg ⊢
        have heq : (candidateGate s eq c b wl).eqLit = eq := rfl
        rw [heq]
        have hlen : i < (s.orGates ++ [candidateGate s eq c b wl]).length := by
          rw [List.get?_eq_getElem?] at hg
          exact (List.getElem?_eq_some_iff.mp hg).1
        simp only [List.length_append, List.length_singleton] at hlen
        have hie : i = s.orGates.length := by omega
        subst hie
        rw [List.get?_eq_getElem?, List.getElem?_append_right (le_refl _)] at hg
        simp only [Nat.sub_self, List.getElem?_cons_zero, Option.some.injEq] at hg
        rw [← hg, heq, Function.update_same]
        simp
    · refine ⟨⟨[], by simp [State.charge]⟩, fun _ _ h => h, ?_⟩
      intro i g hi hg
      simp only [State.charge] at hg
      rw [List.get?_eq_getElem?] at hg
      have := (List.getElem?_eq_some_iff.mp hg).1
      omega

theorem State.withBudget_eq_shift (st : State) (B : Int) :
    st.withBudget B = st.shift (B - st.budget) := by
  rw [State.shift]
  congr 1
  omega

theorem unlimitedLoop_withBudget (b : Bool) (cls : List (Option Clause)) (num : Nat)
    (st : State) (B : Int) :
    unlimitedLoop b cls num (st.withBudget B) =
      (unlimitedLoop b cls num st).shift (B - st.budget) := by
  rw [State.withBudget_eq_shift, unlimitedLoop_shift]

/-- C22. Budget exhaustion yields a consistent partial result: whatever value `B` the budget
cell holds on entry, the gates that `findOrGates(learntGatesToo)` appends are a prefix of the
gates that the pass appends when the budget test never fires; every appended gate is posted in
the output index at its output literal; the pass changes neither the flag `ok` nor any bit of
`seen` and `seen2`. From some budget value on the pass is the unlimited pass. -/
theorem findOrGates_budget_prefix (st : State) (learntGatesToo : Bool) (B : Int) :
    (∃ new rest,
      (findOrGatesWith learntGatesToo (st.withBudget B)).orGates = st.orGates ++ new ∧
      (findOrGatesUnlimited learntGatesToo st).orGates = st.orGates ++ (new ++ rest)) ∧
    (∀ i g, st.orGates.length ≤ i →
      (findOrGatesWith learntGatesToo (st.withBudget B)).orGates.get? i = some g →
      i ∈ (findOrGatesWith learntGatesToo (st.withBudget B)).gateOccEq g.eqLit.toInt) ∧
    (findOrGatesWith learntGatesToo (st.withBudget B)).ok = st.ok ∧
    (findOrGatesWith learntGatesToo (st.withBudget B)).seen = st.seen ∧
    (findOrGatesWith learntGatesToo (st.withBudget B)).seen2 = st.seen2 ∧
    (∃ B0 : Int, ∀ B2 : Int, B0 ≤ B2 →
      (findOrGatesWith learntGatesToo (st.withBudget B2)).orGates =
        (findOrGatesUnlimited learntGatesToo st).orGates ∧
      (findOrGatesWith learntGatesToo (st.withBudget B2)).gateOccEq =
        (findOrGatesUnlimited learntGatesToo st).gateOccEq ∧
      (findOrGatesWith learntGatesToo (st.withBudget B2)).gateOcc =
        (findOrGatesUnlimited learntGatesToo st).gateOcc) := by
  have hcl : (st.withBudget B).clauses = st.clauses := rfl
  refine ⟨?_, ?_, ?_, ?_, ?_, ?_⟩
  · obtain ⟨new, rest, h1, h2⟩ :=
      findOrGatesLoop_prefix learntGatesToo st.clauses 0 (st.withBudget B)
    refine ⟨new, rest, h1, ?_⟩
    rw [unlimitedLoop_withBudget] at h2
    exact h2
  · exact (findOrGatesLoop_new_posted learntGatesToo st.clauses 0 (st.withBudget B)).2.2
  · obtain ⟨og, goe, go, fl, v, h⟩ :=
      findOrGatesLoop_frame learntGatesToo st.clauses 0 (st.withBudget B)
    show (findOrGatesLoop learntGatesToo st.clauses 0 (st.withBudget B)).ok = st.ok
    rw [h]; rfl
  · obtain ⟨og, goe, go, fl, v, h⟩ :=
      findOrGatesLoop_frame learntGatesToo st.clauses 0 (st.withBudget B)
    show (findOrGatesLoop learntGatesToo st.clauses 0 (st.withBudget B)).seen = st.seen
    rw [h]; rfl
  · obtain ⟨og, goe, go, fl, v, h⟩ :=
      findOrGatesLoop_frame learntGatesToo st.clauses 0 (st.withBudget B)
    show (findOrGatesLoop learntGatesToo st.clauses 0 (st.withBudget B)).seen2 = st.seen2
    rw [h]; rfl
  · refine ⟨st.budget - (unlimitedLoop learntGatesToo st.clauses 0 st).budget, ?_⟩
    intro B2 hB
    have hu := unlimitedLoop_withBudget learntGatesToo st.clauses 0 st B2
    have hbud : 0 ≤ (unlimitedLoop learntGatesToo st.clauses 0 (st.withBudget B2)).budget := by
      rw [hu]
      show 0 ≤ (Function.update (unlimitedLoop learntGatesToo st.clauses 0 st).cells
        (unlimitedLoop learntGatesToo st.clauses 0 st).toDecrease
        ((unlimitedLoop learntGatesToo st.clauses 0 st).budget + (B2 - st.budget)))
        (unlimitedLoop learntGatesToo st.clauses 0 st).toDecrease
      rw [Function.update_same]
      omega
    have he := findOrGatesLoop_eq_unlimited learntGatesToo st.clauses 0 (st.withBudget B2) hbud
    have he2 : findOrGatesWith learntGatesToo (st.withBudget B2) =
        (unlimitedLoop learntGatesToo st.clauses 0 st).shift (B2 - st.budget) := by
      show findOrGatesLoop learntGatesToo st.clauses 0 (st.withBudget B2) = _
      rw [he, hu]
    rw [he2]
    exact ⟨rfl, rfl, rfl⟩

/-! ### A clause and its twin -/

/-- C28. A clause is never its own twin, the occurrence lists being those of the arena: take a
gate with the inputs `a ≠ b`, a state in which `seen` is all false and every index listed in
`occur[ℓ]` is a clause of the arena that contains `ℓ`, and a clause index `c` of `occur[¬a]`
that the main loop of `treatAndGate` reaches. Every twin `d` that
`findAndGateOtherCl` finds for `c` is different from `c`; and when the step contracts the pair,
both `c` and `d` are put into `clToUnlink`. -/
theorem treatAndGate_twin_distinct (ext : Ext) (gate : OrGate) (a b : Lit) (rr : Bool)
    (st : State) (numOp : Nat) (pre post : List Nat) (c : Nat)
    (hg : gate.lits = [a, b]) (hab : a ≠ b)
    (hseen : ∀ n, st.seen n = false)
    (hoccur : st.occurWf)
    (hcs : st.occur a.neg.toInt = pre ++ c :: post)
    (hpre : (runLoop ext gate rr st numOp pre).2 = true) :
    ∀ d, twinOf gate (runLoop ext gate rr st numOp pre).1.st c = some d →
      d ≠ c ∧
      (rr = true →
        (stepAt ext gate rr st numOp pre c).1.foundPotential =
          (runLoop ext gate rr st numOp pre).1.foundPotential + 1 →
        c ∈ (stepAt ext gate rr st numOp pre c).1.clToUnlink ∧
        d ∈ (stepAt ext gate rr st numOp pre c).1.clToUnlink) := by
  intro d htwin
  have h0 : gate.lit0 = a := by simp [OrGate.lit0, hg]
  have h1 : gate.lit1 = b := by simp [OrGate.lit1, hg]
  obtain ⟨hinvSeen, ⟨extra, hinvCl⟩, _⟩ := runLoop_inv ext gate rr st numOp pre hseen hpre
  obtain ⟨clC, hgetC, haC⟩ := hoccur a.neg c (by rw [hcs]; simp)
  have hCacc : (runLoop ext gate rr st numOp pre).1.st.clauseAt c = clC :=
    clauseAt_append hgetC hinvCl
  obtain ⟨_, _, _, hall⟩ := findAndGateOtherClLoop_some _ _ _ _ d htwin
  refine ⟨?_, ?_⟩
  · intro hdc
    subst hdc
    have hall2 : allSeenBut (searchState gate (runLoop ext gate rr st numOp pre).1.st d).seen
        gate.lit1.neg clC.lits = true := by
      have : (searchState gate (runLoop ext gate rr st numOp pre).1.st d).clauseAt d =
          (runLoop ext gate rr st numOp pre).1.st.clauseAt d := rfl
      rw [this, hCacc] at hall
      exact hall
    simp only [allSeenBut, List.all_eq_true, Bool.or_eq_true, beq_iff_eq] at hall2
    rcases hall2 a.neg haC with h | h
    · rw [h1] at h
      exact hab (Lit.neg_inj h)
    · have := (searchState_seen gate _ d hinvSeen a.neg).mp h
      rw [mem_residual, h0] at this
      exact this.2 rfl
  · intro hrr hfound
    subst hrr
    obtain ⟨d2, htwin2, _, _, _, _, hcl, _⟩ := treatAndGateBody_found ext gate
      (sortedOcc gate st numOp).abstraction (sortedOcc gate st numOp).maxSize
      (runLoop ext gate true st numOp pre).1 c hfound
    rw [htwin] at htwin2
    have hd : d2 = d := (Option.some.inj htwin2).symm
    subst hd
    have hcl2 : (stepAt ext gate true st numOp pre c).1.clToUnlink =
        setInsert c (setInsert d2 (runLoop ext gate true st numOp pre).1.clToUnlink) := hcl
    rw [hcl2]
    exact ⟨mem_setInsert.mpr (Or.inl rfl),
      mem_setInsert.mpr (Or.inr (mem_setInsert.mpr (Or.inl rfl)))⟩

theorem treatAndGate_twin_distinct_witness :
    twinOf gate123 (runLoop scenarioExt gate123 true scenario4 0 []).1.st 0 = some 1 ∧
    (1 ≠ 0 ∧
      (true = true →
        (stepAt scenarioExt gate123 true scenario4 0 [] 0).1.foundPotential =
          (runLoop scenarioExt gate123 true scenario4 0 []).1.foundPotential + 1 →
        0 ∈ (stepAt scenarioExt gate123 true scenario4 0 [] 0).1.clToUnlink ∧
        1 ∈ (stepAt scenarioExt gate123 true scenario4 0 [] 0).1.clToUnlink)) :=
  ⟨by decide,
    treatAndGate_twin_distinct scenarioExt gate123 (pos 2) (pos 3) true scenario4 0 [] [] 0
      rfl (by decide) (stateOf_seen _) (stateOf_occurWf _) (by decide) rfl 1 (by decide)⟩

/-! ### The filters of AND-gate contraction -/

theorem lor_sub_lor {x y A : Nat} (hx : x ||| A = A) (hy : y ||| A = A) :
    (x ||| y) ||| A = A := by
  rw [Nat.lor_assoc, hy, hx]

theorem lor_sub_grow {x A : Nat} (z : Nat) (hx : x ||| A = A) : x ||| (A ||| z) = A ||| z := by
  rw [← Nat.lor_assoc, hx]

theorem lor_sub_right (A z : Nat) : z ||| (A ||| z) = A ||| z := by
  rw [Nat.lor_comm z, Nat.lor_assoc, Nat.or_self]

theorem lor_sub_antisymm {A B : Nat} (h1 : A ||| B = B) (h2 : B ||| A = A) : A = B := by
  rw [← h2, Nat.lor_comm, h1]

theorem foldl_abst_sub (A : Nat) (ls : List Lit) :
    ∀ acc : Nat, acc ||| A = A → (∀ l ∈ ls, abstBit l.var ||| A = A) →
      (ls.foldl (fun a l => a ||| abstBit l.var) acc) ||| A = A := by
  induction ls with
  | nil => intro acc h _; exact h
  | cons l rest ih =>
    intro acc h hl
    simp only [List.foldl_cons]
    exact ih _ (lor_sub_lor h (hl l (List.mem_cons_self _ _)))
      (fun x hx => hl x (List.mem_cons_of_mem _ hx))

theorem foldl_abst_mono (x : Nat) (ls : List Lit) :
    ∀ acc : Nat, x ||| acc = acc →
      x ||| (ls.foldl (fun a l => a ||| abstBit l.var) acc) =
        ls.foldl (fun a l => a ||| abstBit l.var) acc := by
  induction ls with
  | nil => intro acc h; exact h
  | cons l rest ih =>
    intro acc h
    simp only [List.foldl_cons]
    exact ih _ (lor_sub_grow _ h)

theorem foldl_abst_mem (ls : List Lit) :
    ∀ (acc : Nat) (l : Lit), l ∈ ls →
      abstBit l.var ||| (ls.foldl (fun a l => a ||| abstBit l.var) acc) =
        ls.foldl (fun a l => a ||| abstBit l.var) acc := by
  induction ls with
  | nil => intro acc l h; simp at h
  | cons x rest ih =>
    intro acc l h
    simp only [List.foldl_cons]
    rcases List.mem_cons.mp h with h1 | h1
    · subst h1
      exact foldl_abst_mono _ rest _ (lor_sub_right _ _)
    · exact ih _ l h1

/-- The abstraction of a clause lies within `A` when the bit of each of its literals does. -/
theorem calcAbstraction_sub (A : Nat) (ls : List Lit)
    (h : ∀ l ∈ ls, abstBit l.var ||| A = A) : calcAbstraction ls ||| A = A :=
  foldl_abst_sub A ls 0 (by simp) h

theorem calcAbstraction_mem (ls : List Lit) (l : Lit) (h : l ∈ ls) :
    abstBit l.var ||| calcAbstraction ls = calcAbstraction ls :=
  foldl_abst_mem ls 0 l h

/-- What `markSeen2` does for the literals of one clause: the bits of `seen2` that were set stay
set and the bit of every literal is set; the abstraction keeps what it held and holds the bit
of every literal. -/
theorem markSeen2_marks (ls : List Lit) :
    ∀ (s : Nat → Bool) (set : List Nat) (ab : Nat),
      (∀ n, s n = true → (markSeen2 ls (s, set, ab)).1 n = true) ∧
      (∀ l ∈ ls, (markSeen2 ls (s, set, ab)).1 l.toInt = true) ∧
      (∀ x, x ||| ab = ab →
        x ||| (markSeen2 ls (s, set, ab)).2.2 = (markSeen2 ls (s, set, ab)).2.2) ∧
      (∀ l ∈ ls, abstBit l.var ||| (markSeen2 ls (s, set, ab)).2.2 =
        (markSeen2 ls (s, set, ab)).2.2) := by
  induction ls with
  | nil =>
    intro s set ab
    exact ⟨fun _ h => h, fun _ h => by simp at h, fun _ h => h, fun _ h => by simp at h⟩
  | cons l rest ih =>
    intro s set ab
    simp only [markSeen2]
    by_cases hs : (!s l.toInt) = true
    · rw [if_pos hs]
      obtain ⟨m1, m2, m3, m4⟩ := ih (Function.update s l.toInt true) (set ++ [l.toInt])
        (ab ||| abstBit l.var)
      refine ⟨?_, ?_, ?_, ?_⟩
      · intro n hn
        apply m1
        by_cases e : n = l.toInt
        · subst e; simp
        · rw [Function.update_noteq e]; exact hn
      · intro x hx
        rcases List.mem_cons.mp hx with h1 | h1
        · subst h1
          apply m1
          simp
        · exact m2 x h1
      · intro x hx
        exact m3 x (lor_sub_grow _ hx)
      · intro x hx
        rcases List.mem_cons.mp hx with h1 | h1
        · subst h1
          exact m3 _ (lor_sub_right _ _)
        · exact m4 x h1
    · rw [if_neg hs]
      obtain ⟨m1, m2, m3, m4⟩ := ih s set (ab ||| abstBit l.var)
      simp only [Bool.not_eq_true, Bool.not_eq_false_eq_eq_true] at hs
      refine ⟨m1, ?_, ?_, ?_⟩
      · intro x hx
        rcases List.mem_cons.mp hx with h1 | h1
        · subst h1
          exact m1 _ hs
        · exact m2 x h1
      · intro x hx
        exact m3 x (lor_sub_grow _ hx)
      · intro x hx
        rcases List.mem_cons.mp hx with h1 | h1
        · subst h1
          exact m3 _ (lor_sub_right _ _)
        · exact m4 x h1

theorem calculateSortedOccLoop_cons (gate : OrGate) (c : Nat) (rest : List Nat)
    (acc : SortedOcc) :
    calculateSortedOccLoop gate (c :: rest) acc =
      if ((acc.st.clauseData c).defOfOrGate || (!(acc.st.clauseAt c).learnt && gate.learnt))
          = true
      then calculateSortedOccLoop gate rest acc
      else calculateSortedOccLoop gate rest (sortedOccStep acc c) := rfl

theorem sortedOccStep_mono (acc : SortedOcc) (c d : Nat) (cl : Clause)
    (h : Recorded acc d cl) : Recorded (sortedOccStep acc c) d cl := by
  obtain ⟨h1, h2, h3, h4⟩ := h
  obtain ⟨m1, _, m3, _⟩ := markSeen2_marks (acc.st.clauseAt c).lits acc.st.seen2 acc.seen2Set
    acc.abstraction
  refine ⟨?_, ?_, ?_, ?_⟩
  · show d ∈ Function.update acc.st.sizeSortedOcc (acc.st.clauseAt c).lits.length
      (acc.st.sizeSortedOcc (acc.st.clauseAt c).lits.length ++ [c]) cl.lits.length
    by_cases hk : cl.lits.length = (acc.st.clauseAt c).lits.length
    · rw [hk, Function.update_same]
      rw [hk] at h1
      exact List.mem_append_left _ h1
    · rw [Function.update_noteq hk]
      exact h1
  · show cl.lits.length ≤ max acc.maxSize (acc.st.clauseAt c).lits.length
    exact le_trans h2 (le_max_left _ _)
  · intro l hl
    exact m1 _ (h3 l hl)
  · intro l hl
    exact m3 _ (h4 l hl)

theorem sortedOccStep_self (acc : SortedOcc) (c : Nat) :
    Recorded (sortedOccStep acc c) c (acc.st.clauseAt c) := by
  obtain ⟨_, m2, _, m4⟩ := markSeen2_marks (acc.st.clauseAt c).lits acc.st.seen2 acc.seen2Set
    acc.abstraction
  refine ⟨?_, ?_, m2, m4⟩
  · show c ∈ Function.update acc.st.sizeSortedOcc (acc.st.clauseAt c).lits.length
      (acc.st.sizeSortedOcc (acc.st.clauseAt c).lits.length ++ [c])
      (acc.st.clauseAt c).lits.length
    rw [Function.update_same]
    simp
  · show (acc.st.clauseAt c).lits.length ≤ max acc.maxSize (acc.st.clauseAt c).lits.length
    exact le_max_right _ _

theorem calculateSortedOccLoop_mono (gate : OrGate) (d : Nat) (cl : Clause) (cs : List Nat) :
    ∀ acc : SortedOcc, Recorded acc d cl → Recorded (calculateSortedOccLoop gate cs acc) d cl := by
  induction cs with
  | nil => intro acc h; exact h
  | cons c rest ih =>
    intro acc h
    rw [calculateSortedOccLoop_cons]
    split_ifs
    · exact ih acc h
    · exact ih _ (sortedOccStep_mono acc c d cl h)

/-- Every clause of the list that the skip test of `calculateSortedOcc` lets through is taken
up. -/
theorem calculateSortedOccLoop_records (gate : OrGate) (d : Nat) (cl : Clause)
    (hl : cl.learnt = true ∨ gate.learnt = false) (cs : List Nat) :
    ∀ acc : SortedOcc, d ∈ cs → acc.st.clauseAt d = cl →
      (acc.st.clauseData d).defOfOrGate = false →
      Recorded (calculateSortedOccLoop gate cs acc) d cl := by
  induction cs with
  | nil => intro acc h; simp at h
  | cons c rest ih =>
    intro acc hd hcl hdef
    rw [calculateSortedOccLoop_cons]
    by_cases hskip : ((acc.st.clauseData c).defOfOrGate ||
        (!(acc.st.clauseAt c).learnt && gate.learnt)) = true
    · rw [if_pos hskip]
      rcases List.mem_cons.mp hd with h1 | h1
      · subst h1
        rw [hdef, hcl] at hskip
        rcases hl with h | h <;> simp [h] at hskip
      · exact ih acc h1 hcl hdef
    · rw [if_neg hskip]
      rcases List.mem_cons.mp hd with h1 | h1
      · subst h1
        have := sortedOccStep_self acc d
        rw [hcl] at this
        exact calculateSortedOccLoop_mono gate d cl rest _ this
      · exact ih _ h1 hcl hdef

/-- After `calculateSortedOcc`, every clause of `occur[~lits[1]]` that is not skipped is taken
up, and the abstraction holds the bit of the variable of `lits[0]`. -/
theorem sortedOcc_records (gate : OrGate) (st : State) (numOp : Nat) (d : Nat)
    (hd : d ∈ st.occur gate.lit1.neg.toInt) (hn : notSkipped gate st d) :
    Recorded (sortedOcc gate st numOp) d (st.clauseAt d) ∧
    abstBit gate.lit0.var ||| (sortedOcc gate st numOp).abstraction =
      (sortedOcc gate st numOp).abstraction := by
  have h := calculateSortedOccLoop_records gate d (st.clauseAt d) hn.2
    (st.occur gate.lit1.neg.toInt)
    ⟨State.charge { st with sizeSortedOcc := fun _ => [] }
      ((st.occur gate.lit1.neg.toInt).length * 3), 0, [], 0, numOp⟩ hd rfl hn.1
  obtain ⟨h1, h2, h3, h4⟩ := h
  refine ⟨⟨h1, h2, h3, ?_⟩, ?_⟩
  · intro l hl
    exact lor_sub_grow _ (h4 l hl)
  · exact lor_sub_right _ _

theorem treatAndGateClause_clauseData (ext : Ext) (s : State) (d : Nat) (gate : OrGate)
    (cl : Clause) (i : Nat) (hi : i < s.clauses.length) :
    (treatAndGateClause ext s d gate cl).1.clauseData i = s.clauseData i := by
  unfold treatAndGateClause
  simp only [addClauseInt]
  cases hr : (ext.addClauseInt _ _ _ _).cl with
  | none =>
    simp only []
    split_ifs <;> rfl
  | some ncl =>
    have hne : i ≠ s.clauses.length := by omega
    simp only []
    split_ifs <;>
      simp only [linkInClause, State.charge] <;>
      rw [Function.update_noteq hne]

/-- While the main loop of `treatAndGate` has not returned false, the entries of `clauseData`
for the slots that the arena had on entry are what they were. -/
theorem treatAndGateLoop_clauseData (ext : Ext) (gate : OrGate) (rr : Bool) (ab ms : Nat)
    (st : State) (cs : List Nat) :
    ∀ acc : AndGateAcc, (∃ extra, acc.st.clauses = st.clauses ++ extra) →
      (∀ i, i < st.clauses.length → acc.st.clauseData i = st.clauseData i) →
      (treatAndGateLoop ext gate rr ab ms cs acc).2 = true →
      ∀ i, i < st.clauses.length →
        (treatAndGateLoop ext gate rr ab ms cs acc).1.st.clauseData i = st.clauseData i := by
  induction cs with
  | nil => intro acc _ h _; exact h
  | cons c rest ih =>
    intro acc hcl hdata hflag
    simp only [treatAndGateLoop] at hflag ⊢
    by_cases hb : (treatAndGateBody ext gate rr ab ms acc c).2 = true
    · simp only [hb, if_true] at hflag ⊢
      obtain ⟨extra, hcl⟩ := hcl
      refine ih _ ?_ ?_ hflag
      · rcases treatAndGateBody_state ext gate rr ab ms acc c hb with h | h | ⟨d, h⟩
        · rw [h]; exact ⟨extra, hcl⟩
        · rw [h]; exact ⟨extra, hcl⟩
        · obtain ⟨_, _, _, _, _, ⟨extra2, hc2⟩⟩ := treatAndGateClause_spec ext
            (searchState gate acc.st c) d gate (acc.st.clauseAt c)
          rw [h]
          refine ⟨extra ++ extra2, ?_⟩
          show (treatAndGateClause ext (searchState gate acc.st c) d gate
            (acc.st.clauseAt c)).1.clauses = _
          rw [hc2]
          show acc.st.clauses ++ extra2 = _
          rw [hcl, List.append_assoc]
      · intro i hi
        rcases treatAndGateBody_state ext gate rr ab ms acc c hb with h | h | ⟨d, h⟩
        · rw [h]; exact hdata i hi
        · rw [h]; exact hdata i hi
        · rw [h]
          show (treatAndGateClause ext (searchState gate acc.st c) d gate
            (acc.st.clauseAt c)).1.clauseData i = _
          rw [treatAndGateClause_clauseData]
          · exact hdata i hi
          · show i < acc.st.clauses.length
            rw [hcl, List.length_append]
            omega
    · simp [hb] at hflag

theorem runLoop_clauseData (ext : Ext) (gate : OrGate) (rr : Bool) (st : State) (numOp : Nat)
    (pre : List Nat) (hpre : (runLoop ext gate rr st numOp pre).2 = true) (i : Nat)
    (hi : i < st.clauses.length) :
    (runLoop ext gate rr st numOp pre).1.st.clauseData i = st.clauseData i := by
  obtain ⟨sso, s2, cells, h⟩ := sortedOcc_frame gate st numOp
  refine treatAndGateLoop_clauseData ext gate rr _ _ st pre _ ⟨[], ?_⟩ ?_ hpre i hi
  · show (sortedOcc gate st numOp).st.clauses = _
    rw [h]; simp
  · intro j _
    show (sortedOcc gate st numOp).st.clauseData j = _
    rw [h]

theorem runLoop_seen2 (ext : Ext) (gate : OrGate) (rr : Bool) (st : State) (numOp : Nat)
    (pre : List Nat) (hpre : (runLoop ext gate rr st numOp pre).2 = true) :
    (runLoop ext gate rr st numOp pre).1.st.seen2 = (sortedOcc gate st numOp).st.seen2 :=
  treatAndGateLoop_seen2 ext gate rr _ _ pre _ hpre

/-- The loop of `findAndGateOtherCl` answers when the bucket holds a clause that passes its
tests. -/
theorem findAndGateOtherClLoop_finds (st : State) (lit : Lit) (abst2 : Nat) (bucket : List Nat)
    (d : Nat) (hd : d ∈ bucket) (hdef : (st.clauseData d).defOfOrGate = false)
    (habst : (st.clauseData d).abst = abst2)
    (hall : allSeenBut st.seen lit (st.clauseAt d).lits = true) :
    (findAndGateOtherClLoop st lit abst2 bucket).isSome = true := by
  induction bucket with
  | nil => simp at hd
  | cons c rest ih =>
    simp only [findAndGateOtherClLoop]
    by_cases h1 : ((st.clauseData c).defOfOrGate || (st.clauseData c).abst != abst2) = true
    · rw [if_pos h1]
      rcases List.mem_cons.mp hd with h | h
      · subst h
        rw [hdef, habst] at h1
        simp at h1
      · exact ih h
    · rw [if_neg h1]
      by_cases h2 : allSeenBut st.seen lit (st.clauseAt c).lits = true
      · rw [if_pos h2]; rfl
      · rw [if_neg h2]
        rcases List.mem_cons.mp hd with h | h
        · subst h
          exact absurd hall h2
        · exact ih h

/-- A step of the main loop of `treatAndGate` counts the clause exactly when it finds a twin
for it. -/
theorem treatAndGateBody_counts (ext : Ext) (gate : OrGate) (rr : Bool) (ab ms : Nat)
    (acc : AndGateAcc) (c : Nat) :
    (treatAndGateBody ext gate rr ab ms acc c).1.foundPotential =
      acc.foundPotential + (if findsTwin gate ab ms acc.st c then 1 else 0) := by
  have hf : (findAndGateOtherCl (markSeen gate acc.st (acc.st.clauseAt c))
      ((markSeen gate acc.st (acc.st.clauseAt c)).sizeSortedOcc
        (acc.st.clauseAt c).lits.length) gate.lit1.neg
      (abst2Of gate (acc.st.clauseAt c))) =
      (searchState gate acc.st c, twinOf gate acc.st c) := rfl
  unfold treatAndGateBody findsTwin
  simp only [hf]
  by_cases h1 : passesFilter ab ms acc.st c = true
  · simp only [h1, Bool.not_true, Bool.false_eq_true, if_false, Bool.true_and]
    by_cases h2 : (!(acc.st.clauseAt c).learnt && gate.learnt) = true
    · simp only [h2, if_true, Bool.not_true, Bool.false_and, Bool.false_eq_true, if_false]
      simp
    · simp only [h2, if_false, Bool.not_false, Bool.true_and]
      by_cases h3 : litsOk gate acc.st (acc.st.clauseAt c) = true
      · simp only [h3, Bool.not_true, Bool.false_eq_true, if_false, Bool.true_and]
        cases ht : twinOf gate acc.st c with
        | none => simp
        | some d =>
          cases rr
          · simp
          · simp only [if_true, Option.isSome_some]
            split_ifs <;> simp
      · simp only [h3, Bool.not_false, if_true, Bool.false_and, Bool.false_eq_true, if_false]
        simp
  · simp only [h1, Bool.not_false, if_true, Bool.false_and, Bool.false_eq_true, if_false]
    simp

/-- Two duplicate-free clauses that agree once `x` is left out of the first and `y` out of the
second, and that hold `x` and `y`, have the same number of literals. -/
theorem twin_length_eq (C D : List Lit) (x y : Lit) (hC : C.Nodup) (hD : D.Nodup)
    (hxC : x ∈ C) (hyD : y ∈ D)
    (hset : ∀ l, (l ∈ D ∧ l ≠ y) ↔ (l ∈ C ∧ l ≠ x)) : D.length = C.length := by
  have hperm : (D.erase y).Perm (C.erase x) := by
    refine (List.perm_ext_iff_of_nodup (hD.erase y) (hC.erase x)).mpr ?_
    intro l
    rw [List.Nodup.mem_erase_iff hD, List.Nodup.mem_erase_iff hC]
    constructor
    · intro h
      have := (hset l).mp ⟨h.2, h.1⟩
      exact ⟨this.2, this.1⟩
    · intro h
      have := (hset l).mpr ⟨h.2, h.1⟩
      exact ⟨this.2, this.1⟩
  have hlen := hperm.length_eq
  rw [List.length_erase_of_mem hxC, List.length_erase_of_mem hyD] at hlen
  have h1 := List.length_pos_of_mem hxC
  have h2 := List.length_pos_of_mem hyD
  omega

/-- The abstraction of the twin is the abstraction `abst2` that `treatAndGate` computes. -/
theorem twin_abst_eq (C D : List Lit) (x y : Lit) (hyD : y ∈ D)
    (hset : ∀ l, (l ∈ D ∧ l ≠ y) ↔ (l ∈ C ∧ l ≠ x)) :
    calcAbstraction D =
      calcAbstraction (C.filter (fun l => !(l == x))) ||| abstBit y.var := by
  apply lor_sub_antisymm
  · apply calcAbstraction_sub
    intro l hl
    by_cases hly : l = y
    · subst hly
      exact lor_sub_right _ _
    · have h := (hset l).mp ⟨hl, hly⟩
      have hm : l ∈ C.filter (fun l => !(l == x)) := by
        simp only [List.mem_filter, Bool.not_eq_true', beq_eq_false_iff_ne, ne_eq]
        exact h
      exact lor_sub_grow _ (calcAbstraction_mem _ l hm)
  · apply lor_sub_lor
    · apply calcAbstraction_sub
      intro l hl
      simp only [List.mem_filter, Bool.not_eq_true', beq_eq_false_iff_ne, ne_eq] at hl
      exact calcAbstraction_mem D l ((hset l).mpr hl).1
    · exact calcAbstraction_mem D y hyD

/-- C26. The filters of AND-gate contraction lose no twin of a clause that the main loop
reaches, the occurrence lists being those of the arena: take a gate with the inputs
`[a, b]` and the output `w`, variables below `2^31` as the 32-bit literals have them, a clause
`C` of `occur[¬a]` and a clause `D` of `occur[¬b]`, both not skipped (not the definition of a
gate, learnt if the gate is), with pairwise distinct literals, `C` without a literal on the
variable of `w`, the stored abstractions and the stored size being those of the clauses, and
`D` without `¬b` having the literals of `C` without `¬a`. If the main loop of `treatAndGate`
reaches `C`, the step for `C` passes every test and `findAndGateOtherCl` answers true: the
clause is counted in `foundPotential`. -/
theorem treatAndGate_finds_twin (ext : Ext) (gate : OrGate) (a b : Lit) (rr : Bool)
    (st : State) (numOp : Nat) (pre post : List Nat) (c d : Nat)
    (hg : gate.lits = [a, b])
    (hoccur : st.occurWf)
    (hcs : st.occur a.neg.toInt = pre ++ c :: post)
    (hd : d ∈ st.occur b.neg.toInt)
    (heC : notSkipped gate st c) (heD : notSkipped gate st d)
    (hwC : ∀ l ∈ (st.clauseAt c).lits, l.var ≠ gate.eqLit.var)
    (hndC : (st.clauseAt c).lits.Nodup) (hndD : (st.clauseAt d).lits.Nodup)
    (hset : ∀ l, (l ∈ (st.clauseAt d).lits ∧ l ≠ b.neg) ↔ (l ∈ (st.clauseAt c).lits ∧ l ≠ a.neg))
    (habstC : (st.clauseData c).abst = calcAbstraction (st.clauseAt c).lits)
    (hsizeC : (st.clauseData c).size = (st.clauseAt c).lits.length)
    (habstD : (st.clauseData d).abst = calcAbstraction (st.clauseAt d).lits)
    (hrange : ∀ l ∈ (st.clauseAt c).lits, l.var < 2147483648) (hb : b.var < 2147483648)
    (hpre : (runLoop ext gate rr st numOp pre).2 = true) :
    findsTwin gate (sortedOcc gate st numOp).abstraction (sortedOcc gate st numOp).maxSize
      (runLoop ext gate rr st numOp pre).1.st c = true ∧
    (stepAt ext gate rr st numOp pre c).1.foundPotential =
      (runLoop ext gate rr st numOp pre).1.foundPotential + 1 := by
  have h0 : gate.lit0 = a := by simp [OrGate.lit0, hg]
  have h1 : gate.lit1 = b := by simp [OrGate.lit1, hg]
  obtain ⟨⟨extra, hinvCl⟩, hinvSso⟩ := runLoop_arena ext gate rr st numOp pre hpre
  have hinvS2 := runLoop_seen2 ext gate rr st numOp pre hpre
  -- the two clauses
  obtain ⟨clC, hgetC, haC⟩ := hoccur a.neg c (by rw [hcs]; simp)
  obtain ⟨clD, hgetD, hbD⟩ := hoccur b.neg d hd
  have hCst : st.clauseAt c = clC := clauseAt_of_get hgetC
  have hDst : st.clauseAt d = clD := clauseAt_of_get hgetD
  have hCacc : (runLoop ext gate rr st numOp pre).1.st.clauseAt c = clC :=
    clauseAt_append hgetC hinvCl
  have hDacc : (runLoop ext gate rr st numOp pre).1.st.clauseAt d = clD :=
    clauseAt_append hgetD hinvCl
  have hltC : c < st.clauses.length := by
    rw [List.get?_eq_getElem?] at hgetC
    exact (List.getElem?_eq_some_iff.mp hgetC).1
  have hltD : d < st.clauses.length := by
    rw [List.get?_eq_getElem?] at hgetD
    exact (List.getElem?_eq_some_iff.mp hgetD).1
  have hdataC := runLoop_clauseData ext gate rr st numOp pre hpre c hltC
  have hdataD := runLoop_clauseData ext gate rr st numOp pre hpre d hltD
  rw [hCst] at hwC hndC hset habstC hsizeC hrange
  rw [hDst] at hndD hset habstD
  have hlen : clD.lits.length = clC.lits.length :=
    twin_length_eq clC.lits clD.lits a.neg b.neg hndC hndD haC hbD hset
  -- what calculateSortedOcc has taken up
  obtain ⟨⟨r1, r2, r3, r4⟩, r5⟩ := sortedOcc_records gate st numOp d (by rw [h1]; exact hd) heD
  rw [hDst] at r1 r2 r3 r4
  rw [h0] at r5
  -- the first test
  have hpass : passesFilter (sortedOcc gate st numOp).abstraction
      (sortedOcc gate st numOp).maxSize (runLoop ext gate rr st numOp pre).1.st c = true := by
    have e1 : (st.clauseData c).defOfOrGate = false := heC.1
    have e2 : (st.clauseData c).abst ||| (sortedOcc gate st numOp).abstraction =
        (sortedOcc gate st numOp).abstraction := by
      rw [habstC]
      apply calcAbstraction_sub
      intro l hl
      by_cases hla : l = a.neg
      · rw [hla, Lit.var_neg]; exact r5
      · exact r4 l ((hset l).mpr ⟨hl, hla⟩).1
    have e3 : ¬ (st.clauseData c).size > (sortedOcc gate st numOp).maxSize := by
      rw [hsizeC, ← hlen]; omega
    have e4 : ((sortedOcc gate st numOp).st.sizeSortedOcc (st.clauseData c).size).isEmpty
        = false := by
      rw [hsizeC, ← hlen]
      cases hx : (sortedOcc gate st numOp).st.sizeSortedOcc clD.lits.length with
      | nil => rw [hx] at r1; simp at r1
      | cons y ys => rfl
    unfold passesFilter
    rw [hdataC, hinvSso, e1, e2, e4]
    simp [e3]
  -- the learnt test
  have hlearnt : (!(!((runLoop ext gate rr st numOp pre).1.st.clauseAt c).learnt &&
      gate.learnt)) = true := by
    rw [hCacc]
    have := heC.2
    rw [hCst] at this
    rcases this with h | h <;> simp [h]
  -- the loop that computes OK
  have hok : litsOk gate (runLoop ext gate rr st numOp pre).1.st
      ((runLoop ext gate rr st numOp pre).1.st.clauseAt c) = true := by
    rw [hCacc]
    simp only [litsOk, List.all_eq_true]
    intro l hl
    by_cases hla : l = a.neg
    · simp [hla, h0]
    · have f1 : l.var ≠ complVar gate.lit1.var := by
        have := hrange l hl
        rw [h1]
        unfold complVar
        omega
      have f2 : l.var ≠ gate.eqLit.var := hwC l hl
      have f3 : (runLoop ext gate rr st numOp pre).1.st.seen2 l.toInt = true := by
        rw [hinvS2]
        exact r3 l ((hset l).mpr ⟨hl, hla⟩).1
      simp [f1, f2, f3]
  -- the search for the twin
  have htwin : (twinOf gate (runLoop ext gate rr st numOp pre).1.st c).isSome = true := by
    unfold twinOf
    refine findAndGateOtherClLoop_finds _ _ _ _ d ?_ ?_ ?_ ?_
    · rw [hinvSso, hCacc, ← hlen]
      exact r1
    · show ((runLoop ext gate rr st numOp pre).1.st.clauseData d).defOfOrGate = false
      rw [hdataD]
      exact heD.1
    · show ((runLoop ext gate rr st numOp pre).1.st.clauseData d).abst = _
      rw [hdataD, habstD, hCacc]
      unfold abst2Of residual
      rw [h0, h1, Lit.var_neg]
      have := twin_abst_eq clC.lits clD.lits a.neg b.neg hbD hset
      rw [Lit.var_neg] at this
      exact this
    · have hcl : (searchState gate (runLoop ext gate rr st numOp pre).1.st c).clauseAt d =
          (runLoop ext gate rr st numOp pre).1.st.clauseAt d := rfl
      rw [hcl, hDacc]
      simp only [allSeenBut, List.all_eq_true, Bool.or_eq_true, beq_iff_eq]
      intro l hl
      by_cases hlb : l = b.neg
      · left; rw [hlb, h1]
      · right
        show ((residual gate ((runLoop ext gate rr st numOp pre).1.st.clauseAt c)).foldl
          (fun s l => Function.update s l.toInt true)
          (runLoop ext gate rr st numOp pre).1.st.seen) l.toInt = true
        rw [foldl_mark, hCacc]
        have hm : l ∈ residual gate clC := by
          rw [mem_residual, h0]
          exact (hset l).mp ⟨hl, hlb⟩
        rw [if_pos ⟨l, hm, rfl⟩]
  have hfinds : findsTwin gate (sortedOcc gate st numOp).abstraction
      (sortedOcc gate st numOp).maxSize (runLoop ext gate rr st numOp pre).1.st c = true := by
    unfold findsTwin
    rw [hpass, hlearnt, hok, htwin]
    rfl
  refine ⟨hfinds, ?_⟩
  have hcount := treatAndGateBody_counts ext gate rr (sortedOcc gate st numOp).abstraction
    (sortedOcc gate st numOp).maxSize (runLoop ext gate rr st numOp pre).1 c
  rw [hfinds] at hcount
  exact hcount

theorem treatAndGate_finds_twin_witness :
    findsTwin gate123 (sortedOcc gate123 scenario4 0).abstraction
      (sortedOcc gate123 scenario4 0).maxSize
      (runLoop scenarioExt gate123 true scenario4 0 []).1.st 0 = true ∧
    (stepAt scenarioExt gate123 true scenario4 0 [] 0).1.foundPotential =
      (runLoop scenarioExt gate123 true scenario4 0 []).1.foundPotential + 1 := by
  have e0 : (scenario4.clauseAt 0).lits = [ng 2, pos 4, pos 5] := by decide
  have e1 : (scenario4.clauseAt 1).lits = [ng 3, pos 4, pos 5] := by decide
  refine treatAndGate_finds_twin scenarioExt gate123 (pos 2) (pos 3) true scenario4 0 [] [] 0 1
    rfl (stateOf_occurWf _) (by decide) (by decide) ⟨by decide, by decide⟩
    ⟨by decide, by decide⟩ (by decide) (by decide) (by decide) ?_ (by decide) (by decide)
    (by decide) (by decide) (by decide) rfl
  intro l
  rw [e0, e1]
  simp only [List.mem_cons, List.mem_singleton, List.not_mem_nil, or_false]
  constructor
  · rintro ⟨h | h | h, hn⟩
    · exact absurd h hn
    · subst h; exact ⟨Or.inr (Or.inl rfl), by decide⟩
    · subst h; exact ⟨Or.inr (Or.inr rfl), by decide⟩
  · rintro ⟨h | h | h, hn⟩
    · exact absurd h hn
    · subst h; exact ⟨Or.inr (Or.inl rfl), by decide⟩
    · subst h; exact ⟨Or.inr (Or.inr rfl), by decide⟩

/-! ### The counters of `doAllOptimisationWithGates` -/

theorem shortenCounts_refl (s : State) : ShortenCounts s s :=
  ⟨[], by simp, by simp, fun _ => ⟨rfl, rfl⟩⟩

theorem shortenCounts_trans {a b c : State} (h1 : ShortenCounts a b) (h2 : ShortenCounts b c) :
    ShortenCounts a c := by
  obtain ⟨e1, t1, n1, z1⟩ := h1
  obtain ⟨e2, t2, n2, z2⟩ := h2
  refine ⟨e1 ++ e2, by rw [t2, t1, List.append_assoc], ?_, ?_⟩
  · rw [n2, n1, List.countP_append]; omega
  · intro h
    rw [List.countP_append] at h
    obtain ⟨x1, y1⟩ := z1 (by omega)
    obtain ⟨x2, y2⟩ := z2 (by omega)
    exact ⟨by rw [x1, x2]; rfl, by rw [y2, y1]⟩

theorem replaceClause_counters (ext : Ext) (st : State) (c : Nat) (lits : List Lit)
    (learnt : Bool) (stats : ClauseStats) :
    (replaceClause ext st c lits learnt stats).1.numOrGateReplaced = st.numOrGateReplaced ∧
    (replaceClause ext st c lits learnt stats).1.gateLitsRemoved = st.gateLitsRemoved ∧
    (replaceClause ext st c lits learnt stats).1.andGateNumFound = st.andGateNumFound := by
  unfold replaceClause
  simp only []
  split_ifs
  · exact ⟨rfl, rfl, rfl⟩
  · cases hr : (addClauseInt ext (unlinkClause st c) lits learnt stats).2 with
    | none => exact ⟨rfl, rfl, rfl⟩
    | some ncl => exact ⟨rfl, rfl, rfl⟩

theorem shortenClause_replaced (ext : Ext) (gate : OrGate) (st : State) (c : Nat)
    (hskip : notSkipped gate st c) :
    (shortenClause ext gate st c).1.numOrGateReplaced = st.numOrGateReplaced + 1 := by
  have hs : ((st.clauseData c).defOfOrGate || (!(st.clauseAt c).learnt && gate.learnt)) = false := by
    rcases hskip with ⟨h1, h2 | h2⟩ <;> simp [h1, h2]
  have hcl : ∀ n : Nat, State.clauseAt { st with numOrGateReplaced := n } c = st.clauseAt c :=
    fun _ => rfl
  unfold shortenClause
  simp only [hs, Bool.false_eq_true, if_false, hcl]
  cases hscan : scanEqLit gate.eqLit (st.clauseAt c).lits with
  | none =>
    simp only []
    rw [(replaceClause_counters ext _ c _ _ _).1]
  | some b =>
    cases b
    · rfl
    · simp only []
      rw [(replaceClause_counters ext _ c _ _ _).1]

theorem shortenClause_counts (ext : Ext) (gate : OrGate) (st : State) (c : Nat) :
    ShortenCounts st (shortenClause ext gate st c).1 := by
  by_cases hs : ((st.clauseData c).defOfOrGate || (!(st.clauseAt c).learnt && gate.learnt)) = true
  · have : shortenClause ext gate st c = (st, true) := by
      unfold shortenClause
      rw [if_pos hs]
    rw [this]
    exact shortenCounts_refl st
  · have hskip : notSkipped gate st c := by
      simp only [Bool.or_eq_true, Bool.and_eq_true, Bool.not_eq_true', not_or, not_and,
        Bool.not_eq_true] at hs
      refine ⟨hs.1, ?_⟩
      cases hl : (st.clauseAt c).learnt
      · exact Or.inr (hs.2 hl)
      · exact Or.inl rfl
    obtain ⟨tail, htail, htr⟩ := shortenClause_trace ext gate st c hskip
    have hcount : ∀ (ls : List Lit) (lrn : Bool) (sts : ClauseStats),
        List.countP Event.isUnlink
          (Event.unlinkClause c :: Event.addClauseInt ls lrn sts :: tail) = 1 := by
      intro ls lrn sts
      rcases htail with h | ⟨cl, h⟩ <;> subst h <;> rfl
    refine ⟨_, htr, ?_, ?_⟩
    · rw [shortenClause_replaced ext gate st c hskip]
      by_cases hsc : scanEqLit gate.eqLit (st.clauseAt c).lits = some false
      · rw [if_pos hsc]; rfl
      · rw [if_neg hsc, hcount]
    · intro h
      exfalso
      by_cases hsc : scanEqLit gate.eqLit (st.clauseAt c).lits = some false
      · rw [if_pos hsc] at h
        simp [Event.isUnlink] at h
      · rw [if_neg hsc, hcount] at h
        omega

theorem shortenLoop_counts (ext : Ext) (gate : OrGate) (cs : List Nat) :
    ∀ st : State, ShortenCounts st (shortenLoop ext gate cs st).1 := by
  induction cs with
  | nil => intro st; exact shortenCounts_refl st
  | cons c rest ih =>
    intro st
    simp only [shortenLoop]
    split_ifs
    · exact shortenCounts_trans (shortenClause_counts ext gate st c) (ih _)
    · exact shortenClause_counts ext gate st c

theorem shortenWithOrGate_counts (ext : Ext) (gate : OrGate) (st : State) :
    ShortenCounts st (shortenWithOrGate ext gate st).1 := by
  unfold shortenWithOrGate
  have h0 : ShortenCounts st (st.charge (ext.findSubsumed0 st gate.lits
      (calcAbstraction gate.lits)).2) :=
    ⟨[], by simp [State.charge], by simp [State.charge], fun _ => ⟨rfl, rfl⟩⟩
  exact shortenCounts_trans h0 (shortenLoop_counts ext gate _ _)

theorem shortenGatesLoop_counts (ext : Ext) (gs : List OrGate) :
    ∀ st : State, ShortenCounts st (shortenGatesLoop ext gs st).1 := by
  induction gs with
  | nil => intro st; exact shortenCounts_refl st
  | cons g rest ih =>
    intro st
    simp only [shortenGatesLoop]
    split_ifs
    · exact ih st
    · exact shortenCounts_refl st
    · exact shortenWithOrGate_counts ext g st
    · exact shortenCounts_trans (shortenWithOrGate_counts ext g st) (ih _)

/-- The OR-gate treatment starts its counters at zero: after it, `numOrGateReplaced` is the
number of `unlinkClause` calls that it recorded, and when there is none it recorded no call at
all and `gateLitsRemoved` is zero. -/
theorem shortenPhase_counts (ext : Ext) (st : State) :
    ∃ ev, (shortenPhase ext st).1.trace = st.trace ++ ev ∧
      (shortenPhase ext st).1.numOrGateReplaced = ev.countP Event.isUnlink ∧
      (ev.countP Event.isUnlink = 0 → ev = [] ∧ (shortenPhase ext st).1.gateLitsRemoved = 0) := by
  obtain ⟨ev, h1, h2, h3⟩ := shortenGatesLoop_counts ext st.orGates
    { st with
      gateLitsRemoved := 0
      numOrGateReplaced := 0
      cells := Function.update st.cells ⟨Counter.numMaxShortenWithGates, 0⟩ 100000000
      toDecrease := ⟨Counter.numMaxShortenWithGates, 0⟩ }
  refine ⟨ev, h1, ?_, h3⟩
  show (shortenGatesLoop ext st.orGates _).1.numOrGateReplaced = _
  rw [h2]
  simp

/-- The state after a step of the main loop of `treatAndGate`: unchanged, or `seen` cleared
after a search, both with `clToUnlink` unchanged, or the state after a contraction, with `seen`
cleared unless the step returns false. -/
theorem treatAndGateBody_cases (ext : Ext) (gate : OrGate) (rr : Bool) (ab ms : Nat)
    (acc : AndGateAcc) (c : Nat) :
    ((treatAndGateBody ext gate rr ab ms acc c).1.st = acc.st ∧
      (treatAndGateBody ext gate rr ab ms acc c).1.clToUnlink = acc.clToUnlink) ∨
    ((treatAndGateBody ext gate rr ab ms acc c).1.st =
        clearSeen (acc.st.clauseAt c) (searchState gate acc.st c) ∧
      (treatAndGateBody ext gate rr ab ms acc c).1.clToUnlink = acc.clToUnlink) ∨
    (∃ d, (treatAndGateBody ext gate rr ab ms acc c).1.st =
        (treatAndGateClause ext (searchState gate acc.st c) d gate (acc.st.clauseAt c)).1 ∨
      (treatAndGateBody ext gate rr ab ms acc c).1.st =
        clearSeen (acc.st.clauseAt c)
          (treatAndGateClause ext (searchState gate acc.st c) d gate (acc.st.clauseAt c)).1) := by
  have hf : (findAndGateOtherCl (markSeen gate acc.st (acc.st.clauseAt c))
      ((markSeen gate acc.st (acc.st.clauseAt c)).sizeSortedOcc
        (acc.st.clauseAt c).lits.length) gate.lit1.neg
      (abst2Of gate (acc.st.clauseAt c))) =
      (searchState gate acc.st c, twinOf gate acc.st c) := rfl
  unfold treatAndGateBody
  simp only [hf]
  by_cases h1 : passesFilter ab ms acc.st c = true
  · simp only [h1, Bool.not_true, Bool.false_eq_true, if_false]
    by_cases h2 : (!(acc.st.clauseAt c).learnt && gate.learnt) = true
    · rw [if_pos h2]
      exact Or.inl ⟨rfl, rfl⟩
    · rw [if_neg h2]
      by_cases h3 : litsOk gate acc.st (acc.st.clauseAt c) = true
      · have h3n : ¬ (!litsOk gate acc.st (acc.st.clauseAt c)) = true := by simp [h3]
        rw [if_neg h3n]
        cases ht : twinOf gate acc.st c with
        | none => exact Or.inr (Or.inl ⟨rfl, rfl⟩)
        | some d =>
          cases rr
          · exact Or.inr (Or.inl ⟨rfl, rfl⟩)
          · simp only [if_true]
            refine Or.inr (Or.inr ⟨d, ?_⟩)
            split_ifs
            · exact Or.inl rfl
            · exact Or.inr rfl
      · have h3n : (!litsOk gate acc.st (acc.st.clauseAt c)) = true := by simp [h3]
        rw [if_pos h3n]
        exact Or.inl ⟨rfl, rfl⟩
  · have h1n : (!passesFilter ab ms acc.st c) = true := by simp [h1]
    rw [if_pos h1n]
    exact Or.inl ⟨rfl, rfl⟩

theorem treatAndGateClause_counters (ext : Ext) (st : State) (d : Nat) (gate : OrGate)
    (cl : Clause) :
    (treatAndGateClause ext st d gate cl).1.numOrGateReplaced = st.numOrGateReplaced ∧
    (treatAndGateClause ext st d gate cl).1.gateLitsRemoved = st.gateLitsRemoved := by
  unfold treatAndGateClause
  simp only [addClauseInt]
  cases hr : (ext.addClauseInt _ _ _ _).cl with
  | none =>
    simp only []
    split_ifs <;> exact ⟨rfl, rfl⟩
  | some ncl =>
    simp only []
    split_ifs <;> exact ⟨rfl, rfl⟩

/-- A step of the main loop of `treatAndGate` counts its contraction: `andGateNumFound` grows by
the number of `addClauseInt` calls recorded; when there is none, nothing is recorded and
`clToUnlink` is what it was. -/
theorem treatAndGateBody_andCounts (ext : Ext) (gate : OrGate) (rr : Bool) (ab ms : Nat)
    (acc : AndGateAcc) (c : Nat) :
    ∃ ev, AndCounts acc.st (treatAndGateBody ext gate rr ab ms acc c).1.st ev ∧
      (ev.countP Event.isAddClause = 0 → ev = [] ∧
        (treatAndGateBody ext gate rr ab ms acc c).1.clToUnlink = acc.clToUnlink) := by
  rcases treatAndGateBody_cases ext gate rr ab ms acc c with ⟨h, hc⟩ | ⟨h, hc⟩ | ⟨d, h⟩
  · refine ⟨[], ?_, fun _ => ⟨rfl, hc⟩⟩
    rw [h]
    exact ⟨by simp, by simp, rfl, rfl⟩
  · refine ⟨[], ?_, fun _ => ⟨rfl, hc⟩⟩
    rw [h]
    exact ⟨by simp [clearSeen, searchState, State.charge, markSeen], by
      simp [clearSeen, searchState, State.charge, markSeen], rfl, rfl⟩
  · obtain ⟨⟨tail, htail, htr⟩, hn, _, _, _, _⟩ := treatAndGateClause_spec ext
      (searchState gate acc.st c) d gate (acc.st.clauseAt c)
    obtain ⟨k1, k2⟩ := treatAndGateClause_counters ext
      (searchState gate acc.st c) d gate (acc.st.clauseAt c)
    have hcount : ∀ (ls : List Lit) (lrn : Bool) (sts : ClauseStats),
        List.countP Event.isAddClause (Event.addClauseInt ls lrn sts :: tail) = 1 := by
      intro ls lrn sts
      rcases htail with h | ⟨cl, h⟩ <;> subst h <;> rfl
    refine ⟨Event.addClauseInt (residual gate (acc.st.clauseAt c) ++ [gate.eqLit.neg])
        (((searchState gate acc.st c).clauseAt d).learnt && (acc.st.clauseAt c).learnt)
        (ext.combineStats (acc.st.clauseAt c).stats
          ((searchState gate acc.st c).clauseAt d).stats) :: tail, ⟨?_, ?_, ?_, ?_⟩, ?_⟩
    · rcases h with h | h <;> rw [h]
      · exact htr
      · exact htr
    · rw [hcount]
      rcases h with h | h <;> rw [h]
      · exact hn
      · exact hn
    · rcases h with h | h <;> rw [h]
      · exact k1
      · exact k1
    · rcases h with h | h <;> rw [h]
      · exact k2
      · exact k2
    · intro h0
      rw [hcount] at h0
      omega

theorem treatAndGateLoop_andCounts (ext : Ext) (gate : OrGate) (rr : Bool) (ab ms : Nat)
    (cs : List Nat) :
    ∀ acc : AndGateAcc,
      ∃ ev, AndCounts acc.st (treatAndGateLoop ext gate rr ab ms cs acc).1.st ev ∧
        (ev.countP Event.isAddClause = 0 → ev = [] ∧
          (treatAndGateLoop ext gate rr ab ms cs acc).1.clToUnlink = acc.clToUnlink) := by
  induction cs with
  | nil =>
    intro acc
    exact ⟨[], ⟨by simp [treatAndGateLoop], by simp [treatAndGateLoop], rfl, rfl⟩,
      fun _ => ⟨rfl, rfl⟩⟩
  | cons c rest ih =>
    intro acc
    obtain ⟨e1, ⟨t1, n1, a1, b1⟩, z1⟩ := treatAndGateBody_andCounts ext gate rr ab ms acc c
    simp only [treatAndGateLoop]
    split_ifs
    · obtain ⟨e2, ⟨t2, n2, a2, b2⟩, z2⟩ := ih (treatAndGateBody ext gate rr ab ms acc c).1
      refine ⟨e1 ++ e2, ⟨by rw [t2, t1, List.append_assoc], ?_, by rw [a2, a1],
        by rw [b2, b1]⟩, ?_⟩
      · rw [n2, n1, List.countP_append]; omega
      · intro h
        rw [List.countP_append] at h
        obtain ⟨x1, y1⟩ := z1 (by omega)
        obtain ⟨x2, y2⟩ := z2 (by omega)
        exact ⟨by rw [x1, x2]; rfl, by rw [y2, y1]⟩
    · exact ⟨e1, ⟨t1, n1, a1, b1⟩, z1⟩

theorem foldl_unlinkClause_trace (l : List Nat) :
    ∀ st : State, (l.foldl unlinkClause st).trace = st.trace ++ l.map Event.unlinkClause ∧
      (l.foldl unlinkClause st).andGateNumFound = st.andGateNumFound ∧
      (l.foldl unlinkClause st).numOrGateReplaced = st.numOrGateReplaced ∧
      (l.foldl unlinkClause st).gateLitsRemoved = st.gateLitsRemoved := by
  induction l with
  | nil => intro st; simp
  | cons c rest ih =>
    intro st
    obtain ⟨h1, h2, h3, h4⟩ := ih (unlinkClause st c)
    simp only [List.foldl_cons, List.map_cons]
    refine ⟨?_, h2, h3, h4⟩
    rw [h1]
    simp [unlinkClause]

theorem countP_isAddClause_unlinks (l : List Nat) :
    (l.map Event.unlinkClause).countP Event.isAddClause = 0 := by
  induction l with
  | nil => rfl
  | cons c rest ih =>
    simp only [List.map_cons, List.countP_cons, ih]
    rfl

/-- The function `treatAndGate` counts its contractions: `andGateNumFound` grows by the number
of `addClauseInt` calls recorded, and when there is none nothing is recorded: no clause is
unlinked. -/
theorem treatAndGate_andCounts (ext : Ext) (gate : OrGate) (rr : Bool) (st : State)
    (fp numOp : Nat) :
    ∃ ev, AndCounts st (treatAndGate ext gate rr st fp numOp).st ev ∧
      (ev.countP Event.isAddClause = 0 → ev = []) := by
  by_cases he : ((st.occur gate.lit0.neg.toInt).isEmpty ||
      (st.occur gate.lit1.neg.toInt).isEmpty) = true
  · unfold treatAndGate
    rw [if_pos he]
    exact ⟨[], ⟨by simp, by simp, rfl, rfl⟩, fun _ => rfl⟩
  · obtain ⟨sso, s2, cells, hso⟩ := sortedOcc_frame gate st numOp
    have hstart : (loopStart gate st numOp).st = (sortedOcc gate st numOp).st.movePtr
        (((sortedOcc gate st numOp).st.occur gate.lit0.neg.toInt).length * 3) := rfl
    have hs1 : (loopStart gate st numOp).st.trace = st.trace := by rw [hstart, hso]; rfl
    have hs2 : (loopStart gate st numOp).st.andGateNumFound = st.andGateNumFound := by
      rw [hstart, hso]; rfl
    have hs3 : (loopStart gate st numOp).st.numOrGateReplaced = st.numOrGateReplaced := by
      rw [hstart, hso]; rfl
    have hs4 : (loopStart gate st numOp).st.gateLitsRemoved = st.gateLitsRemoved := by
      rw [hstart, hso]; rfl
    have hs5 : (loopStart gate st numOp).clToUnlink = [] := rfl
    obtain ⟨ev, ⟨t1, n1, a1, b1⟩, z1⟩ := treatAndGateLoop_andCounts ext gate rr
      (sortedOcc gate st numOp).abstraction (sortedOcc gate st numOp).maxSize
      ((sortedOcc gate st numOp).st.occur gate.lit0.neg.toInt) (loopStart gate st numOp)
    rw [hs1] at t1
    rw [hs2] at n1
    rw [hs3] at a1
    rw [hs4] at b1
    rw [hs5] at z1
    unfold treatAndGate
    rw [if_neg he]
    simp only [runLoop]
    split_ifs
    · exact ⟨ev, ⟨t1, n1, a1, b1⟩, fun h => (z1 h).1⟩
    · obtain ⟨f1, f2, f3, f4⟩ := foldl_unlinkClause_trace
        (treatAndGateLoop ext gate rr (sortedOcc gate st numOp).abstraction
          (sortedOcc gate st numOp).maxSize
          ((sortedOcc gate st numOp).st.occur gate.lit0.neg.toInt)
          (loopStart gate st numOp)).1.clToUnlink
        { (treatAndGateLoop ext gate rr (sortedOcc gate st numOp).abstraction
            (sortedOcc gate st numOp).maxSize
            ((sortedOcc gate st numOp).st.occur gate.lit0.neg.toInt)
            (loopStart gate st numOp)).1.st with
          seen2 := (sortedOcc gate st numOp).seen2Set.foldl
            (fun s i => Function.update s i false)
            (treatAndGateLoop ext gate rr (sortedOcc gate st numOp).abstraction
              (sortedOcc gate st numOp).maxSize
              ((sortedOcc gate st numOp).st.occur gate.lit0.neg.toInt)
              (loopStart gate st numOp)).1.st.seen2 }
      refine ⟨ev ++ List.map Event.unlinkClause
        (treatAndGateLoop ext gate rr (sortedOcc gate st numOp).abstraction
          (sortedOcc gate st numOp).maxSize
          ((sortedOcc gate st numOp).st.occur gate.lit0.neg.toInt)
          (loopStart gate st numOp)).1.clToUnlink, ⟨?_, ?_, ?_, ?_⟩, ?_⟩
      · rw [f1]
        show (treatAndGateLoop ext gate rr _ _ _ _).1.st.trace ++ _ = _
        rw [t1, List.append_assoc]
      · rw [f2, List.countP_append, countP_isAddClause_unlinks]
        exact n1
      · rw [f3]; exact a1
      · rw [f4]; exact b1
      · intro h
        rw [List.countP_append, countP_isAddClause_unlinks] at h
        obtain ⟨x1, y1⟩ := z1 h
        rw [x1, y1]
        rfl

theorem andGatesLoop_andCounts (ext : Ext) (gs : List OrGate) :
    ∀ (st : State) (fp numOp : Nat),
      ∃ ev, AndCounts st (andGatesLoop ext gs st fp numOp).1 ev ∧
        (ev.countP Event.isAddClause = 0 → ev = []) := by
  induction gs with
  | nil =>
    intro st fp numOp
    exact ⟨[], ⟨by simp [andGatesLoop], by simp [andGatesLoop], rfl, rfl⟩, fun _ => rfl⟩
  | cons g rest ih =>
    intro st fp numOp
    simp only [andGatesLoop]
    split_ifs
    · exact ih st fp numOp
    · exact ⟨[], ⟨by simp, by simp, rfl, rfl⟩, fun _ => rfl⟩
    · exact treatAndGate_andCounts ext g true st fp numOp
    · obtain ⟨e1, ⟨t1, n1, a1, b1⟩, z1⟩ := treatAndGate_andCounts ext g true st fp numOp
      obtain ⟨e2, ⟨t2, n2, a2, b2⟩, z2⟩ := ih (treatAndGate ext g true st fp numOp).st
        (treatAndGate ext g true st fp numOp).foundPotential
        (treatAndGate ext g true st fp numOp).numOp
      refine ⟨e1 ++ e2, ⟨by rw [t2, t1, List.append_assoc], ?_, by rw [a2, a1],
        by rw [b2, b1]⟩, ?_⟩
      · rw [n2, n1, List.countP_append]; omega
      · intro h
        rw [List.countP_append] at h
        rw [z1 (by omega), z2 (by omega)]
        rfl

/-- The AND-gate treatment starts its counter at zero: after it, `andGateNumFound` is the
number of `addClauseInt` calls that it recorded, when there is none it recorded no call at
all, and the counters of the OR-gate treatment are what they were. -/
theorem andPhase_counts (ext : Ext) (st : State) :
    ∃ ev, (andPhase ext st).1.trace = st.trace ++ ev ∧
      (andPhase ext st).1.andGateNumFound = ev.countP Event.isAddClause ∧
      (ev.countP Event.isAddClause = 0 → ev = []) ∧
      (andPhase ext st).1.numOrGateReplaced = st.numOrGateReplaced ∧
      (andPhase ext st).1.gateLitsRemoved = st.gateLitsRemoved := by
  obtain ⟨ev, ⟨t1, n1, a1, b1⟩, z1⟩ := andGatesLoop_andCounts ext st.orGates
    { st with
      cells := Function.update st.cells ⟨Counter.numMaxClRemWithGates, 0⟩ 100000000
      toDecrease := ⟨Counter.numMaxClRemWithGates, 0⟩
      andGateNumFound := 0
      andGateTotalSize := 0 } 0 0
  refine ⟨ev, t1, ?_, z1, a1, b1⟩
  show (andGatesLoop ext st.orGates _ 0 0).1.andGateNumFound = _
  rw [n1]
  simp

theorem findEqLoop_counters (ext : Ext) (ps : List (OrGate × OrGate)) :
    ∀ st : State,
      (findEqLoop ext ps st).1.numOrGateReplaced = st.numOrGateReplaced ∧
      (findEqLoop ext ps st).1.gateLitsRemoved = st.gateLitsRemoved ∧
      (findEqLoop ext ps st).1.andGateNumFound = st.andGateNumFound := by
  induction ps with
  | nil => intro st; exact ⟨rfl, rfl, rfl⟩
  | cons p rest ih =>
    intro st
    obtain ⟨g1, g2⟩ := p
    simp only [findEqLoop]
    split_ifs
    · exact ih st
    · exact ⟨rfl, rfl, rfl⟩
    · exact ih _
    · exact ih st

/-- The equivalence pass records calls of `addXorClauseInt` only and leaves the counters
alone. -/
theorem findEqOrGates_counts (ext : Ext) (st : State) :
    (∃ ev, (findEqOrGates ext st).1.trace = st.trace ++ ev ∧
      ∀ e ∈ ev, e.isUnlink = false ∧ e.isAddClause = false) ∧
    (findEqOrGates ext st).1.numOrGateReplaced = st.numOrGateReplaced ∧
    (findEqOrGates ext st).1.gateLitsRemoved = st.gateLitsRemoved ∧
    (findEqOrGates ext st).1.andGateNumFound = st.andGateNumFound := by
  refine ⟨?_, findEqLoop_counters ext _ st⟩
  obtain ⟨⟨k, hk⟩, _⟩ := findEqLoop_events ext
    ((ext.sortGates st.orGates).zip (ext.sortGates st.orGates).tail) st
  refine ⟨_, hk, ?_⟩
  intro e he
  have he2 := List.mem_of_mem_take he
  obtain ⟨p, _, hp⟩ := List.mem_map.mp he2
  rw [← hp]
  exact ⟨rfl, rfl⟩

/-- Each run of `doAllOptimisationWithGates` counts its own work: with the OR-gate and the
AND-gate treatment switched on, after a run that returns true the counters
`numOrGateReplaced` and `andGateNumFound` are both zero exactly when the run has recorded no
call of `unlinkClause` and no call of `addClauseInt`, that is, when it has shortened no clause
and contracted no pair; and `gateLitsRemoved` is zero when `numOrGateReplaced` is. -/
theorem doAllOptimisationWithGates_counters (ext : Ext) (conf : Conf) (st : State)
    (r : State × Bool)
    (hs : conf.doShortenWithOrGates = true) (ha : conf.doRemClWithAndGates = true)
    (h : doAllOptimisationWithGates ext conf st = some r) (hret : r.2 = true) :
    ((r.1.numOrGateReplaced = 0 ∧ r.1.andGateNumFound = 0) ↔
      ∀ e ∈ newEvents st r.1, e.isUnlink = false ∧ e.isAddClause = false) ∧
    (r.1.numOrGateReplaced = 0 → r.1.gateLitsRemoved = 0) := by
  obtain ⟨e1, t1, n1, z1⟩ := shortenPhase_counts ext st
  obtain ⟨e2, t2, n2, z2, a2, b2⟩ := andPhase_counts ext (shortenPhase ext st).1
  obtain ⟨⟨e3, t3, q3⟩, a3, b3, c3⟩ := findEqOrGates_counts ext
    (andPhase ext (shortenPhase ext st).1).1
  -- the state that the run returns
  have hr : r.1 = (andPhase ext (shortenPhase ext st).1).1 ∨
      r.1 = (findEqOrGates ext (andPhase ext (shortenPhase ext st).1).1).1 := by
    unfold doAllOptimisationWithGates at h
    rw [hs, ha] at h
    simp only [if_true] at h
    split_ifs at h
    all_goals
      simp only [Option.some.injEq] at h
      subst h
      first
        | exact Or.inl rfl
        | exact Or.inr rfl
        | exact absurd hret (by simp)
  -- what the run records after the two treatments
  have hrest : ∃ ev, r.1.trace = st.trace ++ (e1 ++ (e2 ++ ev)) ∧
      (∀ e ∈ ev, e.isUnlink = false ∧ e.isAddClause = false) ∧
      r.1.numOrGateReplaced = e1.countP Event.isUnlink ∧
      r.1.andGateNumFound = e2.countP Event.isAddClause ∧
      r.1.gateLitsRemoved = (shortenPhase ext st).1.gateLitsRemoved := by
    rcases hr with hr | hr
    · refine ⟨[], ?_, by simp, ?_, ?_, ?_⟩
      · rw [hr, t2, t1]; simp
      · rw [hr, a2, n1]
      · rw [hr, n2]
      · rw [hr, b2]
    · refine ⟨e3, ?_, q3, ?_, ?_, ?_⟩
      · rw [hr, t3, t2, t1]; simp
      · rw [hr, a3, a2, n1]
      · rw [hr, c3, n2]
      · rw [hr, b3, b2]
  obtain ⟨e4, t4, q4, n4, m4, g4⟩ := hrest
  have hnew : newEvents st r.1 = e1 ++ (e2 ++ e4) := newEvents_append st r.1 _ t4
  refine ⟨⟨?_, ?_⟩, ?_⟩
  · rintro ⟨h1, h2⟩
    rw [n4] at h1
    rw [m4] at h2
    rw [hnew, (z1 h1).1, z2 h2]
    simpa using q4
  · intro hq
    rw [hnew] at hq
    rw [n4, m4]
    constructor
    · rw [List.countP_eq_zero]
      intro e he
      rw [(hq e (List.mem_append_left _ he)).1]
      simp
    · rw [List.countP_eq_zero]
      intro e he
      rw [(hq e (List.mem_append_right _ (List.mem_append_left _ he))).2]
      simp
  · intro h1
    rw [n4] at h1
    rw [g4]
    exact (z1 h1).2

set_option maxRecDepth 100000 in
/-- C21, as stated, fails when the output of a gate is an input of an earlier gate of the store.
The database holds the definitions of the gates `1 ⇔ (2 ∨ 3)` and `3 ⇔ (4 ∨ 5)` and the clause
`2 ∨ 4 ∨ 5 ∨ 6`; `findOrGates()` puts the two gates into the store, in this order. The first
run of `doAllOptimisationWithGates` shortens the clause to `2 ∨ 6 ∨ 3` with the second gate;
the second run, right after it, shortens that clause to `6 ∨ 1` with the first gate. Both runs
return true with the solver consistent and `10 ^ 8` left in both budgets, and after the second
run `numOrGateReplaced` and `gateLitsRemoved` are 1. -/
theorem doAllOptimisationWithGates_second_run_counterexample :
    scenarioChain.orGates =
      [OrGate.new [pos 2, pos 3] (pos 1) false, OrGate.new [pos 4, pos 5] (pos 3) false] ∧
    (doAllOptimisationWithGates scenarioExt allOn scenarioChain).map
      (fun r => (r.2, r.1.ok)) = some (true, true) ∧
    (doAllOptimisationWithGates scenarioExt allOn scenarioChain).map
      (fun r => (r.1.numOrGateReplaced, r.1.gateLitsRemoved, r.1.andGateNumFound)) =
      some (1, 1, 0) ∧
    (doAllOptimisationWithGates scenarioExt allOn scenarioChain).map
      (fun r => (r.1.cells ⟨Counter.numMaxShortenWithGates, 0⟩,
        r.1.cells ⟨Counter.numMaxClRemWithGates, 0⟩)) = some (100000000, 100000000) ∧
    (doAllOptimisationWithGates scenarioExt allOn scenarioChain).map (fun r => r.1.trace) =
      some [Event.unlinkClause 2, Event.addClauseInt [pos 2, pos 6, pos 3] false ⟨0, 0, 0⟩,
        Event.linkInClause ⟨[pos 2, pos 6, pos 3], false, ⟨0, 0, 0⟩⟩] ∧
    ((doAllOptimisationWithGates scenarioExt allOn scenarioChain).bind
      (fun r1 => doAllOptimisationWithGates scenarioExt allOn r1.1)).map
      (fun r => (r.2, r.1.ok)) = some (true, true) ∧
    ((doAllOptimisationWithGates scenarioExt allOn scenarioChain).bind
      (fun r1 => doAllOptimisationWithGates scenarioExt allOn r1.1)).map
      (fun r => (r.1.numOrGateReplaced, r.1.gateLitsRemoved, r.1.andGateNumFound)) =
      some (1, 1, 0) ∧
    ((doAllOptimisationWithGates scenarioExt allOn scenarioChain).bind
      (fun r1 => doAllOptimisationWithGates scenarioExt allOn r1.1)).map
      (fun r => (r.1.cells ⟨Counter.numMaxShortenWithGates, 0⟩,
        r.1.cells ⟨Counter.numMaxClRemWithGates, 0⟩)) = some (100000000, 100000000) ∧
    ((doAllOptimisationWithGates scenarioExt allOn scenarioChain).bind
      (fun r1 => doAllOptimisationWithGates scenarioExt allOn r1.1)).map
      (fun r => r.1.trace.drop 3) =
      some [Event.unlinkClause 3, Event.addClauseInt [pos 6, pos 1] false ⟨0, 0, 0⟩] := by
  refine ⟨by decide!, by decide!, by decide!, by decide!, by decide!, by decide!, by decide!,
    by decide!, by decide!⟩

set_option maxRecDepth 100000 in
/-- C23, evaluated on the synthesis scenario: `extendedResolution` returns true after
`createNewVars` has put the gate `8 ⇔ (1 ∨ 2)` into the store, and it has applied no gate: the
calls recorded are those that define the gate, no clause is unlinked, and `andGateNumFound`,
`numOrGateReplaced` and `gateLitsRemoved` are 0 as on entry. A call of
`doAllOptimisationWithGates` in the state that `extendedResolution` returns contracts six pairs
of clauses with the new gate and unlinks twelve clauses. -/
theorem extendedResolution_applies_no_gate :
    (extendedResolution samplingExt scenarioSynthesis).map (fun r => (r.2, r.1.orGates)) =
      some (true, [OrGate.new [pos 1, pos 2] (pos 8) false]) ∧
    (extendedResolution samplingExt scenarioSynthesis).map
      (fun r => (r.1.numOrGateReplaced, r.1.gateLitsRemoved, r.1.andGateNumFound)) =
      some (0, 0, 0) ∧
    (extendedResolution samplingExt scenarioSynthesis).map (fun r => r.1.trace) =
      some [Event.newVar 8, Event.addClauseIntDefault [pos 8, ng 1],
        Event.addClauseIntDefault [pos 8, ng 2],
        Event.addClauseInt [ng 8, pos 1, pos 2] false ⟨0, 0, 0⟩,
        Event.linkInClause ⟨[ng 8, pos 1, pos 2], false, ⟨0, 0, 0⟩⟩] ∧
    ((extendedResolution samplingExt scenarioSynthesis).bind
      (fun r => doAllOptimisationWithGates samplingExt allOn r.1)).map
      (fun r => (r.2, r.1.numOrGateReplaced, r.1.andGateNumFound)) = some (true, 0, 6) ∧
    ((extendedResolution samplingExt scenarioSynthesis).bind
      (fun r => doAllOptimisationWithGates samplingExt allOn r.1)).map
      (fun r => (r.1.trace.countP Event.isAddClause, r.1.trace.countP Event.isUnlink)) =
      some (7, 12) := by
  refine ⟨by decide!, by decide!, by decide!, by decide!, by decide!⟩

/-! ### The second input in a clean arena -/

/-- When the occurrence lists are those of the arena, `seen` is all false on entry and every
clause has pairwise distinct literals, the twin `D` that `findAndGateOtherCl` finds for a
clause `C` that the main loop reaches is a clause of `occur[¬b]` whose literals other than
`¬b` are the literals of `C` other than `¬a`. -/
theorem twinOf_residual (ext : Ext) (gate : OrGate) (a b : Lit) (rr : Bool) (st : State)
    (numOp : Nat) (pre post : List Nat) (c d : Nat)
    (hg : gate.lits = [a, b])
    (hseen : ∀ n, st.seen n = false)
    (hnodup : ∀ cl, some cl ∈ st.clauses → cl.lits.Nodup)
    (hoccur : st.occurWf)
    (hcs : st.occur a.neg.toInt = pre ++ c :: post)
    (hpre : (runLoop ext gate rr st numOp pre).2 = true)
    (htwin : twinOf gate (runLoop ext gate rr st numOp pre).1.st c = some d) :
    ∃ clC clD, st.clauses.get? c = some (some clC) ∧ st.clauses.get? d = some (some clD) ∧
      a.neg ∈ clC.lits ∧ b.neg ∈ clD.lits ∧
      ∀ l, (l ∈ clD.lits ∧ l ≠ b.neg) ↔ (l ∈ clC.lits ∧ l ≠ a.neg) := by
  have h0 : gate.lit0 = a := by simp [OrGate.lit0, hg]
  have h1 : gate.lit1 = b := by simp [OrGate.lit1, hg]
  obtain ⟨hinvSeen, ⟨extra, hinvCl⟩, hinvSso⟩ := runLoop_inv ext gate rr st numOp pre hseen hpre
  obtain ⟨clC, hgetC, haC⟩ := hoccur a.neg c (by rw [hcs]; simp)
  have hCacc : (runLoop ext gate rr st numOp pre).1.st.clauseAt c = clC :=
    clauseAt_append hgetC hinvCl
  obtain ⟨hdb, _, _, hall⟩ := findAndGateOtherClLoop_some _ _ _ _ d htwin
  rw [hinvSso] at hdb
  obtain ⟨hdocc, hdlen⟩ := sortedOcc_buckets gate st numOp _ d hdb
  rw [h1] at hdocc
  obtain ⟨clD, hgetD, hbD⟩ := hoccur b.neg d hdocc
  have hDacc : (runLoop ext gate rr st numOp pre).1.st.clauseAt d = clD :=
    clauseAt_append hgetD hinvCl
  have hDst : st.clauseAt d = clD := clauseAt_of_get hgetD
  rw [hDst, hCacc] at hdlen
  have hsub : ∀ l ∈ clD.lits, l = b.neg ∨ (l ∈ clC.lits ∧ l ≠ a.neg) := by
    intro l hl
    have hall2 : allSeenBut (searchState gate (runLoop ext gate rr st numOp pre).1.st c).seen
        gate.lit1.neg clD.lits = true := by
      have : (searchState gate (runLoop ext gate rr st numOp pre).1.st c).clauseAt d =
          (runLoop ext gate rr st numOp pre).1.st.clauseAt d := rfl
      rw [this, hDacc] at hall
      exact hall
    simp only [allSeenBut, List.all_eq_true, Bool.or_eq_true, beq_iff_eq] at hall2
    rcases hall2 l hl with h | h
    · left; rw [h, h1]
    · right
      have := (searchState_seen gate _ c hinvSeen l).mp h
      rw [hCacc, mem_residual, h0] at this
      exact this
  exact ⟨clC, clD, hgetC, hgetD, haC, hbD,
    twin_residual_eq clC.lits clD.lits a.neg b.neg
      (hnodup clC (List.get?_mem hgetC)) (hnodup clD (List.get?_mem hgetD)) haC hbD hdlen hsub⟩

/-- In an arena whose clauses have pairwise distinct literals and never hold a literal together
with its negation, with the occurrence lists of the arena and `seen` all false on entry, a
clause of `occur[¬a]` that the main loop reaches and that holds, besides `¬a`, a literal on the
variable of `b` gets no twin: the tests on the size and on `seen` leave none. -/
theorem treatAndGate_second_input_clean (ext : Ext) (gate : OrGate) (a b : Lit) (rr : Bool)
    (st : State) (numOp : Nat) (pre post : List Nat) (c : Nat) (l : Lit)
    (hg : gate.lits = [a, b])
    (hseen : ∀ n, st.seen n = false)
    (hnodup : ∀ cl, some cl ∈ st.clauses → cl.lits.Nodup)
    (hclean : ∀ cl, some cl ∈ st.clauses → ∀ x ∈ cl.lits, x.neg ∉ cl.lits)
    (hoccur : st.occurWf)
    (hcs : st.occur a.neg.toInt = pre ++ c :: post)
    (hpre : (runLoop ext gate rr st numOp pre).2 = true)
    (hl : l ∈ (st.clauseAt c).lits) (hla : l ≠ a.neg) (hvar : l.var = b.var) :
    twinOf gate (runLoop ext gate rr st numOp pre).1.st c = none ∧
    findsTwin gate (sortedOcc gate st numOp).abstraction (sortedOcc gate st numOp).maxSize
      (runLoop ext gate rr st numOp pre).1.st c = false ∧
    (stepAt ext gate rr st numOp pre c).1.foundPotential =
      (runLoop ext gate rr st numOp pre).1.foundPotential := by
  have hnone : twinOf gate (runLoop ext gate rr st numOp pre).1.st c = none := by
    cases htwin : twinOf gate (runLoop ext gate rr st numOp pre).1.st c with
    | none => rfl
    | some d =>
      exfalso
      obtain ⟨clC, clD, hgetC, hgetD, _, hbD, hset⟩ := twinOf_residual ext gate a b rr st numOp
        pre post c d hg hseen hnodup hoccur hcs hpre htwin
      rw [clauseAt_of_get hgetC] at hl
      have hlD := (hset l).mpr ⟨hl, hla⟩
      rcases (Lit.var_eq_iff l b).mp hvar with h | h
      · rw [h] at hlD
        exact hclean clD (List.get?_mem hgetD) b hlD.1 hbD
      · exact hlD.2 h
  have hfinds : findsTwin gate (sortedOcc gate st numOp).abstraction
      (sortedOcc gate st numOp).maxSize (runLoop ext gate rr st numOp pre).1.st c = false := by
    unfold findsTwin
    rw [hnone]
    simp
  refine ⟨hnone, hfinds, ?_⟩
  have hcount := treatAndGateBody_counts ext gate rr (sortedOcc gate st numOp).abstraction
    (sortedOcc gate st numOp).maxSize (runLoop ext gate rr st numOp pre).1 c
  rw [hfinds] at hcount
  simpa using hcount

/-- A clause that holds, besides `¬a`, a literal on the variable of the output `w` is skipped
by the step of the main loop of `treatAndGate`: it is not counted and nothing is scheduled for
unlinking. -/
theorem treatAndGateBody_output_blocked (ext : Ext) (gate : OrGate) (rr : Bool) (ab ms : Nat)
    (acc : AndGateAcc) (c : Nat) (l : Lit)
    (hl : l ∈ (acc.st.clauseAt c).lits) (hla : l ≠ gate.lit0.neg)
    (hvar : l.var = gate.eqLit.var) :
    findsTwin gate ab ms acc.st c = false ∧
    (treatAndGateBody ext gate rr ab ms acc c).1.foundPotential = acc.foundPotential ∧
    (treatAndGateBody ext gate rr ab ms acc c).1.clToUnlink = acc.clToUnlink ∧
    (treatAndGateBody ext gate rr ab ms acc c).1.st = acc.st := by
  have hok : litsOk gate acc.st (acc.st.clauseAt c) = false := by
    simp only [litsOk, List.all_eq_false]
    refine ⟨l, hl, ?_⟩
    simp [hla, hvar]
  have hfinds : findsTwin gate ab ms acc.st c = false := by
    unfold findsTwin
    rw [hok]
    simp
  have hcount := treatAndGateBody_counts ext gate rr ab ms acc c
  rw [hfinds] at hcount
  refine ⟨hfinds, by simpa using hcount, ?_, ?_⟩
  · unfold treatAndGateBody
    split_ifs <;> first | rfl | simp_all
  · unfold treatAndGateBody
    split_ifs <;> first | rfl | simp_all

/-- A step of the main loop of `treatAndGate` that finds no twin for the clause counts nothing,
schedules nothing for unlinking and records no call. -/
theorem treatAndGateBody_not_found (ext : Ext) (gate : OrGate) (rr : Bool) (ab ms : Nat)
    (acc : AndGateAcc) (c : Nat) (h : findsTwin gate ab ms acc.st c = false) :
    (treatAndGateBody ext gate rr ab ms acc c).1.foundPotential = acc.foundPotential ∧
    (treatAndGateBody ext gate rr ab ms acc c).1.clToUnlink = acc.clToUnlink ∧
    (treatAndGateBody ext gate rr ab ms acc c).1.st.trace = acc.st.trace ∧
    (treatAndGateBody ext gate rr ab ms acc c).2 = true := by
  have hf : (findAndGateOtherCl (markSeen gate acc.st (acc.st.clauseAt c))
      ((markSeen gate acc.st (acc.st.clauseAt c)).sizeSortedOcc
        (acc.st.clauseAt c).lits.length) gate.lit1.neg
      (abst2Of gate (acc.st.clauseAt c))) =
      (searchState gate acc.st c, twinOf gate acc.st c) := rfl
  unfold findsTwin at h
  unfold treatAndGateBody
  simp only [hf]
  by_cases h1 : passesFilter ab ms acc.st c = true
  · have h1n : ¬ (!passesFilter ab ms acc.st c) = true := by simp [h1]
    rw [if_neg h1n]
    by_cases h2 : (!(acc.st.clauseAt c).learnt && gate.learnt) = true
    · rw [if_pos h2]
      exact ⟨rfl, rfl, rfl, rfl⟩
    · rw [if_neg h2]
      by_cases h3 : litsOk gate acc.st (acc.st.clauseAt c) = true
      · have h3n : ¬ (!litsOk gate acc.st (acc.st.clauseAt c)) = true := by simp [h3]
        rw [if_neg h3n]
        cases ht : twinOf gate acc.st c with
        | none => exact ⟨rfl, rfl, rfl, rfl⟩
        | some d =>
          exfalso
          simp only [Bool.not_eq_true] at h2
          rw [h1, h2, h3, ht] at h
          simp at h
      · have h3n : (!litsOk gate acc.st (acc.st.clauseAt c)) = true := by simp [h3]
        rw [if_pos h3n]
        exact ⟨rfl, rfl, rfl, rfl⟩
  · have h1n : (!passesFilter ab ms acc.st c) = true := by simp [h1]
    rw [if_pos h1n]
    exact ⟨rfl, rfl, rfl, rfl⟩

/-- C24. Blocked variables in AND contraction: take a gate with the inputs `[a, b]` and the
output `w`, an arena whose clauses have pairwise distinct literals and hold no literal together
with its negation, with the occurrence lists of the arena and `seen` all false on entry, and a
clause `C` of `occur[¬a]` that the main loop of `treatAndGate` reaches and that holds, besides
`¬a`, a literal on the variable of `b` or on the variable of `w`. The step for `C` finds no
twin: `C` is not counted in `foundPotential`, nothing is scheduled for unlinking, no call is
recorded, and the loop goes on. And when `a ≠ b`, no step of the loop finds `C` as the twin of
another clause, so that `C` is not scheduled for unlinking in that role either. -/
theorem treatAndGate_blocked_variables (ext : Ext) (gate : OrGate) (a b : Lit) (rr : Bool)
    (st : State) (numOp : Nat) (pre post : List Nat) (c : Nat) (l : Lit)
    (hg : gate.lits = [a, b])
    (hseen : ∀ n, st.seen n = false)
    (hnodup : ∀ cl, some cl ∈ st.clauses → cl.lits.Nodup)
    (hclean : ∀ cl, some cl ∈ st.clauses → ∀ x ∈ cl.lits, x.neg ∉ cl.lits)
    (hoccur : st.occurWf)
    (hcs : st.occur a.neg.toInt = pre ++ c :: post)
    (hpre : (runLoop ext gate rr st numOp pre).2 = true)
    (hl : l ∈ (st.clauseAt c).lits) (hla : l ≠ a.neg)
    (hvar : l.var = b.var ∨ l.var = gate.eqLit.var) :
    findsTwin gate (sortedOcc gate st numOp).abstraction (sortedOcc gate st numOp).maxSize
      (runLoop ext gate rr st numOp pre).1.st c = false ∧
    (stepAt ext gate rr st numOp pre c).1.foundPotential =
      (runLoop ext gate rr st numOp pre).1.foundPotential ∧
    (stepAt ext gate rr st numOp pre c).1.clToUnlink =
      (runLoop ext gate rr st numOp pre).1.clToUnlink ∧
    (stepAt ext gate rr st numOp pre c).1.st.trace =
      (runLoop ext gate rr st numOp pre).1.st.trace ∧
    (stepAt ext gate rr st numOp pre c).2 = true ∧
    (a ≠ b → ∀ (pre2 post2 : List Nat) (c2 : Nat),
      st.occur a.neg.toInt = pre2 ++ c2 :: post2 →
      (runLoop ext gate rr st numOp pre2).2 = true →
      twinOf gate (runLoop ext gate rr st numOp pre2).1.st c2 ≠ some c) := by
  have h0 : gate.lit0 = a := by simp [OrGate.lit0, hg]
  have h1 : gate.lit1 = b := by simp [OrGate.lit1, hg]
  have hnotwin : a ≠ b → ∀ (pre2 post2 : List Nat) (c2 : Nat),
      st.occur a.neg.toInt = pre2 ++ c2 :: post2 →
      (runLoop ext gate rr st numOp pre2).2 = true →
      twinOf gate (runLoop ext gate rr st numOp pre2).1.st c2 ≠ some c := by
    intro hab pre2 post2 c2 _ hpre2 htwin
    obtain ⟨hinvSeen, ⟨extra, hinvCl⟩, _⟩ := runLoop_inv ext gate rr st numOp pre2 hseen hpre2
    obtain ⟨clC, hgetC, haC⟩ := hoccur a.neg c (by rw [hcs]; simp)
    have hCacc : (runLoop ext gate rr st numOp pre2).1.st.clauseAt c = clC :=
      clauseAt_append hgetC hinvCl
    obtain ⟨_, _, _, hall⟩ := findAndGateOtherClLoop_some _ _ _ _ c htwin
    have hall2 : allSeenBut (searchState gate (runLoop ext gate rr st numOp pre2).1.st c2).seen
        gate.lit1.neg clC.lits = true := by
      have : (searchState gate (runLoop ext gate rr st numOp pre2).1.st c2).clauseAt c =
          (runLoop ext gate rr st numOp pre2).1.st.clauseAt c := rfl
      rw [this, hCacc] at hall
      exact hall
    simp only [allSeenBut, List.all_eq_true, Bool.or_eq_true, beq_iff_eq] at hall2
    rcases hall2 a.neg haC with h | h
    · rw [h1] at h
      exact hab (Lit.neg_inj h)
    · have := (searchState_seen gate _ c2 hinvSeen a.neg).mp h
      rw [mem_residual, h0] at this
      exact this.2 rfl
  have hfinds : findsTwin gate (sortedOcc gate st numOp).abstraction
      (sortedOcc gate st numOp).maxSize (runLoop ext gate rr st numOp pre).1.st c = false := by
    rcases hvar with hv | hv
    · exact (treatAndGate_second_input_clean ext gate a b rr st numOp pre post c l hg hseen
        hnodup hclean hoccur hcs hpre hl hla hv).2.1
    · obtain ⟨⟨extra, hinvCl⟩, _⟩ := runLoop_arena ext gate rr st numOp pre hpre
      obtain ⟨clC, hgetC, _⟩ := hoccur a.neg c (by rw [hcs]; simp)
      have hCacc : (runLoop ext gate rr st numOp pre).1.st.clauseAt c = st.clauseAt c := by
        rw [clauseAt_append hgetC hinvCl, clauseAt_of_get hgetC]
      exact (treatAndGateBody_output_blocked ext gate rr _ _ (runLoop ext gate rr st numOp pre).1
        c l (by rw [hCacc]; exact hl) (by rw [h0]; exact hla) hv).1
  obtain ⟨k1, k2, k3, k4⟩ := treatAndGateBody_not_found ext gate rr
    (sortedOcc gate st numOp).abstraction (sortedOcc gate st numOp).maxSize
    (runLoop ext gate rr st numOp pre).1 c hfinds
  exact ⟨hfinds, k1, k2, k3, k4, hnotwin⟩

/-- The theorem on blocked variables at the arena with `¬2 ∨ 3 ∨ 4` and `¬3 ∨ 4 ∨ 5`, for the
gate `1 ⇔ (2 ∨ 3)` and the first clause, which holds the literal `3` on the variable of the
second input. -/
theorem treatAndGate_blocked_variables_witness :
    findsTwin gate123 (sortedOcc gate123 scenarioBlocked 0).abstraction
      (sortedOcc gate123 scenarioBlocked 0).maxSize
      (runLoop scenarioExt gate123 true scenarioBlocked 0 []).1.st 0 = false ∧
    (stepAt scenarioExt gate123 true scenarioBlocked 0 [] 0).1.foundPotential =
      (runLoop scenarioExt gate123 true scenarioBlocked 0 []).1.foundPotential ∧
    (stepAt scenarioExt gate123 true scenarioBlocked 0 [] 0).1.clToUnlink =
      (runLoop scenarioExt gate123 true scenarioBlocked 0 []).1.clToUnlink ∧
    (stepAt scenarioExt gate123 true scenarioBlocked 0 [] 0).1.st.trace =
      (runLoop scenarioExt gate123 true scenarioBlocked 0 []).1.st.trace ∧
    (stepAt scenarioExt gate123 true scenarioBlocked 0 [] 0).2 = true ∧
    (pos 2 ≠ pos 3 → ∀ (pre2 post2 : List Nat) (c2 : Nat),
      scenarioBlocked.occur (pos 2).neg.toInt = pre2 ++ c2 :: post2 →
      (runLoop scenarioExt gate123 true scenarioBlocked 0 pre2).2 = true →
      twinOf gate123 (runLoop scenarioExt gate123 true scenarioBlocked 0 pre2).1.st c2
        ≠ some 0) := by
  have hcl : scenarioBlocked.clauses =
      [some (clauseOf [ng 2, pos 3, pos 4]), some (clauseOf [ng 3, pos 4, pos 5])] :=
    stateOf_clauses _
  refine treatAndGate_blocked_variables scenarioExt gate123 (pos 2) (pos 3) true scenarioBlocked
    0 [] [] 0 (pos 3) rfl (stateOf_seen _) ?_ ?_ (stateOf_occurWf _) (by decide) rfl
    (by decide) (by decide) (Or.inl (by decide))
  · intro cl h
    rw [hcl] at h
    simp only [List.mem_cons, Option.some.injEq, List.not_mem_nil, or_false] at h
    rcases h with h | h <;> subst h <;> decide
  · intro cl h
    rw [hcl] at h
    simp only [List.mem_cons, Option.some.injEq, List.not_mem_nil, or_false] at h
    rcases h with h | h <;> subst h <;> decide

/-! ### The count of `createNewVars` and the number of unset variables -/

/-- Each candidate materialised adds one variable: the state in which position `i` is tested
has `i` variables more than the state in which the loop began. -/
theorem stateAt_numVars (ext : Ext) (cands : List NewGateData) (st : State) :
    ∀ (i : Nat) (s : State), stateAt ext cands st i = some s → s.numVars = st.numVars + i := by
  intro i
  induction i with
  | zero =>
    intro s h
    rw [stateAt_zero, Option.some.injEq] at h
    rw [← h]; rfl
  | succ j ih =>
    intro s h
    obtain ⟨s0, n, s', hs0, _, hm, ht⟩ := stateAt_step ext j cands st s h
    obtain ⟨_, _, _, _, _, _, _, _, _, _, hnv, _⟩ := materialise_spec ext s0 s' n hm
    rw [ht]
    show s'.numVars = _
    rw [hnv, ih s0 hs0]
    omega

set_option maxRecDepth 100000 in
/-- With 99 unset variables on entry and two candidates, `createNewVars` adds two variables:
the bounds 101 and `⌊99 / 99⌋ + 1 = 2` hold, the second with equality. -/
theorem createNewVars_limits_witness :
    ∃ st2, createNewVars twoPairsExt scenarioNinetyNine = some (st2, 2) ∧
      ranking twoPairsExt scenarioNinetyNine = [⟨pos 3, pos 4, 0, 7⟩, ⟨pos 1, pos 2, 0, 6⟩] ∧
      st2.orGates = [OrGate.new [pos 3, pos 4] (pos 99) false,
        OrGate.new [pos 1, pos 2] (pos 100) false] ∧
      (2 : Nat) ≤ 101 ∧ (2 : Nat) ≤ 99 / 99 + 1 := by
  have hr : ranking twoPairsExt scenarioNinetyNine =
      [⟨pos 3, pos 4, 0, 7⟩, ⟨pos 1, pos 2, 0, 6⟩] := by decide!
  have hsome : ∃ st2, createNewVars twoPairsExt scenarioNinetyNine = some (st2, 2) := by
    have h1 : (createNewVars twoPairsExt scenarioNinetyNine).isSome = true := by decide!
    have h2 : (createNewVars twoPairsExt scenarioNinetyNine).map (fun r => r.2) = some 2 := by
      decide!
    obtain ⟨r, hr⟩ := Option.isSome_iff_exists.mp h1
    rw [hr] at h2
    simp only [Option.map_some', Option.some.injEq] at h2
    exact ⟨r.1, by rw [hr, ← h2]⟩
  obtain ⟨st2, h⟩ := hsome
  have key := createNewVars_limits twoPairsExt scenarioNinetyNine st2 2 h
  have hnv : (sampled twoPairsExt scenarioNinetyNine).st.numVars = 99 :=
    (sampled_frame twoPairsExt scenarioNinetyNine).2.2
  refine ⟨st2, h, hr, ?_, key.2.2.2.1, key.2.2.2.2.2 99 ?_⟩
  · rw [key.2.1, hr, hnv, (sampled_frame twoPairsExt scenarioNinetyNine).1]
    decide
  · intro i s hs
    have := stateAt_numVars twoPairsExt _ _ i s hs
    rw [hnv] at this
    show s.numVars ≤ 99 + i
    omega

set_option maxRecDepth 100000 in
/-- C17, as stated, fails when the materialised variables raise the number of unset variables
past a multiple of 100. The solver has 99 unset variables on entry and the sampler finds two
candidates. The candidate at position 0 is materialised; the new variable is unset, so the test
of position 1 reads 100 unset variables and lets it through: the call returns 2, more than
`⌊0.01 · 99⌋ + 1 = 1`. -/
theorem createNewVars_count_counterexample :
    twoPairsExt.getNumUnsetVars scenarioNinetyNine = 99 ∧
    (ranking twoPairsExt scenarioNinetyNine).length = 2 ∧
    (stateAt twoPairsExt (ranking twoPairsExt scenarioNinetyNine)
      (sampled twoPairsExt scenarioNinetyNine).st 1).map twoPairsExt.getNumUnsetVars = some 100 ∧
    (createNewVars twoPairsExt scenarioNinetyNine).map (fun r => r.2) = some 2 ∧
    ¬ (2 ≤ 99 / 100 + 1) := by
  refine ⟨by decide, by decide!, by decide!, by decide!, by decide⟩

/-! ### The second run of `doAllOptimisationWithGates` -/

theorem evolves_refl (s : State) : Evolves s s :=
  ⟨le_refl _, fun _ _ => Or.inl rfl, fun _ _ => rfl, fun _ _ _ h => h, rfl, fun h => h⟩

theorem evolves_trans {a b c : State} (h1 : Evolves a b) (h2 : Evolves b c) : Evolves a c := by
  obtain ⟨l1, g1, d1, o1, q1, w1⟩ := h1
  obtain ⟨l2, g2, d2, o2, q2, w2⟩ := h2
  refine ⟨le_trans l1 l2, ?_, ?_, ?_, q2.trans q1, fun h => w2 (w1 h)⟩
  · intro i hi
    rcases g2 i (lt_of_lt_of_le hi l1) with h | h
    · rcases g1 i hi with h' | h'
      · exact Or.inl (h.trans h')
      · exact Or.inr (h.trans h')
    · exact Or.inr h
  · intro i hi
    exact (d2 i (lt_of_lt_of_le hi l1)).trans (d1 i hi)
  · intro i n hi h
    exact o1 i n hi (o2 i n (lt_of_lt_of_le hi l1) h)

/-- A step that leaves the arena, `clauseData`, the occurrence lists and the gate store alone
lets the database evolve. -/
theorem evolves_of_frame {s t : State} (h1 : t.clauses = s.clauses)
    (h2 : t.clauseData = s.clauseData) (h3 : t.occur = s.occur) (h4 : t.orGates = s.orGates) :
    Evolves s t := by
  refine ⟨by rw [h1], fun i _ => Or.inl (by rw [h1]), fun i _ => by rw [h2],
    fun i n _ h => by rw [← h3]; exact h, h4, ?_⟩
  intro hw l i hi
  rw [h3] at hi
  rw [h1]
  exact hw l i hi

theorem evolves_unlinkClause (s : State) (c : Nat) : Evolves s (unlinkClause s c) := by
  refine ⟨by simp [unlinkClause], ?_, fun _ _ => rfl, ?_, rfl, ?_⟩
  · intro i hi
    simp only [unlinkClause, List.get?_eq_getElem?]
    by_cases hci : c = i
    · subst hci
      right
      rw [List.getElem?_set_self hi]
    · left
      rw [List.getElem?_set_ne hci]
  · intro i n _ h
    simp only [unlinkClause, List.mem_filter] at h
    exact h.1
  · intro hw l i hi
    simp only [unlinkClause, List.mem_filter, Bool.not_eq_true', beq_eq_false_iff_ne,
      ne_eq] at hi
    obtain ⟨cl, hcl, hl⟩ := hw l i hi.1
    refine ⟨cl, ?_, hl⟩
    simp only [unlinkClause, List.get?_eq_getElem?]
    rw [List.getElem?_set_ne (fun e => hi.2 e.symm)]
    rw [List.get?_eq_getElem?] at hcl
    exact hcl

theorem evolves_linkInClause (s : State) (cl : Clause) : Evolves s (linkInClause s cl) := by
  refine ⟨by simp [linkInClause], ?_, ?_, ?_, rfl, linkInClause_occurWf s cl⟩
  · intro i hi
    left
    simp only [linkInClause, List.get?_eq_getElem?]
    rw [List.getElem?_append_left hi]
  · intro i hi
    simp only [linkInClause]
    rw [Function.update_noteq (Nat.ne_of_lt hi)]
  · intro i n hi h
    simp only [linkInClause] at h
    split_ifs at h
    · rcases List.mem_append.mp h with h | h
      · exact h
      · simp only [List.mem_singleton] at h
        omega
    · exact h

theorem evolves_addClauseInt (ext : Ext) (s : State) (lits : List Lit) (learnt : Bool)
    (stats : ClauseStats) : Evolves s (addClauseInt ext s lits learnt stats).1 :=
  evolves_of_frame rfl rfl rfl rfl

theorem evolves_foldl_unlinkClause (l : List Nat) :
    ∀ s : State, Evolves s (l.foldl unlinkClause s) := by
  induction l with
  | nil => intro s; exact evolves_refl s
  | cons x rest ih =>
    intro s
    exact evolves_trans (evolves_unlinkClause s x) (ih _)

theorem replaceClause_evolves (ext : Ext) (s : State) (x : Nat) (lits : List Lit)
    (learnt : Bool) (stats : ClauseStats) :
    Evolves s (replaceClause ext s x lits learnt stats).1 := by
  have h1 := evolves_unlinkClause s x
  have h2 := evolves_addClauseInt ext (unlinkClause s x) lits learnt stats
  unfold replaceClause
  simp only []
  split_ifs
  · exact evolves_trans h1 h2
  · split
    · exact evolves_trans h1 h2
    · exact evolves_trans (evolves_trans h1 h2) (evolves_linkInClause _ _)

theorem shortenClause_evolves (ext : Ext) (gate : OrGate) (s : State) (x : Nat) :
    Evolves s (shortenClause ext gate s x).1 := by
  unfold shortenClause
  by_cases hskip : ((s.clauseData x).defOfOrGate || (!(s.clauseAt x).learnt && gate.learnt)) = true
  · rw [if_pos hskip]
    exact evolves_refl s
  · rw [if_neg hskip]
    have h0 : Evolves s { s with numOrGateReplaced := s.numOrGateReplaced + 1 } :=
      evolves_of_frame rfl rfl rfl rfl
    simp only []
    split
    · exact evolves_trans h0 (evolves_unlinkClause _ x)
    · refine evolves_trans ?_ (replaceClause_evolves ext _ _ _ _ _)
      exact evolves_of_frame rfl rfl rfl rfl

theorem shortenLoop_evolves (ext : Ext) (gate : OrGate) (l : List Nat) :
    ∀ s : State, Evolves s (shortenLoop ext gate l s).1 := by
  induction l with
  | nil => intro s; exact evolves_refl s
  | cons x rest ih =>
    intro s
    have h1 := shortenClause_evolves ext gate s x
    simp only [shortenLoop]
    split_ifs
    · exact evolves_trans h1 (ih _)
    · exact h1

theorem shortenWithOrGate_evolves (ext : Ext) (gate : OrGate) (s : State) :
    Evolves s (shortenWithOrGate ext gate s).1 := by
  unfold shortenWithOrGate
  have h0 : Evolves s (s.charge (ext.findSubsumed0 s gate.lits (calcAbstraction gate.lits)).2) :=
    evolves_of_frame rfl rfl rfl rfl
  exact evolves_trans h0 (shortenLoop_evolves ext gate _ _)

theorem shortenGatesLoop_evolves (ext : Ext) (gs : List OrGate) :
    ∀ s : State, Evolves s (shortenGatesLoop ext gs s).1 := by
  induction gs with
  | nil => intro s; exact evolves_refl s
  | cons g rest ih =>
    intro s
    simp only [shortenGatesLoop]
    split_ifs
    · exact ih s
    · exact evolves_refl s
    · exact shortenWithOrGate_evolves ext g s
    · exact evolves_trans (shortenWithOrGate_evolves ext g s) (ih _)

theorem evolves_slot {s t : State} (h : Evolves s t) {i : Nat} {cl : Clause}
    (hi : i < s.clauses.length) (ht : t.clauses.get? i = some (some cl)) :
    s.clauses.get? i = some (some cl) := by
  rcases h.2.1 i hi with e | e
  · rw [← e]; exact ht
  · rw [e] at ht
    simp at ht

theorem evolves_none {s t : State} (h : Evolves s t) {i : Nat}
    (hs : s.clauses.get? i = some none) : t.clauses.get? i = some none := by
  have hi : i < s.clauses.length := by
    rw [List.get?_eq_getElem?] at hs
    exact (List.getElem?_eq_some_iff.mp hs).1
  rcases h.2.1 i hi with e | e
  · rw [e]; exact hs
  · exact e

theorem get_lt {s : State} {i : Nat} {o : Option Clause} (h : s.clauses.get? i = some o) :
    i < s.clauses.length := by
  rw [List.get?_eq_getElem?] at h
  exact (List.getElem?_eq_some_iff.mp h).1

theorem unlinkClause_slot (s : State) (x : Nat) (hx : x < s.clauses.length) :
    (unlinkClause s x).clauses.get? x = some none := by
  simp only [unlinkClause, List.get?_eq_getElem?]
  rw [List.getElem?_set_self hx]

theorem replaceClause_unlinks (ext : Ext) (s : State) (x : Nat) (lits : List Lit)
    (learnt : Bool) (stats : ClauseStats) (hx : x < s.clauses.length) :
    (replaceClause ext s x lits learnt stats).1.clauses.get? x = some none := by
  have h1 := unlinkClause_slot s x hx
  have h2 : (addClauseInt ext (unlinkClause s x) lits learnt stats).1.clauses.get? x =
      some none := h1
  unfold replaceClause
  simp only []
  split_ifs
  · exact h2
  · split
    · exact h2
    · exact evolves_none (evolves_linkInClause _ _) h2

/-- A step of `shortenWithOrGate` for a clause that the skip test does not protect empties the
slot of the clause. -/
theorem shortenClause_unlinks (ext : Ext) (gate : OrGate) (s : State) (x : Nat)
    (hx : x < s.clauses.length)
    (hskip : ¬ ((s.clauseData x).defOfOrGate || (!(s.clauseAt x).learnt && gate.learnt)) = true) :
    (shortenClause ext gate s x).1.clauses.get? x = some none := by
  unfold shortenClause
  rw [if_neg hskip]
  simp only []
  split
  · exact unlinkClause_slot _ x hx
  · exact replaceClause_unlinks ext _ x _ _ _ hx

theorem shortenClause_skip (ext : Ext) (gate : OrGate) (s : State) (x : Nat)
    (hskip : ((s.clauseData x).defOfOrGate || (!(s.clauseAt x).learnt && gate.learnt)) = true) :
    shortenClause ext gate s x = (s, true) := by
  unfold shortenClause
  rw [if_pos hskip]

/-- After the loop of `shortenWithOrGate` has gone through the clauses `cs` and returned true,
every slot of `cs` that still holds its clause is protected by the skip test. -/
theorem shortenLoop_done (ext : Ext) (gate : OrGate) (cs : List Nat) :
    ∀ s : State, (shortenLoop ext gate cs s).2 = true →
      ∀ c ∈ cs, c < s.clauses.length → ∀ cl,
        (shortenLoop ext gate cs s).1.clauses.get? c = some (some cl) →
        ((s.clauseData c).defOfOrGate || (!cl.learnt && gate.learnt)) = true := by
  induction cs with
  | nil => intro s _ c hc; simp at hc
  | cons x rest ih =>
    intro s hflag c hc hlt cl hget
    have e1 := shortenClause_evolves ext gate s x
    simp only [shortenLoop] at hflag hget
    by_cases hr : (shortenClause ext gate s x).2 = true
    · rw [if_pos hr] at hflag hget
      have e2 := shortenLoop_evolves ext gate rest (shortenClause ext gate s x).1
      have hlt1 : c < (shortenClause ext gate s x).1.clauses.length := lt_of_lt_of_le hlt e1.1
      have hmid := evolves_slot e2 hlt1 hget
      have hs := evolves_slot e1 hlt hmid
      by_cases hskip : ((s.clauseData x).defOfOrGate ||
          (!(s.clauseAt x).learnt && gate.learnt)) = true
      · rcases List.mem_cons.mp hc with hcx | hcr
        · subst hcx
          rw [clauseAt_of_get hs] at hskip
          exact hskip
        · have := ih _ hflag c hcr hlt1 cl hget
          rw [e1.2.2.1 c hlt] at this
          exact this
      · rcases List.mem_cons.mp hc with hcx | hcr
        · subst hcx
          have := shortenClause_unlinks ext gate s c hlt hskip
          rw [this] at hmid
          simp at hmid
        · have := ih _ hflag c hcr hlt1 cl hget
          rw [e1.2.2.1 c hlt] at this
          exact this
    · rw [if_neg hr] at hflag
      simp at hflag

/-- When `findSubsumed0` hands back every clause that holds the inputs of the gate and
`shortenWithOrGate` returns true, every slot that still holds a clause with all the inputs is
protected by the skip test. -/
theorem shortenWithOrGate_done (ext : Ext) (gate : OrGate) (s : State)
    (hsub : ∀ i cl, s.clauses.get? i = some (some cl) → (∀ l ∈ gate.lits, l ∈ cl.lits) →
      i ∈ (ext.findSubsumed0 s gate.lits (calcAbstraction gate.lits)).1)
    (hflag : (shortenWithOrGate ext gate s).2 = true) (c : Nat) (cl : Clause)
    (hc : c < s.clauses.length)
    (hget : (shortenWithOrGate ext gate s).1.clauses.get? c = some (some cl))
    (hall : ∀ l ∈ gate.lits, l ∈ cl.lits) :
    ((s.clauseData c).defOfOrGate || (!cl.learnt && gate.learnt)) = true := by
  have hs := evolves_slot (shortenWithOrGate_evolves ext gate s) hc hget
  have hmem := hsub c cl hs hall
  exact shortenLoop_done ext gate _ _ hflag c hmem hc cl hget

/-- When the loop of the OR-gate treatment returns true and has not left at its budget test,
every live gate of the store has been applied, in a state that the state on entry evolved
into and that evolved into the state on return. -/
theorem shortenGatesLoop_visits (ext : Ext) (gs : List OrGate) :
    ∀ s : State, (shortenGatesLoop ext gs s).2 = true → shortenCut ext gs s = false →
      ∀ g ∈ gs, g.removed = false →
        ∃ t, Evolves s t ∧ (shortenWithOrGate ext g t).2 = true ∧
          Evolves (shortenWithOrGate ext g t).1 (shortenGatesLoop ext gs s).1 := by
  induction gs with
  | nil => intro s _ _ g hg; simp at hg
  | cons g0 rest ih =>
    intro s hflag hcut g hg hlive
    simp only [shortenGatesLoop] at hflag ⊢
    simp only [shortenCut] at hcut
    by_cases hrem : g0.removed = true
    · rw [if_pos hrem] at hflag hcut ⊢
      rcases List.mem_cons.mp hg with e | hmem
      · subst e
        rw [hrem] at hlive
        simp at hlive
      · exact ih s hflag hcut g hmem hlive
    · rw [if_neg hrem] at hflag hcut ⊢
      by_cases hb : s.budget < 0
      · rw [if_pos hb] at hcut
        simp at hcut
      · rw [if_neg hb] at hflag hcut ⊢
        by_cases hr : (shortenWithOrGate ext g0 s).2 = true
        · have hrn : ¬ (!(shortenWithOrGate ext g0 s).2) = true := by simp [hr]
          rw [if_neg hrn] at hflag hcut ⊢
          rcases List.mem_cons.mp hg with e | hmem
          · subst e
            exact ⟨s, evolves_refl s, hr, shortenGatesLoop_evolves ext rest _⟩
          · obtain ⟨t, h1, h2, h3⟩ := ih _ hflag hcut g hmem hlive
            exact ⟨t, evolves_trans (shortenWithOrGate_evolves ext g0 s) h1, h2, h3⟩
        · have hrn : (!(shortenWithOrGate ext g0 s).2) = true := by simp [hr]
          rw [if_pos hrn] at hflag
          simp at hflag

theorem treatAndGateClause_evolves (ext : Ext) (s : State) (d : Nat) (gate : OrGate)
    (cl : Clause) : Evolves s (treatAndGateClause ext s d gate cl).1 := by
  unfold treatAndGateClause
  simp only [addClauseInt]
  cases hr : (ext.addClauseInt _ _ _ _).cl with
  | none =>
    simp only []
    split_ifs <;> exact evolves_of_frame rfl rfl rfl rfl
  | some ncl =>
    simp only []
    split_ifs <;>
      exact evolves_trans (evolves_of_frame rfl rfl rfl rfl) (evolves_linkInClause _ ncl)

theorem treatAndGateBody_evolves (ext : Ext) (gate : OrGate) (rr : Bool) (ab ms : Nat)
    (acc : AndGateAcc) (c : Nat) :
    Evolves acc.st (treatAndGateBody ext gate rr ab ms acc c).1.st := by
  have hs : Evolves acc.st (searchState gate acc.st c) := evolves_of_frame rfl rfl rfl rfl
  rcases treatAndGateBody_cases ext gate rr ab ms acc c with ⟨h, _⟩ | ⟨h, _⟩ | ⟨d, h | h⟩
  · rw [h]; exact evolves_refl _
  · rw [h]; exact evolves_of_frame rfl rfl rfl rfl
  · rw [h]; exact evolves_trans hs (treatAndGateClause_evolves ext _ d gate _)
  · rw [h]
    exact evolves_trans (evolves_trans hs (treatAndGateClause_evolves ext _ d gate _))
      (evolves_of_frame rfl rfl rfl rfl)

theorem treatAndGateLoop_evolves (ext : Ext) (gate : OrGate) (rr : Bool) (ab ms : Nat)
    (cs : List Nat) :
    ∀ acc : AndGateAcc, Evolves acc.st (treatAndGateLoop ext gate rr ab ms cs acc).1.st := by
  induction cs with
  | nil => intro acc; exact evolves_refl _
  | cons c rest ih =>
    intro acc
    have h1 := treatAndGateBody_evolves ext gate rr ab ms acc c
    simp only [treatAndGateLoop]
    split_ifs
    · exact evolves_trans h1 (ih _)
    · exact h1

theorem loopStart_evolves (gate : OrGate) (st : State) (numOp : Nat) :
    Evolves st (loopStart gate st numOp).st := by
  obtain ⟨sso, s2, cells, hso⟩ := sortedOcc_frame gate st numOp
  have hstart : (loopStart gate st numOp).st = (sortedOcc gate st numOp).st.movePtr
      (((sortedOcc gate st numOp).st.occur gate.lit0.neg.toInt).length * 3) := rfl
  rw [hstart, hso]
  exact evolves_of_frame rfl rfl rfl rfl

theorem runLoop_evolves (ext : Ext) (gate : OrGate) (rr : Bool) (st : State) (numOp : Nat)
    (cs : List Nat) : Evolves st (runLoop ext gate rr st numOp cs).1.st :=
  evolves_trans (loopStart_evolves gate st numOp) (treatAndGateLoop_evolves ext gate rr _ _ cs _)

theorem treatAndGate_evolves (ext : Ext) (gate : OrGate) (rr : Bool) (st : State)
    (fp numOp : Nat) : Evolves st (treatAndGate ext gate rr st fp numOp).st := by
  unfold treatAndGate
  simp only []
  split_ifs
  · exact evolves_refl st
  · exact runLoop_evolves ext gate rr st numOp _
  · refine evolves_trans (runLoop_evolves ext gate rr st numOp
      ((sortedOcc gate st numOp).st.occur gate.lit0.neg.toInt)) ?_
    refine evolves_trans ?_ (evolves_foldl_unlinkClause _ _)
    exact evolves_of_frame rfl rfl rfl rfl

theorem andGatesLoop_evolves (ext : Ext) (gs : List OrGate) :
    ∀ (s : State) (fp numOp : Nat), Evolves s (andGatesLoop ext gs s fp numOp).1 := by
  induction gs with
  | nil => intro s fp numOp; exact evolves_refl s
  | cons g rest ih =>
    intro s fp numOp
    simp only [andGatesLoop]
    split_ifs
    · exact ih s fp numOp
    · exact evolves_refl s
    · exact treatAndGate_evolves ext g true s fp numOp
    · exact evolves_trans (treatAndGate_evolves ext g true s fp numOp) (ih _ _ _)

/-- When the loop of the AND-gate treatment returns true and has not left at its budget test,
`treatAndGate` has been called for every live gate of the store with at most two inputs, in a
state that the state on entry evolved into and that evolved into the state on return. -/
theorem andGatesLoop_visits (ext : Ext) (gs : List OrGate) :
    ∀ (s : State) (fp numOp : Nat), (andGatesLoop ext gs s fp numOp).2 = true →
      andCut ext gs s fp numOp = false →
      ∀ g ∈ gs, g.removed = false → g.lits.length ≤ 2 →
        ∃ t fp2 numOp2, Evolves s t ∧ (treatAndGate ext g true t fp2 numOp2).ret = true ∧
          Evolves (treatAndGate ext g true t fp2 numOp2).st
            (andGatesLoop ext gs s fp numOp).1 := by
  induction gs with
  | nil => intro s fp numOp _ _ g hg; simp at hg
  | cons g0 rest ih =>
    intro s fp numOp hflag hcut g hg hlive hsmall
    simp only [andGatesLoop] at hflag ⊢
    simp only [andCut] at hcut
    by_cases hrem : (g0.removed || decide (g0.lits.length > 2)) = true
    · rw [if_pos hrem] at hflag hcut ⊢
      rcases List.mem_cons.mp hg with e | hmem
      · subst e
        rw [hlive] at hrem
        simp only [Bool.false_or, decide_eq_true_eq] at hrem
        omega
      · exact ih s fp numOp hflag hcut g hmem hlive hsmall
    · rw [if_neg hrem] at hflag hcut ⊢
      by_cases hb : s.budget < 0
      · rw [if_pos hb] at hcut
        simp at hcut
      · rw [if_neg hb] at hflag hcut ⊢
        by_cases hr : (treatAndGate ext g0 true s fp numOp).ret = true
        · have hrn : ¬ (!(treatAndGate ext g0 true s fp numOp).ret) = true := by simp [hr]
          rw [if_neg hrn] at hflag hcut ⊢
          rcases List.mem_cons.mp hg with e | hmem
          · subst e
            exact ⟨s, fp, numOp, evolves_refl s, hr, andGatesLoop_evolves ext rest _ _ _⟩
          · obtain ⟨t, fp2, numOp2, h1, h2, h3⟩ := ih _ _ _ hflag hcut g hmem hlive hsmall
            exact ⟨t, fp2, numOp2,
              evolves_trans (treatAndGate_evolves ext g0 true s fp numOp) h1, h2, h3⟩
        · have hrn : (!(treatAndGate ext g0 true s fp numOp).ret) = true := by simp [hr]
          rw [if_pos hrn] at hflag
          simp at hflag

/-- When the loop of the AND-gate treatment returns true and the scratch bitmaps `seen` and
`seen2` are all false on entry, they are all false on return. -/
theorem andGatesLoop_scratch (ext : Ext) (gs : List OrGate) :
    ∀ (s : State) (fp numOp : Nat), (andGatesLoop ext gs s fp numOp).2 = true →
      (∀ n, s.seen n = false) → (∀ n, s.seen2 n = false) →
      (∀ n, (andGatesLoop ext gs s fp numOp).1.seen n = false) ∧
      (∀ n, (andGatesLoop ext gs s fp numOp).1.seen2 n = false) := by
  induction gs with
  | nil => intro s fp numOp _ h1 h2; exact ⟨h1, h2⟩
  | cons g0 rest ih =>
    intro s fp numOp hflag h1 h2
    simp only [andGatesLoop] at hflag ⊢
    by_cases hrem : (g0.removed || decide (g0.lits.length > 2)) = true
    · rw [if_pos hrem] at hflag ⊢
      exact ih s fp numOp hflag h1 h2
    · rw [if_neg hrem] at hflag ⊢
      by_cases hb : s.budget < 0
      · rw [if_pos hb]
        exact ⟨h1, h2⟩
      · rw [if_neg hb] at hflag ⊢
        by_cases hr : (treatAndGate ext g0 true s fp numOp).ret = true
        · have hrn : ¬ (!(treatAndGate ext g0 true s fp numOp).ret) = true := by simp [hr]
          rw [if_neg hrn] at hflag ⊢
          obtain ⟨k1, k2⟩ := treatAndGate_scratch_clean ext g0 true s fp numOp h1 h2 hr
          exact ih _ _ _ hflag k1 k2
        · have hrn : (!(treatAndGate ext g0 true s fp numOp).ret) = true := by simp [hr]
          rw [if_pos hrn] at hflag
          simp at hflag

theorem getD_none_get {s : State} {i : Nat} (h : s.clauses.getD i none = none)
    (hi : i < s.clauses.length) : s.clauses.get? i = some none := by
  rw [List.getD_eq_getElem?_getD, List.getElem?_eq_getElem hi] at h
  rw [List.get?_eq_getElem?, List.getElem?_eq_getElem hi]
  simpa using h

/-- A clause `C` of `occur[¬lits[0]]` for which `occur[¬lits[1]]` holds a clause `D` that
passes the tests of `treatAndGate` as its twin is found by the step of the main loop that
reaches it: the tests are those that `treatAndGate` makes, on the clauses and their entries of
`clauseData`. -/
theorem findsTwin_of_twin (ext : Ext) (gate : OrGate) (rr : Bool) (st : State) (numOp : Nat)
    (pre : List Nat) (c d : Nat) (clC clD : Clause)
    (hpre : (runLoop ext gate rr st numOp pre).2 = true)
    (hc : st.clauses.get? c = some (some clC)) (hd : st.clauses.get? d = some (some clD))
    (hdo : d ∈ st.occur gate.lit1.neg.toInt)
    (haC : gate.lit0.neg ∈ clC.lits) (hbD : gate.lit1.neg ∈ clD.lits)
    (hndC : clC.lits.Nodup) (hndD : clD.lits.Nodup)
    (habstC : (st.clauseData c).abst = calcAbstraction clC.lits)
    (hsizeC : (st.clauseData c).size = clC.lits.length)
    (hdefC : (st.clauseData c).defOfOrGate = false)
    (hlC : clC.learnt = true ∨ gate.learnt = false)
    (hvars : ∀ l ∈ clC.lits, l = gate.lit0.neg ∨
      (l.var ≠ complVar gate.lit1.var ∧ l.var ≠ gate.eqLit.var))
    (hdefD : (st.clauseData d).defOfOrGate = false)
    (hlD : clD.learnt = true ∨ gate.learnt = false)
    (habstD : (st.clauseData d).abst = abst2Of gate clC)
    (hsubD : ∀ l ∈ clD.lits, l = gate.lit1.neg ∨ l ∈ residual gate clC)
    (hlen : clD.lits.length = clC.lits.length) :
    findsTwin gate (sortedOcc gate st numOp).abstraction (sortedOcc gate st numOp).maxSize
      (runLoop ext gate rr st numOp pre).1.st c = true := by
  obtain ⟨⟨extra, hinvCl⟩, hinvSso⟩ := runLoop_arena ext gate rr st numOp pre hpre
  have hinvS2 := runLoop_seen2 ext gate rr st numOp pre hpre
  have hCst : st.clauseAt c = clC := clauseAt_of_get hc
  have hDst : st.clauseAt d = clD := clauseAt_of_get hd
  have hCacc : (runLoop ext gate rr st numOp pre).1.st.clauseAt c = clC :=
    clauseAt_append hc hinvCl
  have hDacc : (runLoop ext gate rr st numOp pre).1.st.clauseAt d = clD :=
    clauseAt_append hd hinvCl
  have hdataC := runLoop_clauseData ext gate rr st numOp pre hpre c (get_lt hc)
  have hdataD := runLoop_clauseData ext gate rr st numOp pre hpre d (get_lt hd)
  have hset : ∀ l, (l ∈ clD.lits ∧ l ≠ gate.lit1.neg) ↔ (l ∈ clC.lits ∧ l ≠ gate.lit0.neg) :=
    twin_residual_eq clC.lits clD.lits gate.lit0.neg gate.lit1.neg hndC hndD haC hbD hlen
      (fun l hl => (hsubD l hl).imp id (fun h => mem_residual.mp h))
  have heD : notSkipped gate st d := ⟨hdefD, by rw [hDst]; exact hlD⟩
  -- what calculateSortedOcc has taken up
  obtain ⟨⟨r1, r2, r3, r4⟩, r5⟩ := sortedOcc_records gate st numOp d hdo heD
  rw [hDst] at r1 r2 r3 r4
  -- the first test
  have hpass : passesFilter (sortedOcc gate st numOp).abstraction
      (sortedOcc gate st numOp).maxSize (runLoop ext gate rr st numOp pre).1.st c = true := by
    have e2 : (st.clauseData c).abst ||| (sortedOcc gate st numOp).abstraction =
        (sortedOcc gate st numOp).abstraction := by
      rw [habstC]
      apply calcAbstraction_sub
      intro l hl
      by_cases hla : l = gate.lit0.neg
      · rw [hla, Lit.var_neg]; exact r5
      · exact r4 l ((hset l).mpr ⟨hl, hla⟩).1
    have e3 : ¬ (st.clauseData c).size > (sortedOcc gate st numOp).maxSize := by
      rw [hsizeC, ← hlen]; omega
    have e4 : ((sortedOcc gate st numOp).st.sizeSortedOcc (st.clauseData c).size).isEmpty
        = false := by
      rw [hsizeC, ← hlen]
      cases hx : (sortedOcc gate st numOp).st.sizeSortedOcc clD.lits.length with
      | nil => rw [hx] at r1; simp at r1
      | cons y ys => rfl
    unfold passesFilter
    rw [hdataC, hinvSso, hdefC, e2, e4]
    simp [e3]
  -- the learnt test
  have hlearnt : (!(!((runLoop ext gate rr st numOp pre).1.st.clauseAt c).learnt &&
      gate.learnt)) = true := by
    rw [hCacc]
    rcases hlC with h | h <;> simp [h]
  -- the loop that computes OK
  have hok : litsOk gate (runLoop ext gate rr st numOp pre).1.st
      ((runLoop ext gate rr st numOp pre).1.st.clauseAt c) = true := by
    rw [hCacc]
    simp only [litsOk, List.all_eq_true]
    intro l hl
    by_cases hla : l = gate.lit0.neg
    · simp [hla]
    · rcases hvars l hl with h | ⟨f1, f2⟩
      · exact absurd h hla
      · have f3 : (runLoop ext gate rr st numOp pre).1.st.seen2 l.toInt = true := by
          rw [hinvS2]
          exact r3 l ((hset l).mpr ⟨hl, hla⟩).1
        simp [f1, f2, f3]
  -- the search for the twin
  have htwin : (twinOf gate (runLoop ext gate rr st numOp pre).1.st c).isSome = true := by
    unfold twinOf
    refine findAndGateOtherClLoop_finds _ _ _ _ d ?_ ?_ ?_ ?_
    · rw [hinvSso, hCacc, ← hlen]
      exact r1
    · show ((runLoop ext gate rr st numOp pre).1.st.clauseData d).defOfOrGate = false
      rw [hdataD]
      exact hdefD
    · show ((runLoop ext gate rr st numOp pre).1.st.clauseData d).abst = _
      rw [hdataD, habstD, hCacc]
    · have hcl : (searchState gate (runLoop ext gate rr st numOp pre).1.st c).clauseAt d =
          (runLoop ext gate rr st numOp pre).1.st.clauseAt d := rfl
      rw [hcl, hDacc]
      simp only [allSeenBut, List.all_eq_true, Bool.or_eq_true, beq_iff_eq]
      intro l hl
      rcases hsubD l hl with hlb | hm
      · left; exact hlb
      · right
        show ((residual gate ((runLoop ext gate rr st numOp pre).1.st.clauseAt c)).foldl
          (fun s l => Function.update s l.toInt true)
          (runLoop ext gate rr st numOp pre).1.st.seen) l.toInt = true
        rw [foldl_mark, hCacc]
        rw [if_pos ⟨l, hm, rfl⟩]
  unfold findsTwin
  rw [hpass, hlearnt, hok, htwin]
  rfl

/-- A call of `treatAndGate` that returns true empties the slot of every clause `C` of
`occur[¬lits[0]]` for which `occur[¬lits[1]]` holds a clause `D` that passes its tests as the
twin of `C`. -/
theorem treatAndGate_unlinks_twin (ext : Ext) (gate : OrGate) (st : State) (fp numOp : Nat)
    (c d : Nat) (clC clD : Clause)
    (hret : (treatAndGate ext gate true st fp numOp).ret = true)
    (hc : st.clauses.get? c = some (some clC)) (hd : st.clauses.get? d = some (some clD))
    (hco : c ∈ st.occur gate.lit0.neg.toInt) (hdo : d ∈ st.occur gate.lit1.neg.toInt)
    (haC : gate.lit0.neg ∈ clC.lits) (hbD : gate.lit1.neg ∈ clD.lits)
    (hndC : clC.lits.Nodup) (hndD : clD.lits.Nodup)
    (habstC : (st.clauseData c).abst = calcAbstraction clC.lits)
    (hsizeC : (st.clauseData c).size = clC.lits.length)
    (hdefC : (st.clauseData c).defOfOrGate = false)
    (hlC : clC.learnt = true ∨ gate.learnt = false)
    (hvars : ∀ l ∈ clC.lits, l = gate.lit0.neg ∨
      (l.var ≠ complVar gate.lit1.var ∧ l.var ≠ gate.eqLit.var))
    (hdefD : (st.clauseData d).defOfOrGate = false)
    (hlD : clD.learnt = true ∨ gate.learnt = false)
    (habstD : (st.clauseData d).abst = abst2Of gate clC)
    (hsubD : ∀ l ∈ clD.lits, l = gate.lit1.neg ∨ l ∈ residual gate clC)
    (hlen : clD.lits.length = clC.lits.length) :
    (treatAndGate ext gate true st fp numOp).st.clauses.get? c = some none := by
  have he : ¬ ((st.occur gate.lit0.neg.toInt).isEmpty ||
      (st.occur gate.lit1.neg.toInt).isEmpty) = true := by
    intro h
    rcases Bool.or_eq_true_iff.mp h with h | h
    · rw [List.isEmpty_iff] at h
      rw [h] at hco
      simp at hco
    · rw [List.isEmpty_iff] at h
      rw [h] at hdo
      simp at hdo
  have hcs : (sortedOcc gate st numOp).st.occur gate.lit0.neg.toInt =
      st.occur gate.lit0.neg.toInt := sortedOcc_occur gate st numOp _
  obtain ⟨pre, post, hsplit⟩ := List.append_of_mem hco
  have hlt := get_lt hc
  have hev := treatAndGate_evolves ext gate true st fp numOp
  have hlt2 : c < (treatAndGate ext gate true st fp numOp).st.clauses.length :=
    lt_of_lt_of_le hlt hev.1
  apply getD_none_get _ hlt2
  unfold treatAndGate at hret ⊢
  rw [if_neg he] at hret ⊢
  simp only [] at hret ⊢
  rw [hcs, hsplit] at hret ⊢
  by_cases hr : (runLoop ext gate true st numOp (pre ++ c :: post)).2 = true
  · have hrn : ¬ (!(runLoop ext gate true st numOp (pre ++ c :: post)).2) = true := by
      simp [hr]
    rw [if_neg hrn]
    -- the loop has gone through `pre` and through `c`
    have hpre : (runLoop ext gate true st numOp pre).2 = true := by
      by_contra hp
      have := treatAndGateLoop_append ext gate true (sortedOcc gate st numOp).abstraction
        (sortedOcc gate st numOp).maxSize pre (c :: post) (loopStart gate st numOp)
      unfold runLoop at hr hp
      rw [this, if_neg hp] at hr
      exact hp hr
    have hsp := runLoop_split ext gate true st numOp pre post c hpre
    have hstep : (stepAt ext gate true st numOp pre c).2 = true := by
      by_contra hp
      rw [hsp, if_neg hp] at hr
      simp at hr
    rw [if_pos hstep] at hsp
    have hfinds := findsTwin_of_twin ext gate true st numOp pre c d clC clD hpre hc hd hdo
      haC hbD hndC hndD habstC hsizeC hdefC hlC hvars hdefD hlD habstD hsubD hlen
    have hcount := treatAndGateBody_counts ext gate true (sortedOcc gate st numOp).abstraction
      (sortedOcc gate st numOp).maxSize (runLoop ext gate true st numOp pre).1 c
    rw [hfinds] at hcount
    obtain ⟨d2, _, _, _, _, _, hun, _, _⟩ := treatAndGateBody_found ext gate
      (sortedOcc gate st numOp).abstraction (sortedOcc gate st numOp).maxSize
      (runLoop ext gate true st numOp pre).1 c hcount
    have hin : c ∈ (stepAt ext gate true st numOp pre c).1.clToUnlink := by
      unfold stepAt
      rw [hun]
      exact mem_setInsert.mpr (Or.inl rfl)
    have hin2 : c ∈ (runLoop ext gate true st numOp (pre ++ c :: post)).1.clToUnlink := by
      rw [hsp]
      exact treatAndGateLoop_clToUnlink ext gate true _ _ post c _ hin
    exact ((foldl_unlinkClause _ _).2.2 c hin2).1
  · have hrn : (!(runLoop ext gate true st numOp (pre ++ c :: post)).2) = true := by
      simp [hr]
    rw [if_pos hrn] at hret
    simp at hret

theorem shortenLoop_skip_all (ext : Ext) (gate : OrGate) (cs : List Nat) (s : State)
    (h : ∀ c ∈ cs, ((s.clauseData c).defOfOrGate ||
      (!(s.clauseAt c).learnt && gate.learnt)) = true) :
    shortenLoop ext gate cs s = (s, true) := by
  induction cs with
  | nil => rfl
  | cons x rest ih =>
    simp only [shortenLoop]
    rw [shortenClause_skip ext gate s x (h x (List.mem_cons_self _ _))]
    simp only [if_true]
    exact ih (fun c hc => h c (List.mem_cons_of_mem _ hc))

/-- When every clause that `findSubsumed0` hands back is protected by the skip test,
`shortenWithOrGate` charges the budget and does nothing else. -/
theorem shortenWithOrGate_idle (ext : Ext) (gate : OrGate) (s : State)
    (h : ∀ c ∈ (ext.findSubsumed0 s gate.lits (calcAbstraction gate.lits)).1,
      ((s.clauseData c).defOfOrGate || (!(s.clauseAt c).learnt && gate.learnt)) = true) :
    shortenWithOrGate ext gate s =
      (s.charge (ext.findSubsumed0 s gate.lits (calcAbstraction gate.lits)).2, true) := by
  unfold shortenWithOrGate
  exact shortenLoop_skip_all ext gate _ _ h

/-- When, whatever the budget cells hold, every clause that `findSubsumed0` hands back for a
live gate is protected by the skip test, the loop of the OR-gate treatment changes the budget
cells and nothing else, and returns true. -/
theorem shortenGatesLoop_idle (ext : Ext) (gs : List OrGate) (s0 : State)
    (h : ∀ g ∈ gs, g.removed = false → ∀ cells,
      ∀ c ∈ (ext.findSubsumed0 { s0 with cells := cells } g.lits (calcAbstraction g.lits)).1,
        ((s0.clauseData c).defOfOrGate || (!(s0.clauseAt c).learnt && g.learnt)) = true) :
    ∀ cells, ∃ cells2,
      shortenGatesLoop ext gs { s0 with cells := cells } = ({ s0 with cells := cells2 }, true) := by
  induction gs with
  | nil => intro cells; exact ⟨cells, rfl⟩
  | cons g rest ih =>
    intro cells
    have ih2 := ih (fun g2 hg2 => h g2 (List.mem_cons_of_mem _ hg2))
    simp only [shortenGatesLoop]
    by_cases hrem : g.removed = true
    · rw [if_pos hrem]
      exact ih2 cells
    · rw [if_neg hrem]
      by_cases hb : ({ s0 with cells := cells } : State).budget < 0
      · rw [if_pos hb]
        exact ⟨cells, rfl⟩
      · rw [if_neg hb]
        have hlive : g.removed = false := by simpa using hrem
        rw [shortenWithOrGate_idle ext g _ (h g (List.mem_cons_self _ _) hlive cells)]
        simp only [Bool.not_true, Bool.false_eq_true, if_false]
        exact ih2 _

/-- What a step of the main loop of `treatAndGate` that finds a twin has tested, when `seen` is
all false before the step. -/
theorem findsTwin_tests (gate : OrGate) (ab ms : Nat) (s : State) (c : Nat)
    (hseen : ∀ n, s.seen n = false) (h : findsTwin gate ab ms s c = true) :
    ∃ d, d ∈ s.sizeSortedOcc (s.clauseAt c).lits.length ∧
      (s.clauseData c).defOfOrGate = false ∧
      ((s.clauseAt c).learnt = true ∨ gate.learnt = false) ∧
      (∀ l ∈ (s.clauseAt c).lits, l = gate.lit0.neg ∨
        (l.var ≠ complVar gate.lit1.var ∧ l.var ≠ gate.eqLit.var)) ∧
      (s.clauseData d).defOfOrGate = false ∧
      (s.clauseData d).abst = abst2Of gate (s.clauseAt c) ∧
      (∀ l ∈ (s.clauseAt d).lits, l = gate.lit1.neg ∨ l ∈ residual gate (s.clauseAt c)) := by
  unfold findsTwin at h
  simp only [Bool.and_eq_true] at h
  obtain ⟨⟨⟨h1, h2⟩, h3⟩, h4⟩ := h
  obtain ⟨d, hd⟩ := Option.isSome_iff_exists.mp h4
  unfold twinOf at hd
  obtain ⟨k1, k2, k3, k4⟩ := findAndGateOtherClLoop_some _ _ _ _ d hd
  refine ⟨d, k1, ?_, ?_, ?_, k2, k3, ?_⟩
  · unfold passesFilter at h1
    cases hx : (s.clauseData c).defOfOrGate
    · rfl
    · rw [hx] at h1
      simp at h1
  · cases hl : (s.clauseAt c).learnt
    · right
      cases hg : gate.learnt
      · rfl
      · rw [hl, hg] at h2
        simp at h2
    · left; rfl
  · intro l hl
    simp only [litsOk, List.all_eq_true] at h3
    have := h3 l hl
    by_cases hla : l = gate.lit0.neg
    · exact Or.inl hla
    · right
      simp only [Bool.or_eq_true, beq_iff_eq, hla, false_or, Bool.not_eq_true',
        Bool.or_eq_false_iff, beq_eq_false_iff_ne, ne_eq, Bool.not_eq_false'] at this
      exact ⟨this.1.1, this.1.2⟩
  · intro l hl
    have hcl : (searchState gate s c).clauseAt d = s.clauseAt d := rfl
    rw [hcl] at k4
    simp only [allSeenBut, List.all_eq_true, Bool.or_eq_true, beq_iff_eq] at k4
    rcases k4 l hl with e | e
    · exact Or.inl e
    · exact Or.inr ((searchState_seen gate s c hseen l).mp e)

/-- A step of the main loop of `treatAndGate` that finds no twin leaves the state as it was or
as the search left it, with `seen` cleared; it schedules nothing for unlinking and the loop
goes on. -/
theorem treatAndGateBody_idle (ext : Ext) (gate : OrGate) (rr : Bool) (ab ms : Nat)
    (acc : AndGateAcc) (c : Nat) (h : findsTwin gate ab ms acc.st c = false) :
    ((treatAndGateBody ext gate rr ab ms acc c).1.st = acc.st ∨
      (treatAndGateBody ext gate rr ab ms acc c).1.st =
        clearSeen (acc.st.clauseAt c) (searchState gate acc.st c)) ∧
    (treatAndGateBody ext gate rr ab ms acc c).1.clToUnlink = acc.clToUnlink ∧
    (treatAndGateBody ext gate rr ab ms acc c).2 = true := by
  have hf : (findAndGateOtherCl (markSeen gate acc.st (acc.st.clauseAt c))
      ((markSeen gate acc.st (acc.st.clauseAt c)).sizeSortedOcc
        (acc.st.clauseAt c).lits.length) gate.lit1.neg
      (abst2Of gate (acc.st.clauseAt c))) =
      (searchState gate acc.st c, twinOf gate acc.st c) := rfl
  unfold findsTwin at h
  unfold treatAndGateBody
  simp only [hf]
  by_cases h1 : passesFilter ab ms acc.st c = true
  · have h1n : ¬ (!passesFilter ab ms acc.st c) = true := by simp [h1]
    rw [if_neg h1n]
    by_cases h2 : (!(acc.st.clauseAt c).learnt && gate.learnt) = true
    · rw [if_pos h2]
      exact ⟨Or.inl rfl, rfl, rfl⟩
    · rw [if_neg h2]
      by_cases h3 : litsOk gate acc.st (acc.st.clauseAt c) = true
      · have h3n : ¬ (!litsOk gate acc.st (acc.st.clauseAt c)) = true := by simp [h3]
        rw [if_neg h3n]
        cases ht : twinOf gate acc.st c with
        | none => exact ⟨Or.inr rfl, rfl, rfl⟩
        | some d =>
          exfalso
          simp only [Bool.not_eq_true] at h2
          rw [h1, h2, h3, ht] at h
          simp at h
      · have h3n : (!litsOk gate acc.st (acc.st.clauseAt c)) = true := by simp [h3]
        rw [if_pos h3n]
        exact ⟨Or.inl rfl, rfl, rfl⟩
  · have h1n : (!passesFilter ab ms acc.st c) = true := by simp [h1]
    rw [if_pos h1n]
    exact ⟨Or.inl rfl, rfl, rfl⟩

theorem quiet_refl (s : State) : Quiet s s := ⟨rfl, rfl, rfl, rfl, rfl, rfl, rfl, rfl, rfl⟩

theorem quiet_trans {a b c : State} (h1 : Quiet a b) (h2 : Quiet b c) : Quiet a c := by
  obtain ⟨a1, a2, a3, a4, a5, a6, a7, a8, a9⟩ := h1
  obtain ⟨b1, b2, b3, b4, b5, b6, b7, b8, b9⟩ := h2
  exact ⟨b1.trans a1, b2.trans a2, b3.trans a3, b4.trans a4, b5.trans a5, b6.trans a6,
    b7.trans a7, b8.trans a8, b9.trans a9⟩

/-- When no step finds a twin, the main loop of `treatAndGate` leaves the database, the trace
and the counters as they were, schedules nothing for unlinking and returns true. -/
theorem treatAndGateLoop_idle (ext : Ext) (gate : OrGate) (rr : Bool) (ab ms : Nat)
    (u : State) (sso : Nat → List Nat) (s2 : Nat → Bool) (cs : List Nat)
    (hno : ∀ c ∈ cs, ∀ s : State, s.clauses = u.clauses → s.clauseData = u.clauseData →
      (∀ n, s.seen n = false) → s.sizeSortedOcc = sso → s.seen2 = s2 →
      findsTwin gate ab ms s c = false) :
    ∀ acc : AndGateAcc, Quiet u acc.st → (∀ n, acc.st.seen n = false) →
      acc.st.sizeSortedOcc = sso → acc.st.seen2 = s2 → acc.clToUnlink = [] →
      Quiet u (treatAndGateLoop ext gate rr ab ms cs acc).1.st ∧
      (treatAndGateLoop ext gate rr ab ms cs acc).1.clToUnlink = [] ∧
      (treatAndGateLoop ext gate rr ab ms cs acc).2 = true := by
  induction cs with
  | nil => intro acc hq _ _ _ hcl; exact ⟨hq, hcl, rfl⟩
  | cons c rest ih =>
    intro acc hq hseen hsso hs2 hcl
    have hf := hno c (List.mem_cons_self _ _) acc.st hq.1 hq.2.1 hseen hsso hs2
    obtain ⟨hst, hun, hflag⟩ := treatAndGateBody_idle ext gate rr ab ms acc c hf
    simp only [treatAndGateLoop]
    rw [if_pos hflag]
    apply ih (fun c2 hc2 => hno c2 (List.mem_cons_of_mem _ hc2))
    · rcases hst with e | e
      · rw [e]; exact hq
      · rw [e]; exact quiet_trans hq ⟨rfl, rfl, rfl, rfl, rfl, rfl, rfl, rfl, rfl⟩
    · rcases hst with e | e
      · rw [e]; exact hseen
      · rw [e]; exact clearSeen_seen gate _ acc.st _ hseen rfl
    · rcases hst with e | e
      · rw [e]; exact hsso
      · rw [e]; exact hsso
    · rcases hst with e | e
      · rw [e]; exact hs2
      · rw [e]; exact hs2
    · rw [hun]; exact hcl

/-- When no step of its main loop finds a twin, `treatAndGate` leaves the database, the trace
and the counters as they were and returns true, with the scratch bitmaps all false as on
entry. -/
theorem treatAndGate_idle (ext : Ext) (gate : OrGate) (u : State) (fp numOp : Nat)
    (hseen : ∀ n, u.seen n = false) (hseen2 : ∀ n, u.seen2 n = false)
    (hno : ∀ c ∈ u.occur gate.lit0.neg.toInt, ∀ s : State, s.clauses = u.clauses →
      s.clauseData = u.clauseData → (∀ n, s.seen n = false) →
      s.sizeSortedOcc = (sortedOcc gate u numOp).st.sizeSortedOcc →
      s.seen2 = (sortedOcc gate u numOp).st.seen2 →
      findsTwin gate (sortedOcc gate u numOp).abstraction (sortedOcc gate u numOp).maxSize s c
        = false) :
    Quiet u (treatAndGate ext gate true u fp numOp).st ∧
    (treatAndGate ext gate true u fp numOp).ret = true ∧
    (∀ n, (treatAndGate ext gate true u fp numOp).st.seen n = false) ∧
    (∀ n, (treatAndGate ext gate true u fp numOp).st.seen2 n = false) := by
  have key : Quiet u (treatAndGate ext gate true u fp numOp).st ∧
      (treatAndGate ext gate true u fp numOp).ret = true := by
    by_cases he : ((u.occur gate.lit0.neg.toInt).isEmpty ||
        (u.occur gate.lit1.neg.toInt).isEmpty) = true
    · unfold treatAndGate
      rw [if_pos he]
      exact ⟨quiet_refl u, rfl⟩
    · obtain ⟨sso, s2, cells, hso⟩ := sortedOcc_frame gate u numOp
      have hstart : (loopStart gate u numOp).st = (sortedOcc gate u numOp).st.movePtr
          (((sortedOcc gate u numOp).st.occur gate.lit0.neg.toInt).length * 3) := rfl
      have hq0 : Quiet u (loopStart gate u numOp).st := by
        rw [hstart, hso]
        exact ⟨rfl, rfl, rfl, rfl, rfl, rfl, rfl, rfl, rfl⟩
      have hseen0 : ∀ n, (loopStart gate u numOp).st.seen n = false := by
        intro n
        rw [hstart, hso]
        exact hseen n
      have hcs : (sortedOcc gate u numOp).st.occur gate.lit0.neg.toInt =
          u.occur gate.lit0.neg.toInt := sortedOcc_occur gate u numOp _
      obtain ⟨k1, k2, k3⟩ := treatAndGateLoop_idle ext gate true
        (sortedOcc gate u numOp).abstraction (sortedOcc gate u numOp).maxSize u
        (sortedOcc gate u numOp).st.sizeSortedOcc (sortedOcc gate u numOp).st.seen2
        ((sortedOcc gate u numOp).st.occur gate.lit0.neg.toInt)
        (by rw [hcs]; exact hno) (loopStart gate u numOp) hq0 hseen0 rfl rfl rfl
      unfold treatAndGate
      rw [if_neg he]
      simp only []
      have k3n : ¬ (!(runLoop ext gate true u numOp
          ((sortedOcc gate u numOp).st.occur gate.lit0.neg.toInt)).2) = true := by
        unfold runLoop
        simp [k3]
      rw [if_neg k3n]
      refine ⟨?_, rfl⟩
      have k2b : (runLoop ext gate true u numOp
          ((sortedOcc gate u numOp).st.occur gate.lit0.neg.toInt)).1.clToUnlink = [] := k2
      simp only [k2b, List.foldl_nil]
      exact quiet_trans k1 ⟨rfl, rfl, rfl, rfl, rfl, rfl, rfl, rfl, rfl⟩
  obtain ⟨c1, c2⟩ := treatAndGate_scratch_clean ext gate true u fp numOp hseen hseen2 key.2
  exact ⟨key.1, key.2, c1, c2⟩

/-- When no call of `treatAndGate` finds a twin, the loop of the AND-gate treatment leaves the
database, the trace and the counters as they were and returns true, with the scratch bitmaps
all false as on entry. -/
theorem andGatesLoop_idle (ext : Ext) (gs : List OrGate) (u : State)
    (hno : ∀ g ∈ gs, g.removed = false → g.lits.length ≤ 2 → ∀ (w : State) (numOp : Nat),
      Quiet u w → (∀ n, w.seen n = false) → (∀ n, w.seen2 n = false) →
      ∀ c ∈ w.occur g.lit0.neg.toInt, ∀ s : State, s.clauses = w.clauses →
        s.clauseData = w.clauseData → (∀ n, s.seen n = false) →
        s.sizeSortedOcc = (sortedOcc g w numOp).st.sizeSortedOcc →
        s.seen2 = (sortedOcc g w numOp).st.seen2 →
        findsTwin g (sortedOcc g w numOp).abstraction (sortedOcc g w numOp).maxSize s c
          = false) :
    ∀ (w : State) (fp numOp : Nat), Quiet u w → (∀ n, w.seen n = false) →
      (∀ n, w.seen2 n = false) →
      Quiet u (andGatesLoop ext gs w fp numOp).1 ∧ (andGatesLoop ext gs w fp numOp).2 = true := by
  induction gs with
  | nil => intro w fp numOp hq _ _; exact ⟨hq, rfl⟩
  | cons g rest ih =>
    intro w fp numOp hq h1 h2
    have ih2 := ih (fun g2 hg2 => hno g2 (List.mem_cons_of_mem _ hg2))
    simp only [andGatesLoop]
    by_cases hrem : (g.removed || decide (g.lits.length > 2)) = true
    · rw [if_pos hrem]
      exact ih2 w fp numOp hq h1 h2
    · rw [if_neg hrem]
      by_cases hb : w.budget < 0
      · rw [if_pos hb]
        exact ⟨hq, rfl⟩
      · rw [if_neg hb]
        simp only [Bool.or_eq_true, decide_eq_true_eq, not_or, Bool.not_eq_true, not_lt] at hrem
        obtain ⟨q1, q2, q3, q4⟩ := treatAndGate_idle ext g w fp numOp h1 h2
          (hno g (List.mem_cons_self _ _) hrem.1 (by omega) w numOp hq h1 h2)
        have q2n : ¬ (!(treatAndGate ext g true w fp numOp).ret) = true := by simp [q2]
        rw [if_neg q2n]
        exact ih2 _ _ _ (quiet_trans hq q1) q3 q4

theorem replaceClause_scratch (ext : Ext) (s : State) (x : Nat) (lits : List Lit)
    (learnt : Bool) (stats : ClauseStats) :
    (replaceClause ext s x lits learnt stats).1.seen = s.seen ∧
    (replaceClause ext s x lits learnt stats).1.seen2 = s.seen2 := by
  unfold replaceClause
  simp only []
  split_ifs
  · exact ⟨rfl, rfl⟩
  · split <;> exact ⟨rfl, rfl⟩

theorem shortenClause_scratch (ext : Ext) (gate : OrGate) (s : State) (x : Nat) :
    (shortenClause ext gate s x).1.seen = s.seen ∧
    (shortenClause ext gate s x).1.seen2 = s.seen2 := by
  unfold shortenClause
  split_ifs
  · exact ⟨rfl, rfl⟩
  · simp only []
    split
    · exact ⟨rfl, rfl⟩
    · exact replaceClause_scratch ext _ _ _ _ _

theorem shortenLoop_scratch (ext : Ext) (gate : OrGate) (l : List Nat) :
    ∀ s : State, (shortenLoop ext gate l s).1.seen = s.seen ∧
      (shortenLoop ext gate l s).1.seen2 = s.seen2 := by
  induction l with
  | nil => intro s; exact ⟨rfl, rfl⟩
  | cons x rest ih =>
    intro s
    have h1 := shortenClause_scratch ext gate s x
    simp only [shortenLoop]
    split_ifs
    · exact ⟨(ih _).1.trans h1.1, (ih _).2.trans h1.2⟩
    · exact h1

theorem shortenGatesLoop_scratch (ext : Ext) (gs : List OrGate) :
    ∀ s : State, (shortenGatesLoop ext gs s).1.seen = s.seen ∧
      (shortenGatesLoop ext gs s).1.seen2 = s.seen2 := by
  induction gs with
  | nil => intro s; exact ⟨rfl, rfl⟩
  | cons g rest ih =>
    intro s
    have h1 : (shortenWithOrGate ext g s).1.seen = s.seen ∧
        (shortenWithOrGate ext g s).1.seen2 = s.seen2 := by
      unfold shortenWithOrGate
      exact shortenLoop_scratch ext g _ _
    simp only [shortenGatesLoop]
    split_ifs
    · exact ih s
    · exact ⟨rfl, rfl⟩
    · exact h1
    · exact ⟨(ih _).1.trans h1.1, (ih _).2.trans h1.2⟩

/-- The loop of `findEqOrGates` changes the solver's `ok` flag and the trace, and nothing
else. -/
theorem findEqLoop_frame (ext : Ext) (ps : List (OrGate × OrGate)) :
    ∀ st : State, ∃ ok trace,
      (findEqLoop ext ps st).1 = { st with ok := ok, trace := trace } := by
  induction ps with
  | nil => intro st; exact ⟨st.ok, st.trace, rfl⟩
  | cons p rest ih =>
    intro st
    obtain ⟨g1, g2⟩ := p
    simp only [findEqLoop]
    split_ifs
    · exact ih st
    · exact ⟨_, _, rfl⟩
    · obtain ⟨ok, trace, h⟩ := ih (addXorClauseInt ext st [g1.eqLit.unsign, g2.eqLit.unsign]
        (xor g1.eqLit.sign g2.eqLit.sign)).1
      exact ⟨ok, trace, by rw [h]; rfl⟩
    · exact ih st

theorem findEqOrGates_frame (ext : Ext) (st : State) :
    ∃ ok trace, (findEqOrGates ext st).1 = { st with ok := ok, trace := trace } :=
  findEqLoop_frame ext _ st

/-- The shape of a run of `doAllOptimisationWithGates` with the OR-gate and the AND-gate
treatment switched on that returns true: both treatments have returned true, and the state
returned is that after the AND-gate treatment or that after `findEqOrGates`. -/
theorem doAllOptimisationWithGates_shape (ext : Ext) (conf : Conf) (st s1 : State)
    (hs : conf.doShortenWithOrGates = true) (ha : conf.doRemClWithAndGates = true)
    (h : doAllOptimisationWithGates ext conf st = some (s1, true)) :
    st.ok = true ∧ (shortenPhase ext st).2 = true ∧
    (andPhase ext (shortenPhase ext st).1).2 = true ∧
    (s1 = (andPhase ext (shortenPhase ext st).1).1 ∨
      s1 = (findEqOrGates ext (andPhase ext (shortenPhase ext st).1).1).1) := by
  unfold doAllOptimisationWithGates at h
  rw [hs, ha] at h
  simp only [if_true] at h
  by_cases hok : (!st.ok) = true
  · rw [if_pos hok] at h
    exact Option.noConfusion h
  · rw [if_neg hok] at h
    by_cases h1 : (!(shortenPhase ext st).2) = true
    · rw [if_pos h1] at h
      simp at h
    · rw [if_neg h1] at h
      by_cases h2 : (!(andPhase ext (shortenPhase ext st).1).2) = true
      · rw [if_pos h2] at h
        simp at h
      · rw [if_neg h2] at h
        refine ⟨by simpa using hok, by simpa using h1, by simpa using h2, ?_⟩
        split_ifs at h
        · simp at h
        · simp only [Option.some.injEq, Prod.mk.injEq, and_true] at h
          exact Or.inr h.symm
        · simp only [Option.some.injEq, Prod.mk.injEq, and_true] at h
          exact Or.inl h.symm

/-- The OR-gate treatment is its loop over the store, started in `shortenStart`. -/
theorem shortenPhase_start (ext : Ext) (st : State) :
    shortenPhase ext st = shortenGatesLoop ext (shortenStart st).orGates (shortenStart st) :=
  rfl

/-- The AND-gate treatment is its loop over the store, started in `andStart`. -/
theorem andPhase_start (ext : Ext) (st : State) :
    andPhase ext st = andGatesLoop ext (andStart st).orGates (andStart st) 0 0 :=
  rfl

theorem shortenPhase_evolves (ext : Ext) (st : State) : Evolves st (shortenPhase ext st).1 := by
  have h0 : Evolves st (shortenStart st) := evolves_of_frame rfl rfl rfl rfl
  exact evolves_trans h0 (shortenGatesLoop_evolves ext (shortenStart st).orGates (shortenStart st))

theorem andPhase_evolves (ext : Ext) (st : State) : Evolves st (andPhase ext st).1 := by
  have h0 : Evolves st (andStart st) := evolves_of_frame rfl rfl rfl rfl
  exact evolves_trans h0 (andGatesLoop_evolves ext (andStart st).orGates (andStart st) 0 0)

/-- After an OR-gate treatment that returns true and has not left at its budget test, with a
`findSubsumed0` that hands back every clause holding the literals given, every slot that was in
the arena on entry and still holds a clause with all the inputs of a live gate is protected by
the skip test. -/
theorem shortenPhase_done (ext : Ext) (st : State)
    (hsub : ∀ (s : State) (lits : List Lit) (a i : Nat) (cl : Clause),
      s.clauses.get? i = some (some cl) → (∀ l ∈ lits, l ∈ cl.lits) →
      i ∈ (ext.findSubsumed0 s lits a).1)
    (hflag : (shortenPhase ext st).2 = true)
    (hcut : shortenCut ext (shortenStart st).orGates (shortenStart st) = false)
    (g : OrGate) (hg : g ∈ st.orGates) (hlive : g.removed = false) (c : Nat) (cl : Clause)
    (hc : c < st.clauses.length)
    (hget : (shortenPhase ext st).1.clauses.get? c = some (some cl))
    (hall : ∀ l ∈ g.lits, l ∈ cl.lits) :
    ((st.clauseData c).defOfOrGate || (!cl.learnt && g.learnt)) = true := by
  obtain ⟨t, e1, hf, e2⟩ := shortenGatesLoop_visits ext (shortenStart st).orGates
    (shortenStart st) hflag hcut g hg hlive
  have hct : c < t.clauses.length := lt_of_lt_of_le hc e1.1
  have hmid := evolves_slot e2 (lt_of_lt_of_le hct (shortenWithOrGate_evolves ext g t).1) hget
  have := shortenWithOrGate_done ext g t (fun i cl2 h1 h2 => hsub t g.lits _ i cl2 h1 h2) hf c cl
    hct hmid hall
  rw [e1.2.2.1 c hc] at this
  exact this

/-- After an AND-gate treatment that returns true and has not left at its budget test, no
clause of `occur[¬lits[0]]` of a live gate with at most two inputs that was in the arena on
entry is left together with a clause of `occur[¬lits[1]]`, in the arena on entry as well, that
passes the tests of `treatAndGate` as its twin. -/
theorem andPhase_done (ext : Ext) (st : State)
    (hflag : (andPhase ext st).2 = true)
    (hcut : andCut ext (andStart st).orGates (andStart st) 0 0 = false)
    (g : OrGate) (hg : g ∈ st.orGates) (hlive : g.removed = false) (hsmall : g.lits.length ≤ 2)
    (c d : Nat) (clC clD : Clause)
    (hcN : c < st.clauses.length) (hdN : d < st.clauses.length)
    (hc : (andPhase ext st).1.clauses.get? c = some (some clC))
    (hd : (andPhase ext st).1.clauses.get? d = some (some clD))
    (hco : c ∈ (andPhase ext st).1.occur g.lit0.neg.toInt)
    (hdo : d ∈ (andPhase ext st).1.occur g.lit1.neg.toInt)
    (haC : g.lit0.neg ∈ clC.lits) (hbD : g.lit1.neg ∈ clD.lits)
    (hndC : clC.lits.Nodup) (hndD : clD.lits.Nodup)
    (habstC : (st.clauseData c).abst = calcAbstraction clC.lits)
    (hsizeC : (st.clauseData c).size = clC.lits.length)
    (hdefC : (st.clauseData c).defOfOrGate = false)
    (hlC : clC.learnt = true ∨ g.learnt = false)
    (hvars : ∀ l ∈ clC.lits, l = g.lit0.neg ∨
      (l.var ≠ complVar g.lit1.var ∧ l.var ≠ g.eqLit.var))
    (hdefD : (st.clauseData d).defOfOrGate = false)
    (hlD : clD.learnt = true ∨ g.learnt = false)
    (habstD : (st.clauseData d).abst = abst2Of g clC)
    (hsubD : ∀ l ∈ clD.lits, l = g.lit1.neg ∨ l ∈ residual g clC)
    (hlen : clD.lits.length = clC.lits.length) : False := by
  obtain ⟨t, fp, numOp, e1, hret, e3⟩ := andGatesLoop_visits ext (andStart st).orGates
    (andStart st) 0 0 hflag hcut g hg hlive hsmall
  have e2 := treatAndGate_evolves ext g true t fp numOp
  have e23 := evolves_trans e2 e3
  have hct : c < t.clauses.length := lt_of_lt_of_le hcN e1.1
  have hdt : d < t.clauses.length := lt_of_lt_of_le hdN e1.1
  have hc2 := evolves_slot e23 hct hc
  have hd2 := evolves_slot e23 hdt hd
  have hco2 := e23.2.2.2.1 c _ hct hco
  have hdo2 := e23.2.2.2.1 d _ hdt hdo
  have dc : t.clauseData c = st.clauseData c := e1.2.2.1 c hcN
  have dd : t.clauseData d = st.clauseData d := e1.2.2.1 d hdN
  have hnone := treatAndGate_unlinks_twin ext g t fp numOp c d clC clD hret hc2 hd2 hco2 hdo2
    haC hbD hndC hndD (by rw [dc]; exact habstC) (by rw [dc]; exact hsizeC)
    (by rw [dc]; exact hdefC) hlC hvars (by rw [dd]; exact hdefD) hlD
    (by rw [dd]; exact habstD) hsubD hlen
  have h2 : (andPhase ext st).1.clauses.get? c = some none := evolves_none e3 hnone
  rw [h2] at hc
  simp at hc

theorem mem_drop_of_get {α : Type} (l : List α) (n i : Nat) (a : α)
    (h : l.get? i = some a) (hn : n ≤ i) : a ∈ l.drop n := by
  rw [List.get?_eq_getElem?] at h
  have : (l.drop n)[i - n]? = some a := by
    rw [List.getElem?_drop]
    have e : n + (i - n) = i := by omega
    rw [e]
    exact h
  exact (List.getElem?_eq_some_iff.mp this).2 ▸ List.getElem_mem _

theorem mem_of_get {α : Type} (l : List α) (i : Nat) (a : α) (h : l.get? i = some a) :
    a ∈ l := by
  rw [List.get?_eq_getElem?] at h
  exact (List.getElem?_eq_some_iff.mp h).2 ▸ List.getElem_mem _

/-- C21, as amended. Application reaches a fixed point in one run unless the first run feeds a
gate: take a run of `doAllOptimisationWithGates` with the OR-gate and the AND-gate treatment
switched on that returns true with the solver consistent and without a loop leaving at its
budget test, from a state whose occurrence lists are those of the arena, whose clauses have
pairwise distinct literals and their abstraction and size stored, and whose scratch bitmaps
are all false, with a `findSubsumed0` that hands back exactly the clauses holding the literals
given. Suppose that no clause that this run has added and left in the arena can be used by a
live gate: none holds all the inputs of a live gate, and none is one of a pair `C`, `D` of
clauses of the arena that a live gate with at most two inputs `a`, `b` contracts (`C` holds
`¬a`, `D` holds `¬b`, they have as many literals, and every literal of `D` other than `¬b` is
a literal of `C` other than `¬a`); a non-learnt clause does not count for a learnt gate, which
skips it. Then a second run right after the first shortens no clause and contracts no pair:
`numOrGateReplaced`, `gateLitsRemoved` and `andGateNumFound` are 0 after it, the arena is the
same, and it records no call of `unlinkClause` and no call of `addClauseInt`. -/
theorem doAllOptimisationWithGates_fixed_point (ext : Ext) (conf : Conf) (st s1 : State)
    (hs : conf.doShortenWithOrGates = true) (ha : conf.doRemClWithAndGates = true)
    (hsub : ∀ (s : State) (lits : List Lit) (a i : Nat),
      i ∈ (ext.findSubsumed0 s lits a).1 ↔
        ∃ cl, s.clauses.get? i = some (some cl) ∧ ∀ l ∈ lits, l ∈ cl.lits)
    (hoccur : st.occurWf)
    (hseen : ∀ n, st.seen n = false) (hseen2 : ∀ n, st.seen2 n = false)
    (hnodup : ∀ cl, some cl ∈ st.clauses → cl.lits.Nodup)
    (hdata : ∀ i cl, st.clauses.get? i = some (some cl) →
      (st.clauseData i).abst = calcAbstraction cl.lits ∧
      (st.clauseData i).size = cl.lits.length)
    (hrun : doAllOptimisationWithGates ext conf st = some (s1, true))
    (hbudget : budgetOut ext st = false)
    (hok : s1.ok = true)
    (hor : ∀ g ∈ st.orGates, g.removed = false →
      ∀ cl, some cl ∈ s1.clauses.drop st.clauses.length →
        cl.learnt = true ∨ g.learnt = false → ∃ l ∈ g.lits, l ∉ cl.lits)
    (hand : ∀ g ∈ st.orGates, g.removed = false → g.lits.length ≤ 2 →
      ∀ (c d : Nat) (clC clD : Clause),
        s1.clauses.get? c = some (some clC) → s1.clauses.get? d = some (some clD) →
        st.clauses.length ≤ c ∨ st.clauses.length ≤ d →
        g.lit0.neg ∈ clC.lits → g.lit1.neg ∈ clD.lits →
        clC.learnt = true ∨ g.learnt = false → clD.learnt = true ∨ g.learnt = false →
        clD.lits.length = clC.lits.length →
        ∃ l ∈ clD.lits, l ≠ g.lit1.neg ∧ (l ∉ clC.lits ∨ l = g.lit0.neg)) :
    ∃ r, doAllOptimisationWithGates ext conf s1 = some r ∧
      r.1.numOrGateReplaced = 0 ∧ r.1.gateLitsRemoved = 0 ∧ r.1.andGateNumFound = 0 ∧
      r.1.clauses = s1.clauses ∧
      (∀ e ∈ newEvents s1 r.1, e.isUnlink = false ∧ e.isAddClause = false) := by
  obtain ⟨_, hf1, hf2, hs1⟩ := doAllOptimisationWithGates_shape ext conf st s1 hs ha hrun
  unfold budgetOut at hbudget
  obtain ⟨hcut1, hcut2⟩ := Bool.or_eq_false_iff.mp hbudget
  -- the first run
  have e_a : Evolves st (shortenPhase ext st).1 := shortenPhase_evolves ext st
  have e_b : Evolves (shortenPhase ext st).1 (andPhase ext (shortenPhase ext st).1).1 :=
    andPhase_evolves ext _
  have e_ab := evolves_trans e_a e_b
  have hfr : s1.clauses = (andPhase ext (shortenPhase ext st).1).1.clauses ∧
      s1.clauseData = (andPhase ext (shortenPhase ext st).1).1.clauseData ∧
      s1.occur = (andPhase ext (shortenPhase ext st).1).1.occur ∧
      s1.orGates = (andPhase ext (shortenPhase ext st).1).1.orGates ∧
      s1.seen = (andPhase ext (shortenPhase ext st).1).1.seen ∧
      s1.seen2 = (andPhase ext (shortenPhase ext st).1).1.seen2 := by
    rcases hs1 with e | e
    · rw [e]
      exact ⟨rfl, rfl, rfl, rfl, rfl, rfl⟩
    · obtain ⟨ok, tr, h⟩ := findEqOrGates_frame ext (andPhase ext (shortenPhase ext st).1).1
      rw [e, h]
      exact ⟨rfl, rfl, rfl, rfl, rfl, rfl⟩
  obtain ⟨f1, f2, f3, f4, f5, f6⟩ := hfr
  have hgates : s1.orGates = st.orGates := f4.trans e_ab.2.2.2.2.1
  have hgatesA : (shortenPhase ext st).1.orGates = st.orGates := e_a.2.2.2.2.1
  have hwf1 : s1.occurWf := by
    have := e_ab.2.2.2.2.2 hoccur
    intro l i hi
    rw [f3] at hi
    rw [f1]
    exact this l i hi
  have hcleanA : (∀ n, (shortenPhase ext st).1.seen n = false) ∧
      (∀ n, (shortenPhase ext st).1.seen2 n = false) := by
    obtain ⟨k1, k2⟩ := shortenGatesLoop_scratch ext (shortenStart st).orGates (shortenStart st)
    have k1b : (shortenPhase ext st).1.seen = st.seen := k1
    have k2b : (shortenPhase ext st).1.seen2 = st.seen2 := k2
    exact ⟨fun n => by rw [k1b]; exact hseen n, fun n => by rw [k2b]; exact hseen2 n⟩
  have hcleanB := andGatesLoop_scratch ext (andStart (shortenPhase ext st).1).orGates
    (andStart (shortenPhase ext st).1) 0 0 hf2 hcleanA.1 hcleanA.2
  have hclean1 : (∀ n, s1.seen n = false) ∧ (∀ n, s1.seen2 n = false) :=
    ⟨fun n => by rw [f5]; exact hcleanB.1 n, fun n => by rw [f6]; exact hcleanB.2 n⟩
  -- a slot of the arena on entry that the first run has left
  have hold : ∀ c cl, c < st.clauses.length → s1.clauses.get? c = some (some cl) →
      st.clauses.get? c = some (some cl) ∧ s1.clauseData c = st.clauseData c := by
    intro c cl hc hget
    rw [f1] at hget
    exact ⟨evolves_slot e_ab hc hget, by rw [f2]; exact e_ab.2.2.1 c hc⟩
  -- the OR-gate treatment of the second run
  have horIdle : ∀ g ∈ s1.orGates, g.removed = false → ∀ cells,
      ∀ c ∈ (ext.findSubsumed0
          { s1 with
            gateLitsRemoved := 0
            numOrGateReplaced := 0
            toDecrease := ⟨Counter.numMaxShortenWithGates, 0⟩
            cells := cells } g.lits (calcAbstraction g.lits)).1,
        ((s1.clauseData c).defOfOrGate || (!(s1.clauseAt c).learnt && g.learnt)) = true := by
    intro g hg hlive cells c hc
    rw [hgates] at hg
    obtain ⟨cl, hget, hall⟩ := (hsub _ _ _ c).mp hc
    have hget1 : s1.clauses.get? c = some (some cl) := hget
    rw [clauseAt_of_get hget1]
    by_cases hcN : c < st.clauses.length
    · obtain ⟨_, hd⟩ := hold c cl hcN hget1
      rw [hd]
      rw [f1] at hget1
      have hgetA := evolves_slot e_b (lt_of_lt_of_le hcN e_a.1) hget1
      exact shortenPhase_done ext st (fun s lits a i cl2 h1 h2 => (hsub s lits a i).mpr ⟨cl2, h1, h2⟩)
        hf1 hcut1 g hg hlive c cl hcN hgetA hall
    · have hmem : some cl ∈ s1.clauses.drop st.clauses.length :=
        mem_drop_of_get _ _ _ _ hget1 (by omega)
      have hfeed := hor g hg hlive cl hmem
      cases hl : cl.learnt
      · cases hgl : g.learnt
        · obtain ⟨l, h1, h2⟩ := hfeed (Or.inr hgl)
          exact absurd (hall l h1) h2
        · simp
      · obtain ⟨l, h1, h2⟩ := hfeed (Or.inl hl)
        exact absurd (hall l h1) h2
  obtain ⟨cells2, hsp⟩ := shortenGatesLoop_idle ext s1.orGates
    { s1 with
      gateLitsRemoved := 0
      numOrGateReplaced := 0
      toDecrease := ⟨Counter.numMaxShortenWithGates, 0⟩ } horIdle
    (Function.update s1.cells ⟨Counter.numMaxShortenWithGates, 0⟩ 100000000)
  have hsp2 : shortenPhase ext s1 =
      ({ s1 with
          gateLitsRemoved := 0
          numOrGateReplaced := 0
          toDecrease := ⟨Counter.numMaxShortenWithGates, 0⟩
          cells := cells2 }, true) := hsp
  -- the AND-gate treatment of the second run
  have handIdle : ∀ g ∈ s1.orGates, g.removed = false → g.lits.length ≤ 2 →
      ∀ (w : State) (numOp : Nat), w.clauses = s1.clauses → w.clauseData = s1.clauseData →
      w.occur = s1.occur →
      ∀ c ∈ w.occur g.lit0.neg.toInt, ∀ s : State, s.clauses = w.clauses →
        s.clauseData = w.clauseData → (∀ n, s.seen n = false) →
        s.sizeSortedOcc = (sortedOcc g w numOp).st.sizeSortedOcc →
        s.seen2 = (sortedOcc g w numOp).st.seen2 →
        findsTwin g (sortedOcc g w numOp).abstraction (sortedOcc g w numOp).maxSize s c
          = false := by
    intro g hg hlive hsmall w numOp hwc hwd hwo c hc s hsc hsd hsseen hssso _
    rw [hgates] at hg
    by_contra hft
    have hft2 : findsTwin g (sortedOcc g w numOp).abstraction (sortedOcc g w numOp).maxSize
        s c = true := by simpa using hft
    obtain ⟨d, hdb, hdefC, hlC, hvars, hdefD, habstD, hsubD⟩ :=
      findsTwin_tests g _ _ s c hsseen hft2
    rw [hssso] at hdb
    obtain ⟨hdo, hlenD⟩ := sortedOcc_buckets g w numOp _ d hdb
    have hnsD := sortedOcc_notSkipped g w numOp _ d hdb
    rw [hwo] at hc hdo
    obtain ⟨clC, hgetC, haC⟩ := hwf1 g.lit0.neg c hc
    obtain ⟨clD, hgetD, hbD⟩ := hwf1 g.lit1.neg d hdo
    have hCs : s.clauseAt c = clC := clauseAt_of_get (by rw [hsc, hwc]; exact hgetC)
    have hDs : s.clauseAt d = clD := clauseAt_of_get (by rw [hsc, hwc]; exact hgetD)
    have hDw : w.clauseAt d = clD := clauseAt_of_get (by rw [hwc]; exact hgetD)
    rw [hCs] at hlC hvars habstD hsubD hlenD
    rw [hDs] at hsubD
    rw [hDw] at hlenD
    have hlD : clD.learnt = true ∨ g.learnt = false := by
      have := hnsD.2
      rw [hDw] at this
      exact this
    rw [hsd, hwd] at hdefC hdefD habstD
    -- both clauses were in the arena before the first run
    have hboth : c < st.clauses.length ∧ d < st.clauses.length := by
      by_contra hn
      have hnew : st.clauses.length ≤ c ∨ st.clauses.length ≤ d := by omega
      obtain ⟨l, hl, hne, hnot⟩ := hand g hg hlive hsmall c d clC clD hgetC hgetD hnew haC hbD
        hlC hlD hlenD
      rcases hsubD l hl with e | e
      · exact hne e
      · rcases hnot with h | h
        · exact h (mem_residual.mp e).1
        · exact (mem_residual.mp e).2 h
    obtain ⟨hcN, hdN⟩ := hboth
    obtain ⟨hC0, hCd⟩ := hold c clC hcN hgetC
    obtain ⟨hD0, hDd⟩ := hold d clD hdN hgetD
    obtain ⟨hCabst, hCsize⟩ := hdata c clC hC0
    have hndC := hnodup clC (mem_of_get _ _ _ hC0)
    have hndD := hnodup clD (mem_of_get _ _ _ hD0)
    have dA : ∀ i, i < st.clauses.length →
        (shortenPhase ext st).1.clauseData i = st.clauseData i := e_a.2.2.1
    rw [hCd] at hdefC
    rw [hDd] at hdefD habstD
    rw [f1] at hgetC hgetD
    rw [f3] at hc hdo
    exact andPhase_done ext (shortenPhase ext st).1 hf2 hcut2 g (by rw [hgatesA]; exact hg)
      hlive hsmall c d clC clD (lt_of_lt_of_le hcN e_a.1) (lt_of_lt_of_le hdN e_a.1)
      hgetC hgetD hc hdo haC hbD hndC hndD
      (by rw [dA c hcN]; exact hCabst) (by rw [dA c hcN]; exact hCsize)
      (by rw [dA c hcN]; exact hdefC) hlC hvars (by rw [dA d hdN]; exact hdefD) hlD
      (by rw [dA d hdN]; exact habstD) hsubD hlenD
  obtain ⟨hq, hflag⟩ := andGatesLoop_idle ext s1.orGates
    (andStart (shortenPhase ext s1).1)
    (fun g hg hlive hsmall w numOp hqw _ _ =>
      handIdle g hg hlive hsmall w numOp
        (by rw [hqw.1, hsp2]; rfl) (by rw [hqw.2.1, hsp2]; rfl) (by rw [hqw.2.2.1, hsp2]; rfl))
    (andStart (shortenPhase ext s1).1) 0 0 (quiet_refl _)
    (fun n => by rw [hsp2]; exact hclean1.1 n) (fun n => by rw [hsp2]; exact hclean1.2 n)
  have hgates2 : (andStart (shortenPhase ext s1).1).orGates = s1.orGates := by rw [hsp2]; rfl
  have hap : andPhase ext (shortenPhase ext s1).1 =
      andGatesLoop ext s1.orGates (andStart (shortenPhase ext s1).1) 0 0 := by
    rw [← hgates2]
    rfl
  rw [← hap] at hq hflag
  obtain ⟨q1, _, _, _, q5, _, q7, q8, q9⟩ := hq
  -- the state after the two treatments of the second run
  have b1 : (andPhase ext (shortenPhase ext s1).1).1.clauses = s1.clauses := by
    rw [q1, hsp2]; rfl
  have b2 : (andPhase ext (shortenPhase ext s1).1).1.trace = s1.trace := by
    rw [q5, hsp2]; rfl
  have b3 : (andPhase ext (shortenPhase ext s1).1).1.numOrGateReplaced = 0 := by
    rw [q7, hsp2]; rfl
  have b4 : (andPhase ext (shortenPhase ext s1).1).1.gateLitsRemoved = 0 := by
    rw [q8, hsp2]; rfl
  have b5 : (andPhase ext (shortenPhase ext s1).1).1.andGateNumFound = 0 := by
    rw [q9]; rfl
  have hfl1 : (shortenPhase ext s1).2 = true := by rw [hsp2]
  -- the state that the second run returns
  have hres : ∃ r, doAllOptimisationWithGates ext conf s1 = some r ∧
      (r.1 = (andPhase ext (shortenPhase ext s1).1).1 ∨
        r.1 = (findEqOrGates ext (andPhase ext (shortenPhase ext s1).1).1).1) := by
    unfold doAllOptimisationWithGates
    rw [hs, ha, hok]
    simp only [Bool.not_true, Bool.false_eq_true, if_false, if_true, hfl1, hflag]
    split_ifs
    · exact ⟨_, rfl, Or.inr rfl⟩
    · exact ⟨_, rfl, Or.inr rfl⟩
    · exact ⟨_, rfl, Or.inl rfl⟩
  obtain ⟨r, hr, hcase⟩ := hres
  refine ⟨r, hr, ?_⟩
  rcases hcase with e | e
  · rw [e]
    refine ⟨b3, b4, b5, b1, ?_⟩
    intro ev hev
    unfold newEvents at hev
    rw [b2] at hev
    simp at hev
  · obtain ⟨⟨e3, t3, q3⟩, a3, g3, c3⟩ := findEqOrGates_counts ext
      (andPhase ext (shortenPhase ext s1).1).1
    obtain ⟨ok, tr, hfrm⟩ := findEqOrGates_frame ext (andPhase ext (shortenPhase ext s1).1).1
    rw [e]
    refine ⟨by rw [a3]; exact b3, by rw [g3]; exact b4, by rw [c3]; exact b5, ?_, ?_⟩
    · rw [hfrm]
      exact b1
    · rw [b2] at t3
      rw [newEvents_append s1 _ e3 t3]
      exact q3

theorem findSubsumed0Spec_mem (s : State) (lits : List Lit) (a i : Nat) :
    i ∈ (findSubsumed0Spec s lits a).1 ↔
      ∃ cl, s.clauses.get? i = some (some cl) ∧ ∀ l ∈ lits, l ∈ cl.lits := by
  unfold findSubsumed0Spec
  simp only [List.mem_filter, List.mem_range]
  constructor
  · rintro ⟨hi, h⟩
    have hg : s.clauses.get? i = some (s.clauses.getD i none) := by
      rw [List.get?_eq_getElem?, List.getD_eq_getElem?_getD, List.getElem?_eq_getElem hi]
      rfl
    cases hc : s.clauses.getD i none with
    | none => rw [hc] at h; simp at h
    | some cl =>
      rw [hc] at h hg
      refine ⟨cl, hg, ?_⟩
      intro l hl
      simp only [List.all_eq_true] at h
      simpa using h l hl
  · rintro ⟨cl, hg, h⟩
    have hi := get_lt hg
    refine ⟨hi, ?_⟩
    have hc : s.clauses.getD i none = some cl := by
      rw [List.get?_eq_getElem?, List.getElem?_eq_getElem hi] at hg
      rw [List.getD_eq_getElem?_getD, List.getElem?_eq_getElem hi]
      simpa using hg
    rw [hc]
    simp only [List.all_eq_true]
    intro l hl
    simpa using h l hl

theorem foldl_linkInClause_seen2 (cls : List Clause) :
    ∀ st : State, (cls.foldl linkInClause st).seen2 = st.seen2 := by
  induction cls with
  | nil => intro st; rfl
  | cons c rest ih => intro st; simp [ih, linkInClause]

theorem stateOf_seen2 (cls : List Clause) (n : Nat) : (stateOf cls).seen2 n = false := by
  show (cls.foldl linkInClause emptyState).seen2 n = _
  rw [foldl_linkInClause_seen2]
  rfl

/-- A call of `findOrGates()` leaves the arena, the occurrence lists, the scratch bitmaps and
the stored abstractions and sizes as they were. -/
theorem findOrGates_db (st : State) :
    (findOrGates st).clauses = st.clauses ∧ (findOrGates st).occur = st.occur ∧
    (findOrGates st).seen = st.seen ∧ (findOrGates st).seen2 = st.seen2 ∧
    (∀ i, ((findOrGates st).clauseData i).abst = (st.clauseData i).abst ∧
      ((findOrGates st).clauseData i).size = (st.clauseData i).size) := by
  obtain ⟨og, goe, go, fl, v, h⟩ := findOrGatesLoop_frame true st.clauses 0
    { clearIndexes st with
      cells := Function.update (clearIndexes st).cells ⟨Counter.numMaxGateFinder, 0⟩ 100000000
      toDecrease := ⟨Counter.numMaxGateFinder, 0⟩ }
  have hF : findOrGates st = _ := h
  refine ⟨by rw [hF]; rfl, by rw [hF]; rfl, by rw [hF]; rfl, by rw [hF]; rfl, ?_⟩
  intro i
  rw [hF]
  exact ⟨rfl, rfl⟩

set_option maxRecDepth 100000 in
/-- The theorem on the second run at the database with the gate `1 ⇔ (2 ∨ 3)`, the clause
`2 ∨ 3 ∨ 4 ∨ 5` and the twins `¬2 ∨ 6 ∨ 7`, `¬3 ∨ 6 ∨ 7`: the first run shortens the clause
to `4 ∨ 5 ∨ 1` and contracts the twins to `6 ∨ 7 ∨ ¬1`; neither new clause feeds the gate, and
the second run reports 0, 0, 0 and leaves the arena as it is. -/
theorem doAllOptimisationWithGates_fixed_point_witness :
    ∃ s1 r, doAllOptimisationWithGates scenarioExt allOn scenarioSettled = some (s1, true) ∧
      s1.numOrGateReplaced = 1 ∧ s1.andGateNumFound = 1 ∧
      s1.clauses = [some (clauseOf [ng 1, pos 2, pos 3]), none, none, none,
        some (clauseOf [pos 4, pos 5, pos 1]), some (clauseOf [pos 6, pos 7, ng 1])] ∧
      doAllOptimisationWithGates scenarioExt allOn s1 = some r ∧
      r.1.numOrGateReplaced = 0 ∧ r.1.gateLitsRemoved = 0 ∧ r.1.andGateNumFound = 0 ∧
      r.1.clauses = s1.clauses ∧
      (∀ e ∈ newEvents s1 r.1, e.isUnlink = false ∧ e.isAddClause = false) := by
  have h1 : (doAllOptimisationWithGates scenarioExt allOn scenarioSettled).map
      (fun r => (r.2, r.1.ok)) = some (true, true) := by decide!
  have h2 : (doAllOptimisationWithGates scenarioExt allOn scenarioSettled).map
      (fun r => (r.1.numOrGateReplaced, r.1.andGateNumFound)) = some (1, 1) := by decide!
  have h3 : (doAllOptimisationWithGates scenarioExt allOn scenarioSettled).map
      (fun r => r.1.clauses) = some [some (clauseOf [ng 1, pos 2, pos 3]), none, none, none,
        some (clauseOf [pos 4, pos 5, pos 1]), some (clauseOf [pos 6, pos 7, ng 1])] := by
    decide!
  have hgates : scenarioSettled.orGates = [OrGate.new [pos 2, pos 3] (pos 1) false] := by
    decide!
  obtain ⟨c1, c2, c3, c4, c5⟩ := findOrGates_db scenarioSettledDb
  have hcl : scenarioSettled.clauses = [some (clauseOf [ng 1, pos 2, pos 3]),
      some (clauseOf [pos 2, pos 3, pos 4, pos 5]), some (clauseOf [ng 2, pos 6, pos 7]),
      some (clauseOf [ng 3, pos 6, pos 7])] := by
    show (findOrGates scenarioSettledDb).clauses = _
    rw [c1]
    exact stateOf_clauses
      [clauseOf [ng 1, pos 2, pos 3], clauseOf [pos 2, pos 3, pos 4, pos 5],
        clauseOf [ng 2, pos 6, pos 7], clauseOf [ng 3, pos 6, pos 7]]
  cases hrun : doAllOptimisationWithGates scenarioExt allOn scenarioSettled with
  | none => rw [hrun] at h1; simp at h1
  | some p =>
    obtain ⟨s1, b⟩ := p
    rw [hrun] at h1 h2 h3
    simp only [Option.map_some', Option.some.injEq, Prod.mk.injEq] at h1 h2 h3
    obtain ⟨hb, hok⟩ := h1
    obtain ⟨n1, n2⟩ := h2
    subst hb
    have hlen : scenarioSettled.clauses.length = 4 := by rw [hcl]; rfl
    have hdrop : s1.clauses.drop scenarioSettled.clauses.length =
        [some (clauseOf [pos 4, pos 5, pos 1]), some (clauseOf [pos 6, pos 7, ng 1])] := by
      rw [hlen, h3]
      rfl
    have hdbo : scenarioSettledDb.occur = (stateOf
        [clauseOf [ng 1, pos 2, pos 3], clauseOf [pos 2, pos 3, pos 4, pos 5],
          clauseOf [ng 2, pos 6, pos 7], clauseOf [ng 3, pos 6, pos 7]]).occur := rfl
    have hdbc : scenarioSettledDb.clauses = (stateOf
        [clauseOf [ng 1, pos 2, pos 3], clauseOf [pos 2, pos 3, pos 4, pos 5],
          clauseOf [ng 2, pos 6, pos 7], clauseOf [ng 3, pos 6, pos 7]]).clauses := rfl
    have hdbs : scenarioSettledDb.seen = (stateOf
        [clauseOf [ng 1, pos 2, pos 3], clauseOf [pos 2, pos 3, pos 4, pos 5],
          clauseOf [ng 2, pos 6, pos 7], clauseOf [ng 3, pos 6, pos 7]]).seen := rfl
    have hdbs2 : scenarioSettledDb.seen2 = (stateOf
        [clauseOf [ng 1, pos 2, pos 3], clauseOf [pos 2, pos 3, pos 4, pos 5],
          clauseOf [ng 2, pos 6, pos 7], clauseOf [ng 3, pos 6, pos 7]]).seen2 := rfl
    have w1 : scenarioSettled.occurWf := by
      unfold scenarioSettled
      intro l i hi
      rw [c2, hdbo] at hi
      rw [c1, hdbc]
      exact stateOf_occurWf _ l i hi
    have w2 : ∀ n, scenarioSettled.seen n = false := by
      unfold scenarioSettled
      intro n
      rw [c3, hdbs]
      exact stateOf_seen _ n
    have w3 : ∀ n, scenarioSettled.seen2 n = false := by
      unfold scenarioSettled
      intro n
      rw [c4, hdbs2]
      exact stateOf_seen2 _ n
    have w4 : ∀ cl, some cl ∈ scenarioSettled.clauses → cl.lits.Nodup := by
      intro cl h
      rw [hcl] at h
      simp only [List.mem_cons, Option.some.injEq, List.mem_singleton, List.not_mem_nil,
        or_false] at h
      rcases h with h | h | h | h <;> subst h <;> decide
    have w5 : ∀ i cl, scenarioSettled.clauses.get? i = some (some cl) →
        (scenarioSettled.clauseData i).abst = calcAbstraction cl.lits ∧
        (scenarioSettled.clauseData i).size = cl.lits.length := by
      intro i cl h
      rw [hcl] at h
      rcases i with _ | _ | _ | _ | i
      · simp only [List.get?_cons_zero, Option.some.injEq] at h
        subst h
        exact ⟨by decide!, by decide!⟩
      · simp only [List.get?_cons_succ, List.get?_cons_zero, Option.some.injEq] at h
        subst h
        exact ⟨by decide!, by decide!⟩
      · simp only [List.get?_cons_succ, List.get?_cons_zero, Option.some.injEq] at h
        subst h
        exact ⟨by decide!, by decide!⟩
      · simp only [List.get?_cons_succ, List.get?_cons_zero, Option.some.injEq] at h
        subst h
        exact ⟨by decide!, by decide!⟩
      · simp at h
    have w6 : budgetOut scenarioExt scenarioSettled = false := by decide!
    have w7 : ∀ g ∈ scenarioSettled.orGates, g.removed = false →
        ∀ cl, some cl ∈ s1.clauses.drop scenarioSettled.clauses.length →
          cl.learnt = true ∨ g.learnt = false → ∃ l ∈ g.lits, l ∉ cl.lits := by
      intro g hg _ cl hmem _
      rw [hgates] at hg
      rw [hdrop] at hmem
      simp only [List.mem_singleton] at hg
      subst hg
      simp only [List.mem_cons, Option.some.injEq, List.mem_singleton, List.not_mem_nil,
        or_false] at hmem
      rcases hmem with h | h <;> subst h
      · exact ⟨pos 2, by decide, by decide⟩
      · exact ⟨pos 2, by decide, by decide⟩
    have w8 : ∀ g ∈ scenarioSettled.orGates, g.removed = false → g.lits.length ≤ 2 →
        ∀ (c d : Nat) (clC clD : Clause),
          s1.clauses.get? c = some (some clC) → s1.clauses.get? d = some (some clD) →
          scenarioSettled.clauses.length ≤ c ∨ scenarioSettled.clauses.length ≤ d →
          g.lit0.neg ∈ clC.lits → g.lit1.neg ∈ clD.lits →
          clC.learnt = true ∨ g.learnt = false → clD.learnt = true ∨ g.learnt = false →
          clD.lits.length = clC.lits.length →
          ∃ l ∈ clD.lits, l ≠ g.lit1.neg ∧ (l ∉ clC.lits ∨ l = g.lit0.neg) := by
      intro g hg _ _ c d clC clD hc _ _ haC _ _ _ _
      rw [hgates] at hg
      simp only [List.mem_singleton] at hg
      subst hg
      exfalso
      have hmem := mem_of_get _ _ _ hc
      rw [h3] at hmem
      simp only [List.mem_cons, Option.some.injEq, List.mem_singleton, List.not_mem_nil,
        or_false, reduceCtorEq, false_or] at hmem
      rcases hmem with h | h | h <;> subst h <;> revert haC <;> decide
    obtain ⟨r, hr, k1, k2, k3, k4, k5⟩ := doAllOptimisationWithGates_fixed_point scenarioExt
      allOn scenarioSettled s1 rfl rfl (fun s lits a i => findSubsumed0Spec_mem s lits a i)
      w1 w2 w3 w4 w5 hrun w6 hok w7 w8
    exact ⟨s1, r, rfl, n1, n2, h3, hr, k1, k2, k3, k4, k5⟩

set_option maxRecDepth 100000 in
/-- The AND-gate treatment feeds an earlier gate in the same way. The database holds the
definitions of the gates `1 ⇔ (2 ∨ 3)` and `3 ⇔ (4 ∨ 5)` and the clauses `¬2 ∨ 6 ∨ 7`,
`¬4 ∨ 6 ∨ 7`, `¬5 ∨ 6 ∨ 7`; `findOrGates()` puts the two gates into the store, in this order.
The first run of `doAllOptimisationWithGates` contracts the last two clauses to `6 ∨ 7 ∨ ¬3`
with the second gate; the second run contracts `¬2 ∨ 6 ∨ 7` and the new clause to `6 ∨ 7 ∨ ¬1`
with the first gate and ends with `andGateNumFound` at 1. Both runs return true with the solver
consistent, and in neither a loop leaves at its budget test. -/
theorem doAllOptimisationWithGates_contraction_feeds :
    scenarioTwinChain.orGates =
      [OrGate.new [pos 2, pos 3] (pos 1) false, OrGate.new [pos 4, pos 5] (pos 3) false] ∧
    budgetOut scenarioExt scenarioTwinChain = false ∧
    (doAllOptimisationWithGates scenarioExt allOn scenarioTwinChain).map
      (fun r => (r.2, r.1.ok)) = some (true, true) ∧
    (doAllOptimisationWithGates scenarioExt allOn scenarioTwinChain).map
      (fun r => (r.1.numOrGateReplaced, r.1.gateLitsRemoved, r.1.andGateNumFound)) =
      some (0, 0, 1) ∧
    (doAllOptimisationWithGates scenarioExt allOn scenarioTwinChain).map
      (fun r => r.1.clauses) = some [some (clauseOf [ng 1, pos 2, pos 3]),
        some (clauseOf [ng 3, pos 4, pos 5]), some (clauseOf [ng 2, pos 6, pos 7]), none, none,
        some (clauseOf [pos 6, pos 7, ng 3])] ∧
    (doAllOptimisationWithGates scenarioExt allOn scenarioTwinChain).map
      (fun r => budgetOut scenarioExt r.1) = some false ∧
    ((doAllOptimisationWithGates scenarioExt allOn scenarioTwinChain).bind
      (fun r1 => doAllOptimisationWithGates scenarioExt allOn r1.1)).map
      (fun r => (r.2, r.1.ok)) = some (true, true) ∧
    ((doAllOptimisationWithGates scenarioExt allOn scenarioTwinChain).bind
      (fun r1 => doAllOptimisationWithGates scenarioExt allOn r1.1)).map
      (fun r => (r.1.numOrGateReplaced, r.1.gateLitsRemoved, r.1.andGateNumFound)) =
      some (0, 0, 1) ∧
    ((doAllOptimisationWithGates scenarioExt allOn scenarioTwinChain).bind
      (fun r1 => doAllOptimisationWithGates scenarioExt allOn r1.1)).map
      (fun r => r.1.clauses) = some [some (clauseOf [ng 1, pos 2, pos 3]),
        some (clauseOf [ng 3, pos 4, pos 5]), none, none, none, none,
        some (clauseOf [pos 6, pos 7, ng 1])] := by
  refine ⟨by decide!, by decide!, by decide!, by decide!, by decide!, by decide!, by decide!,
    by decide!, by decide!⟩


end GateFinder
